import Mathlib

/-! # Spherical and vector spherical harmonics on voxel grids (`vigra/harmonics.hxx`)

A shallow embedding of the basis generators, cache builders, projection and
reconstruction operators of `include/vigra/harmonics.hxx`, and theorems about
them.

Conventions of the embedding.

* `REAL` is an arbitrary linearly ordered field `α` with a floor function; the
  rounding of floating-point arithmetic is not modelled.
* The special functions the header takes from other headers (`sqrt`, `exp`,
  `log`, `acos`, `cos`, `sin`, `M_PI`, `facLM`, `legendre`, `besselJ`,
  `clebschGordan`) are the fields of `Externals`; every definition that calls
  one of them takes the record as its first argument.
* A computation that can throw or leave the defined behaviour of C++ returns
  `Except Fault`.
* `int` and `std::size_t` values are integers; where the source relies on the
  wrap-around of an unsigned subtraction the reduction modulo `2^64` is written
  out.
-/

set_option linter.unusedVariables false
set_option linter.unusedSectionVars false

namespace vigra

/-! ## Faults -/

/-- The ways a call can fail to return normally. -/
inductive Fault where
  /-- an exception of type `InvariantViolation` with its message -/
  | invariantViolation (what : String)
  /-- an element access outside a `std::vector` or a `MultiArray` -/
  | undefinedBehaviour
  /-- the step budget of a loop without a static bound is used up -/
  | outOfFuel
  deriving DecidableEq

/-! ## Small vectors, complex numbers, arrays -/

/-- `TinyVector<T,3>`: three components, indexed 0, 1, 2. -/
structure TinyVector3 (T : Type) where
  v0 : T
  v1 : T
  v2 : T
  deriving DecidableEq

/-- `MultiArrayShape<3>::type`. -/
abbrev Shape3 := TinyVector3 Int

/-- `FFTWComplex<REAL>`. -/
structure FFTWComplex (α : Type) where
  re : α
  im : α
  deriving DecidableEq

namespace FFTWComplex

variable {α : Type}

instance [Zero α] : Zero (FFTWComplex α) := ⟨⟨0, 0⟩⟩

instance [Add α] : Add (FFTWComplex α) := ⟨fun a b => ⟨a.re + b.re, a.im + b.im⟩⟩

instance [Add α] [Sub α] [Mul α] : Mul (FFTWComplex α) :=
  ⟨fun a b => ⟨a.re * b.re - a.im * b.im, a.re * b.im + a.im * b.re⟩⟩

/-- `REAL * FFTWComplex<REAL>`. -/
instance [Mul α] : SMul α (FFTWComplex α) := ⟨fun a c => ⟨a * c.re, a * c.im⟩⟩

/-- `conj`. -/
def conj [Neg α] (c : FFTWComplex α) : FFTWComplex α := ⟨c.re, -c.im⟩

/-- `FFTWComplex / REAL`. -/
def divReal [Div α] (c : FFTWComplex α) (a : α) : FFTWComplex α := ⟨c.re / a, c.im / a⟩

instance [AddCommMonoid α] : AddCommMonoid (FFTWComplex α) where
  add_assoc a b c := by
    cases a; cases b; cases c
    exact congrArg₂ FFTWComplex.mk (add_assoc _ _ _) (add_assoc _ _ _)
  zero_add a := by
    cases a
    exact congrArg₂ FFTWComplex.mk (zero_add _) (zero_add _)
  add_zero a := by
    cases a
    exact congrArg₂ FFTWComplex.mk (add_zero _) (add_zero _)
  add_comm a b := by
    cases a; cases b
    exact congrArg₂ FFTWComplex.mk (add_comm _ _) (add_comm _ _)
  nsmul := nsmulRec

instance [Zero α] : Inhabited (FFTWComplex α) := ⟨0⟩

end FFTWComplex

/-- `MultiArray<3,T>`: a shape and the elements at the coordinates inside it.
Coordinates are `(i0, i1, i2)`, the argument order of `operator()`; elements
outside the shape do not exist and `data` holds the element type's zero there. -/
structure MultiArray3 (T : Type) where
  shape : Shape3
  data : Int → Int → Int → T

namespace MultiArray3

variable {T : Type}

/-- Whether `(i0, i1, i2)` lies inside a shape. -/
def inShape (s : Shape3) (i0 i1 i2 : Int) : Prop :=
  (0 ≤ i0 ∧ i0 < s.v0) ∧ (0 ≤ i1 ∧ i1 < s.v1) ∧ (0 ≤ i2 ∧ i2 < s.v2)

instance (s : Shape3) (i0 i1 i2 : Int) : Decidable (inShape s i0 i1 i2) := by
  unfold inShape; infer_instance

/-- A default-constructed array: shape `(0,0,0)`, no element. -/
def empty [Zero T] : MultiArray3 T := ⟨⟨0, 0, 0⟩, fun _ _ _ => 0⟩

instance [Zero T] : Inhabited (MultiArray3 T) := ⟨empty⟩

/-- `reshape(shape, init)`: a new array of the given shape, every element `init`. -/
def reshape [Zero T] (s : Shape3) (init : T) : MultiArray3 T :=
  ⟨s, fun i0 i1 i2 => if inShape s i0 i1 i2 then init else 0⟩

/-- The array of shape `s` whose element at `(i0,i1,i2)` is `f i0 i1 i2`. -/
def tabulate [Zero T] (s : Shape3) (f : Int → Int → Int → T) : MultiArray3 T :=
  ⟨s, fun i0 i1 i2 => if inShape s i0 i1 i2 then f i0 i1 i2 else 0⟩

/-- The assignment `A(i0,i1,i2) = v` for a coordinate inside the shape (the
loops that use it only produce such coordinates). -/
def set (A : MultiArray3 T) (i0 i1 i2 : Int) (v : T) : MultiArray3 T :=
  ⟨A.shape, fun j0 j1 j2 =>
    if inShape A.shape i0 i1 i2 ∧ j0 = i0 ∧ j1 = i1 ∧ j2 = i2 then v else A.data j0 j1 j2⟩

/-- The read `A(i0,i1,i2)`; outside the shape it has no defined behaviour. -/
def get (A : MultiArray3 T) (i0 i1 i2 : Int) : Except Fault T :=
  if inShape A.shape i0 i1 i2 then .ok (A.data i0 i1 i2) else .error .undefinedBehaviour

end MultiArray3

/-! ## Loops -/

/-- `for (int i = 0; i < n; ++i) body(i)` on a state, for a body that cannot fail. -/
def forUpTo {σ : Type} (n : Int) (init : σ) (body : Int → σ → σ) : σ :=
  (List.range n.toNat).foldl (fun st (i : Nat) => body (i : Int) st) init

/-- The loop nest `for i0 < s[0]; for i1 < s[1]; for i2 < s[2]` on a state. -/
def forVoxels {σ : Type} (s : Shape3) (init : σ) (body : Int → Int → Int → σ → σ) : σ :=
  forUpTo s.v0 init fun i0 st =>
    forUpTo s.v1 st fun i1 st =>
      forUpTo s.v2 st fun i2 st => body i0 i1 i2 st

/-- A loop of `count` iterations whose body can fail; the first failure ends it. -/
def loopM {σ : Type} (count : Nat) (init : σ) (body : Nat → σ → Except Fault σ) :
    Except Fault σ :=
  (List.range count).foldlM (fun st i => body i st) init

/-- `for (int i = lo; i <= hi; i++) body(i)` on a state. -/
def forFromTo {σ : Type} (lo hi : Int) (init : σ) (body : Int → σ → Except Fault σ) :
    Except Fault σ :=
  loopM (hi + 1 - lo).toNat init fun i st => body (lo + (i : Int)) st

/-- `for (int i = hi, c = 0; i >= lo; i--, c++) body(i, c)` on a state. -/
def forDownCounting {σ : Type} (hi lo : Int) (init : σ)
    (body : Int → Int → σ → Except Fault σ) : Except Fault σ :=
  loopM (hi + 1 - lo).toNat init fun i st => body (hi - (i : Int)) (i : Int) st

/-- The loop nest over the voxels of a shape with a body that can fail. -/
def forVoxelsM {σ : Type} (s : Shape3) (init : σ)
    (body : Int → Int → Int → σ → Except Fault σ) : Except Fault σ :=
  loopM s.v0.toNat init fun i0 st =>
    loopM s.v1.toNat st fun i1 st =>
      loopM s.v2.toNat st fun i2 st => body (i0 : Int) (i1 : Int) (i2 : Int) st

/-- A `try` block whose `catch (InvariantViolation &)` handler yields `handler`;
any other fault passes through. -/
def catchInvariant {σ : Type} (body : Except Fault σ) (handler : σ) : Except Fault σ :=
  match body with
  | .ok st => .ok st
  | .error (.invariantViolation _) => .ok handler
  | .error e => .error e

/-- The conversion of an `int` to `unsigned int`. -/
def toUnsigned (i : Int) : Nat := (i % 4294967296).toNat

/-- `for (int i = lo, c = 0; i <= hi; i++, c++) body(i, c)` on a state. -/
def forUpCounting {σ : Type} (lo hi : Int) (init : σ)
    (body : Int → Int → σ → Except Fault σ) : Except Fault σ :=
  loopM (hi + 1 - lo).toNat init fun i st => body (lo + (i : Int)) (i : Int) st

/-- `for (int i = lo, c = 0; i != hi; i++, c++) body(i, c)` on a state. With
`lo ≤ hi` the loop makes `hi - lo` iterations. With `hi < lo` the condition
stays true while the counters count up: the body runs for every value the two
`int` counters can hold, and the increment after the last one overflows. -/
def forUntil {σ : Type} (lo hi : Int) (init : σ)
    (body : Int → Int → σ → Except Fault σ) : Except Fault σ :=
  if lo ≤ hi then loopM (hi - lo).toNat init fun i st => body (lo + (i : Int)) (i : Int) st
  else do
    let _ ← loopM (min (2147483648 - lo) 2147483648).toNat init
      fun i st => body (lo + (i : Int)) (i : Int) st
    .error .undefinedBehaviour

/-- The result of a computation that returns normally; the default value for
one that does not. -/
def okValue {T : Type} [Inhabited T] (x : Except Fault T) : T :=
  match x with
  | .ok v => v
  | .error _ => default

/-! ## `std::vector` -/

/-- `v.resize(n)`: the first `n` elements are kept, missing ones are
default-constructed. -/
def vecResize {T : Type} [Inhabited T] (v : List T) (n : Nat) : List T :=
  v.take n ++ List.replicate (n - v.length) default

/-- The read `v[i]`; outside the vector it has no defined behaviour. -/
def vecGet {T : Type} (v : List T) (i : Int) : Except Fault T :=
  if 0 ≤ i then
    match v[i.toNat]? with
    | some x => .ok x
    | none => .error .undefinedBehaviour
  else .error .undefinedBehaviour

/-- The assignment `v[i] = x`. -/
def vecSet {T : Type} (v : List T) (i : Int) (x : T) : Except Fault (List T) :=
  if 0 ≤ i ∧ i < v.length then .ok (v.set i.toNat x) else .error .undefinedBehaviour

/-- Statements that work on the element `v[i]` in place. -/
def vecModify {T : Type} (v : List T) (i : Int) (f : T → Except Fault T) :
    Except Fault (List T) := do
  let x ← vecGet v i
  let y ← f x
  vecSet v i y

/-- The element `data[l][j]` of a nested vector (the default element where the
vector has none). -/
def elemAt {T : Type} [Inhabited T] (data : List (List T)) (l j : Nat) : T :=
  (data.getD l []).getD j default

/-- The element `data[n][l][m]` of a three-level vector (the default element
where the vector has none). -/
def elemAt3 {T : Type} [Inhabited T] (data : List (List (List T))) (n l m : Nat) : T :=
  ((data.getD n []).getD l []).getD m default

/-! ## Scan order of a `MultiArray` -/

namespace TinyVector3

variable {T : Type}

/-- The assignment `v[i] = x` for `i` in `{0,1,2}`. -/
def setAt (v : TinyVector3 T) (i : Nat) (x : T) : TinyVector3 T :=
  match i with
  | 0 => { v with v0 := x }
  | 1 => { v with v1 := x }
  | _ => { v with v2 := x }

instance [Zero T] : Zero (TinyVector3 T) := ⟨⟨0, 0, 0⟩⟩

instance [Zero T] : Inhabited (TinyVector3 T) := ⟨0⟩

end TinyVector3

namespace MultiArray3

variable {T S : Type}

/-- The number of elements, `end() - begin()`. -/
def size (A : MultiArray3 T) : Nat :=
  A.shape.v0.toNat * A.shape.v1.toNat * A.shape.v2.toNat

/-- The coordinate of the `i`-th element in scan order: the first index runs
fastest. -/
def scanCoord (s : Shape3) (i : Nat) : TinyVector3 Int :=
  ⟨((i % s.v0.toNat : Nat) : Int), (((i / s.v0.toNat) % s.v1.toNat : Nat) : Int),
   ((i / (s.v0.toNat * s.v1.toNat) : Nat) : Int)⟩

/-- The position in scan order of the element at a coordinate inside the shape. -/
def scanIndex (s : Shape3) (i0 i1 i2 : Int) : Nat :=
  i0.toNat + s.v0.toNat * (i1.toNat + s.v1.toNat * i2.toNat)

/-- The read `*(A.begin() + i)`. -/
def scanGet (A : MultiArray3 T) (i : Nat) : Except Fault T :=
  if i < A.size then
    .ok (A.data (scanCoord A.shape i).v0 (scanCoord A.shape i).v1 (scanCoord A.shape i).v2)
  else .error .undefinedBehaviour

/-- The assignment `*(A.begin() + i) = v`. -/
def scanSet (A : MultiArray3 T) (i : Nat) (v : T) : Except Fault (MultiArray3 T) :=
  if i < A.size then
    .ok (A.set (scanCoord A.shape i).v0 (scanCoord A.shape i).v1 (scanCoord A.shape i).v2 v)
  else .error .undefinedBehaviour

/-- Two iterators advanced together for `count` steps, one through `dst` and
one through `src`, both from `begin()`: step `i` assigns
`f (*(dst.begin()+i)) (*(src.begin()+i))` to the `i`-th element of `dst`. -/
def lockstep (count : Nat) (dst : MultiArray3 T) (src : MultiArray3 S)
    (f : T → S → Except Fault T) : Except Fault (MultiArray3 T) :=
  loopM count dst fun i dst => do
    let q ← src.scanGet i
    let p ← dst.scanGet i
    let v ← f p q
    dst.scanSet i v

/-- `for (p = A.begin(); p != A.end(); ++p) *p = f(*p);`. -/
def mapElems (A : MultiArray3 T) (f : T → T) : MultiArray3 T :=
  ⟨A.shape, fun i0 i1 i2 => if inShape A.shape i0 i1 i2 then f (A.data i0 i1 i2)
    else A.data i0 i1 i2⟩

end MultiArray3

/-! ## External special functions -/

/-- The functions `harmonics.hxx` calls and does not define. `clebschGordan`
returns `none` where the library signals an invalid combination by throwing
`InvariantViolation`. -/
structure Externals (α : Type) where
  sqrt : α → α
  exp : α → α
  log : α → α
  acos : α → α
  cos : α → α
  sin : α → α
  pi : α
  facLM : α → α → α
  legendre : Int → Int → α → α
  besselJ : Int → α → α
  clebschGordan : Int → Int → Int → Int → Int → Int → Option α

/-- A table of externals over `ℚ` on which the definitions can be evaluated at
concrete inputs. The theorems are stated for every table of externals; this
one only serves to instantiate them. -/
def ratExternals : Externals ℚ where
  sqrt x := x
  exp x := 1 + x
  log x := x - 1
  acos x := 1 - x
  cos _ := 1
  sin _ := 0
  pi := 22 / 7
  facLM _ _ := 1
  legendre _ _ _ := 1
  besselJ _ _ := 1
  clebschGordan _ _ _ _ _ _ := none

/-- The table `ratExternals` with a Clebsch-Gordan routine that accepts every
combination and returns 1. -/
def ratExternalsCoupled : Externals ℚ :=
  { ratExternals with clebschGordan := fun _ _ _ _ _ _ => some 1 }

section Generators

variable {α : Type} [LinearOrderedField α] [FloorRing α]

/-- `detail::realSH`: the normalization of the base functions. -/
def realSH (E : Externals α) (l m : α) : α :=
  E.sqrt ((2 * l + 1) / (4 * E.pi * E.facLM l m))

/-- The two guards `if (temp == 1) temp -= 0.00000001; if (temp == -1) temp += 0.00000001;`. -/
def avoidNan (temp : α) : α :=
  let temp := if temp = 1 then temp - 1 / 100000000 else temp
  if temp = -1 then temp + 1 / 100000000 else temp

/-- `if (gaussWidthAtHalfMaximum_um <= 1) gaussWidthAtHalfMaximum_um = 1;`. -/
def clampGauss (gauss : α) : α := if gauss ≤ 1 then 1 else gauss

/-- `(int)std::ceil(sphereRadius_um / voxelSize[a] + gauss*3)` of `sphereSurfHarmonic`. -/
def surfIntRadius (radius gauss vs : α) : Int :=
  ⌈radius / vs + clampGauss gauss * 3⌉

/-- `outshape` of `sphereSurfHarmonic`. -/
def surfShape (radius gauss : α) (voxelSize : TinyVector3 α) : Shape3 :=
  ⟨surfIntRadius radius gauss voxelSize.v0 * 2 + 1,
   surfIntRadius radius gauss voxelSize.v1 * 2 + 1,
   surfIntRadius radius gauss voxelSize.v2 * 2 + 1⟩

/-- The physical offset `(i - intRadius) * voxelSize[a]` of index `i` on an axis. -/
def voxelOffset (i intRadius : Int) (vs : α) : α := ((i - intRadius : Int) : α) * vs

/-- The argument `gauss_x` of the radial Gaussian at distance `dist_um`. -/
def surfGaussX (radius : α) (full : Bool) (dist_um : α) : α :=
  if !full || decide (dist_um > radius) then dist_um - radius else 1

/-- `sigmaFactor` of `sphereSurfHarmonic` for the clamped width. -/
def surfSigmaFactor (E : Externals α) (gauss : α) : α :=
  -2 * E.log (1 / 2) / (clampGauss gauss * clampGauss gauss)

/-- The radial weight `(REAL)exp( -0.5 * gauss_x * gauss_x * sigmaFactor)` that
`sphereSurfHarmonic` multiplies onto `SHfactor` at a voxel at distance `dist_um`
from the kernel centre. -/
def surfWeight (E : Externals α) (radius gauss : α) (full : Bool) (dist_um : α) : α :=
  let gauss_x := surfGaussX radius full dist_um
  E.exp (-(1 / 2) * gauss_x * gauss_x * surfSigmaFactor E gauss)

/-- The angles `(theta, phi)` the loop body of `sphereSurfHarmonic` computes
from the offsets of a voxel. -/
def surfAngles (E : Externals α) (z_um y_um x_um : α) : α × α :=
  let y_um := if x_um * x_um + y_um * y_um = 0 then y_um + 1 / 100000 else y_um
  let temp := avoidNan (z_um / E.sqrt (x_um * x_um + y_um * y_um + z_um * z_um))
  let theta := E.acos temp
  let phi :=
    if y_um ≥ 0 then
      E.acos (avoidNan (x_um / E.sqrt (x_um * x_um + y_um * y_um)))
    else
      2 * E.pi - E.acos (avoidNan (x_um / E.sqrt (x_um * x_um + y_um * y_um)))
  (theta, phi)

/-- The value of `y_um` after the guard
`if (x_um*x_um + y_um*y_um == 0) y_um += 0.00001;` of `sphereSurfHarmonic`. -/
def surfGuardedY (y_um x_um : α) : α :=
  if x_um * x_um + y_um * y_um = 0 then y_um + 1 / 100000 else y_um

/-- The row variable `y_um` as the body of column `c` finds it. The source
declares it once per row, `REAL y_um = (r - intRadiusRow) * voxelSize[1];`, and
the guard `if (x_um*x_um + y_um*y_um == 0) y_um += 0.00001;` in the bodies of
the columns `0 .. c-1` of that row has acted on it before column `c` is
reached. -/
def surfRowY (radius gauss : α) (voxelSize : TinyVector3 α) (r c : Int) : α :=
  forUpTo c (voxelOffset r (surfIntRadius radius gauss voxelSize.v1) voxelSize.v1)
    fun c' y_um =>
      surfGuardedY y_um (voxelOffset c' (surfIntRadius radius gauss voxelSize.v2) voxelSize.v2)

/-- The denominator `sqrt(x_um*x_um + y_um*y_um + z_um*z_um)` of the quotient
whose arc cosine is `theta`; `y_um` is the guarded value. -/
def surfPolarDenominator (E : Externals α) (z_um y_um x_um : α) : α :=
  E.sqrt (x_um * x_um + surfGuardedY y_um x_um * surfGuardedY y_um x_um + z_um * z_um)

/-- The denominator `sqrt(x_um*x_um + y_um*y_um)` of the quotient whose arc
cosine gives `phi`; `y_um` is the guarded value. -/
def surfAzimuthDenominator (E : Externals α) (y_um x_um : α) : α :=
  E.sqrt (x_um * x_um + surfGuardedY y_um x_um * surfGuardedY y_um x_um)

/-- The argument `temp` that `sphereSurfHarmonic` passes to `acos` for `theta`,
after the guards `temp == 1` and `temp == -1`. -/
def surfThetaArg (E : Externals α) (z_um y_um x_um : α) : α :=
  avoidNan (z_um / surfPolarDenominator E z_um y_um x_um)

/-- The argument `temp` that `sphereSurfHarmonic` passes to `acos` for `phi`
(the same in both branches of `y_um >= 0`), after its guards. -/
def surfPhiArg (E : Externals α) (y_um x_um : α) : α :=
  avoidNan (x_um / surfAzimuthDenominator E y_um x_um)

/-- `SHfactor`: the normalized spherical harmonic of degree `l`, order `m` at
the angles `(theta, phi)`. -/
def SHfactor (E : Externals α) (l m : Int) (theta phi : α) : FFTWComplex α :=
  ⟨realSH E l m * E.legendre l m (E.cos theta) * E.cos (m * phi),
   realSH E l m * E.legendre l m (E.cos theta) * E.sin (m * phi)⟩

/-- The distance `dist_um` of voxel `(s,r,c)` from the kernel centre in
`sphereSurfHarmonic`. -/
def surfDist (E : Externals α) (radius gauss : α) (voxelSize : TinyVector3 α)
    (s r c : Int) : α :=
  let z_um := voxelOffset s (surfIntRadius radius gauss voxelSize.v0) voxelSize.v0
  let sqr_z_um := z_um * z_um
  let y_um := voxelOffset r (surfIntRadius radius gauss voxelSize.v1) voxelSize.v1
  let sqr_y_um := y_um * y_um
  let x_um := voxelOffset c (surfIntRadius radius gauss voxelSize.v2) voxelSize.v2
  let sqr_x_um := x_um * x_um
  E.sqrt (sqr_z_um + sqr_y_um + sqr_x_um)

/-- `SHfactor` at voxel `(s,r,c)` of `sphereSurfHarmonic`: the normalized
spherical harmonic at the angles computed from `z_um`, `x_um` and the row
variable `y_um` as the body of column `c` finds it. -/
def surfSHfactor (E : Externals α) (radius gauss : α) (l m : Int)
    (voxelSize : TinyVector3 α) (s r c : Int) : FFTWComplex α :=
  let z_um := voxelOffset s (surfIntRadius radius gauss voxelSize.v0) voxelSize.v0
  let y_um := surfRowY radius gauss voxelSize r c
  let x_um := voxelOffset c (surfIntRadius radius gauss voxelSize.v2) voxelSize.v2
  let angles := surfAngles E z_um y_um x_um
  SHfactor E l m angles.1 angles.2

/-- The value the loop body of `sphereSurfHarmonic` assigns to `output(s,r,c)`. -/
def surfVoxel (E : Externals α) (radius gauss : α) (l m : Int) (full : Bool)
    (voxelSize : TinyVector3 α) (s r c : Int) : FFTWComplex α :=
  let dist_um := surfDist E radius gauss voxelSize s r c
  let gauss_x := surfGaussX radius full dist_um
  E.exp (-(1 / 2) * gauss_x * gauss_x * surfSigmaFactor E gauss) •
    surfSHfactor E radius gauss l m voxelSize s r c

/-- The body of the column loop of `sphereSurfHarmonic` at voxel `(s,r,c)`, on
the output array and the row variable `y_um`. The distance uses `sqr_y_um`,
taken when the row starts; the angles use `y_um` as it stands, and the guard
`if (x_um*x_um + y_um*y_um == 0) y_um += 0.00001;` changes it for the rest of
the row. -/
def surfColumnBody (E : Externals α) (radius gauss : α) (l m : Int) (full : Bool)
    (voxelSize : TinyVector3 α) (s r c : Int) (st : MultiArray3 (FFTWComplex α) × α) :
    MultiArray3 (FFTWComplex α) × α :=
  let z_um := voxelOffset s (surfIntRadius radius gauss voxelSize.v0) voxelSize.v0
  let x_um := voxelOffset c (surfIntRadius radius gauss voxelSize.v2) voxelSize.v2
  let dist_um := surfDist E radius gauss voxelSize s r c
  let gauss_x := surfGaussX radius full dist_um
  let angles := surfAngles E z_um st.2 x_um
  let y_um := surfGuardedY st.2 x_um
  (st.1.set s r c (E.exp (-(1 / 2) * gauss_x * gauss_x * surfSigmaFactor E gauss) •
    SHfactor E l m angles.1 angles.2), y_um)

/-- `sphereSurfHarmonic`: the output array is reshaped to `outshape`; the three
loops run over its voxels, and `y_um` is a variable of the row loop that the
column loop reads and changes. -/
def sphereSurfHarmonic (E : Externals α) (radius gauss : α) (l m : Int) (full : Bool)
    (voxelSize : TinyVector3 α) : MultiArray3 (FFTWComplex α) :=
  let outshape := surfShape radius gauss voxelSize
  forUpTo outshape.v0 (MultiArray3.reshape outshape 0) fun s output =>
    forUpTo outshape.v1 output fun r output =>
      let y_um := voxelOffset r (surfIntRadius radius gauss voxelSize.v1) voxelSize.v1
      (forUpTo outshape.v2 (output, y_um) fun c st =>
        surfColumnBody E radius gauss l m full voxelSize s r c st).1

/-- The call `clebschGordan(j1, m1, j2, m2, j, m)` inside a `try` block. -/
def callClebschGordan (E : Externals α) (j1 m1 j2 m2 j m : Int) : Except Fault α :=
  match E.clebschGordan j1 m1 j2 m2 j m with
  | some c => .ok c
  | none => .error (.invariantViolation "clebschGordan")

/-- One `try`/`catch` block of `sphereVecHarmonic`, on the array `res`. The
block throws when `abs(mu) > l`, calls `clebschGordan(l+k, m, l, mu, 1, sigma)`
(which may throw), builds the scalar harmonic of order `shOrder` in `tmpSH` and
assigns `cg * *q` to component `written` of `*p`, with `p` walking `res` from
`res.begin()` and `q` walking `tmpSH`; the handler sets component `zeroed` of
every element of `res` to 0. The block throws before its first assignment or
not at all, so the handler runs on the array as the block found it. -/
def couplingBlock (E : Externals α) (res : MultiArray3 (TinyVector3 (FFTWComplex α)))
    (radius gauss : α) (l k m mu sigma shOrder : Int) (written zeroed : Nat) :
    Except Fault (MultiArray3 (TinyVector3 (FFTWComplex α))) :=
  catchInvariant
    (if |mu| > l then .error (.invariantViolation "")
      else
        match callClebschGordan E (l + k) m l mu 1 sigma with
        | .error e => .error e
        | .ok c =>
          let cg : FFTWComplex α := ⟨c, 0⟩
          let tmpSH := sphereSurfHarmonic E radius gauss l shOrder false ⟨1, 1, 1⟩
          MultiArray3.lockstep tmpSH.size res tmpSH fun p q => pure (p.setAt written (cg * q)))
    (res.mapElems fun p => p.setAt zeroed 0)

/-- `sphereVecHarmonic`. The array `res` is the caller's; the function assigns
through `res.begin()` and never reshapes it. The three blocks are, as the
source has them: guard and coupling at order `1-m`, harmonic of order `1-m`,
component 0 written and zeroed; guard and coupling at order `-m`, harmonic of
order `1-m`, component 1 written and zeroed; guard and coupling at order
`-(1+m)`, harmonic of order `-(m+1)`, component 0 written, component 2 zeroed. -/
def sphereVecHarmonic (E : Externals α) (res : MultiArray3 (TinyVector3 (FFTWComplex α)))
    (radius gauss : α) (l k m : Int) :
    Except Fault (MultiArray3 (TinyVector3 (FFTWComplex α))) := do
  -- 1-m
  let res ← couplingBlock E res radius gauss l k m (1 - m) 1 (1 - m) 0 0
  -- -m
  let res ← couplingBlock E res radius gauss l k m (-m) 0 (1 - m) 1 1
  -- -(1+m)
  couplingBlock E res radius gauss l k m (-(1 + m)) (-1) (-(m + 1)) 0 2

/-- The table `cache[110]` of `bessel_zero_Jnu`. -/
def besselZeroCache : List α :=
  [0, 0, 0, 0, 0,
   0, 0, 0, 0, 0,
   2.4048255576957729, 3.8317059702075125, 5.1356223018406828, 6.3801618959239841, 7.5883424345038035,
   8.7714838159599537, 9.9361095242176845, 11.086370019245084, 12.225092264004656, 13.354300477435331,
   5.5200781102863106, 7.0155866698156188, 8.4172441403998643, 9.7610231299816697, 11.064709488501185,
   12.338604197466944, 13.589290170541217, 14.821268727013171, 16.03777419088771, 17.241220382489129,
   8.6537279129110125, 10.173468135062722, 11.61984117214906, 13.015200721698434, 14.37253667161759,
   15.700174079711671, 17.003819667816014, 18.287582832481728, 19.554536430997054, 20.807047789264107,
   11.791534439014281, 13.323691936314223, 14.795951782351262, 16.223466160318768, 17.615966049804832,
   18.98013387517992, 20.320789213566506, 21.6415410198484, 22.945173131874618, 24.233885257750551,
   14.930917708487787, 16.470630050877634, 17.959819494987826, 19.409415226435012, 20.826932956962388,
   22.217799896561267, 23.586084435581391, 24.934927887673023, 26.266814641176644, 27.583748963573008,
   18.071063967910924, 19.615858510468243, 21.116997053021844, 22.582729593104443, 24.01901952477111,
   25.430341154222702, 26.820151983411403, 28.1911884594832, 29.54565967099855, 30.885378967696674,
   21.211636629879258, 22.760084380592772, 24.270112313573105, 25.748166699294977, 27.19908776598125,
   28.626618307291139, 30.033722386570467, 31.422794192265581, 32.795800037341465, 34.154377923855094,
   24.352471530749302, 25.903672087618382, 27.420573549984557, 28.908350780921758, 30.371007667117247,
   31.811716724047763, 33.233041762847122, 34.637089352069324, 36.025615063869573, 37.400099977156586,
   27.493479132040257, 29.046828534916855, 30.569204495516395, 32.06485240709771, 33.53713771181922,
   34.988781294559296, 36.422019668258457, 37.838717382853609, 39.240447995178137, 40.628553718964525,
   30.634606468431976, 32.189679910974405, 33.716519509222699, 35.218670738610115, 36.699001128744648,
   38.15986856196713, 39.603239416075404, 41.030773691585537, 42.443887743273557, 43.84380142033735]

/-- The index `n*10+l` at which `bessel_zero_Jnu(l, n)` reads its table. -/
def besselIndex (l n : Nat) : Nat := n * 10 + l

/-- `bessel_zero_Jnu(l, n)`. -/
def bessel_zero_Jnu (l n : Nat) : Except Fault α :=
  if l > 10 ∨ n > 10 then .error (.invariantViolation "max implemented band is 10")
  else
    match (besselZeroCache : List α)[besselIndex l n]? with
    | some v => .ok v
    | none => .error .undefinedBehaviour

/-- `(int)std::ceil(sphereRadius_um / voxelSize[a] + 3)` of the radial generators. -/
def fullIntRadius (radius vs : α) : Int := ⌈radius / vs + 3⌉

/-- `outshape` of `sphereFullHarmonic` and `sphereFullVecHarmonic`. -/
def fullShape (radius : α) (voxelSize : TinyVector3 α) : Shape3 :=
  ⟨fullIntRadius radius voxelSize.v0 * 2 + 1,
   fullIntRadius radius voxelSize.v1 * 2 + 1,
   fullIntRadius radius voxelSize.v2 * 2 + 1⟩

/-- The distance `r` of voxel `(z,y,x)` from the centre in the radial generators. -/
def fullDist (E : Externals α) (radius : α) (voxelSize : TinyVector3 α) (z y x : Int) : α :=
  let z_um := voxelOffset z (fullIntRadius radius voxelSize.v0) voxelSize.v0
  let sqr_z_um := z_um * z_um
  let y_um := voxelOffset y (fullIntRadius radius voxelSize.v1) voxelSize.v1
  let sqr_y_um := y_um * y_um
  let x_um := voxelOffset x (fullIntRadius radius voxelSize.v2) voxelSize.v2
  let sqr_x_um := x_um * x_um
  E.sqrt (sqr_z_um + sqr_y_um + sqr_x_um)

/-- `sigmaFactor` of the radial generators: `-2*log(0.5) / (4)`. -/
def fullSigmaFactor (E : Externals α) : α := -2 * E.log (1 / 2) / 4

/-- The radial wavenumber `k = xnl/sphereRadius_um` of the radial generators. -/
def fullWavenumber (radius xnl : α) : α := xnl / radius

/-- The normalization `N = (R*R*R)/2 * J2` of the radial generators, with
`J2 = pow(besselJ(l+1, xnl), 2.0)`. -/
def fullNormalization (E : Externals α) (radius xnl : α) (l : Int) : α :=
  let J2 := (E.besselJ (l + 1) xnl) ^ 2
  (radius * radius * radius) / 2 * J2

/-- The value `sphereFullHarmonic` assigns to `output(z,y,x)`, given the
wavenumber numerator `xnl` and the angular value `Phi = SH(z,y,x)`. -/
def fullVoxel (E : Externals α) (radius xnl : α) (l : Int) (voxelSize : TinyVector3 α)
    (z y x : Int) (Phi : FFTWComplex α) : FFTWComplex α :=
  let k := fullWavenumber radius xnl
  let N := fullNormalization E radius xnl l
  let r := fullDist E radius voxelSize z y x
  let gauss_x := r - radius
  let J1 := E.besselJ l (k * r)
  let R : FFTWComplex α := ⟨1 / E.sqrt N * J1, 0⟩
  let Psi := R * Phi
  if r ≤ radius then Psi
  else E.exp (-(1 / 2) * gauss_x * gauss_x * fullSigmaFactor E) • Psi

/-- `xnl` of `sphereFullHarmonic`: `REAL xnl = sphereRadius_um; if (n > 0) xnl =
bessel_zero_Jnu<REAL>(l, n);`. -/
def fullXnl (radius : α) (n l : Int) : Except Fault α :=
  if n > 0 then bessel_zero_Jnu (toUnsigned l) (toUnsigned n) else .ok radius

/-- `sphereFullHarmonic`. The angular part is precomputed with unit voxel size
(the call passes none); `bessel_zero_Jnu` is called for `n > 0` only. -/
def sphereFullHarmonic (E : Externals α) (radius : α) (n l m : Int)
    (voxelSize : TinyVector3 α) : Except Fault (MultiArray3 (FFTWComplex α)) := do
  let SH := sphereSurfHarmonic E radius 1 l m true ⟨1, 1, 1⟩
  let outshape := fullShape radius voxelSize
  let output : MultiArray3 (FFTWComplex α) := MultiArray3.reshape outshape 0
  let xnl ← fullXnl radius n l
  forVoxelsM outshape output fun z y x output => do
    let Phi ← SH.get z y x
    pure (output.set z y x (fullVoxel E radius xnl l voxelSize z y x Phi))

/-- The value `sphereFullVecHarmonic` assigns to `output(z,y,x)`, given `xnl`
and `Phi = VH(z,y,x)`. -/
def fullVecVoxel (E : Externals α) (radius xnl : α) (l : Int) (voxelSize : TinyVector3 α)
    (z y x : Int) (Phi : TinyVector3 (FFTWComplex α)) : TinyVector3 (FFTWComplex α) :=
  let K := fullWavenumber radius xnl
  let N := fullNormalization E radius xnl l
  let r := fullDist E radius voxelSize z y x
  let gauss_x := r - radius
  let J1 := E.besselJ l (K * r)
  let R : FFTWComplex α := ⟨1 / E.sqrt N * J1, 0⟩
  let Psi : TinyVector3 (FFTWComplex α) := ⟨R * Phi.v0, R * Phi.v1, R * Phi.v2⟩
  if r ≤ radius then Psi
  else
    let w : FFTWComplex α := ⟨E.exp (-(1 / 2) * gauss_x * gauss_x * fullSigmaFactor E), 0⟩
    ⟨Psi.v0 * w, Psi.v1 * w, Psi.v2 * w⟩

/-- `xnl` of `sphereFullVecHarmonic`: `REAL xnl = sphereRadius_um; if (n > 0) xnl
= 0;` (the call of the Bessel-zero routine is commented out in the source). -/
def vecXnl (radius : α) (n : Int) : α := if n > 0 then 0 else radius

/-- `sphereFullVecHarmonic`. The local `VH` is default-constructed and handed
to `sphereVecHarmonic`; for `n > 0` the source sets `xnl = 0`. -/
def sphereFullVecHarmonic (E : Externals α) (radius : α) (n l k m : Int)
    (voxelSize : TinyVector3 α) :
    Except Fault (MultiArray3 (TinyVector3 (FFTWComplex α))) := do
  let VH ← sphereVecHarmonic E MultiArray3.empty radius 1 l k m
  let outshape := fullShape radius voxelSize
  let output : MultiArray3 (TinyVector3 (FFTWComplex α)) := MultiArray3.reshape outshape 0
  let xnl : α := vecXnl radius n
  forVoxelsM outshape output fun z y x output => do
    let Phi ← VH.get z y x
    pure (output.set z y x (fullVecVoxel E radius xnl l voxelSize z y x Phi))

/-! ## Cache builders -/

/-- `computeSHbaseF`. `SHbaseF` is the caller's vector. -/
def computeSHbaseF (E : Externals α) (radius gauss : α) (band : Nat)
    (SHbaseF : List (List (MultiArray3 (FFTWComplex α)))) :
    Except Fault (List (List (MultiArray3 (FFTWComplex α)))) :=
  forFromTo 0 band (vecResize SHbaseF (band + 1)) fun l SHbaseF =>
    vecModify SHbaseF l fun row =>
      forFromTo (-l) l (vecResize row (2 * l + 1).toNat) fun m row =>
        let Coeff := sphereSurfHarmonic E radius gauss l m false ⟨1, 1, 1⟩
        vecSet row (m + l) Coeff

/-- The body of the `l` loop of `computePHbaseF`, on the row `PHbaseF[n][l]`:
the choice of `mMin`, `mOff` and of the row's size, and the `m` loop. -/
def computePHbaseFRow (E : Externals α) (radius : α) (realdata : Bool) (n l : Int)
    (row : List (MultiArray3 (FFTWComplex α))) :
    Except Fault (List (MultiArray3 (FFTWComplex α))) :=
  let mMin : Int := if realdata then 0 else -l
  let mOff : Int := if realdata then 0 else l
  let row := if realdata then vecResize row (l + 1).toNat
    else vecResize row (2 * l + 1).toNat
  forFromTo mMin l row fun m row => do
    let Coeff ← sphereFullHarmonic E radius n l m ⟨1, 1, 1⟩
    vecSet row (m + mOff) Coeff

/-- The body of the `n` loop of `computePHbaseF`, on the entry `PHbaseF[n]`. -/
def computePHbaseFEntry (E : Externals α) (radius : α) (band : Nat) (realdata : Bool)
    (n : Int) (entry : List (List (MultiArray3 (FFTWComplex α)))) :
    Except Fault (List (List (MultiArray3 (FFTWComplex α)))) :=
  forFromTo 0 band (vecResize entry (band + 1)) fun l entry =>
    vecModify entry l (computePHbaseFRow E radius realdata n l)

/-- `computePHbaseF`. `PHbaseF` is the caller's vector; the `n` loop starts at 1. -/
def computePHbaseF (E : Externals α) (radius : α) (band : Nat)
    (PHbaseF : List (List (List (MultiArray3 (FFTWComplex α))))) (realdata : Bool) :
    Except Fault (List (List (List (MultiArray3 (FFTWComplex α))))) :=
  forFromTo 1 band (vecResize PHbaseF (band + 1)) fun n PHbaseF =>
    vecModify PHbaseF n (computePHbaseFEntry E radius band realdata n)

/-- The body of the `k` loop of `computeVHbaseF`, on the row `VHbaseF[l][k+1]`:
the resize to `2*band + 1` slots and the `m` loop. `Coeff` is
default-constructed in every iteration. -/
def computeVHbaseFRow (E : Externals α) (radius gauss : α) (band : Nat) (l k : Int)
    (row : List (MultiArray3 (TinyVector3 (FFTWComplex α)))) :
    Except Fault (List (MultiArray3 (TinyVector3 (FFTWComplex α)))) :=
  forFromTo (-l) l (vecResize row (2 * band + 1)) fun m row => do
    let Coeff ← sphereVecHarmonic E MultiArray3.empty radius gauss l k m
    vecSet row (m + l) Coeff

/-- The body of the `l` loop of `computeVHbaseF`, on the entry `VHbaseF[l]`. -/
def computeVHbaseFEntry (E : Externals α) (radius gauss : α) (band : Nat) (l : Int)
    (entry : List (List (MultiArray3 (TinyVector3 (FFTWComplex α))))) :
    Except Fault (List (List (MultiArray3 (TinyVector3 (FFTWComplex α))))) :=
  forFromTo (-1) 1 (vecResize entry 3) fun k entry =>
    vecModify entry (k + 1) (computeVHbaseFRow E radius gauss band l k)

/-- `computeVHbaseF`. `VHbaseF` is the caller's vector. -/
def computeVHbaseF (E : Externals α) (radius gauss : α) (band : Nat)
    (VHbaseF : List (List (List (MultiArray3 (TinyVector3 (FFTWComplex α)))))) :
    Except Fault (List (List (List (MultiArray3 (TinyVector3 (FFTWComplex α)))))) :=
  forFromTo 0 band (vecResize VHbaseF (band + 1)) fun l VHbaseF =>
    vecModify VHbaseF l (computeVHbaseFEntry E radius gauss band l)

/-- The body of the `n` loop of `computeVPHbaseF`, on the whole cache. -/
def computeVPHbaseFBody (E : Externals α) (radius : α) (band : Nat) (n : Int)
    (VHbaseF : List (List (List (List (MultiArray3 (TinyVector3 (FFTWComplex α))))))) :
    Except Fault (List (List (List (List (MultiArray3 (TinyVector3 (FFTWComplex α))))))) := do
  let VHbaseF ← vecModify VHbaseF n fun e => pure (vecResize e (band + 1))
  forFromTo 0 band VHbaseF fun l VHbaseF => do
    let VHbaseF ← vecModify VHbaseF n fun e =>
      vecModify e l fun e => pure (vecResize e 3)
    forFromTo (-1) 1 VHbaseF fun k VHbaseF => do
      let VHbaseF ← vecModify VHbaseF l fun e =>
        vecModify e (k + 1) fun e => pure (vecResize e (2 * band + 1))
      forFromTo (-l) l VHbaseF fun m VHbaseF => do
        let Coeff ← sphereFullVecHarmonic E radius n l k m ⟨1, 1, 1⟩
        vecModify VHbaseF n fun e =>
          vecModify e l fun e =>
            vecModify e (k + 1) fun e => vecSet e (m + l) Coeff

/-- The loop `for (int n = 0; n >= band; n++)` of `computeVPHbaseF`; the
comparison of the `int` with the `unsigned int` is made on unsigned values. -/
def computeVPHbaseFLoop (E : Externals α) (radius : α) (band : Nat) :
    Nat → Int → List (List (List (List (MultiArray3 (TinyVector3 (FFTWComplex α)))))) →
    Except Fault (List (List (List (List (MultiArray3 (TinyVector3 (FFTWComplex α)))))))
  | fuel, n, VHbaseF =>
    if toUnsigned n ≥ band then
      match fuel with
      | 0 => .error .outOfFuel
      | fuel + 1 => do
        let VHbaseF ← computeVPHbaseFBody E radius band n VHbaseF
        computeVPHbaseFLoop E radius band fuel (n + 1) VHbaseF
    else .ok VHbaseF

/-- `computeVPHbaseF`, with a step budget for its outer loop. -/
def computeVPHbaseF (E : Externals α) (radius : α) (band : Nat)
    (VHbaseF : List (List (List (List (MultiArray3 (TinyVector3 (FFTWComplex α)))))))
    (fuel : Nat) :
    Except Fault (List (List (List (List (MultiArray3 (TinyVector3 (FFTWComplex α))))))) :=
  computeVPHbaseFLoop E radius band fuel 0 (vecResize VHbaseF (band + 1))

end Generators

/-! ## Reconstruction and projection -/

section Operators

variable {α : Type} [LinearOrderedField α] [FloorRing α]

/-- `detail::centerOfBB`: `TinyVector<REAL,3>(A.shape()) /= 2.0`. -/
def centerOfBB {T : Type} (A : MultiArray3 T) : TinyVector3 α :=
  ⟨(A.shape.v0 : α) / 2, (A.shape.v1 : α) / 2, (A.shape.v2 : α) / 2⟩

/-- `reconstSH`. The output array is reshaped (and thereby zeroed) to the shape
of `SHbaseF[0][0]`; the inner loop walks `reconstruct` with `q` and the kernel
with `p` in lock-step. -/
def reconstSH (radius gauss : α) (band : Nat) (SH_A : List (List (FFTWComplex α)))
    (SHbaseF : List (List (MultiArray3 (FFTWComplex α)))) :
    Except Fault (MultiArray3 α) := do
  let row0 ← vecGet SHbaseF 0
  let K00 ← vecGet row0 0
  let reconstruct : MultiArray3 α := MultiArray3.reshape K00.shape 0
  forFromTo 0 band reconstruct fun l reconstruct =>
    forFromTo (-l) l reconstruct fun m reconstruct => do
      let baseRow ← vecGet SHbaseF l
      let K ← vecGet baseRow (l + m)
      MultiArray3.lockstep reconstruct.size reconstruct K fun q p => do
        let coeffRow ← vecGet SH_A l
        let c ← vecGet coeffRow (l + m)
        pure (q + (p * FFTWComplex.conj c).re)

/-- The first corner `floor(pos[a] - coffShape[a] / 2)` of the window on one
axis; the division is the integer division of the extent. -/
def windowStart (pos : α) (extent : Int) : Int := ⌊pos - ((extent.tdiv 2 : Int) : α)⌋

/-- The sum the spec gives for a local projection coefficient (§4.7, "no kernel
flip"): the correlation of the window that starts at `(za, ya, xa)` with the
kernel. -/
def correlationSum (A : MultiArray3 α) (K : MultiArray3 (FFTWComplex α)) (za ya xa : Int) :
    FFTWComplex α :=
  ∑ sz in Finset.range K.shape.v0.toNat, ∑ sy in Finset.range K.shape.v1.toNat,
    ∑ sx in Finset.range K.shape.v2.toNat,
      A.data (za + sz) (ya + sy) (xa + sx) • K.data sz sy sx

/-- The sum with the kernel flipped: the window is read backwards from its last
corner `(ze, ye, xe)` while the kernel is read forwards. -/
def flippedSum (A : MultiArray3 α) (K : MultiArray3 (FFTWComplex α)) (ze ye xe : Int) :
    FFTWComplex α :=
  ∑ sz in Finset.range K.shape.v0.toNat, ∑ sy in Finset.range K.shape.v1.toNat,
    ∑ sx in Finset.range K.shape.v2.toNat,
      A.data (ze - sz) (ye - sy) (xe - sx) • K.data sz sy sx

/-- The last corner `xe = xa + coffShape[a] - 1` of the window on one axis. -/
def windowEnd (pos : α) (extent : Int) : Int := windowStart pos extent + extent - 1

/-- The window of a kernel at a probe position lies inside the input field. -/
def windowInside (A : MultiArray3 α) (pos : TinyVector3 α) (K : MultiArray3 (FFTWComplex α)) :
    Prop :=
  (0 ≤ windowStart pos.v0 K.shape.v0 ∧ windowEnd pos.v0 K.shape.v0 < A.shape.v0) ∧
  (0 ≤ windowStart pos.v1 K.shape.v1 ∧ windowEnd pos.v1 K.shape.v1 < A.shape.v1) ∧
  (0 ≤ windowStart pos.v2 K.shape.v2 ∧ windowEnd pos.v2 K.shape.v2 < A.shape.v2)

/-- The value the loops of `SHpos` accumulate for one kernel when every read is
inside the arrays: the flipped sum from the last corner of the window. -/
def projectionSum (A : MultiArray3 α) (pos : TinyVector3 α) (K : MultiArray3 (FFTWComplex α)) :
    FFTWComplex α :=
  flippedSum A K (windowEnd pos.v0 K.shape.v0) (windowEnd pos.v1 K.shape.v1)
    (windowEnd pos.v2 K.shape.v2)

/-- The accumulation loops of `SHpos` for one kernel: `z`, `y`, `x` run down
from the last corner of the window while `sz`, `sy`, `sx` count up from 0. -/
def SHposCoeff (A : MultiArray3 α) (pos : TinyVector3 α) (K : MultiArray3 (FFTWComplex α)) :
    Except Fault (FFTWComplex α) :=
  let coffShape := K.shape
  let xa := windowStart pos.v2 coffShape.v2
  let xe := xa + coffShape.v2 - 1
  let ya := windowStart pos.v1 coffShape.v1
  let ye := ya + coffShape.v1 - 1
  let za := windowStart pos.v0 coffShape.v0
  let ze := za + coffShape.v0 - 1
  forDownCounting ze za (0 : FFTWComplex α) fun z sz acc =>
    forDownCounting ye ya acc fun y sy acc =>
      forDownCounting xe xa acc fun x sx acc => do
        let a ← A.get z y x
        let b ← K.get sz sy sx
        pure (acc + a • b)

/-- `SHpos`. `SH_A` is the caller's vector. -/
def SHpos (SH_A : List (List (FFTWComplex α))) (radius : α) (band : Nat)
    (A : MultiArray3 α) (pos : TinyVector3 α)
    (SHbaseF : List (List (MultiArray3 (FFTWComplex α)))) :
    Except Fault (List (List (FFTWComplex α))) :=
  forFromTo 0 band (vecResize SH_A SHbaseF.length) fun l SH_A => do
    let baseRow ← vecGet SHbaseF l
    vecModify SH_A l fun row =>
      forFromTo 0 ((baseRow.length : Int) - 1) (vecResize row baseRow.length) fun m row => do
        let K ← vecGet baseRow m
        let coeff ← SHposCoeff A pos K
        vecSet row m coeff

/-- `SHcenter`. -/
def SHcenter (SH_A : List (List (FFTWComplex α))) (radius : α) (band : Nat)
    (A : MultiArray3 α) (SHbaseF : List (List (MultiArray3 (FFTWComplex α)))) :
    Except Fault (List (List (FFTWComplex α))) :=
  SHpos SH_A radius band A (centerOfBB A) SHbaseF

/-- `SH_Itterator<T>`: the cursor `(_l, _m)`; the vector it refers to is passed
to the operations. -/
structure SH_Itterator where
  l : Int
  m : Int
  deriving DecidableEq

namespace SH_Itterator

variable {T : Type}

/-- `operator++`. The comparison `_m < _data[_l].size()-1` is made on
`std::size_t` values, and so is `_l < _data.size()`. -/
def next (data : List (List T)) (it : SH_Itterator) : Except Fault SH_Itterator := do
  let row ← vecGet data it.l
  if it.m % 18446744073709551616 < ((row.length : Int) - 1) % 18446744073709551616 then
    pure { it with m := it.m + 1 }
  else if it.l % 18446744073709551616 < (data.length : Int) then
    pure { l := it.l + 1, m := 0 }
  else pure it

/-- `operator*` as a read. -/
def deref (data : List (List T)) (it : SH_Itterator) : Except Fault T := do
  let row ← vecGet data it.l
  vecGet row it.m

/-- `operator*` as the target of an assignment. -/
def assign (data : List (List T)) (it : SH_Itterator) (v : T) : Except Fault (List (List T)) :=
  vecModify data it.l fun row => vecSet row it.m v

/-- `operator!=`. -/
def ne (a b : SH_Itterator) : Bool := !(a.l == b.l && a.m == b.m)

/-- The cursor after `n` applications of `operator++`. -/
def advance (data : List (List T)) : Nat → SH_Itterator → Except Fault SH_Itterator
  | 0, it => .ok it
  | n + 1, it => do
    let it ← next data it
    advance data n it

end SH_Itterator

/-- The number of positions of a nested vector that precede `(l, j)` in
lexicographic order: the sizes of the entries before `l`, and `j`. -/
def lexRank {T : Type} (data : List (List T)) (l j : Nat) : Nat :=
  ((data.take l).map List.length).sum + j

/-- The input of a convolution at a coordinate: the element inside the array,
the border treatment outside. -/
def extended (border : MultiArray3 α → Int → Int → Int → α) (A : MultiArray3 α)
    (i0 i1 i2 : Int) : α :=
  if MultiArray3.inShape A.shape i0 i1 i2 then A.data i0 i1 i2 else border A i0 i1 i2

/-- Modelled from the spec: the convolution of the input field with one kernel,
which `multi_fft.hxx` computes and the embedded header does not. The spec calls
the result "one convolution result per kernel" of a kernel "centered on its own
middle voxel": the output has the input's shape and its value at `p` is the sum
over the kernel's voxels `s` of `in(p + c - s) * kernel(s)`, with `c` the middle
voxel `shape / 2`. The spec does not fix the border treatment; it is the
parameter `border`. -/
def convolveCentered (border : MultiArray3 α → Int → Int → Int → α) (A : MultiArray3 α)
    (K : MultiArray3 (FFTWComplex α)) : MultiArray3 (FFTWComplex α) :=
  MultiArray3.tabulate A.shape fun p0 p1 p2 =>
    ∑ s0 in Finset.range K.shape.v0.toNat, ∑ s1 in Finset.range K.shape.v1.toNat,
      ∑ s2 in Finset.range K.shape.v2.toNat,
        extended border A (p0 + K.shape.v0.tdiv 2 - s0) (p1 + K.shape.v1.tdiv 2 - s1)
          (p2 + K.shape.v2.tdiv 2 - s2) • K.data s0 s1 s2

/-- Modelled from the spec: `convolveFFTComplexMany(in, kernels, kernelsEnd,
outs, false)` of `multi_fft.hxx`, "consuming two equal-length iterator ranges
(kernels, matching outputs) and a shared input field, producing one convolution
result per kernel": while `kernels != kernelsEnd`, the convolution of the input
with `*kernels` is assigned to `*outs` and both iterators are advanced. The
iterators are the source's `SH_Itterator`. -/
def convolveFFTComplexMany (border : MultiArray3 α → Int → Int → Int → α)
    (A : MultiArray3 α) (kernelData : List (List (MultiArray3 (FFTWComplex α)))) :
    Nat → SH_Itterator → SH_Itterator → List (List (MultiArray3 (FFTWComplex α))) →
    SH_Itterator → Except Fault (List (List (MultiArray3 (FFTWComplex α))))
  | fuel, kernels, kernelsEnd, outData, outs =>
    if kernels.ne kernelsEnd then
      match fuel with
      | 0 => .error .outOfFuel
      | fuel + 1 => do
        let K ← kernels.deref kernelData
        let outData ← outs.assign outData (convolveCentered border A K)
        let kernels ← kernels.next kernelData
        let outs ← outs.next outData
        convolveFFTComplexMany border A kernelData fuel kernels kernelsEnd outData outs
    else .ok outData

/-- The output structure of `Array2SH` while the iterator loop of the
convolution stands at position `(l, m)`: the arrays at the positions before
`(l, m)` hold their convolution result, the others are still the zero arrays
of the input's shape. -/
def convolvedUpTo (border : MultiArray3 α → Int → Int → Int → α) (A : MultiArray3 α)
    (SHbaseF : List (List (MultiArray3 (FFTWComplex α)))) (l m : Nat) :
    List (List (MultiArray3 (FFTWComplex α))) :=
  (List.range SHbaseF.length).map fun (l' : Nat) =>
    (List.range (SHbaseF.getD l' []).length).map fun (m' : Nat) =>
      if l' < l ∨ (l' = l ∧ m' < m) then convolveCentered border A (elemAt SHbaseF l' m')
      else MultiArray3.reshape A.shape 0

/-- `Array2SH`, with the border treatment of the convolution and a step budget
for its iterator loop. -/
def Array2SH (border : MultiArray3 α → Int → Int → Int → α)
    (SH_A : List (List (MultiArray3 (FFTWComplex α)))) (band : Nat) (radius : α)
    (SHbaseF : List (List (MultiArray3 (FFTWComplex α)))) (A : MultiArray3 α) (fuel : Nat) :
    Except Fault (List (List (MultiArray3 (FFTWComplex α)))) := do
  let SH_A ← forFromTo 0 ((SHbaseF.length : Int) - 1) (vecResize SH_A SHbaseF.length)
    fun l SH_A => do
      let baseRow ← vecGet SHbaseF l
      vecModify SH_A l fun row =>
        forFromTo 0 ((baseRow.length : Int) - 1) (vecResize row baseRow.length) fun m row =>
          vecModify row m fun _ => pure (MultiArray3.reshape A.shape 0)
  let SHbaseF_Iter : SH_Itterator := ⟨0, 0⟩
  let SHbaseF_Iter_end : SH_Itterator := ⟨SHbaseF.length, 0⟩
  let SH_A_Iter : SH_Itterator := ⟨0, 0⟩
  convolveFFTComplexMany border A SHbaseF fuel SHbaseF_Iter SHbaseF_Iter_end SH_A SH_A_Iter

/-! ## Radial and vector operators -/

/-- `PH_Itterator<REAL>`: the cursor `(_k, _l, _m)`; the vector it refers to is
passed to the operations. -/
structure PH_Itterator where
  k : Int
  l : Int
  m : Int
  deriving DecidableEq

namespace PH_Itterator

variable {T : Type}

/-- `operator++`. The three comparisons are made on `std::size_t` values; the
carry into `_k` sets `_l = 0` and leaves `_m` as it is. -/
def next (data : List (List (List T))) (it : PH_Itterator) : Except Fault PH_Itterator := do
  let entry ← vecGet data it.k
  let row ← vecGet entry it.l
  if it.m % 18446744073709551616 < ((row.length : Int) - 1) % 18446744073709551616 then
    pure { it with m := it.m + 1 }
  else if it.l % 18446744073709551616 < ((entry.length : Int) - 1) % 18446744073709551616 then
    pure { it with l := it.l + 1, m := 0 }
  else if it.k % 18446744073709551616 < (data.length : Int) then
    pure { it with k := it.k + 1, l := 0 }
  else pure it

/-- `operator*` as a read. -/
def deref (data : List (List (List T))) (it : PH_Itterator) : Except Fault T := do
  let entry ← vecGet data it.k
  let row ← vecGet entry it.l
  vecGet row it.m

/-- `operator*` as the target of an assignment. -/
def assign (data : List (List (List T))) (it : PH_Itterator) (v : T) :
    Except Fault (List (List (List T))) :=
  vecModify data it.k fun entry => vecModify entry it.l fun row => vecSet row it.m v

/-- `operator==`: `(_k == A.getL()) && (_l == A.getL()) && (_m == A.getM())`. -/
def eq (a b : PH_Itterator) : Bool := a.k == b.l && a.l == b.l && a.m == b.m

/-- `operator!=`: `!((_k == A.getK()) && (_l == A.getL()) && (_m == A.getM()))`. -/
def ne (a b : PH_Itterator) : Bool := !(a.k == b.k && a.l == b.l && a.m == b.m)

/-- The cursor after `n` applications of `operator++`. -/
def advance (data : List (List (List T))) : Nat → PH_Itterator → Except Fault PH_Itterator
  | 0, it => .ok it
  | n + 1, it => do
    let it ← next data it
    advance data n it

end PH_Itterator

/-- Modelled from the spec: `convolveFFTComplexMany(in, kernels, kernelsEnd,
outs, false)` of `multi_fft.hxx` on the source's `PH_Itterator`s, "consuming two
equal-length iterator ranges (kernels, matching outputs) and a shared input
field, producing one convolution result per kernel": while
`kernels != kernelsEnd`, the convolution of the input with `*kernels` is
assigned to `*outs` and both iterators are advanced. The convolution of the
input with one kernel is the parameter `conv`. -/
def convolveFFTComplexManyPH
    (conv : MultiArray3 (FFTWComplex α) → MultiArray3 (FFTWComplex α) →
      MultiArray3 (FFTWComplex α))
    (A : MultiArray3 (FFTWComplex α))
    (kernelData : List (List (List (MultiArray3 (FFTWComplex α))))) :
    Nat → PH_Itterator → PH_Itterator → List (List (List (MultiArray3 (FFTWComplex α)))) →
    PH_Itterator → Except Fault (List (List (List (MultiArray3 (FFTWComplex α)))))
  | fuel, kernels, kernelsEnd, outData, outs =>
    if kernels.ne kernelsEnd then
      match fuel with
      | 0 => .error .outOfFuel
      | fuel + 1 => do
        let K ← kernels.deref kernelData
        let outData ← outs.assign outData (conv A K)
        let kernels ← kernels.next kernelData
        let outs ← outs.next outData
        convolveFFTComplexManyPH conv A kernelData fuel kernels kernelsEnd outData outs
    else .ok outData

/-- The allocation loops of `Array2PH`: `PH_A.resize(band+1)`, and for `n` in
`[1,band]`, `l` in `[0,band]` the resizes of `PH_A[n]` and `PH_A[n][l]`. -/
def Array2PHAlloc (band : Nat) (PH_A : List (List (List (MultiArray3 (FFTWComplex α))))) :
    Except Fault (List (List (List (MultiArray3 (FFTWComplex α))))) :=
  forFromTo 1 band (vecResize PH_A (band + 1)) fun n PH_A =>
    vecModify PH_A n fun entry =>
      forFromTo 0 band (vecResize entry (band + 1)) fun l entry =>
        vecModify entry l fun row => pure (vecResize row (2 * band + 1))

/-- `Array2PH`, with the single-kernel convolution `conv` and a step budget for
the iterator loop of the convolution. The cache is built in a local vector; the
two FFT plans are not used. -/
def Array2PH (E : Externals α)
    (conv : MultiArray3 (FFTWComplex α) → MultiArray3 (FFTWComplex α) →
      MultiArray3 (FFTWComplex α))
    (PH_A : List (List (List (MultiArray3 (FFTWComplex α))))) (band : Nat) (radius : α)
    (realData : Bool) (A : MultiArray3 (FFTWComplex α)) (fuel : Nat) :
    Except Fault (List (List (List (MultiArray3 (FFTWComplex α))))) := do
  let PHbaseF ← computePHbaseF E radius band [] realData
  let PH_A ← Array2PHAlloc band PH_A
  let PHbaseF_Iter : PH_Itterator := ⟨0, 0, 0⟩
  let PHbaseF_Iter_end : PH_Itterator := ⟨3, PHbaseF.length, 0⟩
  let PH_A_Iter : PH_Itterator := ⟨0, 0, 0⟩
  convolveFFTComplexManyPH conv A PHbaseF fuel PHbaseF_Iter PHbaseF_Iter_end PH_A PH_A_Iter

/-- The window of a kernel of shape `ks` at a probe position lies inside an
array of shape `s`. -/
def windowFits (s : Shape3) (pos : TinyVector3 α) (ks : Shape3) : Prop :=
  (0 ≤ windowStart pos.v0 ks.v0 ∧ windowEnd pos.v0 ks.v0 < s.v0) ∧
  (0 ≤ windowStart pos.v1 ks.v1 ∧ windowEnd pos.v1 ks.v1 < s.v1) ∧
  (0 ≤ windowStart pos.v2 ks.v2 ∧ windowEnd pos.v2 ks.v2 < s.v2)

/-- The accumulation loops of `PHpos` for one kernel: `z`, `y`, `x` run up from
the first corner of the window while `z < ze`, `y < ye`, `x < xe`, and `sz`,
`sy`, `sx` count up from 0. -/
def PHposCoeff (A : MultiArray3 (FFTWComplex α)) (pos : TinyVector3 α)
    (K : MultiArray3 (FFTWComplex α)) : Except Fault (FFTWComplex α) :=
  let coffShape := K.shape
  let xa := windowStart pos.v2 coffShape.v2
  let xe := xa + coffShape.v2 - 1
  let ya := windowStart pos.v1 coffShape.v1
  let ye := ya + coffShape.v1 - 1
  let za := windowStart pos.v0 coffShape.v0
  let ze := za + coffShape.v0 - 1
  forUpCounting za (ze - 1) (0 : FFTWComplex α) fun z sz acc =>
    forUpCounting ya (ye - 1) acc fun y sy acc =>
      forUpCounting xa (xe - 1) acc fun x sx acc => do
        let a ← A.get z y x
        let b ← K.get sz sy sx
        pure (acc + a * b)

/-- The value the loops of `PHpos` accumulate for one kernel when every read is
inside the arrays: the un-flipped sum over the offsets `sz < S0-1`, `sy < S1-1`,
`sx < S2-1` of a kernel of shape `(S0,S1,S2)`. -/
def PHposSum (A : MultiArray3 (FFTWComplex α)) (pos : TinyVector3 α)
    (K : MultiArray3 (FFTWComplex α)) : FFTWComplex α :=
  ∑ sz in Finset.range (K.shape.v0 - 1).toNat, ∑ sy in Finset.range (K.shape.v1 - 1).toNat,
    ∑ sx in Finset.range (K.shape.v2 - 1).toNat,
      A.data (windowStart pos.v0 K.shape.v0 + sz) (windowStart pos.v1 K.shape.v1 + sy)
        (windowStart pos.v2 K.shape.v2 + sx) * K.data sz sy sx

/-- `PHpos`. `PH_A` is the caller's vector; the `n` loop starts at 1. -/
def PHpos (PH_A : List (List (List (FFTWComplex α)))) (radius : α) (band : Nat)
    (A : MultiArray3 (FFTWComplex α))
    (PHbaseF : List (List (List (MultiArray3 (FFTWComplex α))))) (pos : TinyVector3 α) :
    Except Fault (List (List (List (FFTWComplex α)))) :=
  forFromTo 1 ((PHbaseF.length : Int) - 1) (vecResize PH_A PHbaseF.length) fun n PH_A => do
    let baseEntry ← vecGet PHbaseF n
    vecModify PH_A n fun entry =>
      forFromTo 0 ((baseEntry.length : Int) - 1) (vecResize entry baseEntry.length)
        fun l entry => do
          let baseRow ← vecGet baseEntry l
          vecModify entry l fun row =>
            forFromTo 0 ((baseRow.length : Int) - 1) (vecResize row baseRow.length)
              fun m row => do
                let K ← vecGet baseRow m
                let coeff ← PHposCoeff A pos K
                vecSet row m coeff

/-- `reconstPH`. The output array is reshaped to the shape of `PHbaseF[1][0][0]`
and zeroed; the loops run over the sizes of the coefficient set `PH_A`, from
`n = 1`, and the inner loop walks `reconstruct` with `q` and the kernel
`PHbaseF[n][l][m]` with `p` in lock-step. -/
def reconstPH (radius : α) (band : Nat) (PH_A : List (List (List (FFTWComplex α))))
    (PHbaseF : List (List (List (MultiArray3 (FFTWComplex α))))) :
    Except Fault (MultiArray3 α) := do
  let entry1 ← vecGet PHbaseF 1
  let row10 ← vecGet entry1 0
  let K100 ← vecGet row10 0
  let reconstruct : MultiArray3 α := MultiArray3.reshape K100.shape 0
  forFromTo 1 ((PH_A.length : Int) - 1) reconstruct fun n reconstruct => do
    let coeffEntry ← vecGet PH_A n
    forFromTo 0 ((coeffEntry.length : Int) - 1) reconstruct fun l reconstruct => do
      let coeffRow ← vecGet coeffEntry l
      forFromTo 0 ((coeffRow.length : Int) - 1) reconstruct fun m reconstruct => do
        let baseEntry ← vecGet PHbaseF n
        let baseRow ← vecGet baseEntry l
        let K ← vecGet baseRow m
        MultiArray3.lockstep reconstruct.size reconstruct K fun q p => do
          let c ← vecGet coeffRow m
          pure (q + (p * FFTWComplex.conj c).re)

/-- The field `inputZ` of `VHpos` and `VPHpos`: `(-A[1] - i*A[2]) * (1/sqrt(2))`. -/
def vecInputZ (E : Externals α) (A : MultiArray3 (TinyVector3 α)) :
    MultiArray3 (FFTWComplex α) :=
  MultiArray3.tabulate A.shape fun z y x =>
    ⟨-(A.data z y x).v1 * (1 / E.sqrt 2), -(A.data z y x).v2 * (1 / E.sqrt 2)⟩

/-- The field `inputY` of `VHpos` and `VPHpos`: `A[0]`. -/
def vecInputY (A : MultiArray3 (TinyVector3 α)) : MultiArray3 (FFTWComplex α) :=
  MultiArray3.tabulate A.shape fun z y x => ⟨(A.data z y x).v0, 0⟩

/-- The field `inputX` of `VHpos` and `VPHpos`: `(A[1] - i*A[2]) * (1/sqrt(2))`. -/
def vecInputX (E : Externals α) (A : MultiArray3 (TinyVector3 α)) :
    MultiArray3 (FFTWComplex α) :=
  MultiArray3.tabulate A.shape fun z y x =>
    ⟨(A.data z y x).v1 * (1 / E.sqrt 2), -(A.data z y x).v2 * (1 / E.sqrt 2)⟩

/-- The term `inputZ(z,y,x) * vh(zs,ys,xs)[0]/norm + inputZ(z,y,x) *
vh(zs,ys,xs)[1]/norm + inputZ(z,y,x) * vh(zs,ys,xs)[2]/norm` that the
innermost loops of `VHpos` and `VPHpos` add to a coefficient. -/
def vecTerm (inputZ : MultiArray3 (FFTWComplex α))
    (vh : MultiArray3 (TinyVector3 (FFTWComplex α))) (norm : α) (z y x zs ys xs : Int) :
    Except Fault (FFTWComplex α) := do
  let a ← inputZ.get z y x
  let v ← vh.get zs ys xs
  pure ((a * v.v0).divReal norm + (a * v.v1).divReal norm + (a * v.v2).divReal norm)

/-- The statement `VH_A[l][1+k][1+m] += t`. -/
def vecAddAt (VH_A : List (List (List (FFTWComplex α)))) (l k m : Int) (t : FFTWComplex α) :
    Except Fault (List (List (List (FFTWComplex α)))) :=
  vecModify VH_A l fun entry => vecModify entry (1 + k) fun row =>
    vecModify row (1 + m) fun c => pure (c + t)

/-- The statement `VH_A[n][l][1+k][1+m] += t`. -/
def vecAddAt4 (VH_A : List (List (List (List (FFTWComplex α))))) (n l k m : Int)
    (t : FFTWComplex α) : Except Fault (List (List (List (List (FFTWComplex α))))) :=
  vecModify VH_A n fun e => vecModify e l fun entry => vecModify entry (1 + k) fun row =>
    vecModify row (1 + m) fun c => pure (c + t)

/-- The window loops of `VHpos` and `VPHpos` in the form that declares `ys` and
`xs` inside the enclosing loop body: `z` runs while `z != ze`, `y` and `x` up to
`ye` and `xe`; `add` is the accumulation into the coefficient. -/
def vecWindowLoops {σ : Type} (inputZ : MultiArray3 (FFTWComplex α))
    (vh : MultiArray3 (TinyVector3 (FFTWComplex α))) (norm : α) (pos : TinyVector3 α)
    (add : σ → FFTWComplex α → Except Fault σ) (st : σ) : Except Fault σ :=
  let xa := windowStart pos.v2 vh.shape.v2
  let xe := xa + vh.shape.v2 - 1
  let ya := windowStart pos.v1 vh.shape.v1
  let ye := ya + vh.shape.v1 - 1
  let za := windowStart pos.v0 vh.shape.v0
  let ze := za + vh.shape.v0 - 1
  forUntil za ze st fun z zs st =>
    forUpCounting ya ye st fun y ys st =>
      forUpCounting xa xe st fun x xs st => do
        let t ← vecTerm inputZ vh norm z y x zs ys xs
        add st t

/-- The window loops of `VHpos` and `VPHpos` in the form that declares `zs`,
`ys`, `xs` once before the three loops: `ys` and `xs` are never set back to 0. -/
def vecWindowLoopsShared {σ : Type} (inputZ : MultiArray3 (FFTWComplex α))
    (vh : MultiArray3 (TinyVector3 (FFTWComplex α))) (norm : α) (pos : TinyVector3 α)
    (add : σ → FFTWComplex α → Except Fault σ) (st : σ) : Except Fault σ := do
  let xa := windowStart pos.v2 vh.shape.v2
  let xe := xa + vh.shape.v2 - 1
  let ya := windowStart pos.v1 vh.shape.v1
  let ye := ya + vh.shape.v1 - 1
  let za := windowStart pos.v0 vh.shape.v0
  let ze := za + vh.shape.v0 - 1
  let r ← forUntil za ze (st, (0 : Int), (0 : Int)) fun z zs s =>
    forFromTo ya ye s fun y s => do
      let s ← forFromTo xa xe s fun x s => do
        let t ← vecTerm inputZ vh norm z y x zs s.2.1 s.2.2
        let st ← add s.1 t
        pure (st, s.2.1, s.2.2 + 1)
      pure (s.1, s.2.1 + 1, s.2.2)
  pure r.1

/-- `VHpos`. `VH_A` is the caller's vector. The fields `inputY` and `inputX`
are computed by the source and not used afterwards; every kernel `vh` is
default-constructed and handed to `sphereVecHarmonic` with degree 0. -/
def VHpos (E : Externals α) (VH_A : List (List (List (FFTWComplex α)))) (band : Nat)
    (gauss radius : α) (A : MultiArray3 (TinyVector3 α)) (pos : TinyVector3 α) :
    Except Fault (List (List (List (FFTWComplex α)))) := do
  let inputZ := vecInputZ E A
  let VH_A := vecResize VH_A (band + 1)
  let norm := E.pi / 2 * radius ^ 2
  let VH_A ← vecModify VH_A 0 fun entry => pure (vecResize entry 3)
  let VH_A ← forFromTo (-1) 1 VH_A fun k VH_A => do
    let VH_A ← vecModify VH_A 0 fun entry =>
      vecModify entry (1 + k) fun row => pure (vecResize row 3)
    forFromTo (-1) 1 VH_A fun m VH_A => do
      let vh ← sphereVecHarmonic E MultiArray3.empty radius gauss 0 k m
      vecWindowLoopsShared inputZ vh norm pos (fun VH_A t => vecAddAt VH_A 0 k m t) VH_A
  forFromTo 1 band VH_A fun l VH_A => do
    let VH_A ← vecModify VH_A l fun entry => pure (vecResize entry 3)
    forFromTo (-1) 1 VH_A fun k VH_A => do
      let VH_A ← vecModify VH_A l fun entry =>
        vecModify entry (k + 1) fun row => pure (vecResize row (2 * (l + k) + 1).toNat)
      forFromTo (-(l + k)) (l + k) VH_A fun m VH_A => do
        let vh ← sphereVecHarmonic E MultiArray3.empty radius gauss 0 k m
        vecWindowLoops inputZ vh norm pos (fun VH_A t => vecAddAt VH_A l k m t) VH_A

/-- `VPHpos`. `VH_A` is the caller's vector; `gauss` is the local constant 1.
As in `VHpos` only `inputZ` is used and every kernel is requested with
degree 0. -/
def VPHpos (E : Externals α) (VH_A : List (List (List (List (FFTWComplex α))))) (band : Nat)
    (radius : α) (A : MultiArray3 (TinyVector3 α)) (pos : TinyVector3 α) :
    Except Fault (List (List (List (List (FFTWComplex α))))) := do
  let gauss : α := 1
  let inputZ := vecInputZ E A
  let VH_A := vecResize VH_A (band + 1)
  forFromTo 1 band VH_A fun n VH_A => do
    let VH_A ← vecModify VH_A n fun e => pure (vecResize e (band + 1))
    let norm := E.pi / 2 * radius ^ 2
    let VH_A ← vecModify VH_A n fun e => vecModify e 0 fun entry => pure (vecResize entry 3)
    let VH_A ← forFromTo (-1) 1 VH_A fun k VH_A => do
      let VH_A ← vecModify VH_A n fun e => vecModify e 0 fun entry =>
        vecModify entry (1 + k) fun row => pure (vecResize row 3)
      forFromTo (-1) 1 VH_A fun m VH_A => do
        let vh ← sphereVecHarmonic E MultiArray3.empty radius gauss 0 k m
        vecWindowLoops inputZ vh norm pos (fun VH_A t => vecAddAt4 VH_A n 0 k m t) VH_A
    forFromTo 1 band VH_A fun l VH_A => do
      let VH_A ← vecModify VH_A n fun e => vecModify e l fun entry => pure (vecResize entry 3)
      forFromTo (-1) 1 VH_A fun k VH_A => do
        let VH_A ← vecModify VH_A n fun e => vecModify e l fun entry =>
          vecModify entry (k + 1) fun row => pure (vecResize row (2 * (l + k) + 1).toNat)
        forFromTo (-(l + k)) (l + k) VH_A fun m VH_A => do
          let vh ← sphereVecHarmonic E MultiArray3.empty radius gauss 0 k m
          vecWindowLoopsShared inputZ vh norm pos (fun VH_A t => vecAddAt4 VH_A n l k m t) VH_A

/-- The last loop of `reconstVH` and `reconstVPH` ("reconst real vec
directions"): `p` walks `reconstruct`, `q` walks `tmp`, and
`(*p)[0] = real((*q)[1]); (*p)[1] = -sqrt(2)*real((*q)[0]); (*p)[2] =
sqrt(2)*imag((*q)[0]);`. -/
def realVecDirections (E : Externals α) (reconstruct : MultiArray3 (TinyVector3 α))
    (tmp : MultiArray3 (TinyVector3 (FFTWComplex α))) :
    Except Fault (MultiArray3 (TinyVector3 α)) :=
  MultiArray3.lockstep tmp.size reconstruct tmp fun p q =>
    pure (((p.setAt 0 q.v1.re).setAt 1 (-(E.sqrt 2) * q.v0.re)).setAt 2 (E.sqrt 2 * q.v0.im))

/-- The accumulation of one kernel into `tmp` in `reconstVH` and `reconstVPH`:
`p` walks `tmp`, `q` walks `base_tmp`, and each component of `*p` grows by
`conj(coefficient) * (*q)[i]`; the coefficient is read inside the loop. -/
def vecAccumulate (coeff : Except Fault (FFTWComplex α))
    (tmp base_tmp : MultiArray3 (TinyVector3 (FFTWComplex α))) :
    Except Fault (MultiArray3 (TinyVector3 (FFTWComplex α))) :=
  MultiArray3.lockstep base_tmp.size tmp base_tmp fun p q => do
    let c ← coeff
    pure ⟨p.v0 + FFTWComplex.conj c * q.v0, p.v1 + FFTWComplex.conj c * q.v1,
      p.v2 + FFTWComplex.conj c * q.v2⟩

/-- The part of `reconstVH` before its last loop: the arrays `reconstruct` and
`tmp` after the loops over `(l, k, m)`. `base_tmp` is default-constructed and
handed to `sphereVecHarmonic` again and again. -/
def reconstVHAccumulate (E : Externals α) (radius gauss : α) (band : Nat)
    (VH_A : List (List (List (FFTWComplex α)))) :
    Except Fault (MultiArray3 (TinyVector3 α) × MultiArray3 (TinyVector3 (FFTWComplex α))) := do
  let base_tmp ← sphereVecHarmonic E MultiArray3.empty radius gauss 0 0 0
  let reconstruct : MultiArray3 (TinyVector3 α) := MultiArray3.reshape base_tmp.shape 0
  let tmp : MultiArray3 (TinyVector3 (FFTWComplex α)) := MultiArray3.reshape reconstruct.shape 0
  let st ← forFromTo 0 band (base_tmp, tmp) fun l st =>
    forFromTo (-1) 1 st fun k st =>
      forFromTo (-(l + k)) (l + k) st fun m st => do
        let base_tmp ← sphereVecHarmonic E st.1 radius gauss l k m
        let tmp ← vecAccumulate
          (do
            let entry ← vecGet VH_A l
            let row ← vecGet entry (k + 1)
            vecGet row ((l + k) + m))
          st.2 base_tmp
        pure (base_tmp, tmp)
  pure (reconstruct, st.2)

/-- `reconstVH`. -/
def reconstVH (E : Externals α) (radius gauss : α) (band : Nat)
    (VH_A : List (List (List (FFTWComplex α)))) :
    Except Fault (MultiArray3 (TinyVector3 α)) := do
  let st ← reconstVHAccumulate E radius gauss band VH_A
  realVecDirections E st.1 st.2

/-- The part of `reconstVPH` before its last loop. The calls are
`sphereVecHarmonic(base_tmp, radius, 1, 0, 0, 0)` and, in the loops,
`sphereVecHarmonic(base_tmp, radius, n, l, k, m)`: the radial index `n` is
passed where the generator takes the width `gauss`. -/
def reconstVPHAccumulate (E : Externals α) (radius : α) (band : Nat)
    (VPH_A : List (List (List (List (FFTWComplex α))))) :
    Except Fault (MultiArray3 (TinyVector3 α) × MultiArray3 (TinyVector3 (FFTWComplex α))) := do
  let base_tmp ← sphereVecHarmonic E MultiArray3.empty radius 1 0 0 0
  let reconstruct : MultiArray3 (TinyVector3 α) := MultiArray3.reshape base_tmp.shape 0
  let tmp : MultiArray3 (TinyVector3 (FFTWComplex α)) := MultiArray3.reshape reconstruct.shape 0
  let st ← forFromTo 1 band (base_tmp, tmp) fun n st =>
    forFromTo 0 band st fun l st =>
      forFromTo (-1) 1 st fun k st =>
        forFromTo (-(l + k)) (l + k) st fun m st => do
          let base_tmp ← sphereVecHarmonic E st.1 radius (n : α) l k m
          let tmp ← vecAccumulate
            (do
              let e ← vecGet VPH_A n
              let entry ← vecGet e l
              let row ← vecGet entry (k + 1)
              vecGet row ((l + k) + m))
            st.2 base_tmp
          pure (base_tmp, tmp)
  pure (reconstruct, st.2)

/-- `reconstVPH`. -/
def reconstVPH (E : Externals α) (radius : α) (band : Nat)
    (VPH_A : List (List (List (List (FFTWComplex α))))) :
    Except Fault (MultiArray3 (TinyVector3 α)) := do
  let st ← reconstVPHAccumulate E radius band VPH_A
  realVecDirections E st.1 st.2

/-! ## Runs on related inputs -/

/-- Three runs agree: all three fail with the same fault, or all three return
and their results are related by `Rel`. -/
def Agree3 {σ : Type} (Rel : σ → σ → σ → Prop) (x1 x2 x3 : Except Fault σ) : Prop :=
  (∃ e, x1 = .error e ∧ x2 = .error e ∧ x3 = .error e) ∨
  (∃ t1 t2 t3, x1 = .ok t1 ∧ x2 = .ok t2 ∧ x3 = .ok t3 ∧ Rel t1 t2 t3)

/-- Three arrays of one shape, the third the voxel-wise sum of the first two. -/
def SumOf (R1 R2 R3 : MultiArray3 α) : Prop :=
  R1.shape = R3.shape ∧ R2.shape = R3.shape ∧
    ∀ z y x, R3.data z y x = R1.data z y x + R2.data z y x

end Operators

/-- A field of shape `(1,1,3)` with values 1, 2, 3 along the last axis. -/
def flipField : MultiArray3 ℚ :=
  MultiArray3.tabulate ⟨1, 1, 3⟩ fun _ _ x => (x : ℚ) + 1

/-- A kernel of shape `(1,1,3)` that is 1 at its first voxel and 0 elsewhere. -/
def flipKernel : MultiArray3 (FFTWComplex ℚ) :=
  MultiArray3.tabulate ⟨1, 1, 3⟩ fun _ _ x => if x = 0 then ⟨1, 0⟩ else 0

/-- A complex field of shape `(1,1,3)` with values 1, 2, 3 along the last axis. -/
def flipFieldC : MultiArray3 (FFTWComplex ℚ) :=
  MultiArray3.tabulate ⟨1, 1, 3⟩ fun _ _ x => ⟨(x : ℚ) + 1, 0⟩

/-- A kernel of shape `(1,1,3)` that is 1 at every voxel. -/
def onesKernel : MultiArray3 (FFTWComplex ℚ) := MultiArray3.reshape ⟨1, 1, 3⟩ ⟨1, 0⟩

/-- A kernel of one voxel. -/
def voxelKernel (c : FFTWComplex ℚ) : MultiArray3 (FFTWComplex ℚ) :=
  MultiArray3.reshape ⟨1, 1, 1⟩ c

/-! # Theorems -/

/-! ## Complex numbers -/

namespace FFTWComplex

variable {α : Type}

@[simp] theorem zero_re [Zero α] : (0 : FFTWComplex α).re = 0 := rfl
@[simp] theorem zero_im [Zero α] : (0 : FFTWComplex α).im = 0 := rfl
@[simp] theorem add_re [Add α] (a b : FFTWComplex α) : (a + b).re = a.re + b.re := rfl
@[simp] theorem add_im [Add α] (a b : FFTWComplex α) : (a + b).im = a.im + b.im := rfl
@[simp] theorem mul_re [Add α] [Sub α] [Mul α] (a b : FFTWComplex α) :
    (a * b).re = a.re * b.re - a.im * b.im := rfl
@[simp] theorem mul_im [Add α] [Sub α] [Mul α] (a b : FFTWComplex α) :
    (a * b).im = a.re * b.im + a.im * b.re := rfl
@[simp] theorem smul_re [Mul α] (a : α) (c : FFTWComplex α) : (a • c).re = a * c.re := rfl
@[simp] theorem smul_im [Mul α] (a : α) (c : FFTWComplex α) : (a • c).im = a * c.im := rfl
@[simp] theorem conj_re [Neg α] (c : FFTWComplex α) : (conj c).re = c.re := rfl
@[simp] theorem conj_im [Neg α] (c : FFTWComplex α) : (conj c).im = -c.im := rfl

theorem eq_iff (a b : FFTWComplex α) : a = b ↔ a.re = b.re ∧ a.im = b.im := by
  cases a; cases b; simp

end FFTWComplex


/-! ## Loops -/

theorem ok_bind {σ τ : Type} (a : σ) (f : σ → Except Fault τ) :
    ((Except.ok a : Except Fault σ) >>= f) = f a := rfl

theorem error_bind {σ τ : Type} (e : Fault) (f : σ → Except Fault τ) :
    ((Except.error e : Except Fault σ) >>= f) = .error e := rfl

theorem foldl_range_inv {σ : Type} (P : Nat → σ → Prop) (n : Nat) (init : σ) (f : σ → Nat → σ)
    (h0 : P 0 init) (hs : ∀ i st, i < n → P i st → P (i + 1) (f st i)) :
    P n ((List.range n).foldl f init) := by
  induction n with
  | zero => simpa using h0
  | succ k ih =>
    rw [List.range_succ, List.foldl_append]
    simp only [List.foldl_cons, List.foldl_nil]
    exact hs k _ (Nat.lt_succ_self k)
      (ih (fun i st hi hP => hs i st (Nat.lt_succ_of_lt hi) hP))

theorem loopM_eq_ok {σ : Type} (count : Nat) (init : σ) (body : Nat → σ → Except Fault σ)
    (pbody : Nat → σ → σ) (h : ∀ i st, i < count → body i st = .ok (pbody i st)) :
    loopM count init body = .ok ((List.range count).foldl (fun st i => pbody i st) init) := by
  induction count with
  | zero => rfl
  | succ k ih =>
    have hk := ih (fun i st hi => h i st (Nat.lt_succ_of_lt hi))
    unfold loopM at hk ⊢
    rw [List.range_succ, List.foldlM_append, hk, List.foldl_append]
    simp only [List.foldlM_cons, List.foldlM_nil, List.foldl_cons, List.foldl_nil]
    show (body k _ >>= fun st => pure st) = _
    rw [h k _ (Nat.lt_succ_self k)]
    rfl

theorem loopM_inv {σ : Type} (P : Nat → σ → Prop) (count : Nat) (init : σ)
    (body : Nat → σ → Except Fault σ) (h0 : P 0 init)
    (hs : ∀ i st, i < count → P i st → ∃ st', body i st = .ok st' ∧ P (i + 1) st') :
    ∃ st, loopM count init body = .ok st ∧ P count st := by
  induction count with
  | zero => exact ⟨init, rfl, h0⟩
  | succ k ih =>
    obtain ⟨st, hst, hP⟩ := ih (fun i st hi hP => hs i st (Nat.lt_succ_of_lt hi) hP)
    obtain ⟨st', hb, hP'⟩ := hs k st (Nat.lt_succ_self k) hP
    refine ⟨st', ?_, hP'⟩
    unfold loopM at hst ⊢
    rw [List.range_succ, List.foldlM_append, hst]
    simp only [List.foldlM_cons, List.foldlM_nil]
    show (body k st >>= fun st => pure st) = _
    rw [hb]
    rfl

/-! ## Loops that assign the voxels of an array -/

theorem forVoxelsM_eq_ok {σ : Type} (s : Shape3) (init : σ)
    (body : Int → Int → Int → σ → Except Fault σ) (pbody : Int → Int → Int → σ → σ)
    (h : ∀ (i0 i1 i2 : Nat) (st : σ), i0 < s.v0.toNat → i1 < s.v1.toNat → i2 < s.v2.toNat →
      body i0 i1 i2 st = .ok (pbody i0 i1 i2 st)) :
    forVoxelsM s init body = .ok (forVoxels s init pbody) := by
  unfold forVoxelsM forVoxels forUpTo
  apply loopM_eq_ok
  intro i0 st h0
  apply loopM_eq_ok
  intro i1 st h1
  apply loopM_eq_ok
  intro i2 st h2
  exact h i0 i1 i2 st h0 h1 h2

theorem loopM_succ {σ : Type} (k : Nat) (init : σ) (body : Nat → σ → Except Fault σ) :
    loopM (k + 1) init body = (loopM k init body >>= fun st => body k st) := by
  unfold loopM
  rw [List.range_succ, List.foldlM_append]
  congr 1
  funext st
  simp only [List.foldlM_cons, List.foldlM_nil]
  show (body k st >>= fun st => pure st) = _
  exact bind_pure _

theorem loopM_fail_at {σ : Type} (k : Nat) (init st : σ) (body : Nat → σ → Except Fault σ)
    (e : Fault) (hk : loopM k init body = .ok st) (hb : body k st = .error e) :
    loopM (k + 1) init body = .error e := by
  rw [loopM_succ, hk]
  exact hb

theorem loopM_first_fail {σ : Type} (count : Nat) (init : σ)
    (body : Nat → σ → Except Fault σ) (e : Fault) (hc : 0 < count)
    (hb : body 0 init = .error e) : loopM count init body = .error e := by
  obtain ⟨k, rfl⟩ : ∃ k, count = k + 1 := ⟨count - 1, by omega⟩
  unfold loopM
  rw [List.range_succ_eq_map, List.foldlM_cons, hb]
  rfl



theorem foldl_region {T : Type} (s : Shape3) (g : Int → Int → Int → T)
    (C : Nat → Int → Int → Int → Prop) (n : Nat) (op : Nat → MultiArray3 T → MultiArray3 T)
    (hop : ∀ k st, k < n → st.shape = s → (op k st).shape = s ∧
      ∀ j0 j1 j2, (C k j0 j1 j2 → (op k st).data j0 j1 j2 = g j0 j1 j2) ∧
        (¬ C k j0 j1 j2 → (op k st).data j0 j1 j2 = st.data j0 j1 j2))
    (A : MultiArray3 T) (hA : A.shape = s) :
    ((List.range n).foldl (fun st k => op k st) A).shape = s ∧
    ∀ j0 j1 j2,
      ((∃ k, k < n ∧ C k j0 j1 j2) →
        ((List.range n).foldl (fun st k => op k st) A).data j0 j1 j2 = g j0 j1 j2) ∧
      ((¬ ∃ k, k < n ∧ C k j0 j1 j2) →
        ((List.range n).foldl (fun st k => op k st) A).data j0 j1 j2 = A.data j0 j1 j2) := by
  refine foldl_range_inv
    (fun m st => st.shape = s ∧ ∀ j0 j1 j2,
      ((∃ k, k < m ∧ C k j0 j1 j2) → st.data j0 j1 j2 = g j0 j1 j2) ∧
      ((¬ ∃ k, k < m ∧ C k j0 j1 j2) → st.data j0 j1 j2 = A.data j0 j1 j2))
    n A (fun st k => op k st) ?_ ?_
  · refine ⟨hA, fun j0 j1 j2 => ⟨?_, fun _ => rfl⟩⟩
    rintro ⟨k, hk, _⟩
    exact absurd hk (Nat.not_lt_zero k)
  · intro m st hm hP
    obtain ⟨hshape, hdata⟩ := hP
    obtain ⟨hshape', hop'⟩ := hop m st hm hshape
    refine ⟨hshape', fun j0 j1 j2 => ?_⟩
    by_cases hC : C m j0 j1 j2
    · refine ⟨fun _ => (hop' j0 j1 j2).1 hC, fun hno => ?_⟩
      exact absurd ⟨m, Nat.lt_succ_self m, hC⟩ hno
    · rw [(hop' j0 j1 j2).2 hC]
      constructor
      · rintro ⟨k, hk, hCk⟩
        have hkm : k < m := by
          rcases Nat.lt_succ_iff_lt_or_eq.mp hk with h | h
          · exact h
          · exact absurd (h ▸ hCk) hC
        exact (hdata j0 j1 j2).1 ⟨k, hkm, hCk⟩
      · intro hno
        exact (hdata j0 j1 j2).2 (fun ⟨k, hk, hCk⟩ => hno ⟨k, Nat.lt_succ_of_lt hk, hCk⟩)

theorem forVoxels_set {T : Type} (s : Shape3) (g : Int → Int → Int → T) (A : MultiArray3 T)
    (hA : A.shape = s) :
    (forVoxels s A (fun i0 i1 i2 st => st.set i0 i1 i2 (g i0 i1 i2))).shape = s ∧
    ∀ j0 j1 j2,
      (MultiArray3.inShape s j0 j1 j2 →
        (forVoxels s A (fun i0 i1 i2 st => st.set i0 i1 i2 (g i0 i1 i2))).data j0 j1 j2
          = g j0 j1 j2) ∧
      (¬ MultiArray3.inShape s j0 j1 j2 →
        (forVoxels s A (fun i0 i1 i2 st => st.set i0 i1 i2 (g i0 i1 i2))).data j0 j1 j2
          = A.data j0 j1 j2) := by
  have inner : ∀ (i0 i1 : Nat), i0 < s.v0.toNat → i1 < s.v1.toNat →
      ∀ (k : Nat) (st : MultiArray3 T), k < s.v2.toNat → st.shape = s →
      (st.set (i0 : Int) (i1 : Int) (k : Int) (g i0 i1 k)).shape = s ∧
      ∀ j0 j1 j2,
        ((j0 = (i0 : Int) ∧ j1 = (i1 : Int) ∧ j2 = (k : Int)) →
          (st.set (i0 : Int) (i1 : Int) (k : Int) (g i0 i1 k)).data j0 j1 j2 = g j0 j1 j2) ∧
        (¬ (j0 = (i0 : Int) ∧ j1 = (i1 : Int) ∧ j2 = (k : Int)) →
          (st.set (i0 : Int) (i1 : Int) (k : Int) (g i0 i1 k)).data j0 j1 j2
            = st.data j0 j1 j2) := by
    intro i0 i1 h0 h1 k st hk hst
    refine ⟨hst, fun j0 j1 j2 => ⟨?_, ?_⟩⟩
    · rintro ⟨rfl, rfl, rfl⟩
      have hin : MultiArray3.inShape st.shape (i0 : Int) (i1 : Int) (k : Int) := by
        rw [hst]; unfold MultiArray3.inShape; omega
      simp [MultiArray3.set, hin]
    · intro hne
      simp only [MultiArray3.set]
      rw [if_neg]
      exact fun h => hne h.2
  have middle := fun (i0 : Nat) (h0 : i0 < s.v0.toNat) (i1 : Nat) (st : MultiArray3 T)
      (h1 : i1 < s.v1.toNat) (hst : st.shape = s) =>
    foldl_region s g (fun (k : Nat) j0 j1 j2 => j0 = (i0 : Int) ∧ j1 = (i1 : Int) ∧ j2 = (k : Int))
      s.v2.toNat (fun (k : Nat) (st : MultiArray3 T) => st.set (i0 : Int) (i1 : Int) (k : Int) (g i0 i1 k))
      (inner i0 i1 h0 h1) st hst
  have outer := fun (i0 : Nat) (st : MultiArray3 T) (h0 : i0 < s.v0.toNat)
      (hst : st.shape = s) =>
    foldl_region s g
      (fun (i1 : Nat) j0 j1 j2 => ∃ k : Nat, k < s.v2.toNat ∧ (j0 = (i0 : Int) ∧ j1 = (i1 : Int) ∧ j2 = (k : Int)))
      s.v1.toNat
      (fun (i1 : Nat) (st : MultiArray3 T) => (List.range s.v2.toNat).foldl
        (fun (st : MultiArray3 T) (k : Nat) => st.set (i0 : Int) (i1 : Int) (k : Int) (g i0 i1 k)) st)
      (fun i1 st h1 hst => middle i0 h0 i1 st h1 hst) st hst
  have all := foldl_region s g
      (fun (i0 : Nat) j0 j1 j2 => ∃ i1 : Nat, i1 < s.v1.toNat ∧ ∃ k : Nat, k < s.v2.toNat ∧
        (j0 = (i0 : Int) ∧ j1 = (i1 : Int) ∧ j2 = (k : Int)))
      s.v0.toNat
      (fun (i0 : Nat) (st : MultiArray3 T) => (List.range s.v1.toNat).foldl
        (fun (st : MultiArray3 T) (i1 : Nat) => (List.range s.v2.toNat).foldl
          (fun (st : MultiArray3 T) (k : Nat) => st.set (i0 : Int) (i1 : Int) (k : Int) (g i0 i1 k)) st) st)
      (fun i0 st h0 hst => outer i0 st h0 hst) A hA
  have hiff : ∀ j0 j1 j2 : Int, MultiArray3.inShape s j0 j1 j2 ↔
      ∃ i0 : Nat, i0 < s.v0.toNat ∧ ∃ i1 : Nat, i1 < s.v1.toNat ∧ ∃ k : Nat, k < s.v2.toNat ∧
        (j0 = (i0 : Int) ∧ j1 = (i1 : Int) ∧ j2 = (k : Int)) := by
    intro j0 j1 j2
    unfold MultiArray3.inShape
    constructor
    · rintro ⟨⟨a, b⟩, ⟨c, d⟩, ⟨e, f⟩⟩
      exact ⟨j0.toNat, by omega, j1.toNat, by omega, j2.toNat, by omega, by omega, by omega,
        by omega⟩
    · rintro ⟨i0, h0, i1, h1, k, h2, rfl, rfl, rfl⟩
      omega
  unfold forVoxels forUpTo
  refine ⟨all.1, fun j0 j1 j2 => ⟨fun h => ?_, fun h => ?_⟩⟩
  · exact (all.2 j0 j1 j2).1 ((hiff j0 j1 j2).1 h)
  · exact (all.2 j0 j1 j2).2 (fun h' => h ((hiff j0 j1 j2).2 h'))

theorem forVoxels_set_reshape {T : Type} [Zero T] (s : Shape3) (g : Int → Int → Int → T) :
    forVoxels s (MultiArray3.reshape s 0) (fun i0 i1 i2 st => st.set i0 i1 i2 (g i0 i1 i2))
      = MultiArray3.tabulate s g := by
  obtain ⟨hshape, hdata⟩ := forVoxels_set s g (MultiArray3.reshape s (0 : T)) rfl
  generalize forVoxels s (MultiArray3.reshape s (0 : T))
    (fun i0 i1 i2 st => st.set i0 i1 i2 (g i0 i1 i2)) = R at hshape hdata
  obtain ⟨Rs, Rd⟩ := R
  simp only at hshape hdata
  subst hshape
  unfold MultiArray3.tabulate
  congr 1
  funext j0 j1 j2
  by_cases h : MultiArray3.inShape Rs j0 j1 j2
  · rw [(hdata j0 j1 j2).1 h, if_pos h]
  · rw [(hdata j0 j1 j2).2 h, if_neg h]
    simp [MultiArray3.reshape]

/-! ## `std::vector` -/

theorem length_vecResize {T : Type} [Inhabited T] (v : List T) (n : Nat) :
    (vecResize v n).length = n := by
  unfold vecResize
  rw [List.length_append, List.length_take, List.length_replicate]
  omega

theorem vecGet_ok {T : Type} (v : List T) (i : Int) (x : T) (h0 : 0 ≤ i)
    (h : v[i.toNat]? = some x) : vecGet v i = .ok x := by
  unfold vecGet
  rw [if_pos h0, h]

theorem vecSet_ok {T : Type} (v : List T) (i : Int) (x : T) (h0 : 0 ≤ i)
    (h : i < v.length) : vecSet v i x = .ok (v.set i.toNat x) := by
  unfold vecSet
  rw [if_pos ⟨h0, h⟩]

theorem vecModify_ok {T : Type} (v : List T) (i : Int) (f : T → Except Fault T) (x y : T)
    (h0 : 0 ≤ i) (h : v[i.toNat]? = some x) (hf : f x = .ok y) :
    vecModify v i f = .ok (v.set i.toNat y) := by
  have hlt : i < v.length := by
    have := (List.getElem?_eq_some.mp h).1
    omega
  unfold vecModify
  rw [vecGet_ok v i x h0 h]
  show (f x >>= fun y => vecSet v i y) = _
  rw [hf]
  exact vecSet_ok v i y h0 hlt

theorem vecModify_const {T : Type} (v : List T) (i : Int) (f : T → Except Fault T) (y : T)
    (h0 : 0 ≤ i) (h : i < v.length) (hf : ∀ x, f x = .ok y) :
    vecModify v i f = .ok (v.set i.toNat y) := by
  have hlt : i.toNat < v.length := by omega
  exact vecModify_ok v i f v[i.toNat] y h0 (List.getElem?_eq_getElem hlt) (hf _)

theorem forFromTo_set_each {T : Type} (lo hi off : Int) (v : List T)
    (body : Int → List T → Except Fault (List T)) (h : Int → T)
    (hb : ∀ i st, lo ≤ i → i ≤ hi → st.length = v.length →
      body i st = .ok (st.set (i + off).toNat (h i)))
    (h0 : 0 ≤ lo + off) :
    ∃ r, forFromTo lo hi v body = .ok r ∧ r.length = v.length ∧
      ∀ j : Nat, r[j]? =
        if (lo + off ≤ (j : Int) ∧ (j : Int) ≤ hi + off) ∧ j < v.length then some (h ((j : Int) - off))
        else v[j]? := by
  unfold forFromTo
  obtain ⟨r, hr, hlen, hP⟩ := loopM_inv
    (fun k st => st.length = v.length ∧ ∀ j : Nat, st[j]? =
      if (lo + off ≤ (j : Int) ∧ (j : Int) < lo + off + k) ∧ j < v.length
        then some (h ((j : Int) - off)) else v[j]?)
    (hi + 1 - lo).toNat v (fun i st => body (lo + (i : Int)) st)
    ⟨rfl, fun j => by rw [if_neg]; omega⟩
    (by
      intro k st hk hP
      obtain ⟨hlen, hP⟩ := hP
      refine ⟨_, hb (lo + k) st (by omega) (by omega) hlen, ?_, ?_⟩
      · rw [List.length_set]; exact hlen
      · intro j
        rw [List.getElem?_set, hP j]
        by_cases hj : (lo + (k : Int) + off).toNat = j
        · rw [if_pos hj]
          by_cases hjl : j < v.length
          · have e : (j : Int) - off = lo + k := by omega
            rw [if_pos (by omega), if_pos (by constructor <;> omega), e]
          · rw [if_neg (by omega), if_neg (by omega)]
            exact (List.getElem?_eq_none (by omega)).symm
        · rw [if_neg hj]
          by_cases hc : (lo + off ≤ (j : Int) ∧ (j : Int) < lo + off + k) ∧ j < v.length
          · rw [if_pos hc, if_pos (by constructor <;> omega)]
          · rw [if_neg hc, if_neg (by omega)])
  refine ⟨r, hr, hlen, fun j => ?_⟩
  rw [hP j]
  by_cases hc : (lo + off ≤ (j : Int) ∧ (j : Int) ≤ hi + off) ∧ j < v.length
  · rw [if_pos hc, if_pos (by constructor <;> omega)]
  · rw [if_neg hc, if_neg (by omega)]

theorem forFromTo_fill {T : Type} (lo hi off : Int) (v : List T)
    (body : Int → List T → Except Fault (List T)) (h : Int → T)
    (hb : ∀ i st, lo ≤ i → i ≤ hi → st.length = v.length →
      body i st = .ok (st.set (i + off).toNat (h i)))
    (h0 : lo + off = 0) (hlen : (v.length : Int) = hi + 1 - lo) :
    forFromTo lo hi v body = .ok ((List.range v.length).map fun (j : Nat) => h ((j : Int) - off)) := by
  obtain ⟨r, hr, hl, hP⟩ := forFromTo_set_each lo hi off v body h hb (by omega)
  rw [hr]
  congr 1
  apply List.ext_getElem?
  intro j
  rw [hP j, List.getElem?_map]
  by_cases hj : j < v.length
  · rw [if_pos (by constructor <;> omega), List.getElem?_range hj]
    rfl
  · rw [if_neg (by omega), List.getElem?_eq_none (by omega), List.getElem?_eq_none (by simpa using hj)]
    rfl

theorem loopM_cases {σ : Type} (P : Nat → σ → Prop) (Q : Fault → Prop) (count : Nat)
    (init : σ) (body : Nat → σ → Except Fault σ) (h0 : P 0 init)
    (hs : ∀ i st, i < count → P i st →
      (∀ st', body i st = .ok st' → P (i + 1) st') ∧ (∀ e, body i st = .error e → Q e)) :
    (∀ r, loopM count init body = .ok r → P count r) ∧
    (∀ e, loopM count init body = .error e → Q e) := by
  induction count with
  | zero =>
    constructor
    · intro r h
      have hr : init = r := by
        have h' : (Except.ok init : Except Fault σ) = .ok r := h
        injection h'
      rw [← hr]
      exact h0
    · intro e h
      have h' : (Except.ok init : Except Fault σ) = .error e := h
      cases h'
  | succ k ih =>
    obtain ⟨ihok, iherr⟩ := ih (fun i st hi hP => hs i st (Nat.lt_succ_of_lt hi) hP)
    rw [loopM_succ]
    cases hk : loopM k init body with
    | ok st =>
      rw [ok_bind]
      exact hs k st (Nat.lt_succ_self k) (ihok st hk)
    | error e0 =>
      rw [error_bind]
      constructor
      · intro r h
        cases h
      · intro e h
        injection h with h
        rw [← h]
        exact iherr e0 hk

theorem loopM_slots {T : Type} (R : Nat → T → Prop) (Q : Fault → Prop) (count n : Nat)
    (v : List T) (body : Nat → List T → Except Fault (List T)) (hv : v.length = n)
    (hs : ∀ i st, i < count → st.length = n →
      (∀ st', body i st = .ok st' → ∃ y, st' = st.set i y ∧ i < n ∧ R i y) ∧
      (∀ e, body i st = .error e → Q e)) :
    (∀ r, loopM count v body = .ok r →
      r.length = n ∧ ∀ i, i < count → ∃ y, r[i]? = some y ∧ R i y) ∧
    (∀ e, loopM count v body = .error e → Q e) := by
  refine loopM_cases
    (fun k st => st.length = n ∧ ∀ i, i < k → ∃ y, st[i]? = some y ∧ R i y) Q count v body
    ⟨hv, fun i hi => absurd hi (Nat.not_lt_zero i)⟩ ?_
  intro k st hk hP
  obtain ⟨hlen, hP⟩ := hP
  obtain ⟨hok, herr⟩ := hs k st hk hlen
  refine ⟨fun st' hst' => ?_, herr⟩
  obtain ⟨y, rfl, hkn, hR⟩ := hok st' hst'
  refine ⟨by rw [List.length_set]; exact hlen, fun i hi => ?_⟩
  rw [List.getElem?_set]
  by_cases hik : k = i
  · subst hik
    rw [if_pos rfl, if_pos (by omega)]
    exact ⟨y, rfl, hR⟩
  · rw [if_neg hik]
    exact hP i (by omega)

theorem vecModify_cases {T : Type} (v : List T) (i : Int) (f : T → Except Fault T) :
    (∀ r, vecModify v i f = .ok r →
      ∃ x y, f x = .ok y ∧ r = v.set i.toNat y ∧ 0 ≤ i ∧ i < v.length) ∧
    (∀ e, vecModify v i f = .error e → e = .undefinedBehaviour ∨ ∃ x, f x = .error e) := by
  unfold vecModify vecGet
  by_cases h0 : 0 ≤ i
  · rw [if_pos h0]
    cases hx : v[i.toNat]? with
    | none =>
      simp only [error_bind]
      constructor
      · intro r h
        cases h
      · intro e h
        injection h with h
        exact Or.inl h.symm
    | some x =>
      have hlt : i < v.length := by
        have := (List.getElem?_eq_some.mp hx).1
        omega
      simp only [ok_bind]
      cases hy : f x with
      | error e0 =>
        simp only [error_bind]
        constructor
        · intro r h
          cases h
        · intro e h
          injection h with h
          exact Or.inr ⟨x, by rw [hy, h]⟩
      | ok y =>
        simp only [ok_bind]
        rw [vecSet_ok v i y h0 hlt]
        constructor
        · intro r h
          injection h with h
          exact ⟨x, y, hy, h.symm, h0, hlt⟩
        · intro e h
          cases h
  · rw [if_neg h0]
    simp only [error_bind]
    constructor
    · intro r h
      cases h
    · intro e h
      injection h with h
      exact Or.inl h.symm

section GeneratorTheorems

variable {α : Type} [LinearOrderedField α] [FloorRing α]

/-- The row variable `y_um` one column further: the guard of column `k` has
acted on it. -/
theorem surfRowY_succ (radius gauss : α) (voxelSize : TinyVector3 α) (r : Int) (k : Nat) :
    surfRowY radius gauss voxelSize r ((k + 1 : Nat) : Int) =
      surfGuardedY (surfRowY radius gauss voxelSize r (k : Int))
        (voxelOffset (k : Int) (surfIntRadius radius gauss voxelSize.v2) voxelSize.v2) := by
  unfold surfRowY forUpTo
  rw [Int.toNat_ofNat, Int.toNat_ofNat, List.range_succ, List.foldl_append]
  rfl

/-- The column loop of `sphereSurfHarmonic` on a row: the output array gets the
value of every voxel of the row, and the row variable `y_um` ends as the next
column would find it. -/
theorem surfColumnLoop (E : Externals α) (radius gauss : α) (l m : Int) (full : Bool)
    (voxelSize : TinyVector3 α) (s r : Int) (n : Int) (A : MultiArray3 (FFTWComplex α)) :
    (forUpTo n (A, voxelOffset r (surfIntRadius radius gauss voxelSize.v1) voxelSize.v1)
      fun c st => surfColumnBody E radius gauss l m full voxelSize s r c st).1 =
    forUpTo n A fun c st => st.set s r c (surfVoxel E radius gauss l m full voxelSize s r c) := by
  unfold forUpTo
  have h : ∀ k : Nat,
      (List.range k).foldl (fun st (i : Nat) =>
        surfColumnBody E radius gauss l m full voxelSize s r (i : Int) st)
        (A, voxelOffset r (surfIntRadius radius gauss voxelSize.v1) voxelSize.v1) =
      ((List.range k).foldl (fun st (i : Nat) =>
          st.set s r (i : Int) (surfVoxel E radius gauss l m full voxelSize s r (i : Int))) A,
        surfRowY radius gauss voxelSize r (k : Int)) := by
    intro k
    induction k with
    | zero => rfl
    | succ k ih =>
      rw [List.range_succ, List.foldl_append, List.foldl_append, ih, surfRowY_succ]
      rfl
  rw [h]

theorem sphereSurfHarmonic_eq_tabulate (E : Externals α) (radius gauss : α) (l m : Int)
    (full : Bool) (voxelSize : TinyVector3 α) :
    sphereSurfHarmonic E radius gauss l m full voxelSize =
      MultiArray3.tabulate (surfShape radius gauss voxelSize)
        (surfVoxel E radius gauss l m full voxelSize) := by
  rw [← forVoxels_set_reshape]
  unfold sphereSurfHarmonic forVoxels
  simp only [surfColumnLoop]

theorem clampGauss_eq_max (w : α) : clampGauss w = max w 1 := by
  unfold clampGauss
  split_ifs with h
  · exact (max_eq_right h).symm
  · exact (max_eq_left (le_of_lt (not_le.mp h))).symm

theorem surfIntRadius_eq (radius w vs : α) :
    surfIntRadius radius w vs = ⌈radius / vs + 3 * max w 1⌉ := by
  unfold surfIntRadius
  rw [clampGauss_eq_max, mul_comm]

theorem surfIntRadius_nonneg (radius w vs : α) (hr : 0 ≤ radius) (hvs : 0 < vs) :
    0 ≤ surfIntRadius radius w vs := by
  rw [surfIntRadius_eq]
  apply Int.ceil_nonneg
  have h1 : (0 : α) ≤ radius / vs := div_nonneg hr (le_of_lt hvs)
  have h2 : (0 : α) ≤ max w 1 := le_trans zero_le_one (le_max_right w 1)
  positivity

/-- C4. For every radius ≥ 0, smoothing width `w`, positive voxel spacing and
every `(l, m, full)`, the kernel of `sphereSurfHarmonic` has extent
`2*ceil(radius/spacing_a + 3*max(w,1)) + 1` along each axis `a`, the same for
all `(l, m, full)`; every extent is odd, and the voxel at index `extent/2`
(integer division) has physical offset 0 on each axis. -/
theorem sphereSurfHarmonic_shape (E : Externals α) (radius w : α) (l m : Int) (full : Bool)
    (vs : TinyVector3 α) (hr : 0 ≤ radius) (hvs : 0 < vs.v0 ∧ 0 < vs.v1 ∧ 0 < vs.v2) :
    (sphereSurfHarmonic E radius w l m full vs).shape =
        ⟨2 * ⌈radius / vs.v0 + 3 * max w 1⌉ + 1, 2 * ⌈radius / vs.v1 + 3 * max w 1⌉ + 1,
         2 * ⌈radius / vs.v2 + 3 * max w 1⌉ + 1⟩ ∧
    (∀ (l' m' : Int) (full' : Bool),
      (sphereSurfHarmonic E radius w l' m' full' vs).shape =
        (sphereSurfHarmonic E radius w l m full vs).shape) ∧
    ((sphereSurfHarmonic E radius w l m full vs).shape.v0 % 2 = 1 ∧
      (sphereSurfHarmonic E radius w l m full vs).shape.v1 % 2 = 1 ∧
      (sphereSurfHarmonic E radius w l m full vs).shape.v2 % 2 = 1) ∧
    (voxelOffset ((sphereSurfHarmonic E radius w l m full vs).shape.v0.tdiv 2)
        (surfIntRadius radius w vs.v0) vs.v0 = 0 ∧
      voxelOffset ((sphereSurfHarmonic E radius w l m full vs).shape.v1.tdiv 2)
        (surfIntRadius radius w vs.v1) vs.v1 = 0 ∧
      voxelOffset ((sphereSurfHarmonic E radius w l m full vs).shape.v2.tdiv 2)
        (surfIntRadius radius w vs.v2) vs.v2 = 0) := by
  have hshape : ∀ (l' m' : Int) (full' : Bool),
      (sphereSurfHarmonic E radius w l' m' full' vs).shape = surfShape radius w vs := by
    intro l' m' full'
    rw [sphereSurfHarmonic_eq_tabulate]
    rfl
  have h0 := surfIntRadius_nonneg radius w vs.v0 hr hvs.1
  have h1 := surfIntRadius_nonneg radius w vs.v1 hr hvs.2.1
  have h2 := surfIntRadius_nonneg radius w vs.v2 hr hvs.2.2
  have hmid : ∀ k : Int, 0 ≤ k → (k * 2 + 1).tdiv 2 = k := by
    intro k hk
    rw [Int.tdiv_eq_ediv (by omega) (by omega)]
    omega
  refine ⟨?_, ?_, ?_, ?_⟩
  · rw [hshape]
    unfold surfShape
    rw [surfIntRadius_eq, surfIntRadius_eq, surfIntRadius_eq]
    simp only [mul_comm]
  · intro l' m' full'
    rw [hshape, hshape]
  · rw [hshape]
    unfold surfShape
    simp only
    omega
  · rw [hshape]
    unfold surfShape voxelOffset
    simp only
    rw [hmid _ h0, hmid _ h1, hmid _ h2]
    simp

/-- C4, at radius 5, width 2 and unit spacing: 23 voxels per axis. -/
theorem sphereSurfHarmonic_shape_witness :
    (sphereSurfHarmonic ratExternals 5 2 0 0 false ⟨1, 1, 1⟩).shape = ⟨23, 23, 23⟩ := by
  have h := (sphereSurfHarmonic_shape ratExternals 5 2 0 0 false ⟨1, 1, 1⟩ (by norm_num)
    ⟨by norm_num, by norm_num, by norm_num⟩).1
  rw [h]
  have hc : ⌈(5 : ℚ) / 1 + 3 * max 2 1⌉ = 11 := by
    rw [max_eq_left (by norm_num : (1 : ℚ) ≤ 2)]
    norm_num
  simp only [hc]
  rfl

/-- C6. For every smoothing width `w ≤ 1`, `sphereSurfHarmonic` returns exactly
the kernel it returns for `w = 1`, all other arguments being equal: the same
shape and the same value at every voxel. -/
theorem sphereSurfHarmonic_width_clamped (E : Externals α) (radius w : α) (l m : Int)
    (full : Bool) (vs : TinyVector3 α) (hw : w ≤ 1) :
    sphereSurfHarmonic E radius w l m full vs = sphereSurfHarmonic E radius 1 l m full vs := by
  have h : clampGauss w = clampGauss (1 : α) := by
    unfold clampGauss
    rw [if_pos hw, if_pos (le_refl 1)]
  rw [sphereSurfHarmonic_eq_tabulate, sphereSurfHarmonic_eq_tabulate]
  unfold surfShape surfVoxel surfDist surfSHfactor surfRowY surfSigmaFactor surfIntRadius
  rw [h]

/-- C6, at width 1/2. -/
theorem sphereSurfHarmonic_width_clamped_witness :
    sphereSurfHarmonic ratExternals 5 (1 / 2) 2 1 false ⟨1, 1, 1⟩
      = sphereSurfHarmonic ratExternals 5 1 2 1 false ⟨1, 1, 1⟩ :=
  sphereSurfHarmonic_width_clamped ratExternals 5 (1 / 2) 2 1 false ⟨1, 1, 1⟩ (by norm_num)

/-- C5 (what the code does). With `full = true`, a voxel whose distance from the
centre is at most the shell radius gets `gauss_x = 1`, so its value is the
normalized spherical-harmonic value scaled by `exp(-0.5 * 1 * 1 * sigmaFactor)`,
where `sigmaFactor = -2*log(0.5) / max(w,1)^2`. -/
theorem sphereSurfHarmonic_full_inside (E : Externals α) (radius w : α) (l m : Int)
    (vs : TinyVector3 α) (s r c : Int)
    (hin : MultiArray3.inShape (sphereSurfHarmonic E radius w l m true vs).shape s r c)
    (hd : surfDist E radius w vs s r c ≤ radius) :
    (sphereSurfHarmonic E radius w l m true vs).data s r c =
      E.exp (-(1 / 2) * 1 * 1 * (-2 * E.log (1 / 2) / (max w 1 * max w 1))) •
        surfSHfactor E radius w l m vs s r c := by
  rw [sphereSurfHarmonic_eq_tabulate] at hin ⊢
  have hin' : MultiArray3.inShape (surfShape radius w vs) s r c := hin
  simp only [MultiArray3.tabulate, if_pos hin']
  unfold surfVoxel surfGaussX surfSigmaFactor
  have hnot : ¬ (surfDist E radius w vs s r c > radius) := not_lt.mpr hd
  simp [hnot, clampGauss_eq_max]

/-- C5 (what the code does), at the centre voxel of the kernel of radius 5 and
width 1: the weight is `exp(log(0.5))`, not 1. -/
theorem sphereSurfHarmonic_full_inside_witness :
    (sphereSurfHarmonic ratExternals 5 1 0 0 true ⟨1, 1, 1⟩).data 8 8 8 =
      ratExternals.exp (-(1 / 2) * 1 * 1 * (-2 * ratExternals.log (1 / 2) / (max 1 1 * max 1 1))) •
        surfSHfactor ratExternals 5 1 0 0 ⟨1, 1, 1⟩ 8 8 8 := by
  have hs : (sphereSurfHarmonic ratExternals 5 1 0 0 true ⟨1, 1, 1⟩).shape = ⟨17, 17, 17⟩ := by
    have hc : surfIntRadius (5 : ℚ) 1 1 = 8 := by
      rw [surfIntRadius_eq, max_self]
      norm_num
    rw [sphereSurfHarmonic_eq_tabulate]
    show surfShape (5 : ℚ) 1 ⟨1, 1, 1⟩ = _
    unfold surfShape
    simp only [hc]
    rfl
  refine sphereSurfHarmonic_full_inside ratExternals 5 1 0 0 ⟨1, 1, 1⟩ 8 8 8 ?_ ?_
  · rw [hs]
    unfold MultiArray3.inShape
    decide
  · have hr : surfIntRadius (5 : ℚ) 1 1 = 8 := by
      rw [surfIntRadius_eq, max_self]
      norm_num
    unfold surfDist voxelOffset
    simp only [hr]
    norm_num [ratExternals]

end GeneratorTheorems

/-! ## Cache builders -/

section CacheTheorems

variable {α : Type} [LinearOrderedField α] [FloorRing α]

theorem besselZeroCache_length : (besselZeroCache : List α).length = 110 := rfl

theorem bessel_zero_Jnu_ok (l n : Nat) (hl : l ≤ 10) (hn : n ≤ 10) (h : n * 10 + l < 110) :
    ∃ v : α, bessel_zero_Jnu l n = .ok v := by
  have hlt : n * 10 + l < (besselZeroCache : List α).length := by
    rw [besselZeroCache_length]; exact h
  refine ⟨(besselZeroCache : List α)[n * 10 + l], ?_⟩
  unfold bessel_zero_Jnu besselIndex
  rw [if_neg (by omega), List.getElem?_eq_getElem hlt]

theorem bessel_zero_Jnu_ten_ten :
    (bessel_zero_Jnu 10 10 : Except Fault α) = .error .undefinedBehaviour := by
  have hnone : (besselZeroCache : List α)[10 * 10 + 10]? = none :=
    List.getElem?_eq_none (by rw [besselZeroCache_length])
  unfold bessel_zero_Jnu besselIndex
  rw [if_neg (by omega), hnone]

theorem bessel_zero_Jnu_throw (l n : Nat) (h : l > 10 ∨ n > 10) :
    (bessel_zero_Jnu l n : Except Fault α)
      = .error (.invariantViolation "max implemented band is 10") := by
  unfold bessel_zero_Jnu
  rw [if_pos h]

theorem bessel_zero_Jnu_read (l n : Nat) (h : ¬ (l > 10 ∨ n > 10)) :
    (bessel_zero_Jnu l n : Except Fault α) =
      match (besselZeroCache : List α)[besselIndex l n]? with
      | some v => .ok v
      | none => .error .undefinedBehaviour := by
  unfold bessel_zero_Jnu
  rw [if_neg h]

/-- C11. `bessel_zero_Jnu(l=0, n=1)` returns the decimal constant
`2.4048255576957729`, the entry at index 10 of the table. -/
theorem bessel_zero_Jnu_first_zero :
    (bessel_zero_Jnu 0 1 : Except Fault α) = .ok 2.4048255576957729 := by
  rw [bessel_zero_Jnu_read 0 1 (by omega)]
  rfl

/-- C12 (what the code does). `bessel_zero_Jnu(l, n)` throws its
`InvariantViolation` exactly when `l > 10` or `n > 10`; it returns a value
exactly when `l ≤ 10`, `n ≤ 10` and `(l, n) ≠ (10, 10)`; at `(10, 10)`, which
the guard lets through, the read `cache[110]` is outside the 110-entry table
and no value is returned. -/
theorem bessel_zero_Jnu_guard (l n : Nat) :
    ((bessel_zero_Jnu l n : Except Fault α)
        = .error (.invariantViolation "max implemented band is 10") ↔ (l > 10 ∨ n > 10)) ∧
    ((∃ v : α, bessel_zero_Jnu l n = .ok v) ↔ (l ≤ 10 ∧ n ≤ 10 ∧ ¬ (l = 10 ∧ n = 10))) ∧
    ((bessel_zero_Jnu l n : Except Fault α) = .error .undefinedBehaviour
        ↔ (l = 10 ∧ n = 10)) := by
  by_cases hg : l > 10 ∨ n > 10
  · have h := bessel_zero_Jnu_throw (α := α) l n hg
    refine ⟨⟨fun _ => hg, fun _ => h⟩, ⟨?_, ?_⟩, ⟨?_, ?_⟩⟩
    · rintro ⟨v, hv⟩
      rw [h] at hv
      cases hv
    · intro hle
      omega
    · intro hu
      rw [h] at hu
      cases hu
    · intro hten
      omega
  · by_cases hten : l = 10 ∧ n = 10
    · obtain ⟨rfl, rfl⟩ := hten
      have h := bessel_zero_Jnu_ten_ten (α := α)
      refine ⟨⟨?_, fun hc => absurd hc hg⟩, ⟨?_, ?_⟩, ⟨fun _ => ⟨rfl, rfl⟩, fun _ => h⟩⟩
      · intro he
        rw [h] at he
        cases he
      · rintro ⟨v, hv⟩
        rw [h] at hv
        cases hv
      · intro hle
        exact absurd ⟨rfl, rfl⟩ hle.2.2
    · obtain ⟨v, hv⟩ := bessel_zero_Jnu_ok (α := α) l n (by omega) (by omega) (by omega)
      refine ⟨⟨?_, fun hc => absurd hc hg⟩, ⟨fun _ => ⟨by omega, by omega, hten⟩, fun _ => ⟨v, hv⟩⟩,
        ⟨?_, fun hc => absurd hc hten⟩⟩
      · intro he
        rw [hv] at he
        cases he
      · intro he
        rw [hv] at he
        cases he

/-- C13 (what the code does). The table of `bessel_zero_Jnu` has 110 entries
and the pair `(l, n)` reads index `n*10 + l`. Among the pairs the guard
accepts, `(10, 10)` reads index 110, outside the table, and no value is
returned; every other accepted pair reads inside the table; the pairs
`(10, n)` and `(0, n+1)` read the same entry for every `n < 10`; only pairs
with `l ≤ 9` read pairwise distinct entries. -/
theorem bessel_zero_Jnu_table_index :
    (besselZeroCache : List α).length = 110 ∧
    (∀ l n : Nat, l ≤ 10 → n ≤ 10 → (bessel_zero_Jnu l n : Except Fault α) =
      match (besselZeroCache : List α)[besselIndex l n]? with
      | some v => .ok v
      | none => .error .undefinedBehaviour) ∧
    besselIndex 10 10 = 110 ∧
    (bessel_zero_Jnu 10 10 : Except Fault α) = .error .undefinedBehaviour ∧
    (∀ l n : Nat, l ≤ 10 → n ≤ 10 → (besselIndex l n < 110 ↔ ¬ (l = 10 ∧ n = 10))) ∧
    (∀ n : Nat, n < 10 → besselIndex 10 n = besselIndex 0 (n + 1)) ∧
    (∀ l n l' n' : Nat, l ≤ 9 → l' ≤ 9 →
      besselIndex l n = besselIndex l' n' → l = l' ∧ n = n') := by
  refine ⟨besselZeroCache_length, fun l n hl hn => bessel_zero_Jnu_read l n (by omega), rfl,
    bessel_zero_Jnu_ten_ten, ?_, ?_, ?_⟩
  · intro l n hl hn
    unfold besselIndex
    omega
  · intro n hn
    unfold besselIndex
    omega
  · intro l n l' n' hl hl'
    unfold besselIndex
    omega

theorem toUnsigned_of_small (i : Int) (h0 : 0 ≤ i) (h : i ≤ 10) : toUnsigned i = i.toNat := by
  unfold toUnsigned
  rw [Int.emod_eq_of_lt h0 (by omega)]

theorem surfShape_unit_eq_fullShape (radius : α) :
    surfShape radius 1 (⟨1, 1, 1⟩ : TinyVector3 α) = fullShape radius ⟨1, 1, 1⟩ := by
  unfold surfShape fullShape surfIntRadius fullIntRadius clampGauss
  simp

theorem sphereFullHarmonic_of_xnl (E : Externals α) (radius : α) (n l m : Int) (xnl : α)
    (hx : fullXnl radius n l = .ok xnl) :
    sphereFullHarmonic E radius n l m ⟨1, 1, 1⟩ =
      .ok (MultiArray3.tabulate (fullShape radius ⟨1, 1, 1⟩) fun z y x =>
        fullVoxel E radius xnl l ⟨1, 1, 1⟩ z y x
          ((sphereSurfHarmonic E radius 1 l m true ⟨1, 1, 1⟩).data z y x)) := by
  unfold sphereFullHarmonic
  simp only [hx, ok_bind]
  rw [← forVoxels_set_reshape]
  apply forVoxelsM_eq_ok
  intro i0 i1 i2 st h0 h1 h2
  have hin : MultiArray3.inShape (sphereSurfHarmonic E radius 1 l m true ⟨1, 1, 1⟩).shape
      (i0 : Int) (i1 : Int) (i2 : Int) := by
    rw [sphereSurfHarmonic_eq_tabulate]
    show MultiArray3.inShape (surfShape radius 1 ⟨1, 1, 1⟩) _ _ _
    rw [surfShape_unit_eq_fullShape]
    unfold MultiArray3.inShape
    omega
  unfold MultiArray3.get
  rw [if_pos hin]
  rfl

theorem sphereFullHarmonic_ok (E : Externals α) (radius : α) (n l m : Int) (hl0 : 0 ≤ l)
    (hl : l ≤ 10) (hn : n ≤ 10) (h : n * 10 + l < 110) :
    ∃ K, sphereFullHarmonic E radius n l m ⟨1, 1, 1⟩ = .ok K := by
  by_cases hpos : n > 0
  · obtain ⟨v, hv⟩ := bessel_zero_Jnu_ok (α := α) l.toNat n.toNat (by omega) (by omega) (by omega)
    exact ⟨_, sphereFullHarmonic_of_xnl E radius n l m v (by
      unfold fullXnl
      rw [if_pos hpos, toUnsigned_of_small l hl0 hl, toUnsigned_of_small n (by omega) hn, hv])⟩
  · exact ⟨_, sphereFullHarmonic_of_xnl E radius n l m radius (by
      unfold fullXnl
      rw [if_neg hpos])⟩

theorem sphereFullHarmonic_ten_ten (E : Externals α) (radius : α) (m : Int) :
    sphereFullHarmonic E radius 10 10 m ⟨1, 1, 1⟩ = .error .undefinedBehaviour := by
  have hx : fullXnl radius 10 10 = (.error .undefinedBehaviour : Except Fault α) := by
    unfold fullXnl
    rw [if_pos (by omega), toUnsigned_of_small 10 (by omega) (by omega)]
    exact bessel_zero_Jnu_ten_ten
  unfold sphereFullHarmonic
  simp only [hx, error_bind]

theorem okValue_ok {T : Type} [Inhabited T] (x : Except Fault T) (h : ∃ v, x = .ok v) :
    x = .ok (okValue x) := by
  obtain ⟨v, rfl⟩ := h
  rfl

theorem vecModify_fail {T : Type} (v : List T) (i : Int) (f : T → Except Fault T) (e : Fault)
    (h0 : 0 ≤ i) (h : i < v.length) (hf : ∀ x, f x = .error e) :
    vecModify v i f = .error e := by
  have hlt : i.toNat < v.length := by omega
  unfold vecModify
  rw [vecGet_ok v i v[i.toNat] h0 (List.getElem?_eq_getElem hlt), ok_bind, hf, error_bind]

/-- The row loop of `computePHbaseF` for one `(n, l)`. -/
theorem computePHbaseF_row (E : Externals α) (radius : α) (realdata : Bool) (n l : Int)
    (hl0 : 0 ≤ l) (hl : l ≤ 10) (hn : n ≤ 10) (h : n * 10 + l < 110)
    (row : List (MultiArray3 (FFTWComplex α))) :
    computePHbaseFRow E radius realdata n l row
      = .ok ((List.range (if realdata then (l + 1).toNat else (2 * l + 1).toNat)).map
          fun (j : Nat) => okValue (sphereFullHarmonic E radius n l
            ((j : Int) - (if realdata then 0 else l)) ⟨1, 1, 1⟩)) := by
  have hk : ∀ m : Int, sphereFullHarmonic E radius n l m ⟨1, 1, 1⟩
      = .ok (okValue (sphereFullHarmonic E radius n l m ⟨1, 1, 1⟩)) :=
    fun m => okValue_ok _ (sphereFullHarmonic_ok E radius n l m hl0 hl hn h)
  unfold computePHbaseFRow
  cases realdata
  · have h := forFromTo_fill (-l) l l (vecResize row (2 * l + 1).toNat)
      (fun m row => do
        let Coeff ← sphereFullHarmonic E radius n l m ⟨1, 1, 1⟩
        vecSet row (m + l) Coeff)
      (fun m => okValue (sphereFullHarmonic E radius n l m ⟨1, 1, 1⟩))
      (by
        intro i st h1 h2 hlen
        rw [length_vecResize] at hlen
        show (sphereFullHarmonic E radius n l i ⟨1, 1, 1⟩ >>= fun Coeff => vecSet st (i + l) Coeff)
          = _
        rw [hk i, ok_bind]
        exact vecSet_ok st (i + l) _ (by omega) (by omega))
      (by omega)
      (by rw [length_vecResize]; omega)
    rw [length_vecResize] at h
    simpa using h
  · have h := forFromTo_fill 0 l 0 (vecResize row (l + 1).toNat)
      (fun m row => do
        let Coeff ← sphereFullHarmonic E radius n l m ⟨1, 1, 1⟩
        vecSet row (m + 0) Coeff)
      (fun m => okValue (sphereFullHarmonic E radius n l m ⟨1, 1, 1⟩))
      (by
        intro i st h1 h2 hlen
        rw [length_vecResize] at hlen
        show (sphereFullHarmonic E radius n l i ⟨1, 1, 1⟩ >>= fun Coeff => vecSet st (i + 0) Coeff)
          = _
        rw [hk i, ok_bind]
        exact vecSet_ok st (i + 0) _ (by omega) (by omega))
      (by omega)
      (by rw [length_vecResize]; omega)
    rw [length_vecResize] at h
    simpa using h

/-- The `l` loop of `computePHbaseF` for one `n` whose table reads stay inside
the table. -/
theorem computePHbaseF_entry (E : Externals α) (radius : α) (realdata : Bool) (band : Nat)
    (n : Int) (hb : band ≤ 10) (hn : n ≤ 10) (h : n * 10 + band < 110)
    (entry : List (List (MultiArray3 (FFTWComplex α)))) :
    computePHbaseFEntry E radius band realdata n entry
      = .ok ((List.range (band + 1)).map fun (l : Nat) =>
          (List.range (if realdata then l + 1 else 2 * l + 1)).map fun (j : Nat) =>
            okValue (sphereFullHarmonic E radius n l
              ((j : Int) - (if realdata then 0 else (l : Int))) ⟨1, 1, 1⟩)) := by
  unfold computePHbaseFEntry
  have h := forFromTo_fill 0 band 0 (vecResize entry (band + 1))
    (fun l entry => vecModify entry l (computePHbaseFRow E radius realdata n l))
    (fun l => (List.range (if realdata then (l + 1).toNat else (2 * l + 1).toNat)).map
      fun (j : Nat) => okValue (sphereFullHarmonic E radius n l
        ((j : Int) - (if realdata then 0 else l)) ⟨1, 1, 1⟩))
    (by
      intro i st h1 h2 hlen
      rw [length_vecResize] at hlen
      have e : (i + 0).toNat = i.toNat := by rw [add_zero]
      rw [e]
      exact vecModify_const st i _ _ h1 (by omega)
        (fun row => computePHbaseF_row E radius realdata n i h1 (by omega) hn (by omega) row))
    (by omega)
    (by rw [length_vecResize]; omega)
  rw [length_vecResize] at h
  rw [h]
  congr 1

/-- The `m` loop of `computePHbaseF` at `(n, l) = (10, 10)` stops at its first
iteration: the table read is outside the table. -/
theorem computePHbaseF_row_ten_ten (E : Externals α) (radius : α) (realdata : Bool)
    (row : List (MultiArray3 (FFTWComplex α))) :
    computePHbaseFRow E radius realdata 10 10 row = .error .undefinedBehaviour := by
  unfold computePHbaseFRow forFromTo
  apply loopM_first_fail
  · cases realdata <;> decide
  · simp only [sphereFullHarmonic_ten_ten, error_bind]

theorem computePHbaseF_entry_ten (E : Externals α) (radius : α) (realdata : Bool)
    (entry : List (List (MultiArray3 (FFTWComplex α)))) :
    computePHbaseFEntry E radius 10 realdata 10 entry = .error .undefinedBehaviour := by
  obtain ⟨st, hst, hlen⟩ := loopM_inv (fun _ (st : List (List (MultiArray3 (FFTWComplex α)))) =>
      st.length = 11) 10 (vecResize entry 11)
    (fun i st => vecModify st (0 + (i : Int)) (computePHbaseFRow E radius realdata 10 (0 + (i : Int))))
    (length_vecResize _ _)
    (by
      intro i st hi hlen
      refine ⟨_, vecModify_const st (0 + (i : Int)) _ _ (by omega) (by omega)
        (fun row => computePHbaseF_row E radius realdata 10 (0 + (i : Int)) (by omega) (by omega)
          (by omega) (by omega) row), ?_⟩
      show (List.set _ _ _).length = 11
      rw [List.length_set]
      exact hlen)
  unfold computePHbaseFEntry forFromTo
  refine loopM_fail_at 10 _ st _ _ hst ?_
  exact vecModify_fail st _ _ _ (by omega) (by omega)
    (fun row => computePHbaseF_row_ten_ten E radius realdata row)

/-- `computePHbaseF` at band 10: the builder reaches `(n, l) = (10, 10)`, where
`bessel_zero_Jnu` reads `cache[110]`. -/
theorem computePHbaseF_band_ten (E : Externals α) (radius : α)
    (PHbaseF : List (List (List (MultiArray3 (FFTWComplex α))))) (realdata : Bool) :
    computePHbaseF E radius 10 PHbaseF realdata = .error .undefinedBehaviour := by
  obtain ⟨st, hst, hlen⟩ := loopM_inv
    (fun _ (st : List (List (List (MultiArray3 (FFTWComplex α))))) => st.length = 11) 9
    (vecResize PHbaseF 11)
    (fun i st => vecModify st (1 + (i : Int)) (computePHbaseFEntry E radius 10 realdata (1 + (i : Int))))
    (length_vecResize _ _)
    (by
      intro i st hi hlen
      refine ⟨_, vecModify_const st (1 + (i : Int)) _ _ (by omega) (by omega)
        (fun entry => computePHbaseF_entry E radius realdata 10 (1 + (i : Int)) (by omega)
          (by omega) (by omega) entry), ?_⟩
      show (List.set _ _ _).length = 11
      rw [List.length_set]
      exact hlen)
  unfold computePHbaseF forFromTo
  refine loopM_fail_at 9 _ st _ _ hst ?_
  exact vecModify_fail st _ _ _ (by omega) (by omega)
    (fun entry => computePHbaseF_entry_ten E radius realdata entry)

/-- `computePHbaseF` for a band below 10. -/
theorem computePHbaseF_ok (E : Externals α) (radius : α) (band : Nat)
    (PHbaseF : List (List (List (MultiArray3 (FFTWComplex α))))) (realdata : Bool)
    (hB : band ≤ 9) :
    ∃ cache, computePHbaseF E radius band PHbaseF realdata = .ok cache ∧
      cache.length = band + 1 ∧
      cache[0]? = (vecResize PHbaseF (band + 1))[0]? ∧
      ∀ n : Nat, 1 ≤ n → n ≤ band →
        cache[n]? = some ((List.range (band + 1)).map fun (l : Nat) =>
          (List.range (if realdata then l + 1 else 2 * l + 1)).map fun (j : Nat) =>
            okValue (sphereFullHarmonic E radius n l
              ((j : Int) - (if realdata then 0 else (l : Int))) ⟨1, 1, 1⟩)) := by
  unfold computePHbaseF
  obtain ⟨r, hr, hlen, hP⟩ := forFromTo_set_each 1 band 0 (vecResize PHbaseF (band + 1))
    (fun n PHbaseF => vecModify PHbaseF n (computePHbaseFEntry E radius band realdata n))
    (fun n => (List.range (band + 1)).map fun (l : Nat) =>
          (List.range (if realdata then l + 1 else 2 * l + 1)).map fun (j : Nat) =>
            okValue (sphereFullHarmonic E radius n l
              ((j : Int) - (if realdata then 0 else (l : Int))) ⟨1, 1, 1⟩))
    (by
      intro i st h1 h2 hlen
      rw [length_vecResize] at hlen
      have e : (i + 0).toNat = i.toNat := by rw [add_zero]
      rw [e]
      exact vecModify_const st i _ _ (by omega) (by omega)
        (fun entry => computePHbaseF_entry E radius realdata band i (by omega) (by omega)
          (by omega) entry))
    (by omega)
  rw [length_vecResize] at hlen hP
  refine ⟨r, hr, hlen, ?_, ?_⟩
  · rw [hP 0, if_neg (by omega)]
  · intro n h1 h2
    rw [hP n, if_pos (by constructor <;> omega)]
    simp only [sub_zero]

theorem vecResize_head_nil {T : Type} (v : List (List T)) (n : Nat)
    (h0 : ∀ e, v[0]? = some e → e = []) : (vecResize v (n + 1))[0]? = some [] := by
  unfold vecResize
  cases v with
  | nil => simp [List.replicate_succ]; rfl
  | cons e t =>
    have he : e = [] := h0 e (by simp)
    subst he
    simp

/-- C8 (what the code does). For every band `B ≤ 9`, `computePHbaseF` yields
`B+1` outer entries, entry 0 empty when the caller's entry 0 was, and for
`n` in `[1,B]`, `l` in `[0,B]` the entry `[n][l]` holds `l+1` kernels (order
`m` at slot `m`) with the real-data flag and `2l+1` kernels (order `m` at slot
`m+l`) without it, each the kernel `sphereFullHarmonic(radius, n, l, m)`
produces. At `B = 10`, the largest band the guard of `bessel_zero_Jnu` admits,
the builder does not return: at `(n, l) = (10, 10)` the table read
`cache[110]` is outside the 110-entry table. -/
theorem computePHbaseF_cache (E : Externals α) (radius : α) (band : Nat)
    (PHbaseF : List (List (List (MultiArray3 (FFTWComplex α))))) (realdata : Bool)
    (h0 : ∀ e, PHbaseF[0]? = some e → e = []) :
    (band ≤ 9 → ∃ cache, computePHbaseF E radius band PHbaseF realdata = .ok cache ∧
      cache.length = band + 1 ∧ cache[0]? = some [] ∧
      ∀ n l : Nat, 1 ≤ n → n ≤ band → l ≤ band →
        ∃ entry row, cache[n]? = some entry ∧ entry.length = band + 1 ∧
          entry[l]? = some row ∧
          (realdata = true → row.length = l + 1 ∧ ∀ m : Int, 0 ≤ m → m ≤ l →
            ∃ K, row[m.toNat]? = some K ∧
              sphereFullHarmonic E radius n l m ⟨1, 1, 1⟩ = .ok K) ∧
          (realdata = false → row.length = 2 * l + 1 ∧ ∀ m : Int, -(l : Int) ≤ m → m ≤ l →
            ∃ K, row[(m + l).toNat]? = some K ∧
              sphereFullHarmonic E radius n l m ⟨1, 1, 1⟩ = .ok K)) ∧
    (band = 10 → computePHbaseF E radius band PHbaseF realdata = .error .undefinedBehaviour) := by
  constructor
  · intro hB
    obtain ⟨cache, hc, hlen, hzero, hP⟩ := computePHbaseF_ok E radius band PHbaseF realdata hB
    refine ⟨cache, hc, hlen, ?_, ?_⟩
    · rw [hzero]
      exact vecResize_head_nil PHbaseF band h0
    · intro n l h1 h2 h3
      have hk : ∀ m : Int, sphereFullHarmonic E radius n l m ⟨1, 1, 1⟩
          = .ok (okValue (sphereFullHarmonic E radius n l m ⟨1, 1, 1⟩)) :=
        fun m => okValue_ok _ (sphereFullHarmonic_ok E radius n l m (by omega) (by omega)
          (by omega) (by omega))
      refine ⟨_, (List.range (if realdata then l + 1 else 2 * l + 1)).map fun (j : Nat) =>
            okValue (sphereFullHarmonic E radius n l
              ((j : Int) - (if realdata then 0 else (l : Int))) ⟨1, 1, 1⟩),
        hP n h1 h2, ?_, ?_, ?_, ?_⟩
      · rw [List.length_map, List.length_range]
      · rw [List.getElem?_map, List.getElem?_range (by omega)]
        rfl
      · intro hreal
        subst hreal
        refine ⟨by simp, fun m hm0 hm1 => ⟨_, ?_, hk m⟩⟩
        rw [List.getElem?_map, List.getElem?_range (by simp; omega)]
        have e : ((m.toNat : Nat) : Int) - 0 = m := by omega
        simp only [Option.map_some', if_true, e]
      · intro hreal
        subst hreal
        refine ⟨by simp, fun m hm0 hm1 => ⟨_, ?_, hk m⟩⟩
        rw [List.getElem?_map, List.getElem?_range (by simp; omega)]
        have e : (((m + l).toNat : Nat) : Int) - l = m := by omega
        simp only [Option.map_some', Bool.false_eq_true, if_false, e]
  · intro hB
    subst hB
    exact computePHbaseF_band_ten E radius PHbaseF realdata

/-- C8 (what the code does), on a fresh cache: band 1 yields two outer entries,
band 10 none. -/
theorem computePHbaseF_cache_witness :
    (∃ cache, computePHbaseF ratExternals 1 1 [] false = .ok cache ∧ cache.length = 2) ∧
    computePHbaseF ratExternals 1 10 [] false = .error .undefinedBehaviour := by
  have h1 := computePHbaseF_cache ratExternals 1 1 [] false (by simp)
  have h10 := computePHbaseF_cache ratExternals 1 10 [] false (by simp)
  obtain ⟨cache, hc, hlen, _⟩ := h1.1 (by decide)
  exact ⟨⟨cache, hc, hlen⟩, h10.2 rfl⟩

theorem loopM_error_mono {σ : Type} (k count : Nat) (init : σ)
    (body : Nat → σ → Except Fault σ) (e : Fault)
    (hk : loopM k init body = .error e) (hle : k ≤ count) :
    loopM count init body = .error e := by
  induction count with
  | zero =>
    have h0 : k = 0 := by omega
    subst h0
    exact hk
  | succ c ih =>
    by_cases h : k = c + 1
    · subst h
      exact hk
    · rw [loopM_succ, ih (by omega), error_bind]

/-- At `(n, l) = (1, 11)` the guard of `bessel_zero_Jnu` throws. -/
theorem sphereFullHarmonic_eleven (E : Externals α) (radius : α) (m : Int) :
    sphereFullHarmonic E radius 1 11 m ⟨1, 1, 1⟩
      = .error (.invariantViolation "max implemented band is 10") := by
  have hx : fullXnl radius 1 11
      = (.error (.invariantViolation "max implemented band is 10") : Except Fault α) := by
    unfold fullXnl
    rw [if_pos (by omega)]
    exact bessel_zero_Jnu_throw _ _ (Or.inl (by decide))
  unfold sphereFullHarmonic
  simp only [hx, error_bind]

theorem computePHbaseFRow_eleven (E : Externals α) (radius : α) (realdata : Bool)
    (row : List (MultiArray3 (FFTWComplex α))) :
    computePHbaseFRow E radius realdata 1 11 row
      = .error (.invariantViolation "max implemented band is 10") := by
  unfold computePHbaseFRow forFromTo
  apply loopM_first_fail
  · cases realdata <;> decide
  · simp only [sphereFullHarmonic_eleven, error_bind]

/-- For a band above 10 the `l` loop of `computePHbaseF` at `n = 1` fills the
rows `l = 0..10` and stops at `l = 11` with the exception of `bessel_zero_Jnu`. -/
theorem computePHbaseFEntry_over (E : Externals α) (radius : α) (realdata : Bool) (band : Nat)
    (hB : 10 < band) (entry : List (List (MultiArray3 (FFTWComplex α)))) :
    computePHbaseFEntry E radius band realdata 1 entry
      = .error (.invariantViolation "max implemented band is 10") := by
  obtain ⟨st, hst, hlen⟩ := loopM_inv (fun _ (st : List (List (MultiArray3 (FFTWComplex α)))) =>
      st.length = band + 1) 11 (vecResize entry (band + 1))
    (fun i st => vecModify st (0 + (i : Int)) (computePHbaseFRow E radius realdata 1 (0 + (i : Int))))
    (length_vecResize _ _)
    (by
      intro i st hi hlen
      refine ⟨_, vecModify_const st (0 + (i : Int)) _ _ (by omega) (by omega)
        (fun row => computePHbaseF_row E radius realdata 1 (0 + (i : Int)) (by omega) (by omega)
          (by omega) (by omega) row), ?_⟩
      show (List.set _ _ _).length = band + 1
      rw [List.length_set]
      exact hlen)
  unfold computePHbaseFEntry forFromTo
  have hcount : ((band : Int) + 1 - 0).toNat = band + 1 := by omega
  rw [hcount]
  refine loopM_error_mono 12 (band + 1) _ _ _ (loopM_fail_at 11 _ st _ _ hst ?_) (by omega)
  exact vecModify_fail st _ _ _ (by omega) (by omega)
    (fun row => computePHbaseFRow_eleven E radius realdata row)

theorem computePHbaseF_over (E : Externals α) (radius : α) (band : Nat)
    (PHbaseF : List (List (List (MultiArray3 (FFTWComplex α))))) (realdata : Bool)
    (hB : 10 < band) :
    computePHbaseF E radius band PHbaseF realdata
      = .error (.invariantViolation "max implemented band is 10") := by
  unfold computePHbaseF forFromTo
  apply loopM_first_fail
  · omega
  · exact vecModify_fail _ _ _ _ (by omega) (by rw [length_vecResize]; omega)
      (fun entry => computePHbaseFEntry_over E radius realdata band hB entry)

/-- C14. For every band above 10, `computePHbaseF` fails with the
`InvariantViolation` of `bessel_zero_Jnu` (thrown at `n = 1`, `l = 11`, after
the rows `l = 0..10` were built, and caught nowhere); for no band up to 10 does
it fail with an `InvariantViolation`. -/
theorem computePHbaseF_bessel_range (E : Externals α) (radius : α) (band : Nat)
    (PHbaseF : List (List (List (MultiArray3 (FFTWComplex α))))) (realdata : Bool) :
    (10 < band → computePHbaseF E radius band PHbaseF realdata
      = .error (.invariantViolation "max implemented band is 10")) ∧
    (band ≤ 10 → ∀ what : String, computePHbaseF E radius band PHbaseF realdata
      ≠ .error (.invariantViolation what)) := by
  refine ⟨computePHbaseF_over E radius band PHbaseF realdata, fun hB what hc => ?_⟩
  by_cases h9 : band ≤ 9
  · obtain ⟨cache, hok, _⟩ := computePHbaseF_ok E radius band PHbaseF realdata h9
    rw [hok] at hc
    cases hc
  · have h10 : band = 10 := by omega
    subst h10
    rw [computePHbaseF_band_ten] at hc
    cases hc

/-- C14, on a fresh cache: band 11 fails with the exception, band 3 does not. -/
theorem computePHbaseF_bessel_range_witness :
    computePHbaseF ratExternals 1 11 [] false
      = .error (.invariantViolation "max implemented band is 10") ∧
    ∀ what : String, computePHbaseF ratExternals 1 3 [] false
      ≠ .error (.invariantViolation what) :=
  ⟨(computePHbaseF_bessel_range ratExternals 1 11 [] false).1 (by decide),
   (computePHbaseF_bessel_range ratExternals 1 3 [] false).2 (by decide)⟩

theorem sum_odd_range (n : Nat) : ((List.range n).map fun (l : Nat) => 2 * l + 1).sum = n ^ 2 := by
  induction n with
  | zero => rfl
  | succ k ih =>
    rw [List.range_succ, List.map_append, List.sum_append, ih]
    simp only [List.map_cons, List.map_nil, List.sum_cons, List.sum_nil]
    ring

theorem computeSHbaseF_row (E : Externals α) (radius gauss : α) (l : Int) (hl : 0 ≤ l)
    (row : List (MultiArray3 (FFTWComplex α))) :
    forFromTo (-l) l (vecResize row (2 * l + 1).toNat)
        (fun m row => vecSet row (m + l) (sphereSurfHarmonic E radius gauss l m false ⟨1, 1, 1⟩))
      = .ok ((List.range (2 * l + 1).toNat).map fun (j : Nat) =>
          sphereSurfHarmonic E radius gauss l ((j : Int) - l) false ⟨1, 1, 1⟩) := by
  have h := forFromTo_fill (-l) l l (vecResize row (2 * l + 1).toNat)
    (fun m row => vecSet row (m + l) (sphereSurfHarmonic E radius gauss l m false ⟨1, 1, 1⟩))
    (fun m => sphereSurfHarmonic E radius gauss l m false ⟨1, 1, 1⟩)
    (by
      intro i st h1 h2 hlen
      rw [length_vecResize] at hlen
      exact vecSet_ok st (i + l) _ (by omega) (by omega))
    (by omega)
    (by rw [length_vecResize]; omega)
  rw [length_vecResize] at h
  exact h

theorem computeSHbaseF_eq (E : Externals α) (radius gauss : α) (band : Nat)
    (SHbaseF : List (List (MultiArray3 (FFTWComplex α)))) :
    computeSHbaseF E radius gauss band SHbaseF =
      .ok ((List.range (band + 1)).map fun (l : Nat) =>
        (List.range (2 * l + 1)).map fun (j : Nat) =>
          sphereSurfHarmonic E radius gauss l ((j : Int) - l) false ⟨1, 1, 1⟩) := by
  unfold computeSHbaseF
  have h := forFromTo_fill 0 band 0 (vecResize SHbaseF (band + 1))
    (fun l SHbaseF => vecModify SHbaseF l fun row =>
      forFromTo (-l) l (vecResize row (2 * l + 1).toNat) fun m row =>
        vecSet row (m + l) (sphereSurfHarmonic E radius gauss l m false ⟨1, 1, 1⟩))
    (fun l => (List.range (2 * l + 1).toNat).map fun (j : Nat) =>
          sphereSurfHarmonic E radius gauss l ((j : Int) - l) false ⟨1, 1, 1⟩)
    (by
      intro i st h1 h2 hlen
      rw [length_vecResize] at hlen
      have e : (i + 0).toNat = i.toNat := by rw [add_zero]
      rw [e]
      exact vecModify_const st i _ _ h1 (by omega)
        (fun row => computeSHbaseF_row E radius gauss i h1 row))
    (by omega)
    (by rw [length_vecResize]; omega)
  rw [length_vecResize] at h
  rw [h]
  congr 1

/-- C7. For every band `B`, `computeSHbaseF` yields exactly `B+1` degree
entries, entry `l` holds exactly `2l+1` kernels, for every `l` in `[0,B]` and
`m` in `[-l,l]` the kernel at slot `[l][m+l]` is the kernel
`sphereSurfHarmonic(radius, gauss, l, m, full=false)` produces, and the cache
holds `(B+1)^2` kernels. -/
theorem computeSHbaseF_cache (E : Externals α) (radius gauss : α) (band : Nat)
    (SHbaseF : List (List (MultiArray3 (FFTWComplex α)))) :
    ∃ cache, computeSHbaseF E radius gauss band SHbaseF = .ok cache ∧
      cache.length = band + 1 ∧
      (∀ l : Nat, l ≤ band → ∃ row, cache[l]? = some row ∧ row.length = 2 * l + 1 ∧
        ∀ m : Int, -(l : Int) ≤ m → m ≤ l →
          row[(m + l).toNat]? = some (sphereSurfHarmonic E radius gauss l m false ⟨1, 1, 1⟩)) ∧
      (cache.map List.length).sum = (band + 1) ^ 2 := by
  refine ⟨_, computeSHbaseF_eq E radius gauss band SHbaseF, ?_, ?_, ?_⟩
  · rw [List.length_map, List.length_range]
  · intro l hl
    refine ⟨(List.range (2 * l + 1)).map fun (j : Nat) =>
      sphereSurfHarmonic E radius gauss l ((j : Int) - l) false ⟨1, 1, 1⟩, ?_, ?_, ?_⟩
    · rw [List.getElem?_map, List.getElem?_range (by omega)]
      rfl
    · rw [List.length_map, List.length_range]
    · intro m h1 h2
      rw [List.getElem?_map, List.getElem?_range (by omega)]
      have e : (((m + l).toNat : Nat) : Int) - l = m := by omega
      simp only [Option.map_some', e]
  · rw [List.map_map]
    have e : (List.length ∘ fun (l : Nat) => (List.range (2 * l + 1)).map fun (j : Nat) =>
        sphereSurfHarmonic E radius gauss l ((j : Int) - l) false ⟨1, 1, 1⟩)
        = fun (l : Nat) => 2 * l + 1 := by
      funext l
      simp
    rw [e]
    exact sum_odd_range (band + 1)

end CacheTheorems

/-! ## Scan order -/

theorem scan_extents_pos (s : Shape3) (k : Nat)
    (hk : k < s.v0.toNat * s.v1.toNat * s.v2.toNat) :
    0 < s.v0.toNat ∧ 0 < s.v1.toNat ∧ 0 < s.v2.toNat := by
  refine ⟨?_, ?_, ?_⟩
  · rcases Nat.eq_zero_or_pos s.v0.toNat with h | h
    · rw [h] at hk; simp at hk
    · exact h
  · rcases Nat.eq_zero_or_pos s.v1.toNat with h | h
    · rw [h] at hk; simp at hk
    · exact h
  · rcases Nat.eq_zero_or_pos s.v2.toNat with h | h
    · rw [h] at hk; simp at hk
    · exact h

theorem scanCoord_inShape (s : Shape3) (k : Nat)
    (hk : k < s.v0.toNat * s.v1.toNat * s.v2.toNat) :
    MultiArray3.inShape s (MultiArray3.scanCoord s k).v0 (MultiArray3.scanCoord s k).v1
      (MultiArray3.scanCoord s k).v2 := by
  obtain ⟨h0, h1, h2⟩ := scan_extents_pos s k hk
  have a0 : k % s.v0.toNat < s.v0.toNat := Nat.mod_lt _ h0
  have a1 : (k / s.v0.toNat) % s.v1.toNat < s.v1.toNat := Nat.mod_lt _ h1
  have a2 : k / (s.v0.toNat * s.v1.toNat) < s.v2.toNat := by
    rw [Nat.div_lt_iff_lt_mul (Nat.mul_pos h0 h1)]
    calc k < s.v0.toNat * s.v1.toNat * s.v2.toNat := hk
      _ = s.v2.toNat * (s.v0.toNat * s.v1.toNat) := by ring
  have c0 : (s.v0.toNat : Int) = s.v0 := Int.toNat_of_nonneg (by omega)
  have c1 : (s.v1.toNat : Int) = s.v1 := Int.toNat_of_nonneg (by omega)
  have c2 : (s.v2.toNat : Int) = s.v2 := Int.toNat_of_nonneg (by omega)
  unfold MultiArray3.inShape MultiArray3.scanCoord
  refine ⟨⟨Int.ofNat_nonneg _, ?_⟩, ⟨Int.ofNat_nonneg _, ?_⟩, ⟨Int.ofNat_nonneg _, ?_⟩⟩
  · rw [← c0]
    exact Int.ofNat_lt.mpr a0
  · rw [← c1]
    exact Int.ofNat_lt.mpr a1
  · rw [← c2]
    exact Int.ofNat_lt.mpr a2

theorem scanIndex_scanCoord (s : Shape3) (k : Nat)
    (hk : k < s.v0.toNat * s.v1.toNat * s.v2.toNat) :
    MultiArray3.scanIndex s (MultiArray3.scanCoord s k).v0 (MultiArray3.scanCoord s k).v1
      (MultiArray3.scanCoord s k).v2 = k := by
  unfold MultiArray3.scanIndex MultiArray3.scanCoord
  simp only [Int.toNat_ofNat]
  rw [← Nat.div_div_eq_div_mul, Nat.mod_add_div, Nat.mod_add_div]

theorem scanIndex_lt (s : Shape3) (z y x : Int) (h : MultiArray3.inShape s z y x) :
    MultiArray3.scanIndex s z y x < s.v0.toNat * s.v1.toNat * s.v2.toNat := by
  obtain ⟨⟨z0, z1⟩, ⟨y0, y1⟩, ⟨x0, x1⟩⟩ := h
  have hz : z.toNat + 1 ≤ s.v0.toNat := by omega
  have hy : y.toNat + 1 ≤ s.v1.toNat := by omega
  have hx : x.toNat + 1 ≤ s.v2.toNat := by omega
  unfold MultiArray3.scanIndex
  calc z.toNat + s.v0.toNat * (y.toNat + s.v1.toNat * x.toNat)
      < s.v0.toNat + s.v0.toNat * (y.toNat + s.v1.toNat * x.toNat) := by omega
    _ = s.v0.toNat * (y.toNat + 1 + s.v1.toNat * x.toNat) := by ring
    _ ≤ s.v0.toNat * (s.v1.toNat + s.v1.toNat * x.toNat) :=
        Nat.mul_le_mul_left _ (by omega)
    _ = s.v0.toNat * s.v1.toNat * (x.toNat + 1) := by ring
    _ ≤ s.v0.toNat * s.v1.toNat * s.v2.toNat := Nat.mul_le_mul_left _ hx

theorem scanCoord_scanIndex (s : Shape3) (z y x : Int) (h : MultiArray3.inShape s z y x) :
    MultiArray3.scanCoord s (MultiArray3.scanIndex s z y x) = ⟨z, y, x⟩ := by
  obtain ⟨⟨z0, z1⟩, ⟨y0, y1⟩, ⟨x0, x1⟩⟩ := h
  have hz : z.toNat < s.v0.toNat := by omega
  have hy : y.toNat < s.v1.toNat := by omega
  have hA : 0 < s.v0.toNat := by omega
  have hB : 0 < s.v1.toNat := by omega
  have e1 : (z.toNat + s.v0.toNat * (y.toNat + s.v1.toNat * x.toNat)) % s.v0.toNat = z.toNat := by
    rw [Nat.add_mul_mod_self_left, Nat.mod_eq_of_lt hz]
  have e2 : (z.toNat + s.v0.toNat * (y.toNat + s.v1.toNat * x.toNat)) / s.v0.toNat
      = y.toNat + s.v1.toNat * x.toNat := by
    rw [Nat.add_mul_div_left _ _ hA, Nat.div_eq_of_lt hz, Nat.zero_add]
  have e3 : (y.toNat + s.v1.toNat * x.toNat) % s.v1.toNat = y.toNat := by
    rw [Nat.add_mul_mod_self_left, Nat.mod_eq_of_lt hy]
  have e4 : (y.toNat + s.v1.toNat * x.toNat) / s.v1.toNat = x.toNat := by
    rw [Nat.add_mul_div_left _ _ hB, Nat.div_eq_of_lt hy, Nat.zero_add]
  unfold MultiArray3.scanCoord MultiArray3.scanIndex
  rw [← Nat.div_div_eq_div_mul, e1, e2, e3, e4]
  congr 1 <;> omega

theorem lockstep_same_shape {T S : Type} (dst : MultiArray3 T) (src : MultiArray3 S)
    (f : T → S → Except Fault T) (g : T → S → T) (hshape : src.shape = dst.shape)
    (hf : ∀ p q, f p q = .ok (g p q)) :
    ∃ r, MultiArray3.lockstep dst.size dst src f = .ok r ∧ r.shape = dst.shape ∧
      ∀ z y x,
        (MultiArray3.inShape dst.shape z y x →
          r.data z y x = g (dst.data z y x) (src.data z y x)) ∧
        (¬ MultiArray3.inShape dst.shape z y x → r.data z y x = dst.data z y x) := by
  unfold MultiArray3.lockstep
  obtain ⟨r, hr, hrs, hP⟩ := loopM_inv
    (fun k (st : MultiArray3 T) => st.shape = dst.shape ∧ ∀ z y x,
      ((MultiArray3.inShape dst.shape z y x ∧ MultiArray3.scanIndex dst.shape z y x < k) →
        st.data z y x = g (dst.data z y x) (src.data z y x)) ∧
      (¬ (MultiArray3.inShape dst.shape z y x ∧ MultiArray3.scanIndex dst.shape z y x < k) →
        st.data z y x = dst.data z y x))
    dst.size dst
    (fun i dst => do
      let q ← src.scanGet i
      let p ← dst.scanGet i
      let v ← f p q
      dst.scanSet i v)
    ⟨rfl, fun z y x => ⟨fun h => absurd h.2 (Nat.not_lt_zero _), fun _ => rfl⟩⟩
    (by
      intro k st hk hP
      obtain ⟨hs, hP⟩ := hP
      have hk' : k < dst.shape.v0.toNat * dst.shape.v1.toNat * dst.shape.v2.toNat := hk
      have hin := scanCoord_inShape dst.shape k hk'
      have hidx := scanIndex_scanCoord dst.shape k hk'
      have h1 : k < src.size := by
        unfold MultiArray3.size
        rw [hshape]
        exact hk'
      have h2 : k < st.size := by
        unfold MultiArray3.size
        rw [hs]
        exact hk'
      refine ⟨st.set (MultiArray3.scanCoord dst.shape k).v0 (MultiArray3.scanCoord dst.shape k).v1
        (MultiArray3.scanCoord dst.shape k).v2
        (g (st.data (MultiArray3.scanCoord dst.shape k).v0 (MultiArray3.scanCoord dst.shape k).v1
            (MultiArray3.scanCoord dst.shape k).v2)
          (src.data (MultiArray3.scanCoord dst.shape k).v0 (MultiArray3.scanCoord dst.shape k).v1
            (MultiArray3.scanCoord dst.shape k).v2)), ?_, hs, fun z y x => ?_⟩
      · simp only [MultiArray3.scanGet, MultiArray3.scanSet, if_pos h1, if_pos h2, ok_bind, hf,
          hs, hshape]
      have hold := (hP (MultiArray3.scanCoord dst.shape k).v0 (MultiArray3.scanCoord dst.shape k).v1
        (MultiArray3.scanCoord dst.shape k).v2).2 (by rw [hidx]; omega)
      simp only [MultiArray3.set, hs]
      by_cases hj : z = (MultiArray3.scanCoord dst.shape k).v0 ∧
          y = (MultiArray3.scanCoord dst.shape k).v1 ∧ x = (MultiArray3.scanCoord dst.shape k).v2
      · obtain ⟨rfl, rfl, rfl⟩ := hj
        rw [if_pos ⟨hin, rfl, rfl, rfl⟩, hold]
        refine ⟨fun _ => rfl, fun hno => ?_⟩
        exact absurd ⟨hin, by rw [hidx]; omega⟩ hno
      · rw [if_neg (fun h => hj h.2)]
        constructor
        · rintro ⟨hinj, hlt⟩
          have hne : MultiArray3.scanIndex dst.shape z y x ≠ k := by
            intro he
            have hc := scanCoord_scanIndex dst.shape z y x hinj
            rw [he] at hc
            apply hj
            rw [hc]
            exact ⟨rfl, rfl, rfl⟩
          exact (hP z y x).1 ⟨hinj, by omega⟩
        · intro hno
          exact (hP z y x).2 (fun h => hno ⟨h.1, by omega⟩))
  refine ⟨r, hr, hrs, fun z y x => ⟨fun h => ?_, fun h => ?_⟩⟩
  · exact (hP z y x).1 ⟨h, scanIndex_lt dst.shape z y x h⟩
  · exact (hP z y x).2 (fun h' => h h'.1)

/-! ## The vector caches -/

section VectorCacheTheorems

variable {α : Type} [LinearOrderedField α] [FloorRing α]

theorem error_split {σ : Type} (P : σ → Prop) (e0 : Fault) :
    (∀ r, (Except.error e0 : Except Fault σ) = .ok r → P r) ∧
    (∀ e, (Except.error e0 : Except Fault σ) = .error e → e = e0) := by
  constructor
  · intro r h
    cases h
  · intro e h
    injection h with h
    exact h.symm

theorem lockstep_cases {T S : Type} (count : Nat) (dst : MultiArray3 T) (src : MultiArray3 S)
    (f : T → S → Except Fault T) (hf : ∀ p q, ∃ v, f p q = .ok v) :
    (∀ r, MultiArray3.lockstep count dst src f = .ok r → r.shape = dst.shape) ∧
    (∀ e, MultiArray3.lockstep count dst src f = .error e → e = .undefinedBehaviour) := by
  unfold MultiArray3.lockstep
  refine loopM_cases (fun _ st => st.shape = dst.shape) (fun e => e = .undefinedBehaviour)
    count dst _ rfl ?_
  intro i st hi hP
  by_cases h1 : i < src.size
  · by_cases h2 : i < st.size
    · obtain ⟨v, hv⟩ := hf
        (st.data (MultiArray3.scanCoord st.shape i).v0 (MultiArray3.scanCoord st.shape i).v1
          (MultiArray3.scanCoord st.shape i).v2)
        (src.data (MultiArray3.scanCoord src.shape i).v0 (MultiArray3.scanCoord src.shape i).v1
          (MultiArray3.scanCoord src.shape i).v2)
      simp only [MultiArray3.scanGet, MultiArray3.scanSet, if_pos h1, if_pos h2, ok_bind, hv]
      constructor
      · intro st' h
        injection h with h
        rw [← h]
        exact hP
      · intro e h
        cases h
    · simp only [MultiArray3.scanGet, if_pos h1, if_neg h2, ok_bind, error_bind]
      constructor
      · intro st' h
        cases h
      · intro e h
        injection h with h
        exact h.symm
  · simp only [MultiArray3.scanGet, if_neg h1, error_bind]
    constructor
    · intro st' h
      cases h
    · intro e h
      injection h with h
      exact h.symm

theorem catchInvariant_cases {σ : Type} (P : σ → Prop) (body : Except Fault σ) (handler : σ)
    (hok : ∀ r, body = .ok r → P r)
    (herr : ∀ e, body = .error e → (∃ w, e = .invariantViolation w) ∨ e = .undefinedBehaviour)
    (hh : P handler) :
    (∀ r, catchInvariant body handler = .ok r → P r) ∧
    (∀ e, catchInvariant body handler = .error e → e = .undefinedBehaviour) := by
  cases body with
  | ok r0 =>
    constructor
    · intro r h
      have h' : (Except.ok r0 : Except Fault σ) = .ok r := h
      injection h' with h'
      rw [← h']
      exact hok r0 rfl
    · intro e h
      have h' : (Except.ok r0 : Except Fault σ) = .error e := h
      cases h'
  | error e0 =>
    cases e0 with
    | invariantViolation w =>
      constructor
      · intro r h
        have h' : (Except.ok handler : Except Fault σ) = .ok r := h
        injection h' with h'
        rw [← h']
        exact hh
      · intro e h
        have h' : (Except.ok handler : Except Fault σ) = .error e := h
        cases h'
    | undefinedBehaviour =>
      constructor
      · intro r h
        have h' : (Except.error .undefinedBehaviour : Except Fault σ) = .ok r := h
        cases h'
      · intro e h
        have h' : (Except.error .undefinedBehaviour : Except Fault σ) = .error e := h
        injection h' with h'
        exact h'.symm
    | outOfFuel =>
      rcases herr .outOfFuel rfl with ⟨w, hw⟩ | hw
      · cases hw
      · cases hw

/-- A block of `sphereVecHarmonic` leaves the shape of `res` as it found it, and
the only way it fails is an access outside an array. -/
theorem couplingBlock_cases (E : Externals α)
    (res : MultiArray3 (TinyVector3 (FFTWComplex α))) (radius gauss : α)
    (l k m mu sigma shOrder : Int) (written zeroed : Nat) :
    (∀ r, couplingBlock E res radius gauss l k m mu sigma shOrder written zeroed = .ok r →
      r.shape = res.shape) ∧
    (∀ e, couplingBlock E res radius gauss l k m mu sigma shOrder written zeroed = .error e →
      e = .undefinedBehaviour) := by
  unfold couplingBlock
  refine catchInvariant_cases
    (fun (r : MultiArray3 (TinyVector3 (FFTWComplex α))) => r.shape = res.shape) _ _ ?_ ?_ ?_
  · intro r h
    by_cases hg : |mu| > l
    · rw [if_pos hg] at h
      cases h
    · rw [if_neg hg] at h
      cases hc : E.clebschGordan (l + k) m l mu 1 sigma with
      | none =>
        simp only [callClebschGordan, hc] at h
        cases h
      | some c =>
        simp only [callClebschGordan, hc] at h
        refine (lockstep_cases _ _ _ _ ?_).1 r h
        intro p q
        exact ⟨_, rfl⟩
  · intro e h
    by_cases hg : |mu| > l
    · rw [if_pos hg] at h
      injection h with h
      exact Or.inl ⟨_, h.symm⟩
    · rw [if_neg hg] at h
      cases hc : E.clebschGordan (l + k) m l mu 1 sigma with
      | none =>
        simp only [callClebschGordan, hc] at h
        injection h with h
        exact Or.inl ⟨_, h.symm⟩
      | some c =>
        simp only [callClebschGordan, hc] at h
        refine Or.inr ((lockstep_cases _ _ _ _ ?_).2 e h)
        intro p q
        exact ⟨_, rfl⟩
  · rfl

/-- `sphereVecHarmonic` never changes the shape of the array it is given. -/
theorem sphereVecHarmonic_cases (E : Externals α)
    (res : MultiArray3 (TinyVector3 (FFTWComplex α))) (radius gauss : α) (l k m : Int) :
    (∀ r, sphereVecHarmonic E res radius gauss l k m = .ok r → r.shape = res.shape) ∧
    (∀ e, sphereVecHarmonic E res radius gauss l k m = .error e → e = .undefinedBehaviour) := by
  unfold sphereVecHarmonic
  cases h1 : couplingBlock E res radius gauss l k m (1 - m) 1 (1 - m) 0 0 with
  | error e1 =>
    have he := (couplingBlock_cases E res radius gauss l k m (1 - m) 1 (1 - m) 0 0).2 e1 h1
    subst he
    simp only [error_bind]
    exact error_split _ _
  | ok r1 =>
    have hs1 := (couplingBlock_cases E res radius gauss l k m (1 - m) 1 (1 - m) 0 0).1 r1 h1
    simp only [ok_bind]
    cases h2 : couplingBlock E r1 radius gauss l k m (-m) 0 (1 - m) 1 1 with
    | error e2 =>
      have he := (couplingBlock_cases E r1 radius gauss l k m (-m) 0 (1 - m) 1 1).2 e2 h2
      subst he
      simp only [error_bind]
      exact error_split _ _
    | ok r2 =>
      have hs2 := (couplingBlock_cases E r1 radius gauss l k m (-m) 0 (1 - m) 1 1).1 r2 h2
      simp only [ok_bind]
      obtain ⟨h3ok, h3err⟩ :=
        couplingBlock_cases E r2 radius gauss l k m (-(1 + m)) (-1) (-(m + 1)) 0 2
      exact ⟨fun r h => by rw [h3ok r h, hs2, hs1], h3err⟩

theorem computeVHbaseFRow_cases (E : Externals α) (radius gauss : α) (band : Nat) (l k : Int)
    (hl0 : 0 ≤ l) (hl : l ≤ band)
    (row : List (MultiArray3 (TinyVector3 (FFTWComplex α)))) :
    (∀ r, computeVHbaseFRow E radius gauss band l k row = .ok r →
      r.length = 2 * band + 1 ∧
      ∀ i, i < (2 * l + 1).toNat → ∃ K, r[i]? = some K ∧ K.shape = ⟨0, 0, 0⟩) ∧
    (∀ e, computeVHbaseFRow E radius gauss band l k row = .error e →
      e = .undefinedBehaviour) := by
  unfold computeVHbaseFRow forFromTo
  have hcount : (l + 1 - -l).toNat = (2 * l + 1).toNat := by
    congr 1
    ring
  rw [hcount]
  refine loopM_slots
    (fun _ (K : MultiArray3 (TinyVector3 (FFTWComplex α))) => K.shape = ⟨0, 0, 0⟩)
    (fun e => e = .undefinedBehaviour)
    (2 * l + 1).toNat (2 * band + 1) _ _ (length_vecResize _ _) ?_
  intro i st hi hlen
  have hidx : (-l + (i : Int) + l).toNat = i := by omega
  cases hK : sphereVecHarmonic E MultiArray3.empty radius gauss l k (-l + (i : Int)) with
  | error e0 =>
    have he := (sphereVecHarmonic_cases E MultiArray3.empty radius gauss l k _).2 e0 hK
    subst he
    simp only [hK, error_bind]
    exact error_split _ _
  | ok K =>
    have hs := (sphereVecHarmonic_cases E MultiArray3.empty radius gauss l k _).1 K hK
    simp only [hK, ok_bind]
    rw [vecSet_ok st _ K (by omega) (by omega), hidx]
    constructor
    · intro st' h
      injection h with h
      exact ⟨K, h.symm, by omega, hs⟩
    · intro e h
      cases h

theorem computeVHbaseFEntry_cases (E : Externals α) (radius gauss : α) (band : Nat) (l : Int)
    (hl0 : 0 ≤ l) (hl : l ≤ band)
    (entry : List (List (MultiArray3 (TinyVector3 (FFTWComplex α))))) :
    (∀ r, computeVHbaseFEntry E radius gauss band l entry = .ok r →
      r.length = 3 ∧
      ∀ j, j < 3 → ∃ row, r[j]? = some row ∧ row.length = 2 * band + 1 ∧
        ∀ i, i < (2 * l + 1).toNat → ∃ K, row[i]? = some K ∧ K.shape = ⟨0, 0, 0⟩) ∧
    (∀ e, computeVHbaseFEntry E radius gauss band l entry = .error e →
      e = .undefinedBehaviour) := by
  unfold computeVHbaseFEntry forFromTo
  have hcount : ((1 : Int) + 1 - -1).toNat = 3 := by decide
  rw [hcount]
  refine loopM_slots
    (fun _ (row : List (MultiArray3 (TinyVector3 (FFTWComplex α)))) =>
      row.length = 2 * band + 1 ∧
      ∀ i, i < (2 * l + 1).toNat → ∃ K, row[i]? = some K ∧ K.shape = ⟨0, 0, 0⟩)
    (fun e => e = .undefinedBehaviour) 3 3 _ _ (length_vecResize _ _) ?_
  intro j st hj hlen
  have hidx : (-1 + (j : Int) + 1).toNat = j := by omega
  obtain ⟨hok, herr⟩ := vecModify_cases st (-1 + (j : Int) + 1)
    (computeVHbaseFRow E radius gauss band l (-1 + (j : Int)))
  constructor
  · intro st' h
    obtain ⟨x, y, hf, hset, _, _⟩ := hok st' h
    rw [hidx] at hset
    exact ⟨y, hset, hj, (computeVHbaseFRow_cases E radius gauss band l _ hl0 hl x).1 y hf⟩
  · intro e h
    rcases herr e h with h | ⟨x, hx⟩
    · exact h
    · exact (computeVHbaseFRow_cases E radius gauss band l _ hl0 hl x).2 e hx

/-- C9 (what the code does). `computeVHbaseF` either stops at an assignment
outside an array (whenever some coupling is valid: `sphereVecHarmonic` assigns
through the begin iterator of the default-constructed `Coeff`), or returns a
cache in which, for every `l` in `[0,B]` and `k` in `{-1,0,1}`, the row
`[l][k+1]` has `2*B+1` order slots, not `2l+1`, and every slot `[m+l]`,
`m` in `[-l,l]`, holds an array of shape `(0,0,0)`: `sphereVecHarmonic` never
reshapes its output. -/
theorem computeVHbaseF_slots (E : Externals α) (radius gauss : α) (band : Nat)
    (VHbaseF : List (List (List (MultiArray3 (TinyVector3 (FFTWComplex α)))))) :
    computeVHbaseF E radius gauss band VHbaseF = .error .undefinedBehaviour ∨
    ∃ cache, computeVHbaseF E radius gauss band VHbaseF = .ok cache ∧
      cache.length = band + 1 ∧
      ∀ l : Nat, l ≤ band → ∀ k : Int, -1 ≤ k → k ≤ 1 →
        ∃ entry row, cache[l]? = some entry ∧ entry[(k + 1).toNat]? = some row ∧
          row.length = 2 * band + 1 ∧
          ∀ m : Int, -(l : Int) ≤ m → m ≤ l →
            ∃ K, row[(m + l).toNat]? = some K ∧ K.shape = ⟨0, 0, 0⟩ := by
  have hall : (∀ r, computeVHbaseF E radius gauss band VHbaseF = .ok r →
      r.length = band + 1 ∧
      ∀ l, l < band + 1 → ∃ entry, r[l]? = some entry ∧
        (entry.length = 3 ∧
        ∀ j, j < 3 → ∃ row, entry[j]? = some row ∧ row.length = 2 * band + 1 ∧
          ∀ i, i < (2 * (l : Int) + 1).toNat → ∃ K, row[i]? = some K ∧ K.shape = ⟨0, 0, 0⟩)) ∧
    (∀ e, computeVHbaseF E radius gauss band VHbaseF = .error e → e = .undefinedBehaviour) := by
    unfold computeVHbaseF forFromTo
    have hcount : ((band : Int) + 1 - 0).toNat = band + 1 := by omega
    rw [hcount]
    refine loopM_slots
      (fun l (entry : List (List (MultiArray3 (TinyVector3 (FFTWComplex α))))) =>
        entry.length = 3 ∧
        ∀ j, j < 3 → ∃ row, entry[j]? = some row ∧ row.length = 2 * band + 1 ∧
          ∀ i, i < (2 * (l : Int) + 1).toNat → ∃ K, row[i]? = some K ∧ K.shape = ⟨0, 0, 0⟩)
      (fun e => e = .undefinedBehaviour) (band + 1) (band + 1) _ _ (length_vecResize _ _) ?_
    intro l st hl hlen
    have hidx : (0 + (l : Int)).toNat = l := by omega
    obtain ⟨hok, herr⟩ := vecModify_cases st (0 + (l : Int))
      (computeVHbaseFEntry E radius gauss band (0 + (l : Int)))
    constructor
    · intro st' h
      obtain ⟨x, y, hf, hset, _, _⟩ := hok st' h
      rw [hidx] at hset
      have hy := (computeVHbaseFEntry_cases E radius gauss band (0 + (l : Int)) (by omega)
        (by omega) x).1 y hf
      rw [zero_add] at hy
      exact ⟨y, hset, hl, hy⟩
    · intro e h
      rcases herr e h with h | ⟨x, hx⟩
      · exact h
      · exact (computeVHbaseFEntry_cases E radius gauss band (0 + (l : Int)) (by omega)
          (by omega) x).2 e hx
  cases hres : computeVHbaseF E radius gauss band VHbaseF with
  | error e =>
    left
    rw [hall.2 e hres]
  | ok cache =>
    right
    obtain ⟨hlen, hP⟩ := hall.1 cache hres
    refine ⟨cache, rfl, hlen, fun l hl k hk0 hk1 => ?_⟩
    obtain ⟨entry, hentry, _, hrows⟩ := hP l (by omega)
    obtain ⟨row, hrow, hrl, hK⟩ := hrows (k + 1).toNat (by omega)
    exact ⟨entry, row, hentry, hrow, hrl, fun m hm0 hm1 => hK (m + l).toNat (by omega)⟩

/-- C10 (what the code does). For every band `B ≥ 1` the loop
`for (int n = 0; n >= band; n++)` of `computeVPHbaseF` does not run once: the
call returns, whatever the step budget, the vector it was given resized to
`B+1` outer entries and nothing else; on a fresh vector every outer entry is
empty and no index `(n,l,k,m)` has a slot. -/
theorem computeVPHbaseF_no_iteration (E : Externals α) (radius : α) (band : Nat)
    (VHbaseF : List (List (List (List (MultiArray3 (TinyVector3 (FFTWComplex α)))))))
    (fuel : Nat) (hB : 1 ≤ band) :
    computeVPHbaseF E radius band VHbaseF fuel = .ok (vecResize VHbaseF (band + 1)) ∧
    computeVPHbaseF E radius band [] fuel = .ok (List.replicate (band + 1) []) := by
  have hcond : ¬ (toUnsigned 0 ≥ band) := by
    have h0 : toUnsigned 0 = 0 := by decide
    rw [h0]
    omega
  have hgen : ∀ v : List (List (List (List (MultiArray3 (TinyVector3 (FFTWComplex α)))))),
      computeVPHbaseF E radius band v fuel = .ok (vecResize v (band + 1)) := by
    intro v
    unfold computeVPHbaseF computeVPHbaseFLoop
    rw [if_neg hcond]
  refine ⟨hgen VHbaseF, ?_⟩
  rw [hgen []]
  rfl

/-- C10 (what the code does), at band 1 on a fresh vector: two empty outer
entries. -/
theorem computeVPHbaseF_no_iteration_witness :
    computeVPHbaseF ratExternals 1 1 [] 0 = .ok [[], []] :=
  (computeVPHbaseF_no_iteration ratExternals 1 1 [] 0 (le_refl 1)).2

end VectorCacheTheorems

/-! ## The vector harmonic -/

section VectorHarmonicTheorems

variable {α : Type} [LinearOrderedField α] [FloorRing α]

/-- A block whose guard or coupling throws runs its handler, on any array. -/
theorem couplingBlock_invalid (E : Externals α)
    (res : MultiArray3 (TinyVector3 (FFTWComplex α))) (radius gauss : α)
    (l k m mu sigma shOrder : Int) (written zeroed : Nat)
    (h : |mu| > l ∨ E.clebschGordan (l + k) m l mu 1 sigma = none) :
    couplingBlock E res radius gauss l k m mu sigma shOrder written zeroed
      = .ok (res.mapElems fun p => p.setAt zeroed 0) := by
  unfold couplingBlock
  by_cases hg : |mu| > l
  · rw [if_pos hg]
    rfl
  · rw [if_neg hg]
    have hc := h.resolve_left hg
    simp only [callClebschGordan, hc]
    rfl

/-- A block whose guard and coupling pass, on an array of the scalar kernel's
shape, assigns `cg * tmpSH(x)` to component `written` of every voxel `x`. -/
theorem couplingBlock_valid (E : Externals α)
    (res : MultiArray3 (TinyVector3 (FFTWComplex α))) (radius gauss : α)
    (l k m mu sigma shOrder : Int) (written zeroed : Nat) (c : α)
    (hg : ¬ |mu| > l) (hc : E.clebschGordan (l + k) m l mu 1 sigma = some c)
    (hshape : res.shape = surfShape radius gauss ⟨1, 1, 1⟩) :
    ∃ r, couplingBlock E res radius gauss l k m mu sigma shOrder written zeroed = .ok r ∧
      r.shape = res.shape ∧
      ∀ z y x, MultiArray3.inShape res.shape z y x →
        r.data z y x = (res.data z y x).setAt written
          ((⟨c, 0⟩ : FFTWComplex α) *
            (sphereSurfHarmonic E radius gauss l shOrder false ⟨1, 1, 1⟩).data z y x) := by
  have hts : (sphereSurfHarmonic E radius gauss l shOrder false ⟨1, 1, 1⟩).shape = res.shape := by
    rw [sphereSurfHarmonic_eq_tabulate, hshape]
    rfl
  have hsz : (sphereSurfHarmonic E radius gauss l shOrder false ⟨1, 1, 1⟩).size = res.size := by
    unfold MultiArray3.size
    rw [hts]
  obtain ⟨r, hr, hrs, hP⟩ := lockstep_same_shape res
    (sphereSurfHarmonic E radius gauss l shOrder false ⟨1, 1, 1⟩)
    (fun p q => pure (p.setAt written ((⟨c, 0⟩ : FFTWComplex α) * q)))
    (fun p q => p.setAt written ((⟨c, 0⟩ : FFTWComplex α) * q)) hts (fun p q => rfl)
  refine ⟨r, ?_, hrs, fun z y x hin => (hP z y x).1 hin⟩
  unfold couplingBlock
  rw [if_neg hg]
  simp only [callClebschGordan, hc, hsz]
  rw [hr]
  rfl

/-- What one block of `sphereVecHarmonic` does to an array of the scalar
kernel's shape. -/
theorem couplingBlock_total (E : Externals α)
    (res : MultiArray3 (TinyVector3 (FFTWComplex α))) (radius gauss : α)
    (l k m mu sigma shOrder : Int) (written zeroed : Nat)
    (hshape : res.shape = surfShape radius gauss ⟨1, 1, 1⟩) :
    ∃ r, couplingBlock E res radius gauss l k m mu sigma shOrder written zeroed = .ok r ∧
      r.shape = res.shape ∧
      ∀ z y x, MultiArray3.inShape res.shape z y x →
        ((|mu| > l ∨ E.clebschGordan (l + k) m l mu 1 sigma = none) →
          r.data z y x = (res.data z y x).setAt zeroed 0) ∧
        (∀ c, ¬ |mu| > l → E.clebschGordan (l + k) m l mu 1 sigma = some c →
          r.data z y x = (res.data z y x).setAt written
            ((⟨c, 0⟩ : FFTWComplex α) *
              (sphereSurfHarmonic E radius gauss l shOrder false ⟨1, 1, 1⟩).data z y x)) := by
  by_cases hinv : |mu| > l ∨ E.clebschGordan (l + k) m l mu 1 sigma = none
  · refine ⟨_, couplingBlock_invalid E res radius gauss l k m mu sigma shOrder written zeroed hinv,
      rfl, fun z y x hin => ⟨fun _ => ?_, fun c hg hc => ?_⟩⟩
    · simp only [MultiArray3.mapElems, if_pos hin]
    · rcases hinv with h | h
      · exact absurd h hg
      · rw [hc] at h
        cases h
  · have hg : ¬ |mu| > l := fun h => hinv (Or.inl h)
    cases hc : E.clebschGordan (l + k) m l mu 1 sigma with
    | none => exact absurd (Or.inr hc) hinv
    | some c =>
      obtain ⟨r, hr, hrs, hP⟩ := couplingBlock_valid E res radius gauss l k m mu sigma shOrder
        written zeroed c hg hc hshape
      refine ⟨r, hr, hrs, fun z y x hin => ⟨fun h => ?_, fun c' _ hc' => ?_⟩⟩
      · rcases h with h | h
        · exact absurd h hg
        · cases h
      · injection hc' with hc'
        rw [← hc']
        exact hP z y x hin

/-- The three blocks of `sphereVecHarmonic` on an array of the scalar kernel's
shape: each returns, and the call returns what the third block returns. -/
theorem sphereVecHarmonic_blocks (E : Externals α)
    (res : MultiArray3 (TinyVector3 (FFTWComplex α))) (radius gauss : α) (l k m : Int)
    (hshape : res.shape = surfShape radius gauss ⟨1, 1, 1⟩) :
    ∃ r1 r2 r3 : MultiArray3 (TinyVector3 (FFTWComplex α)),
      sphereVecHarmonic E res radius gauss l k m = .ok r3 ∧
      r1.shape = res.shape ∧ r2.shape = res.shape ∧ r3.shape = res.shape ∧
      ∀ z y x, MultiArray3.inShape res.shape z y x →
        (((|1 - m| > l ∨ E.clebschGordan (l + k) m l (1 - m) 1 1 = none) →
            r1.data z y x = (res.data z y x).setAt 0 0) ∧
          (∀ c, ¬ |1 - m| > l → E.clebschGordan (l + k) m l (1 - m) 1 1 = some c →
            r1.data z y x = (res.data z y x).setAt 0
              ((⟨c, 0⟩ : FFTWComplex α) *
                (sphereSurfHarmonic E radius gauss l (1 - m) false ⟨1, 1, 1⟩).data z y x))) ∧
        (((|-m| > l ∨ E.clebschGordan (l + k) m l (-m) 1 0 = none) →
            r2.data z y x = (r1.data z y x).setAt 1 0) ∧
          (∀ c, ¬ |-m| > l → E.clebschGordan (l + k) m l (-m) 1 0 = some c →
            r2.data z y x = (r1.data z y x).setAt 1
              ((⟨c, 0⟩ : FFTWComplex α) *
                (sphereSurfHarmonic E radius gauss l (1 - m) false ⟨1, 1, 1⟩).data z y x))) ∧
        (((|-(1 + m)| > l ∨ E.clebschGordan (l + k) m l (-(1 + m)) 1 (-1) = none) →
            r3.data z y x = (r2.data z y x).setAt 2 0) ∧
          (∀ c, ¬ |-(1 + m)| > l → E.clebschGordan (l + k) m l (-(1 + m)) 1 (-1) = some c →
            r3.data z y x = (r2.data z y x).setAt 0
              ((⟨c, 0⟩ : FFTWComplex α) *
                (sphereSurfHarmonic E radius gauss l (-(m + 1)) false ⟨1, 1, 1⟩).data z y x))) := by
  obtain ⟨r1, h1, hs1, hP1⟩ :=
    couplingBlock_total E res radius gauss l k m (1 - m) 1 (1 - m) 0 0 hshape
  obtain ⟨r2, h2, hs2, hP2⟩ :=
    couplingBlock_total E r1 radius gauss l k m (-m) 0 (1 - m) 1 1 (by rw [hs1]; exact hshape)
  obtain ⟨r3, h3, hs3, hP3⟩ :=
    couplingBlock_total E r2 radius gauss l k m (-(1 + m)) (-1) (-(m + 1)) 0 2
      (by rw [hs2, hs1]; exact hshape)
  refine ⟨r1, r2, r3, ?_, hs1, by rw [hs2, hs1], by rw [hs3, hs2, hs1], fun z y x hin =>
    ⟨hP1 z y x hin, hP2 z y x (by rw [hs1]; exact hin), hP3 z y x (by rw [hs2, hs1]; exact hin)⟩⟩
  unfold sphereVecHarmonic
  simp only [h1, h2, ok_bind]
  exact h3

/-- Each block changes one component of a voxel: the one its handler zeroes or
the one its loop writes. -/
theorem coupling_frame (E : Externals α) (l k m mu sigma : Int)
    (p q : TinyVector3 (FFTWComplex α)) (written zeroed : Nat) (X : α → FFTWComplex α)
    (hi : (|mu| > l ∨ E.clebschGordan (l + k) m l mu 1 sigma = none) → q = p.setAt zeroed 0)
    (hv : ∀ c, ¬ |mu| > l → E.clebschGordan (l + k) m l mu 1 sigma = some c →
      q = p.setAt written (X c)) :
    q = p.setAt zeroed 0 ∨ ∃ v, q = p.setAt written v := by
  by_cases hinv : |mu| > l ∨ E.clebschGordan (l + k) m l mu 1 sigma = none
  · exact Or.inl (hi hinv)
  · have hg : ¬ |mu| > l := fun h => hinv (Or.inl h)
    cases hc : E.clebschGordan (l + k) m l mu 1 sigma with
    | none => exact absurd (Or.inr hc) hinv
    | some c => exact Or.inr ⟨_, hv c hg hc⟩

/-- With all three couplings rejected, `sphereVecHarmonic` runs its three
handlers, on any array. -/
theorem sphereVecHarmonic_all_invalid (E : Externals α)
    (res : MultiArray3 (TinyVector3 (FFTWComplex α))) (radius gauss : α) (l k m : Int)
    (h1 : |1 - m| > l ∨ E.clebschGordan (l + k) m l (1 - m) 1 1 = none)
    (h2 : |-m| > l ∨ E.clebschGordan (l + k) m l (-m) 1 0 = none)
    (h3 : |-(1 + m)| > l ∨ E.clebschGordan (l + k) m l (-(1 + m)) 1 (-1) = none) :
    sphereVecHarmonic E res radius gauss l k m =
      .ok (((res.mapElems fun p => p.setAt 0 0).mapElems fun p => p.setAt 1 0).mapElems
        fun p => p.setAt 2 0) := by
  unfold sphereVecHarmonic
  simp only [couplingBlock_invalid E res radius gauss l k m (1 - m) 1 (1 - m) 0 0 h1, ok_bind,
    couplingBlock_invalid E _ radius gauss l k m (-m) 0 (1 - m) 1 1 h2,
    couplingBlock_invalid E _ radius gauss l k m (-(1 + m)) (-1) (-(m + 1)) 0 2 h3]

theorem surfShape_five : surfShape (5 : ℚ) 1 ⟨1, 1, 1⟩ = ⟨17, 17, 17⟩ := by
  have hc : surfIntRadius (5 : ℚ) 1 1 = 8 := by
    rw [surfIntRadius_eq, max_self]
    norm_num
  unfold surfShape
  simp only [hc]
  rfl

/-- C15 (what the code does). For every `(l,k,m)` with `|m| ≤ l` whose coupling
`clebschGordan(l+k, m, l, -m, 1, 0)` is valid, on an output array of the scalar
kernel's shape `sphereVecHarmonic` returns, and the second component (index 1)
of its kernel is at every voxel the coupling coefficient times the scalar
surface harmonic of degree `l` and order `1-m`, the order the second block
passes to `sphereSurfHarmonic`, not `-m`. -/
theorem sphereVecHarmonic_second_component (E : Externals α)
    (res : MultiArray3 (TinyVector3 (FFTWComplex α))) (radius gauss : α) (l k m : Int) (c : α)
    (hshape : res.shape = surfShape radius gauss ⟨1, 1, 1⟩) (hm : |m| ≤ l)
    (hc : E.clebschGordan (l + k) m l (-m) 1 0 = some c) :
    ∃ out, sphereVecHarmonic E res radius gauss l k m = .ok out ∧ out.shape = res.shape ∧
      ∀ z y x, MultiArray3.inShape res.shape z y x →
        (out.data z y x).v1 = (⟨c, 0⟩ : FFTWComplex α) *
          (sphereSurfHarmonic E radius gauss l (1 - m) false ⟨1, 1, 1⟩).data z y x := by
  obtain ⟨r1, r2, r3, hok, hs1, hs2, hs3, hP⟩ :=
    sphereVecHarmonic_blocks E res radius gauss l k m hshape
  refine ⟨r3, hok, hs3, fun z y x hin => ?_⟩
  obtain ⟨_, ⟨_, h2⟩, ⟨h3i, h3v⟩⟩ := hP z y x hin
  have hg : ¬ |-m| > l := by
    rw [abs_neg]
    exact not_lt.mpr hm
  have e3 : (r3.data z y x).v1 = (r2.data z y x).v1 := by
    rcases coupling_frame E l k m (-(1 + m)) (-1) _ _ 0 2 _ h3i h3v with h | ⟨v, h⟩
    · rw [h]
      rfl
    · rw [h]
      rfl
  rw [e3, h2 c hg hc]
  rfl

/-- C15 (what the code does), at `l = 1`, `k = 1`, `m = 0`, radius 5, width 1,
with a coupling routine that returns 1: component 1 at the centre voxel is the
harmonic of order 1. -/
theorem sphereVecHarmonic_second_component_witness :
    ∃ out, sphereVecHarmonic ratExternalsCoupled (MultiArray3.reshape ⟨17, 17, 17⟩ 0) 5 1 1 1 0
        = .ok out ∧
      (out.data 8 8 8).v1 = (⟨1, 0⟩ : FFTWComplex ℚ) *
        (sphereSurfHarmonic ratExternalsCoupled 5 1 1 (1 - 0) false ⟨1, 1, 1⟩).data 8 8 8 := by
  obtain ⟨out, hok, _, hv⟩ := sphereVecHarmonic_second_component ratExternalsCoupled
    (MultiArray3.reshape ⟨17, 17, 17⟩ 0) 5 1 1 1 0 1 surfShape_five.symm (by norm_num) rfl
  exact ⟨out, hok, hv 8 8 8 (by decide)⟩

/-- C16 (what the code does). For every `(l,k,m)` with `|1+m| ≤ l` whose
coupling `clebschGordan(l+k, m, l, -(1+m), 1, -1)` is valid, on an output array
of the scalar kernel's shape `sphereVecHarmonic` returns, and the third block
has assigned the coupling coefficient times the scalar harmonic of order
`-(1+m)` to the first component (index 0), over whatever the first block
computed; the third component (index 2) is what the array held on entry. -/
theorem sphereVecHarmonic_third_block (E : Externals α)
    (res : MultiArray3 (TinyVector3 (FFTWComplex α))) (radius gauss : α) (l k m : Int) (c : α)
    (hshape : res.shape = surfShape radius gauss ⟨1, 1, 1⟩) (hm : |1 + m| ≤ l)
    (hc : E.clebschGordan (l + k) m l (-(1 + m)) 1 (-1) = some c) :
    ∃ out, sphereVecHarmonic E res radius gauss l k m = .ok out ∧ out.shape = res.shape ∧
      ∀ z y x, MultiArray3.inShape res.shape z y x →
        (out.data z y x).v0 = (⟨c, 0⟩ : FFTWComplex α) *
          (sphereSurfHarmonic E radius gauss l (-(m + 1)) false ⟨1, 1, 1⟩).data z y x ∧
        (out.data z y x).v2 = (res.data z y x).v2 := by
  obtain ⟨r1, r2, r3, hok, hs1, hs2, hs3, hP⟩ :=
    sphereVecHarmonic_blocks E res radius gauss l k m hshape
  refine ⟨r3, hok, hs3, fun z y x hin => ?_⟩
  obtain ⟨⟨h1i, h1v⟩, ⟨h2i, h2v⟩, ⟨_, h3v⟩⟩ := hP z y x hin
  have hg : ¬ |-(1 + m)| > l := by
    rw [abs_neg]
    exact not_lt.mpr hm
  have e1 : (r1.data z y x).v2 = (res.data z y x).v2 := by
    rcases coupling_frame E l k m (1 - m) 1 _ _ 0 0 _ h1i h1v with h | ⟨v, h⟩
    · rw [h]
      rfl
    · rw [h]
      rfl
  have e2 : (r2.data z y x).v2 = (r1.data z y x).v2 := by
    rcases coupling_frame E l k m (-m) 0 _ _ 1 1 _ h2i h2v with h | ⟨v, h⟩
    · rw [h]
      rfl
    · rw [h]
      rfl
  rw [h3v c hg hc]
  exact ⟨rfl, e2.trans e1⟩

/-- C16 (what the code does), at `l = 1`, `k = 1`, `m = 0`, radius 5, width 1,
with a coupling routine that returns 1, on an array whose third components are
all 7: at the centre voxel component 0 is the harmonic of order -1 and
component 2 is still 7. -/
theorem sphereVecHarmonic_third_block_witness :
    ∃ out, sphereVecHarmonic ratExternalsCoupled
        (MultiArray3.reshape ⟨17, 17, 17⟩ ⟨0, 0, ⟨7, 0⟩⟩) 5 1 1 1 0 = .ok out ∧
      (out.data 8 8 8).v0 = (⟨1, 0⟩ : FFTWComplex ℚ) *
        (sphereSurfHarmonic ratExternalsCoupled 5 1 1 (-(0 + 1)) false ⟨1, 1, 1⟩).data 8 8 8 ∧
      (out.data 8 8 8).v2 = ⟨7, 0⟩ := by
  obtain ⟨out, hok, _, hv⟩ := sphereVecHarmonic_third_block ratExternalsCoupled
    (MultiArray3.reshape ⟨17, 17, 17⟩ ⟨0, 0, ⟨7, 0⟩⟩) 5 1 1 1 0 1 surfShape_five.symm
    (by norm_num) rfl
  obtain ⟨h0, h2⟩ := hv 8 8 8 (by decide)
  refine ⟨out, hok, h0, ?_⟩
  rw [h2]
  rfl

/-- C17 (what the code does). On an output array of the scalar kernel's shape
`sphereVecHarmonic` returns for every `(l,k,m)`, and at every voxel: the
component of `σ = 0` (index 1) is zero when its order `-m` exceeds `l` or its
coupling is rejected; the component of `σ = -1` (index 2) is zero when its
order `-(1+m)` exceeds `l` or its coupling is rejected; but the component of
`σ = +1` (index 0) of a rejected `σ = +1` coupling is zero only when the
`σ = -1` coupling is rejected too: when that one is valid, with coefficient
`c`, component 0 is `c` times the scalar harmonic of order `-(1+m)`. -/
theorem sphereVecHarmonic_rejected (E : Externals α)
    (res : MultiArray3 (TinyVector3 (FFTWComplex α))) (radius gauss : α) (l k m : Int)
    (hshape : res.shape = surfShape radius gauss ⟨1, 1, 1⟩) :
    ∃ out, sphereVecHarmonic E res radius gauss l k m = .ok out ∧ out.shape = res.shape ∧
      ∀ z y x, MultiArray3.inShape res.shape z y x →
        ((|-m| > l ∨ E.clebschGordan (l + k) m l (-m) 1 0 = none) →
          (out.data z y x).v1 = 0) ∧
        ((|-(1 + m)| > l ∨ E.clebschGordan (l + k) m l (-(1 + m)) 1 (-1) = none) →
          (out.data z y x).v2 = 0) ∧
        ((|1 - m| > l ∨ E.clebschGordan (l + k) m l (1 - m) 1 1 = none) →
          (|-(1 + m)| > l ∨ E.clebschGordan (l + k) m l (-(1 + m)) 1 (-1) = none) →
          (out.data z y x).v0 = 0) ∧
        (∀ c, ¬ |-(1 + m)| > l → E.clebschGordan (l + k) m l (-(1 + m)) 1 (-1) = some c →
          (out.data z y x).v0 = (⟨c, 0⟩ : FFTWComplex α) *
            (sphereSurfHarmonic E radius gauss l (-(m + 1)) false ⟨1, 1, 1⟩).data z y x) := by
  obtain ⟨r1, r2, r3, hok, hs1, hs2, hs3, hP⟩ :=
    sphereVecHarmonic_blocks E res radius gauss l k m hshape
  refine ⟨r3, hok, hs3, fun z y x hin => ?_⟩
  obtain ⟨⟨h1i, h1v⟩, ⟨h2i, h2v⟩, ⟨h3i, h3v⟩⟩ := hP z y x hin
  refine ⟨fun h2 => ?_, fun h3 => ?_, fun h1 h3 => ?_, fun c hg hc => ?_⟩
  · have e3 : (r3.data z y x).v1 = (r2.data z y x).v1 := by
      rcases coupling_frame E l k m (-(1 + m)) (-1) _ _ 0 2 _ h3i h3v with h | ⟨v, h⟩
      · rw [h]
        rfl
      · rw [h]
        rfl
    rw [e3, h2i h2]
    rfl
  · rw [h3i h3]
    rfl
  · have e2 : (r2.data z y x).v0 = (r1.data z y x).v0 := by
      rcases coupling_frame E l k m (-m) 0 _ _ 1 1 _ h2i h2v with h | ⟨v, h⟩
      · rw [h]
        rfl
      · rw [h]
        rfl
    rw [h3i h3]
    show (r2.data z y x).v0 = 0
    rw [e2, h1i h1]
    rfl
  · rw [h3v c hg hc]
    rfl

/-- C17 (what the code does), at `l = 1`, `k = 0`, `m = -1`, radius 5, width 1,
with a coupling routine that returns 1: the order `1-m = 2` of `σ = +1` exceeds
`l`, yet component 0 at the centre voxel is the harmonic of order 0 that the
`σ = -1` block assigned. -/
theorem sphereVecHarmonic_rejected_witness :
    |(1 : Int) - -1| > 1 ∧
    ∃ out, sphereVecHarmonic ratExternalsCoupled (MultiArray3.reshape ⟨17, 17, 17⟩ 0) 5 1 1 0 (-1)
        = .ok out ∧
      (out.data 8 8 8).v0 = (⟨1, 0⟩ : FFTWComplex ℚ) *
        (sphereSurfHarmonic ratExternalsCoupled 5 1 1 (-(-1 + 1)) false ⟨1, 1, 1⟩).data 8 8 8 := by
  obtain ⟨out, hok, _, hv⟩ := sphereVecHarmonic_rejected ratExternalsCoupled
    (MultiArray3.reshape ⟨17, 17, 17⟩ 0) 5 1 1 0 (-1) surfShape_five.symm
  exact ⟨by norm_num, out, hok, (hv 8 8 8 (by decide)).2.2.2 1 (by norm_num) rfl⟩

/-- C18. The kernel `sphereVecHarmonic` produces for `l = 0`, `k = 0`, `m = 0`
(on any output array when `clebschGordan(0,0,0,0,1,0)` signals an invalid
combination, on an array of the scalar kernel's shape otherwise) has its
`σ = +1` component (index 0) and its `σ = -1` component (index 2) equal to zero
at every voxel, and its `σ = 0` component (index 1) equal to zero at every
voxel whenever `clebschGordan(0,0,0,0,1,0)` signals an invalid combination. -/
theorem sphereVecHarmonic_zero_degree (E : Externals α)
    (res : MultiArray3 (TinyVector3 (FFTWComplex α))) (radius gauss : α)
    (h : E.clebschGordan 0 0 0 0 1 0 = none ∨ res.shape = surfShape radius gauss ⟨1, 1, 1⟩) :
    ∃ out, sphereVecHarmonic E res radius gauss 0 0 0 = .ok out ∧ out.shape = res.shape ∧
      ∀ z y x, MultiArray3.inShape res.shape z y x →
        (out.data z y x).v0 = 0 ∧ (out.data z y x).v2 = 0 ∧
        (E.clebschGordan 0 0 0 0 1 0 = none → (out.data z y x).v1 = 0) := by
  have g1 : |(1 : Int) - 0| > 0 := by norm_num
  have g3 : |(-(1 + 0) : Int)| > 0 := by norm_num
  have b1 := couplingBlock_invalid E res radius gauss 0 0 0 (1 - 0) 1 (1 - 0) 0 0 (Or.inl g1)
  cases hc : E.clebschGordan 0 0 0 0 1 0 with
  | none =>
    have hc2 : E.clebschGordan (0 + 0) 0 0 (-0) 1 0 = none := hc
    have hok := sphereVecHarmonic_all_invalid E res radius gauss 0 0 0 (Or.inl g1) (Or.inr hc2)
      (Or.inl g3)
    refine ⟨_, hok, rfl, fun z y x hin => ?_⟩
    have hin1 : MultiArray3.inShape (res.mapElems fun p => p.setAt 0 0).shape z y x := hin
    have hin2 : MultiArray3.inShape
        ((res.mapElems fun p => p.setAt 0 0).mapElems fun p => p.setAt 1 0).shape z y x := hin
    simp only [MultiArray3.mapElems, if_pos hin, if_pos hin1, if_pos hin2]
    exact ⟨rfl, rfl, fun _ => rfl⟩
  | some c =>
    have hshape : res.shape = surfShape radius gauss ⟨1, 1, 1⟩ := by
      rcases h with h | h
      · rw [hc] at h
        cases h
      · exact h
    have hc2 : E.clebschGordan (0 + 0) 0 0 (-0) 1 0 = some c := hc
    obtain ⟨r2, h2, hs2, hP2⟩ := couplingBlock_valid E (res.mapElems fun p => p.setAt 0 0)
      radius gauss 0 0 0 (-0) 0 (1 - 0) 1 1 c (by norm_num) hc2 hshape
    have b3 := couplingBlock_invalid E r2 radius gauss 0 0 0 (-(1 + 0)) (-1) (-(0 + 1)) 0 2
      (Or.inl g3)
    refine ⟨r2.mapElems fun p => p.setAt 2 0, ?_, hs2, fun z y x hin => ?_⟩
    · unfold sphereVecHarmonic
      simp only [b1, h2, ok_bind]
      exact b3
    · have hin2 : MultiArray3.inShape r2.shape z y x := by
        rw [hs2]
        exact hin
      have e2 := hP2 z y x hin
      simp only [MultiArray3.mapElems, if_pos hin] at e2
      simp only [MultiArray3.mapElems, if_pos hin2, e2]
      refine ⟨rfl, rfl, fun hn => ?_⟩
      cases hn

/-- C18, at radius 5 and width 1 with a coupling routine that rejects every
combination, on an array whose components are all 1: the three components of
the centre voxel are zero. -/
theorem sphereVecHarmonic_zero_degree_witness :
    ∃ out, sphereVecHarmonic ratExternals
        (MultiArray3.reshape ⟨17, 17, 17⟩ ⟨⟨1, 0⟩, ⟨1, 0⟩, ⟨1, 0⟩⟩) 5 1 0 0 0 = .ok out ∧
      (out.data 8 8 8).v0 = 0 ∧ (out.data 8 8 8).v1 = 0 ∧ (out.data 8 8 8).v2 = 0 := by
  obtain ⟨out, hok, _, hv⟩ := sphereVecHarmonic_zero_degree ratExternals
    (MultiArray3.reshape ⟨17, 17, 17⟩ ⟨⟨1, 0⟩, ⟨1, 0⟩, ⟨1, 0⟩⟩) 5 1 (Or.inl rfl)
  obtain ⟨h0, h2, h1⟩ := hv 8 8 8 (by decide)
  exact ⟨out, hok, h0, h1 rfl, h2⟩

/-- C19 (what the code does). `sphereVecHarmonic` never reshapes its output
array: for every radius, width and `(l,k,m)` the call either assigns outside
the array or returns an array of the shape the output array had on entry; on a
default-constructed array, which is what `computeVHbaseF` and `reconstVH` pass,
the array it returns has shape `(0,0,0)`. -/
theorem sphereVecHarmonic_keeps_shape (E : Externals α)
    (res : MultiArray3 (TinyVector3 (FFTWComplex α))) (radius gauss : α) (l k m : Int) :
    (sphereVecHarmonic E res radius gauss l k m = .error .undefinedBehaviour ∨
      ∃ out, sphereVecHarmonic E res radius gauss l k m = .ok out ∧ out.shape = res.shape) ∧
    (∀ out, sphereVecHarmonic E MultiArray3.empty radius gauss l k m = .ok out →
      out.shape = ⟨0, 0, 0⟩) := by
  constructor
  · cases hres : sphereVecHarmonic E res radius gauss l k m with
    | error e =>
      left
      rw [(sphereVecHarmonic_cases E res radius gauss l k m).2 e hres]
    | ok out =>
      right
      exact ⟨out, rfl, (sphereVecHarmonic_cases E res radius gauss l k m).1 out hres⟩
  · intro out hout
    rw [(sphereVecHarmonic_cases E MultiArray3.empty radius gauss l k m).1 out hout]
    rfl

/-- C19 (what the code does), at radius 5, width 1, `l = k = m = 0` on a
default-constructed array: the call returns an array of shape `(0,0,0)`, where
the scalar kernel has shape `(17,17,17)`. -/
theorem sphereVecHarmonic_keeps_shape_witness :
    (∃ out, sphereVecHarmonic ratExternals MultiArray3.empty 5 1 0 0 0 = .ok out ∧
      out.shape = ⟨0, 0, 0⟩) ∧
    (sphereSurfHarmonic ratExternals 5 1 0 0 false ⟨1, 1, 1⟩).shape = ⟨17, 17, 17⟩ := by
  have hok := sphereVecHarmonic_all_invalid ratExternals MultiArray3.empty 5 1 0 0 0
    (Or.inr rfl) (Or.inr rfl) (Or.inr rfl)
  refine ⟨⟨_, hok, (sphereVecHarmonic_keeps_shape ratExternals MultiArray3.empty 5 1 0 0 0).2 _
    hok⟩, ?_⟩
  rw [sphereSurfHarmonic_eq_tabulate]
  exact surfShape_five

end VectorHarmonicTheorems

/-! ## Reconstruction -/

section ReconstructionTheorems

variable {α : Type} [LinearOrderedField α] [FloorRing α]

theorem vecGet_getD {T : Type} (v : List T) (i : Int) (d : T) (h0 : 0 ≤ i)
    (h : i < v.length) : vecGet v i = .ok (v.getD i.toNat d) := by
  have hlt : i.toNat < v.length := by omega
  apply vecGet_ok v i _ h0
  rw [List.getD_eq_getElem?_getD, List.getElem?_eq_getElem hlt]
  rfl

theorem vecGet_elemAt {T : Type} [Inhabited T] (data : List (List T)) (l j : Int)
    (hl0 : 0 ≤ l) (hl : l < data.length) (hj0 : 0 ≤ j)
    (hj : j < (data.getD l.toNat []).length) :
    (vecGet data l >>= fun row => vecGet row j) = .ok (elemAt data l.toNat j.toNat) := by
  rw [vecGet_getD data l [] hl0 hl, ok_bind, vecGet_getD _ j default hj0 hj]
  rfl

/-- The `m` loop of `reconstSH` for one degree `l`: every kernel of the row adds
its term to every voxel. -/
theorem reconstSH_row (SH_A : List (List (FFTWComplex α)))
    (SHbaseF : List (List (MultiArray3 (FFTWComplex α)))) (l : Nat)
    (hK : l < SHbaseF.length ∧ 2 * l < (SHbaseF.getD l []).length)
    (hC : l < SH_A.length ∧ 2 * l < (SH_A.getD l []).length)
    (R0 : MultiArray3 α)
    (hS : ∀ j, j ≤ 2 * l → (elemAt SHbaseF l j).shape = R0.shape) :
    ∃ R, forFromTo (-(l : Int)) l R0 (fun m reconstruct => do
        let baseRow ← vecGet SHbaseF l
        let K ← vecGet baseRow ((l : Int) + m)
        MultiArray3.lockstep reconstruct.size reconstruct K fun q p => do
          let coeffRow ← vecGet SH_A l
          let c ← vecGet coeffRow ((l : Int) + m)
          pure (q + (p * FFTWComplex.conj c).re)) = .ok R ∧
      R.shape = R0.shape ∧
      ∀ z y x, MultiArray3.inShape R0.shape z y x →
        R.data z y x = R0.data z y x + ∑ j in Finset.range (2 * l + 1),
          ((elemAt SHbaseF l j).data z y x * FFTWComplex.conj (elemAt SH_A l j)).re := by
  unfold forFromTo
  have hcount : ((l : Int) + 1 - -(l : Int)).toNat = 2 * l + 1 := by omega
  rw [hcount]
  refine loopM_inv
    (fun i (R : MultiArray3 α) => R.shape = R0.shape ∧
      ∀ z y x, MultiArray3.inShape R0.shape z y x →
        R.data z y x = R0.data z y x + ∑ j in Finset.range i,
          ((elemAt SHbaseF l j).data z y x * FFTWComplex.conj (elemAt SH_A l j)).re)
    (2 * l + 1) R0 _ ⟨rfl, fun z y x _ => by simp⟩ ?_
  intro i R hi hP
  obtain ⟨hRs, hRd⟩ := hP
  have hidx : ((l : Int) + (-(l : Int) + (i : Int))).toNat = i := by omega
  have hl' : ((l : Int)).toNat = l := by omega
  have hKget : (vecGet SHbaseF (l : Int) >>= fun row => vecGet row ((l : Int) + (-(l : Int) + (i : Int))))
      = .ok (elemAt SHbaseF l i) := by
    have h := vecGet_elemAt SHbaseF (l : Int) ((l : Int) + (-(l : Int) + (i : Int))) (by omega)
      (by omega) (by omega) (by rw [hl']; omega)
    rw [hl', hidx] at h
    exact h
  have hCget : (vecGet SH_A (l : Int) >>= fun row => vecGet row ((l : Int) + (-(l : Int) + (i : Int))))
      = .ok (elemAt SH_A l i) := by
    have h := vecGet_elemAt SH_A (l : Int) ((l : Int) + (-(l : Int) + (i : Int))) (by omega)
      (by omega) (by omega) (by rw [hl']; omega)
    rw [hl', hidx] at h
    exact h
  obtain ⟨R', hR', hR's, hR'd⟩ := lockstep_same_shape R (elemAt SHbaseF l i)
    (fun q p => do
      let coeffRow ← vecGet SH_A l
      let c ← vecGet coeffRow ((l : Int) + (-(l : Int) + (i : Int)))
      pure (q + (p * FFTWComplex.conj c).re))
    (fun q p => q + (p * FFTWComplex.conj (elemAt SH_A l i)).re)
    (by rw [hS i (by omega), hRs])
    (by
      intro q p
      have h : (vecGet SH_A (l : Int) >>= fun coeffRow =>
          vecGet coeffRow ((l : Int) + (-(l : Int) + (i : Int))) >>= fun c =>
            (pure (q + (p * FFTWComplex.conj c).re) : Except Fault α))
          = ((vecGet SH_A (l : Int) >>= fun row =>
              vecGet row ((l : Int) + (-(l : Int) + (i : Int)))) >>= fun c =>
            (pure (q + (p * FFTWComplex.conj c).re) : Except Fault α)) := by
        rw [bind_assoc]
      exact h.trans (by rw [hCget, ok_bind]; rfl))
  refine ⟨R', ?_, by rw [hR's, hRs], fun z y x hin => ?_⟩
  · have h : (vecGet SHbaseF (l : Int) >>= fun baseRow =>
        vecGet baseRow ((l : Int) + (-(l : Int) + (i : Int))) >>= fun K =>
          MultiArray3.lockstep R.size R K fun q p => do
            let coeffRow ← vecGet SH_A l
            let c ← vecGet coeffRow ((l : Int) + (-(l : Int) + (i : Int)))
            pure (q + (p * FFTWComplex.conj c).re))
        = ((vecGet SHbaseF (l : Int) >>= fun row =>
            vecGet row ((l : Int) + (-(l : Int) + (i : Int)))) >>= fun K =>
          MultiArray3.lockstep R.size R K fun q p => do
            let coeffRow ← vecGet SH_A l
            let c ← vecGet coeffRow ((l : Int) + (-(l : Int) + (i : Int)))
            pure (q + (p * FFTWComplex.conj c).re)) := by
      rw [bind_assoc]
    exact h.trans (by rw [hKget, ok_bind]; exact hR')
  · have hin' : MultiArray3.inShape R.shape z y x := by rw [hRs]; exact hin
    rw [(hR'd z y x).1 hin', hRd z y x hin, Finset.sum_range_succ, add_assoc]

theorem sum_range_eq_sum_Icc {M : Type} [AddCommMonoid M] (l : Nat) (F : Nat → M) :
    ∑ j in Finset.range (2 * l + 1), F j
      = ∑ m in Finset.Icc (-(l : Int)) (l : Int), F ((l : Int) + m).toNat := by
  refine Finset.sum_nbij' (fun (j : Nat) => (j : Int) - (l : Int))
    (fun (m : Int) => ((l : Int) + m).toNat) ?_ ?_ ?_ ?_ ?_
  · intro j hj
    rw [Finset.mem_range] at hj
    show (j : Int) - (l : Int) ∈ Finset.Icc (-(l : Int)) (l : Int)
    rw [Finset.mem_Icc]
    omega
  · intro m hm
    rw [Finset.mem_Icc] at hm
    show ((l : Int) + m).toNat ∈ Finset.range (2 * l + 1)
    rw [Finset.mem_range]
    omega
  · intro j hj
    show ((l : Int) + ((j : Int) - (l : Int))).toNat = j
    omega
  · intro m hm
    rw [Finset.mem_Icc] at hm
    show ((((l : Int) + m).toNat : Nat) : Int) - (l : Int) = m
    omega
  · intro j hj
    have e : ((l : Int) + ((j : Int) - (l : Int))).toNat = j := by omega
    show F j = F ((l : Int) + ((j : Int) - (l : Int))).toNat
    rw [e]

theorem reconstSH_eq (radius gauss : α) (band : Nat) (SH_A : List (List (FFTWComplex α)))
    (SHbaseF : List (List (MultiArray3 (FFTWComplex α))))
    (hK : ∀ l, l ≤ band → l < SHbaseF.length ∧ 2 * l < (SHbaseF.getD l []).length)
    (hC : ∀ l, l ≤ band → l < SH_A.length ∧ 2 * l < (SH_A.getD l []).length)
    (hS : ∀ l, l ≤ band → ∀ j, j ≤ 2 * l →
      (elemAt SHbaseF l j).shape = (elemAt SHbaseF 0 0).shape) :
    ∃ R, reconstSH radius gauss band SH_A SHbaseF = .ok R ∧
      R.shape = (elemAt SHbaseF 0 0).shape ∧
      ∀ z y x, MultiArray3.inShape (elemAt SHbaseF 0 0).shape z y x →
        R.data z y x = ∑ l in Finset.range (band + 1), ∑ j in Finset.range (2 * l + 1),
          ((elemAt SHbaseF l j).data z y x * FFTWComplex.conj (elemAt SH_A l j)).re := by
  have h00 : (vecGet SHbaseF 0 >>= fun row => vecGet row 0) = .ok (elemAt SHbaseF 0 0) := by
    have h := vecGet_elemAt SHbaseF 0 0 (le_refl 0) (by have := (hK 0 (Nat.zero_le _)).1; omega)
      (le_refl 0) (by
        have := (hK 0 (Nat.zero_le _)).2
        show (0 : Int) < ((SHbaseF.getD 0 []).length : Int)
        omega)
    exact h
  obtain ⟨R, hR, hRs, hRd⟩ := loopM_inv
    (fun l (R : MultiArray3 α) => R.shape = (elemAt SHbaseF 0 0).shape ∧
      ∀ z y x, MultiArray3.inShape (elemAt SHbaseF 0 0).shape z y x →
        R.data z y x = ∑ l' in Finset.range l, ∑ j in Finset.range (2 * l' + 1),
          ((elemAt SHbaseF l' j).data z y x * FFTWComplex.conj (elemAt SH_A l' j)).re)
    (band + 1) (MultiArray3.reshape (elemAt SHbaseF 0 0).shape (0 : α))
    (fun i reconstruct =>
      forFromTo (-(0 + (i : Int))) (0 + (i : Int)) reconstruct fun m reconstruct => do
        let baseRow ← vecGet SHbaseF (0 + (i : Int))
        let K ← vecGet baseRow ((0 + (i : Int)) + m)
        MultiArray3.lockstep reconstruct.size reconstruct K fun q p => do
          let coeffRow ← vecGet SH_A (0 + (i : Int))
          let c ← vecGet coeffRow ((0 + (i : Int)) + m)
          pure (q + (p * FFTWComplex.conj c).re))
    ⟨rfl, fun z y x hin => by simp [MultiArray3.reshape, hin]⟩
    (by
      intro i R hi hP
      obtain ⟨hs, hd⟩ := hP
      obtain ⟨R', hR', hR's, hR'd⟩ := reconstSH_row SH_A SHbaseF i (hK i (by omega))
        (hC i (by omega)) R (fun j hj => by rw [hS i (by omega) j hj, hs])
      refine ⟨R', ?_, by rw [hR's, hs], fun z y x hin => ?_⟩
      · simp only [zero_add]
        exact hR'
      · rw [hR'd z y x (by rw [hs]; exact hin), hd z y x hin]
        exact (Finset.sum_range_succ (fun l' => ∑ j in Finset.range (2 * l' + 1),
          ((elemAt SHbaseF l' j).data z y x * FFTWComplex.conj (elemAt SH_A l' j)).re) i).symm)
  refine ⟨R, ?_, hRs, hRd⟩
  unfold reconstSH
  have h : (vecGet SHbaseF 0 >>= fun row0 => vecGet row0 0 >>= fun K00 =>
      forFromTo 0 band (MultiArray3.reshape K00.shape (0 : α)) fun l reconstruct =>
        forFromTo (-l) l reconstruct fun m reconstruct => do
          let baseRow ← vecGet SHbaseF l
          let K ← vecGet baseRow (l + m)
          MultiArray3.lockstep reconstruct.size reconstruct K fun q p => do
            let coeffRow ← vecGet SH_A l
            let c ← vecGet coeffRow (l + m)
            pure (q + (p * FFTWComplex.conj c).re))
      = ((vecGet SHbaseF 0 >>= fun row => vecGet row 0) >>= fun K00 =>
      forFromTo 0 band (MultiArray3.reshape K00.shape (0 : α)) fun l reconstruct =>
        forFromTo (-l) l reconstruct fun m reconstruct => do
          let baseRow ← vecGet SHbaseF l
          let K ← vecGet baseRow (l + m)
          MultiArray3.lockstep reconstruct.size reconstruct K fun q p => do
            let coeffRow ← vecGet SH_A l
            let c ← vecGet coeffRow (l + m)
            pure (q + (p * FFTWComplex.conj c).re)) := by
    rw [bind_assoc]
  refine h.trans ?_
  rw [h00, ok_bind]
  unfold forFromTo
  have hcount : ((band : Int) + 1 - 0).toNat = band + 1 := by omega
  rw [hcount]
  exact hR

/-- C2. For every band, every scalar cache `SHbaseF` with at least `band+1`
degree entries of at least `2l+1` kernels that all share one shape, and every
coefficient set `SH_A` with entries at the same indices, `reconstSH` returns a
field of the kernel shape whose value at every voxel `x` is the sum over `l` in
`[0,band]` and `m` in `[-l,l]` of `Re(SHbaseF[l][l+m](x) * conj(SH_A[l][l+m]))`. -/
theorem reconstSH_sum (radius gauss : α) (band : Nat) (SH_A : List (List (FFTWComplex α)))
    (SHbaseF : List (List (MultiArray3 (FFTWComplex α))))
    (hK : ∀ l, l ≤ band → l < SHbaseF.length ∧ 2 * l < (SHbaseF.getD l []).length)
    (hC : ∀ l, l ≤ band → l < SH_A.length ∧ 2 * l < (SH_A.getD l []).length)
    (hS : ∀ l, l ≤ band → ∀ j, j ≤ 2 * l →
      (elemAt SHbaseF l j).shape = (elemAt SHbaseF 0 0).shape) :
    ∃ R, reconstSH radius gauss band SH_A SHbaseF = .ok R ∧
      R.shape = (elemAt SHbaseF 0 0).shape ∧
      ∀ z y x, MultiArray3.inShape R.shape z y x →
        R.data z y x = ∑ l in Finset.range (band + 1), ∑ m in Finset.Icc (-(l : Int)) (l : Int),
          ((elemAt SHbaseF l ((l : Int) + m).toNat).data z y x *
            FFTWComplex.conj (elemAt SH_A l ((l : Int) + m).toNat)).re := by
  obtain ⟨R, hR, hRs, hRd⟩ := reconstSH_eq radius gauss band SH_A SHbaseF hK hC hS
  refine ⟨R, hR, hRs, fun z y x hin => ?_⟩
  rw [hRd z y x (by rw [← hRs]; exact hin)]
  apply Finset.sum_congr rfl
  intro l _
  exact sum_range_eq_sum_Icc l (fun j =>
    ((elemAt SHbaseF l j).data z y x * FFTWComplex.conj (elemAt SH_A l j)).re)

/-- C2, at band 0 with the single kernel `(1, 0, 0)` and the coefficient 2: the
reconstruction returns a field of shape `(1,1,3)`. -/
theorem reconstSH_sum_witness :
    ∃ R, reconstSH (1 : ℚ) 1 0 [[⟨2, 0⟩]] [[flipKernel]] = .ok R ∧ R.shape = ⟨1, 1, 3⟩ := by
  obtain ⟨R, hR, hRs, _⟩ := reconstSH_sum (1 : ℚ) 1 0 [[⟨2, 0⟩]] [[flipKernel]]
    (by
      intro l hl
      have h0 : l = 0 := by omega
      subst h0
      decide)
    (by
      intro l hl
      have h0 : l = 0 := by omega
      subst h0
      decide)
    (by
      intro l hl j hj
      have h0 : l = 0 := by omega
      subst h0
      have hj0 : j = 0 := by omega
      subst hj0
      rfl)
  exact ⟨R, hR, hRs⟩

end ReconstructionTheorems

/-! ## Local projection -/

section ProjectionTheorems

variable {α : Type} [LinearOrderedField α] [FloorRing α]

theorem loopM_add_eq_sum {M : Type} [AddCommMonoid M] (n : Nat) (a : M)
    (body : Nat → M → Except Fault M) (f : Nat → M)
    (h : ∀ acc i, i < n → body i acc = .ok (acc + f i)) :
    loopM n a body = .ok (a + ∑ i in Finset.range n, f i) := by
  obtain ⟨st, hst, hP⟩ := loopM_inv (fun k st => st = a + ∑ i in Finset.range k, f i) n a body
    (by simp)
    (by
      intro i st hi hP
      refine ⟨_, h st i hi, ?_⟩
      show st + f i = a + ∑ j in Finset.range (i + 1), f j
      rw [hP, Finset.sum_range_succ, add_assoc])
  rw [hst, hP]

theorem SHposCoeff_eq (A : MultiArray3 α) (pos : TinyVector3 α)
    (K : MultiArray3 (FFTWComplex α)) (hwin : windowInside A pos K) :
    SHposCoeff A pos K = .ok (projectionSum A pos K) := by
  obtain ⟨⟨hz0, hz1⟩, ⟨hy0, hy1⟩, ⟨hx0, hx1⟩⟩ := hwin
  unfold windowEnd at hz1 hy1 hx1
  have hcount : ∀ a b : Int, (a + b - 1 + 1 - a).toNat = b.toNat := by
    intro a b
    congr 1
    ring
  unfold SHposCoeff forDownCounting projectionSum flippedSum windowEnd
  simp only [hcount]
  rw [← zero_add (∑ sz in Finset.range K.shape.v0.toNat, _)]
  apply loopM_add_eq_sum
  intro acc i0 h0
  apply loopM_add_eq_sum
  intro acc i1 h1
  apply loopM_add_eq_sum
  intro acc i2 h2
  have hA : MultiArray3.inShape A.shape
      (windowStart pos.v0 K.shape.v0 + K.shape.v0 - 1 - (i0 : Int))
      (windowStart pos.v1 K.shape.v1 + K.shape.v1 - 1 - (i1 : Int))
      (windowStart pos.v2 K.shape.v2 + K.shape.v2 - 1 - (i2 : Int)) := by
    unfold MultiArray3.inShape
    omega
  have hK : MultiArray3.inShape K.shape (i0 : Int) (i1 : Int) (i2 : Int) := by
    unfold MultiArray3.inShape
    omega
  unfold MultiArray3.get
  rw [if_pos hA, if_pos hK]
  rfl

theorem SHpos_row (A : MultiArray3 α) (pos : TinyVector3 α)
    (baseRow : List (MultiArray3 (FFTWComplex α))) (row : List (FFTWComplex α))
    (hwin : ∀ K ∈ baseRow, windowInside A pos K) :
    forFromTo 0 ((baseRow.length : Int) - 1) (vecResize row baseRow.length)
        (fun m row => do
          let K ← vecGet baseRow m
          let coeff ← SHposCoeff A pos K
          vecSet row m coeff)
      = .ok (baseRow.map (projectionSum A pos)) := by
  have h := forFromTo_fill 0 ((baseRow.length : Int) - 1) 0 (vecResize row baseRow.length)
    (fun m row => do
      let K ← vecGet baseRow m
      let coeff ← SHposCoeff A pos K
      vecSet row m coeff)
    (fun m => projectionSum A pos ((baseRow[m.toNat]?).getD default))
    (by
      intro i st h1 h2 hlen
      rw [length_vecResize] at hlen
      have hlt : i.toNat < baseRow.length := by omega
      have hget : baseRow[i.toNat]? = some baseRow[i.toNat] := List.getElem?_eq_getElem hlt
      show (vecGet baseRow i >>= fun K => SHposCoeff A pos K >>= fun coeff => vecSet st i coeff)
        = _
      rw [vecGet_ok baseRow i _ h1 hget, ok_bind,
        SHposCoeff_eq A pos _ (hwin _ (List.getElem?_mem hget)), ok_bind]
      simp only [hget, add_zero, Option.getD_some]
      exact vecSet_ok st i _ h1 (by omega))
    (by omega)
    (by rw [length_vecResize]; omega)
  rw [length_vecResize] at h
  rw [h]
  congr 1
  apply List.ext_getElem?
  intro j
  rw [List.getElem?_map, List.getElem?_map]
  by_cases hj : j < baseRow.length
  · rw [List.getElem?_range hj, List.getElem?_eq_getElem hj]
    simp [List.getElem?_eq_getElem hj]
  · rw [List.getElem?_eq_none (by simpa using hj), List.getElem?_eq_none (by omega)]
    rfl

theorem SHpos_eq (SH_A : List (List (FFTWComplex α))) (radius : α) (band : Nat)
    (A : MultiArray3 α) (pos : TinyVector3 α)
    (SHbaseF : List (List (MultiArray3 (FFTWComplex α))))
    (hband : band < SHbaseF.length)
    (hwin : ∀ l : Nat, l ≤ band → ∀ row, SHbaseF[l]? = some row →
      ∀ K ∈ row, windowInside A pos K) :
    ∃ r, SHpos SH_A radius band A pos SHbaseF = .ok r ∧ r.length = SHbaseF.length ∧
      ∀ l : Nat, l ≤ band →
        r[l]? = (SHbaseF[l]?).map fun row => row.map (projectionSum A pos) := by
  unfold SHpos
  obtain ⟨r, hr, hlen, hP⟩ := forFromTo_set_each 0 band 0 (vecResize SH_A SHbaseF.length)
    (fun l SH_A => do
      let baseRow ← vecGet SHbaseF l
      vecModify SH_A l fun row =>
        forFromTo 0 ((baseRow.length : Int) - 1) (vecResize row baseRow.length) fun m row => do
          let K ← vecGet baseRow m
          let coeff ← SHposCoeff A pos K
          vecSet row m coeff)
    (fun l => ((SHbaseF[l.toNat]?).getD []).map (projectionSum A pos))
    (by
      intro i st h1 h2 hlen
      rw [length_vecResize] at hlen
      have hlt : i.toNat < SHbaseF.length := by omega
      have hget : SHbaseF[i.toNat]? = some SHbaseF[i.toNat] := List.getElem?_eq_getElem hlt
      show (vecGet SHbaseF i >>= fun baseRow => vecModify st i fun row =>
        forFromTo 0 ((baseRow.length : Int) - 1) (vecResize row baseRow.length) fun m row => do
          let K ← vecGet baseRow m
          let coeff ← SHposCoeff A pos K
          vecSet row m coeff) = _
      rw [vecGet_ok SHbaseF i _ h1 hget, ok_bind]
      simp only [hget, add_zero, Option.getD_some]
      exact vecModify_const st i _ _ h1 (by omega)
        (fun row => SHpos_row A pos _ row (hwin i.toNat (by omega) _ hget)))
    (by omega)
  rw [length_vecResize] at hlen hP
  refine ⟨r, hr, hlen, fun l hl => ?_⟩
  have hlt : l < SHbaseF.length := by omega
  rw [hP l, if_pos (by constructor <;> omega), List.getElem?_eq_getElem hlt]
  simp [List.getElem?_eq_getElem hlt]

/-- C1 (amended). For every input field `A`, probe position `pos` and scalar
cache with more than `band` degree entries whose kernel windows lie inside `A`,
`SHpos` returns, and the coefficient it produces for a cache index `(l,j)`,
`l ≤ band`, is the sum over all kernel offsets `(sz,sy,sx)` of
`A(ze-sz, ye-sy, xe-sx) * K[l][j](sz,sy,sx)`, where `(za,ya,xa)` is
`floor(pos - kernelShape/2)` per axis and `(ze,ye,xe) = (za,ya,xa) + kernelShape - 1`
is the last corner of the window: the kernel is flipped. -/
theorem SHpos_coefficient (SH_A : List (List (FFTWComplex α))) (radius : α) (band : Nat)
    (A : MultiArray3 α) (pos : TinyVector3 α)
    (SHbaseF : List (List (MultiArray3 (FFTWComplex α))))
    (hband : band < SHbaseF.length)
    (hwin : ∀ l : Nat, l ≤ band → ∀ row, SHbaseF[l]? = some row →
      ∀ K ∈ row, windowInside A pos K) :
    ∃ r, SHpos SH_A radius band A pos SHbaseF = .ok r ∧
      ∀ (l j : Nat) (K : MultiArray3 (FFTWComplex α)), l ≤ band →
        (SHbaseF[l]?).bind (fun row => row[j]?) = some K →
        (r[l]?).bind (fun row => row[j]?) =
          some (flippedSum A K (windowStart pos.v0 K.shape.v0 + K.shape.v0 - 1)
            (windowStart pos.v1 K.shape.v1 + K.shape.v1 - 1)
            (windowStart pos.v2 K.shape.v2 + K.shape.v2 - 1)) := by
  obtain ⟨r, hr, _, hP⟩ := SHpos_eq SH_A radius band A pos SHbaseF hband hwin
  refine ⟨r, hr, fun l j K hl hK => ?_⟩
  rw [hP l hl]
  cases hrow : SHbaseF[l]? with
  | none => rw [hrow] at hK; cases hK
  | some row =>
    rw [hrow] at hK
    simp only [Option.some_bind] at hK
    simp only [Option.map_some', Option.some_bind, List.getElem?_map, hK]
    rfl

theorem windowStart_flip :
    windowStart (0 : ℚ) 1 = 0 ∧ windowStart (1 : ℚ) 3 = 0 := by
  have h1 : (1 : Int).tdiv 2 = 0 := by decide
  have h3 : (3 : Int).tdiv 2 = 1 := by decide
  unfold windowStart
  rw [h1, h3]
  constructor <;> norm_num

theorem windowInside_flip : windowInside flipField ⟨0, 0, 1⟩ flipKernel := by
  unfold windowInside windowEnd
  show (0 ≤ windowStart (0 : ℚ) 1 ∧ windowStart (0 : ℚ) 1 + 1 - 1 < 1) ∧
    (0 ≤ windowStart (0 : ℚ) 1 ∧ windowStart (0 : ℚ) 1 + 1 - 1 < 1) ∧
    (0 ≤ windowStart (1 : ℚ) 3 ∧ windowStart (1 : ℚ) 3 + 3 - 1 < 3)
  rw [windowStart_flip.1, windowStart_flip.2]
  decide

theorem flipField_data (z y x : Int) :
    flipField.data z y x = if MultiArray3.inShape ⟨1, 1, 3⟩ z y x then (x : ℚ) + 1 else 0 := rfl

theorem flipKernel_data (z y x : Int) :
    flipKernel.data z y x =
      if MultiArray3.inShape ⟨1, 1, 3⟩ z y x then (if x = 0 then ⟨1, 0⟩ else 0) else 0 := rfl

theorem projectionSum_flip : projectionSum flipField ⟨0, 0, 1⟩ flipKernel = ⟨3, 0⟩ := by
  unfold projectionSum flippedSum windowEnd
  show (∑ sz in Finset.range 1, ∑ sy in Finset.range 1, ∑ sx in Finset.range 3,
    flipField.data (windowStart (0 : ℚ) 1 + 1 - 1 - sz) (windowStart (0 : ℚ) 1 + 1 - 1 - sy)
      (windowStart (1 : ℚ) 3 + 3 - 1 - sx) • flipKernel.data sz sy sx) = _
  rw [windowStart_flip.1, windowStart_flip.2]
  simp only [Finset.sum_range_succ, Finset.sum_range_zero, flipField_data, flipKernel_data]
  rw [FFTWComplex.eq_iff]
  simp [MultiArray3.inShape]
  norm_num

/-- C1, at the field `(1, 2, 3)`, the kernel `(1, 0, 0)` and the probe position
`(0, 0, 1)`. -/
theorem SHpos_coefficient_witness :
    ∃ r, SHpos [] 1 0 flipField ⟨0, 0, 1⟩ [[flipKernel]] = .ok r ∧
      ∀ (l j : Nat) (K : MultiArray3 (FFTWComplex ℚ)), l ≤ 0 →
        (([[flipKernel]] : List (List (MultiArray3 (FFTWComplex ℚ))))[l]?).bind
          (fun row => row[j]?) = some K →
        (r[l]?).bind (fun row => row[j]?) =
          some (flippedSum flipField K (windowStart (0 : ℚ) K.shape.v0 + K.shape.v0 - 1)
            (windowStart (0 : ℚ) K.shape.v1 + K.shape.v1 - 1)
            (windowStart (1 : ℚ) K.shape.v2 + K.shape.v2 - 1)) :=
  SHpos_coefficient [] 1 0 flipField ⟨0, 0, 1⟩ [[flipKernel]] (by decide) (by
    intro l hl row hrow K hK
    have hl0 : l = 0 := by omega
    subst hl0
    simp only [List.getElem?_cons_zero, Option.some.injEq] at hrow
    subst hrow
    simp only [List.mem_singleton] at hK
    subst hK
    exact windowInside_flip)

/-- C1 as stated fails: for the field `(1, 2, 3)`, the kernel `(1, 0, 0)` and
the probe position `(0, 0, 1)` the window lies inside the field and starts at
`(0,0,0)`; `SHpos` returns the coefficient 3, the un-flipped correlation sum
is 1. -/
theorem SHpos_correlation_counterexample :
    windowInside flipField ⟨0, 0, 1⟩ flipKernel ∧
    SHpos [] 1 0 flipField ⟨0, 0, 1⟩ [[flipKernel]] = .ok [[⟨3, 0⟩]] ∧
    correlationSum flipField flipKernel (windowStart (0 : ℚ) flipKernel.shape.v0)
      (windowStart (0 : ℚ) flipKernel.shape.v1) (windowStart (1 : ℚ) flipKernel.shape.v2)
      = ⟨1, 0⟩ := by
  refine ⟨windowInside_flip, ?_, ?_⟩
  · obtain ⟨r, hr, hlen, hP⟩ := SHpos_eq [] 1 0 flipField ⟨0, 0, 1⟩ [[flipKernel]] (by decide)
      (by
        intro l hl row hrow K hK
        have hl0 : l = 0 := by omega
        subst hl0
        simp only [List.getElem?_cons_zero, Option.some.injEq] at hrow
        subst hrow
        simp only [List.mem_singleton] at hK
        subst hK
        exact windowInside_flip)
    rw [hr]
    congr 1
    have h0 := hP 0 (le_refl 0)
    simp only [List.getElem?_cons_zero, Option.map_some', List.map_cons, List.map_nil,
      projectionSum_flip] at h0
    match r, hlen, h0 with
    | [x], _, h0 =>
      simp only [List.getElem?_cons_zero, Option.some.injEq] at h0
      rw [h0]
  · unfold correlationSum
    show (∑ sz in Finset.range 1, ∑ sy in Finset.range 1, ∑ sx in Finset.range 3,
      flipField.data (windowStart (0 : ℚ) 1 + sz) (windowStart (0 : ℚ) 1 + sy)
        (windowStart (1 : ℚ) 3 + sx) • flipKernel.data sz sy sx) = _
    rw [windowStart_flip.1, windowStart_flip.2]
    simp only [Finset.sum_range_succ, Finset.sum_range_zero, flipField_data, flipKernel_data]
    rw [FFTWComplex.eq_iff]
    simp [MultiArray3.inShape]

end ProjectionTheorems

/-! ## Dense projection -/

section DenseTheorems

variable {α : Type} [LinearOrderedField α] [FloorRing α]

theorem SH_Itterator_next_eq {T : Type} (data : List (List T)) (l m : Nat)
    (hl : l < data.length) (hL : data.length < 18446744073709551616)
    (hm : m < (data.getD l []).length)
    (hlen : (data.getD l []).length < 18446744073709551616) :
    SH_Itterator.next data ⟨l, m⟩ =
      .ok (if m + 1 < (data.getD l []).length then ⟨(l : Int), ((m + 1 : Nat) : Int)⟩
        else ⟨((l + 1 : Nat) : Int), ((0 : Nat) : Int)⟩) := by
  unfold SH_Itterator.next
  have hget : vecGet data (l : Int) = .ok (data.getD l []) := by
    have h := vecGet_getD data (l : Int) [] (by omega) (by omega)
    simpa using h
  simp only [hget, ok_bind]
  have e1 : (m : Int) % 18446744073709551616 = m := Int.emod_eq_of_lt (by omega) (by omega)
  have e2 : (((data.getD l []).length : Int) - 1) % 18446744073709551616
      = ((data.getD l []).length : Int) - 1 := Int.emod_eq_of_lt (by omega) (by omega)
  have e3 : (l : Int) % 18446744073709551616 = l := Int.emod_eq_of_lt (by omega) (by omega)
  rw [e1, e2, e3]
  by_cases hc : m + 1 < (data.getD l []).length
  · rw [if_pos (by omega), if_pos hc]
    simp
    rfl
  · rw [if_neg (by omega), if_pos (by omega), if_neg hc]
    simp
    rfl

theorem convolvedUpTo_length (border : MultiArray3 α → Int → Int → Int → α)
    (A : MultiArray3 α) (SHbaseF : List (List (MultiArray3 (FFTWComplex α)))) (l m : Nat) :
    (convolvedUpTo border A SHbaseF l m).length = SHbaseF.length := by
  unfold convolvedUpTo
  rw [List.length_map, List.length_range]

theorem convolvedUpTo_row (border : MultiArray3 α → Int → Int → Int → α)
    (A : MultiArray3 α) (SHbaseF : List (List (MultiArray3 (FFTWComplex α)))) (l m l' : Nat)
    (hl' : l' < SHbaseF.length) :
    (convolvedUpTo border A SHbaseF l m)[l']? =
      some ((List.range (SHbaseF.getD l' []).length).map fun (m' : Nat) =>
        if l' < l ∨ (l' = l ∧ m' < m) then convolveCentered border A (elemAt SHbaseF l' m')
        else MultiArray3.reshape A.shape 0) := by
  unfold convolvedUpTo
  rw [List.getElem?_map, List.getElem?_range hl']
  rfl

theorem convolvedUpTo_getD_length (border : MultiArray3 α → Int → Int → Int → α)
    (A : MultiArray3 α) (SHbaseF : List (List (MultiArray3 (FFTWComplex α)))) (l m l' : Nat)
    (hl' : l' < SHbaseF.length) :
    ((convolvedUpTo border A SHbaseF l m).getD l' []).length = (SHbaseF.getD l' []).length := by
  rw [List.getD_eq_getElem?_getD, convolvedUpTo_row border A SHbaseF l m l' hl']
  simp

theorem convolvedUpTo_assign (border : MultiArray3 α → Int → Int → Int → α)
    (A : MultiArray3 α) (SHbaseF : List (List (MultiArray3 (FFTWComplex α)))) (l m : Nat)
    (hl : l < SHbaseF.length) (hm : m < (SHbaseF.getD l []).length) :
    SH_Itterator.assign (convolvedUpTo border A SHbaseF l m) ⟨l, m⟩
        (convolveCentered border A (elemAt SHbaseF l m))
      = .ok (convolvedUpTo border A SHbaseF l (m + 1)) := by
  have hrow := convolvedUpTo_row border A SHbaseF l m l hl
  unfold SH_Itterator.assign
  have hl' : ((l : Int)).toNat = l := by omega
  have hm' : ((m : Int)).toNat = m := by omega
  rw [vecModify_ok _ (l : Int) _ _
    (((List.range (SHbaseF.getD l []).length).map fun (m' : Nat) =>
        if l < l ∨ (l = l ∧ m' < m) then convolveCentered border A (elemAt SHbaseF l m')
        else MultiArray3.reshape A.shape 0).set m
      (convolveCentered border A (elemAt SHbaseF l m)))
    (by omega) (by rw [hl']; exact hrow)
    (by
      have h := vecSet_ok ((List.range (SHbaseF.getD l []).length).map fun (m' : Nat) =>
        if l < l ∨ (l = l ∧ m' < m) then convolveCentered border A (elemAt SHbaseF l m')
        else MultiArray3.reshape A.shape 0) (m : Int)
        (convolveCentered border A (elemAt SHbaseF l m)) (by omega)
        (by rw [List.length_map, List.length_range]; omega)
      rw [hm'] at h
      exact h)]
  congr 1
  rw [hl']
  apply List.ext_getElem?
  intro l'
  by_cases hl'L : l' < SHbaseF.length
  · rw [convolvedUpTo_row border A SHbaseF l (m + 1) l' hl'L, List.getElem?_set]
    by_cases hll : l = l'
    · subst hll
      rw [if_pos rfl, if_pos (by rw [convolvedUpTo_length]; exact hl)]
      congr 1
      apply List.ext_getElem?
      intro m'
      rw [List.getElem?_set, List.getElem?_map, List.getElem?_map]
      by_cases hm'L : m' < (SHbaseF.getD l []).length
      · rw [List.getElem?_range hm'L]
        by_cases hmm : m = m'
        · subst hmm
          rw [if_pos rfl, if_pos (by rw [List.length_map, List.length_range]; exact hm)]
          simp
        · rw [if_neg hmm]
          have hcond : m' < m + 1 ↔ m' < m := by omega
          simp only [Option.map_some', hcond]
      · have hnone : (List.range (SHbaseF.getD l []).length)[m']? = none :=
          List.getElem?_eq_none (by rw [List.length_range]; omega)
        rw [hnone]
        by_cases hmm : m = m'
        · omega
        · rw [if_neg hmm]
          rfl
    · rw [if_neg hll, convolvedUpTo_row border A SHbaseF l m l' hl'L]
      congr 1
      apply List.map_congr_left
      intro m' _
      have hiff : (l' < l ∨ l' = l ∧ m' < m) ↔ (l' < l ∨ l' = l ∧ m' < m + 1) := by
        constructor
        · rintro (h | ⟨h, _⟩)
          · exact Or.inl h
          · exact absurd h.symm hll
        · rintro (h | ⟨h, _⟩)
          · exact Or.inl h
          · exact absurd h.symm hll
      simp only [hiff]
  · rw [List.getElem?_eq_none (by rw [List.length_set, convolvedUpTo_length]; omega),
      List.getElem?_eq_none (by rw [convolvedUpTo_length]; omega)]

theorem convolvedUpTo_row_end (border : MultiArray3 α → Int → Int → Int → α)
    (A : MultiArray3 α) (SHbaseF : List (List (MultiArray3 (FFTWComplex α)))) (l : Nat) :
    convolvedUpTo border A SHbaseF l (SHbaseF.getD l []).length
      = convolvedUpTo border A SHbaseF (l + 1) 0 := by
  unfold convolvedUpTo
  apply List.map_congr_left
  intro l' _
  apply List.map_congr_left
  intro m' hm'
  rw [List.mem_range] at hm'
  have hiff : (l' < l ∨ l' = l ∧ m' < (SHbaseF.getD l []).length) ↔
      (l' < l + 1 ∨ l' = l + 1 ∧ m' < 0) := by
    constructor
    · rintro (h | ⟨h, _⟩) <;> left <;> omega
    · rintro (h | ⟨_, h⟩)
      · by_cases hll : l' = l
        · subst hll
          exact Or.inr ⟨rfl, hm'⟩
        · left
          omega
      · omega
  simp only [hiff]

theorem sum_lengths_drop {T : Type} (data : List (List T)) (l : Nat) (hl : l < data.length) :
    ((data.drop l).map List.length).sum
      = (data.getD l []).length + ((data.drop (l + 1)).map List.length).sum := by
  rw [List.drop_eq_getElem_cons hl, List.map_cons, List.sum_cons, List.getD_eq_getElem?_getD,
    List.getElem?_eq_getElem hl]
  rfl

theorem convolveMany_at_end (border : MultiArray3 α → Int → Int → Int → α)
    (A : MultiArray3 α) (SHbaseF : List (List (MultiArray3 (FFTWComplex α)))) (fuel : Nat)
    (it outs : SH_Itterator) (outData : List (List (MultiArray3 (FFTWComplex α)))) :
    convolveFFTComplexMany border A SHbaseF fuel it it outData outs = .ok outData := by
  have hne : it.ne it = false := by
    unfold SH_Itterator.ne
    simp
  cases fuel with
  | zero =>
    unfold convolveFFTComplexMany
    simp [hne]
  | succ f =>
    unfold convolveFFTComplexMany
    simp [hne]

/-- The iterator loop of the convolution, started at a position of the cache
with a step budget of at least the number of kernels from that position on,
reaches the end cursor `(size, 0)` and leaves every array convolved. -/
theorem convolveMany_walk (border : MultiArray3 α → Int → Int → Int → α)
    (A : MultiArray3 α) (SHbaseF : List (List (MultiArray3 (FFTWComplex α))))
    (hL : SHbaseF.length < 18446744073709551616)
    (hrows : ∀ l, l < SHbaseF.length →
      0 < (SHbaseF.getD l []).length ∧ (SHbaseF.getD l []).length < 18446744073709551616) :
    ∀ (fuel l m : Nat), l < SHbaseF.length → m < (SHbaseF.getD l []).length →
      ((SHbaseF.drop l).map List.length).sum - m ≤ fuel →
      convolveFFTComplexMany border A SHbaseF fuel ⟨(l : Int), (m : Int)⟩
          ⟨(SHbaseF.length : Int), ((0 : Nat) : Int)⟩ (convolvedUpTo border A SHbaseF l m)
          ⟨(l : Int), (m : Int)⟩
        = .ok (convolvedUpTo border A SHbaseF SHbaseF.length 0) := by
  intro fuel
  induction fuel with
  | zero =>
    intro l m hl hm hfuel
    have := sum_lengths_drop SHbaseF l hl
    omega
  | succ f ih =>
    intro l m hl hm hfuel
    have hsum := sum_lengths_drop SHbaseF l hl
    have hne : SH_Itterator.ne ⟨(l : Int), (m : Int)⟩
        ⟨(SHbaseF.length : Int), ((0 : Nat) : Int)⟩ = true := by
      unfold SH_Itterator.ne
      have : ¬ ((l : Int) = (SHbaseF.length : Int)) := by omega
      simp [this]
    have hderef : SH_Itterator.deref SHbaseF ⟨(l : Int), (m : Int)⟩
        = .ok (elemAt SHbaseF l m) := by
      have h := vecGet_elemAt SHbaseF (l : Int) (m : Int) (by omega) (by omega) (by omega)
        (by simpa using hm)
      simpa [SH_Itterator.deref] using h
    have hnextK := SH_Itterator_next_eq SHbaseF l m hl hL hm (hrows l hl).2
    have hnextO := SH_Itterator_next_eq (convolvedUpTo border A SHbaseF l (m + 1)) l m
      (by rw [convolvedUpTo_length]; exact hl) (by rw [convolvedUpTo_length]; exact hL)
      (by rw [convolvedUpTo_getD_length border A SHbaseF l (m + 1) l hl]; exact hm)
      (by rw [convolvedUpTo_getD_length border A SHbaseF l (m + 1) l hl]; exact (hrows l hl).2)
    rw [convolvedUpTo_getD_length border A SHbaseF l (m + 1) l hl] at hnextO
    unfold convolveFFTComplexMany
    rw [if_pos hne]
    simp only [hderef, ok_bind, convolvedUpTo_assign border A SHbaseF l m hl hm, hnextK, hnextO]
    by_cases hc : m + 1 < (SHbaseF.getD l []).length
    · simp only [if_pos hc]
      exact ih l (m + 1) hl hc (by omega)
    · simp only [if_neg hc]
      have hmlen : m + 1 = (SHbaseF.getD l []).length := by omega
      rw [hmlen, convolvedUpTo_row_end]
      by_cases hlast : l + 1 < SHbaseF.length
      · have h0 := (hrows (l + 1) hlast).1
        exact ih (l + 1) 0 hlast h0 (by omega)
      · have hLl : l + 1 = SHbaseF.length := by omega
        rw [hLl]
        exact convolveMany_at_end border A SHbaseF f _ _ _

theorem Array2SH_alloc (border : MultiArray3 α → Int → Int → Int → α)
    (SH_A : List (List (MultiArray3 (FFTWComplex α))))
    (SHbaseF : List (List (MultiArray3 (FFTWComplex α)))) (A : MultiArray3 α) :
    forFromTo 0 ((SHbaseF.length : Int) - 1) (vecResize SH_A SHbaseF.length)
        (fun l SH_A => do
          let baseRow ← vecGet SHbaseF l
          vecModify SH_A l fun row =>
            forFromTo 0 ((baseRow.length : Int) - 1) (vecResize row baseRow.length) fun m row =>
              vecModify row m fun _ => pure (MultiArray3.reshape A.shape 0))
      = .ok (convolvedUpTo border A SHbaseF 0 0) := by
  have hrow : ∀ (n : Nat) (row : List (MultiArray3 (FFTWComplex α))),
      forFromTo 0 ((n : Int) - 1) (vecResize row n)
          (fun m row => vecModify row m fun _ => pure (MultiArray3.reshape A.shape 0))
        = .ok ((List.range n).map fun (_ : Nat) =>
            (MultiArray3.reshape A.shape 0 : MultiArray3 (FFTWComplex α))) := by
    intro n row
    have h := forFromTo_fill 0 ((n : Int) - 1) 0 (vecResize row n)
      (fun m row => vecModify row m fun _ => pure (MultiArray3.reshape A.shape 0))
      (fun _ => (MultiArray3.reshape A.shape 0 : MultiArray3 (FFTWComplex α)))
      (by
        intro i st h1 h2 hlen
        rw [length_vecResize] at hlen
        have e : (i + 0).toNat = i.toNat := by rw [add_zero]
        rw [e]
        exact vecModify_const st i _ _ h1 (by omega) (fun _ => rfl))
      (by omega)
      (by rw [length_vecResize]; omega)
    rw [length_vecResize] at h
    exact h
  have h := forFromTo_fill 0 ((SHbaseF.length : Int) - 1) 0 (vecResize SH_A SHbaseF.length)
    (fun l SH_A => do
      let baseRow ← vecGet SHbaseF l
      vecModify SH_A l fun row =>
        forFromTo 0 ((baseRow.length : Int) - 1) (vecResize row baseRow.length) fun m row =>
          vecModify row m fun _ => pure (MultiArray3.reshape A.shape 0))
    (fun l => (List.range (SHbaseF.getD l.toNat []).length).map fun (_ : Nat) =>
      (MultiArray3.reshape A.shape 0 : MultiArray3 (FFTWComplex α)))
    (by
      intro i st h1 h2 hlen
      rw [length_vecResize] at hlen
      have e : (i + 0).toNat = i.toNat := by rw [add_zero]
      beta_reduce
      rw [e, vecGet_getD SHbaseF i [] h1 (by omega), ok_bind]
      exact vecModify_const st i _ _ h1 (by omega) (fun row => hrow _ row))
    (by omega)
    (by rw [length_vecResize]; omega)
  rw [length_vecResize] at h
  rw [h]
  congr 1
  unfold convolvedUpTo
  apply List.map_congr_left
  intro l' _
  have e : ((l' : Int) - 0).toNat = l' := by omega
  beta_reduce
  rw [e]
  apply List.map_congr_left
  intro m' _
  rw [if_neg (by omega)]

theorem sum_lengths_drop_zero {T : Type} (data : List (List T)) :
    ((data.drop 0).map List.length).sum = (data.map List.length).sum := by
  rw [List.drop_zero]

theorem Array2SH_eq (border : MultiArray3 α → Int → Int → Int → α)
    (SH_A : List (List (MultiArray3 (FFTWComplex α)))) (band : Nat) (radius : α)
    (SHbaseF : List (List (MultiArray3 (FFTWComplex α)))) (A : MultiArray3 α) (fuel : Nat)
    (hL : SHbaseF.length < 18446744073709551616)
    (hrows : ∀ l, l < SHbaseF.length →
      0 < (SHbaseF.getD l []).length ∧ (SHbaseF.getD l []).length < 18446744073709551616)
    (hfuel : (SHbaseF.map List.length).sum ≤ fuel) :
    Array2SH border SH_A band radius SHbaseF A fuel
      = .ok (convolvedUpTo border A SHbaseF SHbaseF.length 0) := by
  unfold Array2SH
  rw [Array2SH_alloc border SH_A SHbaseF A, ok_bind]
  by_cases h0 : 0 < SHbaseF.length
  · have h := convolveMany_walk border A SHbaseF hL hrows fuel 0 0 h0 (hrows 0 h0).1
      (by rw [sum_lengths_drop_zero]; omega)
    exact h
  · have hz : SHbaseF.length = 0 := by omega
    rw [hz]
    exact convolveMany_at_end border A SHbaseF fuel _ _ _

theorem windowStart_intCast (p S : Int) : windowStart (p : α) S = p - S.tdiv 2 := by
  unfold windowStart
  rw [← Int.cast_sub, Int.floor_intCast]

theorem convolveCentered_at (border : MultiArray3 α → Int → Int → Int → α)
    (A : MultiArray3 α) (K : MultiArray3 (FFTWComplex α)) (p0 p1 p2 : Int)
    (hodd : (0 < K.shape.v0 ∧ K.shape.v0 % 2 = 1) ∧ (0 < K.shape.v1 ∧ K.shape.v1 % 2 = 1) ∧
      (0 < K.shape.v2 ∧ K.shape.v2 % 2 = 1))
    (hwin : windowInside A ⟨(p0 : α), (p1 : α), (p2 : α)⟩ K) :
    (convolveCentered border A K).data p0 p1 p2
      = projectionSum A ⟨(p0 : α), (p1 : α), (p2 : α)⟩ K := by
  obtain ⟨⟨hp0, ho0⟩, ⟨hp1, ho1⟩, ⟨hp2, ho2⟩⟩ := hodd
  have t0 : K.shape.v0.tdiv 2 = K.shape.v0 / 2 := Int.tdiv_eq_ediv (by omega) (by omega)
  have t1 : K.shape.v1.tdiv 2 = K.shape.v1 / 2 := Int.tdiv_eq_ediv (by omega) (by omega)
  have t2 : K.shape.v2.tdiv 2 = K.shape.v2 / 2 := Int.tdiv_eq_ediv (by omega) (by omega)
  unfold windowInside windowEnd at hwin
  simp only [windowStart_intCast, t0, t1, t2] at hwin
  obtain ⟨⟨a0, b0⟩, ⟨a1, b1⟩, ⟨a2, b2⟩⟩ := hwin
  have hin : MultiArray3.inShape A.shape p0 p1 p2 := by
    unfold MultiArray3.inShape
    omega
  unfold convolveCentered projectionSum flippedSum windowEnd
  simp only [MultiArray3.tabulate, if_pos hin, windowStart_intCast, t0, t1, t2]
  apply Finset.sum_congr rfl
  intro s0 h0
  apply Finset.sum_congr rfl
  intro s1 h1
  apply Finset.sum_congr rfl
  intro s2 h2
  rw [Finset.mem_range] at h0 h1 h2
  have e0 : p0 + K.shape.v0 / 2 - (s0 : Int) = p0 - K.shape.v0 / 2 + K.shape.v0 - 1 - (s0 : Int) := by
    omega
  have e1 : p1 + K.shape.v1 / 2 - (s1 : Int) = p1 - K.shape.v1 / 2 + K.shape.v1 - 1 - (s1 : Int) := by
    omega
  have e2 : p2 + K.shape.v2 / 2 - (s2 : Int) = p2 - K.shape.v2 / 2 + K.shape.v2 - 1 - (s2 : Int) := by
    omega
  have hinw : MultiArray3.inShape A.shape (p0 + K.shape.v0 / 2 - (s0 : Int))
      (p1 + K.shape.v1 / 2 - (s1 : Int)) (p2 + K.shape.v2 / 2 - (s2 : Int)) := by
    unfold MultiArray3.inShape
    omega
  unfold extended
  rw [if_pos hinw, e0, e1, e2]

theorem bind_getElem?_some {T : Type} (data : List (List T)) (l j : Nat) (K : T)
    (h : (data[l]?).bind (fun row => row[j]?) = some K) :
    ∃ row, data[l]? = some row ∧ row[j]? = some K ∧ l < data.length ∧
      j < (data.getD l []).length ∧ data.getD l [] = row := by
  cases hrow : data[l]? with
  | none => rw [hrow] at h; cases h
  | some row =>
    rw [hrow] at h
    simp only [Option.some_bind] at h
    have hl : l < data.length := (List.getElem?_eq_some.mp hrow).1
    have hj : j < row.length := (List.getElem?_eq_some.mp h).1
    have hg : data.getD l [] = row := by
      rw [List.getD_eq_getElem?_getD, hrow]
      rfl
    exact ⟨row, rfl, h, hl, by rw [hg]; exact hj, hg⟩

/-- C3. For every input field `A`, scalar cache (every degree entry non-empty,
sizes within `std::size_t`, kernels of odd positive extents as the generators
build them) and voxel position `p` at which the kernel windows lie inside `A`,
`Array2SH` (with a step budget of at least the number of kernels) and `SHpos`
at probe position `p` both return, and the value at `p` of the coefficient
field `Array2SH` produces for a cache index `(l,j)`, `l ≤ band`, equals the
coefficient `SHpos` produces for `(l,j)`. -/
theorem Array2SH_agrees_with_SHpos (border : MultiArray3 α → Int → Int → Int → α)
    (SH_A : List (List (MultiArray3 (FFTWComplex α)))) (coeffs : List (List (FFTWComplex α)))
    (band : Nat) (radius : α) (SHbaseF : List (List (MultiArray3 (FFTWComplex α))))
    (A : MultiArray3 α) (fuel : Nat) (p0 p1 p2 : Int)
    (hL : SHbaseF.length < 18446744073709551616)
    (hrows : ∀ l, l < SHbaseF.length →
      0 < (SHbaseF.getD l []).length ∧ (SHbaseF.getD l []).length < 18446744073709551616)
    (hfuel : (SHbaseF.map List.length).sum ≤ fuel)
    (hband : band < SHbaseF.length)
    (hker : ∀ l : Nat, l ≤ band → ∀ row, SHbaseF[l]? = some row → ∀ K ∈ row,
      ((0 < K.shape.v0 ∧ K.shape.v0 % 2 = 1) ∧ (0 < K.shape.v1 ∧ K.shape.v1 % 2 = 1) ∧
        (0 < K.shape.v2 ∧ K.shape.v2 % 2 = 1)) ∧
      windowInside A ⟨(p0 : α), (p1 : α), (p2 : α)⟩ K) :
    ∃ out r, Array2SH border SH_A band radius SHbaseF A fuel = .ok out ∧
      SHpos coeffs radius band A ⟨(p0 : α), (p1 : α), (p2 : α)⟩ SHbaseF = .ok r ∧
      ∀ (l j : Nat) (K : MultiArray3 (FFTWComplex α)), l ≤ band →
        (SHbaseF[l]?).bind (fun row => row[j]?) = some K →
        ∃ F c, (out[l]?).bind (fun row => row[j]?) = some F ∧
          (r[l]?).bind (fun row => row[j]?) = some c ∧ F.data p0 p1 p2 = c := by
  obtain ⟨r, hr, _, hP⟩ := SHpos_eq coeffs radius band A ⟨(p0 : α), (p1 : α), (p2 : α)⟩ SHbaseF
    hband (fun l hl row hrow K hK => (hker l hl row hrow K hK).2)
  refine ⟨_, r, Array2SH_eq border SH_A band radius SHbaseF A fuel hL hrows hfuel, hr, ?_⟩
  intro l j K hl hK
  obtain ⟨row, hrow, hKj, hlL, hjlen, hgetD⟩ := bind_getElem?_some SHbaseF l j K hK
  have hKmem : K ∈ row := List.getElem?_mem hKj
  have helem : elemAt SHbaseF l j = K := by
    unfold elemAt
    rw [hgetD, List.getD_eq_getElem?_getD, hKj]
    rfl
  refine ⟨convolveCentered border A K, projectionSum A ⟨(p0 : α), (p1 : α), (p2 : α)⟩ K,
    ?_, ?_, ?_⟩
  · rw [convolvedUpTo_row border A SHbaseF SHbaseF.length 0 l hlL]
    simp only [Option.some_bind]
    rw [List.getElem?_map, List.getElem?_range hjlen]
    simp only [Option.map_some', if_pos (Or.inl hlL), helem]
  · rw [hP l hl, hrow]
    simp only [Option.map_some', Option.some_bind, List.getElem?_map, hKj]
  · exact convolveCentered_at border A K p0 p1 p2 (hker l hl row hrow K hKmem).1
      (hker l hl row hrow K hKmem).2

/-- C3, at the field `(1, 2, 3)`, the cache of the single kernel `(1, 0, 0)` and
the voxel `(0, 0, 1)`. -/
theorem Array2SH_agrees_with_SHpos_witness :
    ∃ out r, Array2SH (fun _ _ _ _ => 0) [] 0 1 [[flipKernel]] flipField 1 = .ok out ∧
      SHpos [] 1 0 flipField ⟨((0 : Int) : ℚ), ((0 : Int) : ℚ), ((1 : Int) : ℚ)⟩ [[flipKernel]]
        = .ok r ∧
      ∀ (l j : Nat) (K : MultiArray3 (FFTWComplex ℚ)), l ≤ 0 →
        (([[flipKernel]] : List (List (MultiArray3 (FFTWComplex ℚ))))[l]?).bind
          (fun row => row[j]?) = some K →
        ∃ F c, (out[l]?).bind (fun row => row[j]?) = some F ∧
          (r[l]?).bind (fun row => row[j]?) = some c ∧ F.data 0 0 1 = c :=
  Array2SH_agrees_with_SHpos (fun _ _ _ _ => 0) [] [] 0 1 [[flipKernel]] flipField 1 0 0 1
    (by decide)
    (by
      intro l hl
      have h0 : l = 0 := by
        simp only [List.length_singleton] at hl
        omega
      subst h0
      decide)
    (by decide)
    (by decide)
    (by
      intro l hl row hrow K hK
      have hl0 : l = 0 := by omega
      subst hl0
      simp only [List.getElem?_cons_zero, Option.some.injEq] at hrow
      subst hrow
      simp only [List.mem_singleton] at hK
      subst hK
      refine ⟨by decide, ?_⟩
      have h := windowInside_flip
      simpa using h)

/-! ## The iterator range -/

theorem advance_add {T : Type} (data : List (List T)) (a b : Nat) (it : SH_Itterator) :
    SH_Itterator.advance data (a + b) it
      = (SH_Itterator.advance data a it >>= SH_Itterator.advance data b) := by
  induction a generalizing it with
  | zero =>
    rw [Nat.zero_add]
    rfl
  | succ a ih =>
    have e : a + 1 + b = (a + b) + 1 := by omega
    rw [e]
    show (SH_Itterator.next data it >>= fun it => SH_Itterator.advance data (a + b) it)
      = ((SH_Itterator.next data it >>= fun it => SH_Itterator.advance data a it)
          >>= SH_Itterator.advance data b)
    cases SH_Itterator.next data it with
    | error e => rfl
    | ok it1 => exact ih it1

theorem advance_succ_right {T : Type} (data : List (List T)) (n : Nat) (it : SH_Itterator) :
    SH_Itterator.advance data (n + 1) it
      = (SH_Itterator.advance data n it >>= SH_Itterator.next data) := by
  rw [advance_add]
  congr 1
  funext it1
  show (SH_Itterator.next data it1 >>= fun it => pure it) = _
  exact bind_pure _

/-- Inside the entry `l` the cursor moves from `(l, 0)` to `(l, j)` in `j` steps. -/
theorem advance_row {T : Type} (data : List (List T)) (l : Nat)
    (hl : l < data.length) (hL : data.length < 18446744073709551616)
    (hlen : (data.getD l []).length < 18446744073709551616) :
    ∀ j : Nat, j < (data.getD l []).length →
      SH_Itterator.advance data j ⟨(l : Int), ((0 : Nat) : Int)⟩
        = .ok ⟨(l : Int), (j : Int)⟩ := by
  intro j
  induction j with
  | zero =>
    intro _
    rfl
  | succ j ih =>
    intro hj
    rw [advance_succ_right, ih (by omega), ok_bind,
      SH_Itterator_next_eq data l j hl hL (by omega) hlen, if_pos hj]

/-- From the last position of the entry `l` the cursor moves to `(l+1, 0)`. -/
theorem advance_row_end {T : Type} (data : List (List T)) (l : Nat)
    (hl : l < data.length) (hL : data.length < 18446744073709551616)
    (hpos : 0 < (data.getD l []).length)
    (hlen : (data.getD l []).length < 18446744073709551616) :
    SH_Itterator.advance data (data.getD l []).length ⟨(l : Int), ((0 : Nat) : Int)⟩
      = .ok ⟨((l + 1 : Nat) : Int), ((0 : Nat) : Int)⟩ := by
  obtain ⟨s, hs⟩ : ∃ s, (data.getD l []).length = s + 1 :=
    ⟨(data.getD l []).length - 1, by omega⟩
  rw [hs, advance_succ_right, advance_row data l hl hL hlen s (by omega), ok_bind,
    SH_Itterator_next_eq data l s hl hL (by omega) hlen, if_neg (by omega)]

theorem lexRank_add {T : Type} (data : List (List T)) (l j : Nat) :
    lexRank data l j = lexRank data l 0 + j := rfl

theorem lexRank_succ {T : Type} (data : List (List T)) (l : Nat) (hl : l < data.length) :
    lexRank data (l + 1) 0 = lexRank data l 0 + (data.getD l []).length := by
  unfold lexRank
  rw [List.take_succ, List.getD_eq_getElem?_getD, List.getElem?_eq_getElem hl,
    Option.toList_some, Option.getD_some, List.map_append, List.sum_append]
  simp only [List.map_cons, List.map_nil, List.sum_cons, List.sum_nil]
  omega

theorem lexRank_length {T : Type} (data : List (List T)) :
    lexRank data data.length 0 = (data.map List.length).sum := by
  unfold lexRank
  rw [List.take_length, Nat.add_zero]

theorem lexRank_mono {T : Type} (data : List (List T)) (a : Nat) :
    ∀ b : Nat, a ≤ b → b ≤ data.length → lexRank data a 0 ≤ lexRank data b 0 := by
  intro b
  induction b with
  | zero =>
    intro ha _
    have h0 : a = 0 := by omega
    rw [h0]
  | succ b ih =>
    intro ha hb
    by_cases hab : a = b + 1
    · rw [hab]
    · have h := ih (by omega) (by omega)
      rw [lexRank_succ data b (by omega)]
      omega

/-- The cursor reaches `(l, 0)` from `(0, 0)` in as many steps as there are
positions in the entries before `l`. -/
theorem advance_entry {T : Type} (data : List (List T))
    (hL : data.length < 18446744073709551616)
    (hrows : ∀ l, l < data.length →
      0 < (data.getD l []).length ∧ (data.getD l []).length < 18446744073709551616) :
    ∀ l : Nat, l ≤ data.length →
      SH_Itterator.advance data (lexRank data l 0) ⟨((0 : Nat) : Int), ((0 : Nat) : Int)⟩
        = .ok ⟨(l : Int), ((0 : Nat) : Int)⟩ := by
  intro l
  induction l with
  | zero =>
    intro _
    rfl
  | succ l ih =>
    intro hl
    rw [lexRank_succ data l (by omega), advance_add, ih (by omega), ok_bind]
    exact advance_row_end data l (by omega) hL (hrows l (by omega)).1 (hrows l (by omega)).2

theorem lexRank_lt {T : Type} (data : List (List T)) (l j l' j' : Nat)
    (hl' : l' < data.length) (hj : j < (data.getD l []).length)
    (h : l < l' ∨ (l = l' ∧ j < j')) : lexRank data l j < lexRank data l' j' := by
  rw [lexRank_add data l j, lexRank_add data l' j']
  rcases h with h | ⟨h, hjj⟩
  · have h1 := lexRank_succ data l (by omega)
    have h2 := lexRank_mono data (l + 1) l' (by omega) (by omega)
    omega
  · subst h
    omega

theorem lexRank_surj {T : Type} (data : List (List T)) (n : Nat) :
    ∀ l : Nat, l ≤ data.length → n < lexRank data l 0 →
      ∃ l0 j, l0 < l ∧ j < (data.getD l0 []).length ∧ lexRank data l0 j = n := by
  intro l
  induction l with
  | zero =>
    intro _ hn
    exact absurd hn (Nat.not_lt_zero n)
  | succ l ih =>
    intro hl hn
    by_cases hlt : n < lexRank data l 0
    · obtain ⟨l0, j, h0, hj, hr⟩ := ih (by omega) hlt
      exact ⟨l0, j, by omega, hj, hr⟩
    · rw [lexRank_succ data l (by omega)] at hn
      refine ⟨l, n - lexRank data l 0, by omega, by omega, ?_⟩
      rw [lexRank_add]
      omega

/-- C20. For every scalar cache with `L ≥ 1` degree entries, each non-empty
(and `L` and the sizes within the range of the `int` cursor), an `SH_Itterator`
started at `(0,0)` stands, after as many advances as there are positions before
`(l, j)` in lexicographic order, at `(l, j)`, for every `l < L` and `j < s_l`,
and differs there from the end cursor `(L, 0)`; these step counts are strictly
increasing in the lexicographic order of the positions and are all the numbers
below `s_0 + ... + s_{L-1}`, so every position is visited exactly once and in
lexicographic order; and after exactly `s_0 + ... + s_{L-1}` advances the
cursor is the end cursor `(L, 0)`. -/
theorem SH_Itterator_traversal {T : Type} (data : List (List T))
    (hL1 : 1 ≤ data.length) (hL : data.length < 2147483648)
    (hrows : ∀ l, l < data.length →
      0 < (data.getD l []).length ∧ (data.getD l []).length < 2147483648) :
    (∀ l j : Nat, l < data.length → j < (data.getD l []).length →
      SH_Itterator.advance data (lexRank data l j) ⟨0, 0⟩ = .ok ⟨(l : Int), (j : Int)⟩ ∧
      SH_Itterator.ne ⟨(l : Int), (j : Int)⟩ ⟨(data.length : Int), 0⟩ = true) ∧
    (∀ l j l' j' : Nat, l < data.length → j < (data.getD l []).length →
      l' < data.length → j' < (data.getD l' []).length →
      (lexRank data l j < lexRank data l' j' ↔ (l < l' ∨ (l = l' ∧ j < j')))) ∧
    (∀ n : Nat, n < (data.map List.length).sum →
      ∃ l j, l < data.length ∧ j < (data.getD l []).length ∧ lexRank data l j = n) ∧
    SH_Itterator.advance data (data.map List.length).sum ⟨0, 0⟩
      = .ok ⟨(data.length : Int), 0⟩ := by
  have hL64 : data.length < 18446744073709551616 := by omega
  have hrows64 : ∀ l, l < data.length →
      0 < (data.getD l []).length ∧ (data.getD l []).length < 18446744073709551616 := by
    intro l hl
    have h := hrows l hl
    exact ⟨h.1, by omega⟩
  refine ⟨fun l j hl hj => ⟨?_, ?_⟩, fun l j l' j' hl hj hl' hj' => ⟨fun h => ?_, fun h => ?_⟩,
    fun n hn => ?_, ?_⟩
  · rw [lexRank_add, advance_add]
    have h := advance_entry data hL64 hrows64 l (by omega)
    rw [show (⟨0, 0⟩ : SH_Itterator) = ⟨((0 : Nat) : Int), ((0 : Nat) : Int)⟩ from rfl, h, ok_bind]
    exact advance_row data l hl hL64 (hrows64 l hl).2 j hj
  · unfold SH_Itterator.ne
    have hne : ¬ ((l : Int) = (data.length : Int)) := by omega
    simp [hne]
  · by_contra hno
    by_cases heq : l = l' ∧ j = j'
    · obtain ⟨rfl, rfl⟩ := heq
      exact Nat.lt_irrefl _ h
    · have h2 := lexRank_lt data l' j' l j hl hj' (by omega)
      omega
  · exact lexRank_lt data l j l' j' hl' hj h
  · rw [← lexRank_length] at hn
    obtain ⟨l0, j, h0, hj, hr⟩ := lexRank_surj data n data.length (le_refl _) hn
    exact ⟨l0, j, h0, hj, hr⟩
  · rw [← lexRank_length]
    exact advance_entry data hL64 hrows64 data.length (le_refl _)

/-- C20, on the cache with entries of sizes 2 and 1: the cursor visits `(0,0)`,
`(0,1)`, `(1,0)` and after three advances is the end cursor `(2, 0)`. -/
theorem SH_Itterator_traversal_witness :
    SH_Itterator.advance [[10, 11], [12]] 1 ⟨0, 0⟩ = .ok ⟨0, 1⟩ ∧
    SH_Itterator.advance [[10, 11], [12]] 2 ⟨0, 0⟩ = .ok ⟨1, 0⟩ ∧
    SH_Itterator.advance [[10, 11], [12]] 3 ⟨0, 0⟩ = .ok ⟨2, 0⟩ := by
  have h := SH_Itterator_traversal ([[10, 11], [12]] : List (List Nat)) (by decide) (by decide)
    (by
      intro l hl
      have hl2 : l < 2 := hl
      interval_cases l <;> exact ⟨by decide, by decide⟩)
  exact ⟨(h.1 0 1 (by decide) (by decide)).1, (h.1 1 0 (by decide) (by decide)).1, h.2.2.2⟩

end DenseTheorems

/-! ## The radial profile -/

section RadialTheorems

variable {α : Type} [LinearOrderedField α] [FloorRing α]

/-- C29 (amended). For radial index `n = 0` and every radius `> 0`,
`sphereFullHarmonic` takes `xnl = radius`, so the radial wavenumber it uses is
`k = radius/radius = 1`; for `n ≥ 1` with a Bessel zero `v = bessel_zero_Jnu(l,n)`
it takes `xnl = v` and uses `k = v/radius`. In both cases the kernel for unit
voxel spacing is built, voxel by voxel, from that `xnl`. -/
theorem sphereFullHarmonic_wavenumber (E : Externals α) (radius : α) (l m : Int)
    (hr : 0 < radius) :
    (fullXnl radius 0 l = .ok radius ∧ fullWavenumber radius radius = 1 ∧
      sphereFullHarmonic E radius 0 l m ⟨1, 1, 1⟩ =
        .ok (MultiArray3.tabulate (fullShape radius ⟨1, 1, 1⟩) fun z y x =>
          fullVoxel E radius radius l ⟨1, 1, 1⟩ z y x
            ((sphereSurfHarmonic E radius 1 l m true ⟨1, 1, 1⟩).data z y x))) ∧
    (∀ (n : Int) (v : α), 0 < n → bessel_zero_Jnu (toUnsigned l) (toUnsigned n) = .ok v →
      fullXnl radius n l = .ok v ∧ fullWavenumber radius v = v / radius ∧
      sphereFullHarmonic E radius n l m ⟨1, 1, 1⟩ =
        .ok (MultiArray3.tabulate (fullShape radius ⟨1, 1, 1⟩) fun z y x =>
          fullVoxel E radius v l ⟨1, 1, 1⟩ z y x
            ((sphereSurfHarmonic E radius 1 l m true ⟨1, 1, 1⟩).data z y x))) := by
  have h0 : fullXnl radius 0 l = .ok radius := by
    unfold fullXnl
    rw [if_neg (by omega)]
  refine ⟨⟨h0, ?_, sphereFullHarmonic_of_xnl E radius 0 l m radius h0⟩, fun n v hn hv => ?_⟩
  · unfold fullWavenumber
    exact div_self (ne_of_gt hr)
  · have hx : fullXnl radius n l = .ok v := by
      unfold fullXnl
      rw [if_pos hn, hv]
    exact ⟨hx, rfl, sphereFullHarmonic_of_xnl E radius n l m v hx⟩

/-- C29 (amended), at radius 2: `xnl = 2` and the wavenumber is 1. -/
theorem sphereFullHarmonic_wavenumber_witness :
    fullXnl (2 : ℚ) 0 0 = .ok 2 ∧ fullWavenumber (2 : ℚ) 2 = 1 :=
  ⟨(sphereFullHarmonic_wavenumber ratExternals 2 0 0 (by norm_num)).1.1,
   (sphereFullHarmonic_wavenumber ratExternals 2 0 0 (by norm_num)).1.2.1⟩

/-- C29 as stated fails: at radius 2 and `n = 0` the generator takes `xnl = 2`
and the wavenumber `xnl/radius` it uses is 1, not `1/radius = 1/2`. -/
theorem sphereFullHarmonic_wavenumber_counterexample :
    fullXnl (2 : ℚ) 0 0 = .ok 2 ∧ fullWavenumber (2 : ℚ) 2 = 1 ∧
    fullWavenumber (2 : ℚ) 2 ≠ 1 / 2 := by
  refine ⟨rfl, ?_, ?_⟩
  · unfold fullWavenumber
    norm_num
  · unfold fullWavenumber
    norm_num

/-- C30 (what the code does). For every `n ≥ 1`, `sphereFullVecHarmonic` takes
`xnl = 0` (the Bessel-zero call is commented out): its wavenumber is
`K = 0/radius = 0`, its normalization is `N = radius^3/2 * J_{l+1}(0)^2`, which
is 0 whenever `besselJ(l+1, 0) = 0`, and its result is the same for every
`n ≥ 1`. -/
theorem sphereFullVecHarmonic_radial (E : Externals α) (radius : α) (n l k m : Int)
    (voxelSize : TinyVector3 α) (hn : 1 ≤ n) :
    vecXnl radius n = 0 ∧
    fullWavenumber radius (vecXnl radius n) = 0 ∧
    fullNormalization E radius (vecXnl radius n) l
      = (radius * radius * radius) / 2 * (E.besselJ (l + 1) 0) ^ 2 ∧
    (E.besselJ (l + 1) 0 = 0 → fullNormalization E radius (vecXnl radius n) l = 0) ∧
    sphereFullVecHarmonic E radius n l k m voxelSize
      = sphereFullVecHarmonic E radius 1 l k m voxelSize := by
  have hx : vecXnl radius n = 0 := by
    unfold vecXnl
    rw [if_pos (by omega)]
  have h1 : vecXnl radius 1 = 0 := by
    unfold vecXnl
    rw [if_pos (by omega)]
  refine ⟨hx, ?_, ?_, ?_, ?_⟩
  · rw [hx]
    unfold fullWavenumber
    exact zero_div _
  · rw [hx]
    rfl
  · intro hJ
    rw [hx]
    unfold fullNormalization
    simp only [hJ]
    simp
  · unfold sphereFullVecHarmonic
    rw [hx, h1]

/-- C30 (what the code does), at radius 5, `n = 2`, `l = 0`: `xnl = 0`,
wavenumber 0, and the kernel is the kernel of `n = 1`. -/
theorem sphereFullVecHarmonic_radial_witness :
    vecXnl (5 : ℚ) 2 = 0 ∧ fullWavenumber (5 : ℚ) (vecXnl (5 : ℚ) 2) = 0 ∧
    sphereFullVecHarmonic ratExternals 5 2 0 0 0 ⟨1, 1, 1⟩
      = sphereFullVecHarmonic ratExternals 5 1 0 0 0 ⟨1, 1, 1⟩ :=
  ⟨(sphereFullVecHarmonic_radial ratExternals 5 2 0 0 0 ⟨1, 1, 1⟩ (by decide)).1,
   (sphereFullVecHarmonic_radial ratExternals 5 2 0 0 0 ⟨1, 1, 1⟩ (by decide)).2.1,
   (sphereFullVecHarmonic_radial ratExternals 5 2 0 0 0 ⟨1, 1, 1⟩ (by decide)).2.2.2.2⟩

end RadialTheorems

/-! ## The radial iterator -/

section RadialIteratorTheorems

variable {α : Type} [LinearOrderedField α] [FloorRing α]

/-- C22 (what the code does). For two `PH_Itterator` cursors `a` and `b`,
`a == b` holds exactly when `a`'s radial index equals `b`'s degree index (not
`b`'s radial index), and their degree and order indices are equal;
`a != b` holds exactly when the three indices are not all pairwise equal. At
`a = b = (1,0,0)` both `a == b` and `a != b` are false. -/
theorem PH_Itterator_eq_iff (a b : PH_Itterator) :
    (a.eq b = true ↔ (a.k = b.l ∧ a.l = b.l ∧ a.m = b.m)) ∧
    (a.ne b = true ↔ ¬ (a.k = b.k ∧ a.l = b.l ∧ a.m = b.m)) ∧
    PH_Itterator.eq ⟨1, 0, 0⟩ ⟨1, 0, 0⟩ = false ∧
    PH_Itterator.ne ⟨1, 0, 0⟩ ⟨1, 0, 0⟩ = false := by
  refine ⟨?_, ?_, by decide, by decide⟩
  · unfold PH_Itterator.eq
    simp [and_assoc]
  · unfold PH_Itterator.ne
    simp only [Bool.not_eq_true', Bool.and_eq_false_iff, beq_eq_false_iff_ne, ne_eq]
    tauto

theorem Array2PHAlloc_ok (band : Nat)
    (PH_A : List (List (List (MultiArray3 (FFTWComplex α))))) :
    ∃ out, Array2PHAlloc band PH_A = .ok out := by
  unfold Array2PHAlloc forFromTo
  obtain ⟨st, hst, _⟩ := loopM_inv
    (fun _ (st : List (List (List (MultiArray3 (FFTWComplex α))))) => st.length = band + 1)
    ((band : Int) + 1 - 1).toNat (vecResize PH_A (band + 1))
    (fun i st => vecModify st (1 + (i : Int)) fun entry =>
      loopM ((band : Int) + 1 - 0).toNat (vecResize entry (band + 1)) fun i entry =>
        vecModify entry (0 + (i : Int)) fun row => pure (vecResize row (2 * band + 1)))
    (length_vecResize _ _)
    (by
      intro i st hi hlen
      have hinner : ∀ entry : List (List (MultiArray3 (FFTWComplex α))),
          ∃ e, loopM ((band : Int) + 1 - 0).toNat (vecResize entry (band + 1))
            (fun i entry => vecModify entry (0 + (i : Int)) fun row =>
              pure (vecResize row (2 * band + 1))) = .ok e := by
        intro entry
        obtain ⟨e, he, _⟩ := loopM_inv
          (fun _ (e : List (List (MultiArray3 (FFTWComplex α)))) => e.length = band + 1)
          ((band : Int) + 1 - 0).toNat (vecResize entry (band + 1))
          (fun i entry => vecModify entry (0 + (i : Int)) fun row =>
            pure (vecResize row (2 * band + 1)))
          (length_vecResize _ _)
          (by
            intro j e hj hl
            have hlt : (0 + (j : Int)).toNat < e.length := by omega
            refine ⟨_, vecModify_ok e (0 + (j : Int)) _ e[(0 + (j : Int)).toNat] _ (by omega)
              (List.getElem?_eq_getElem hlt) rfl, ?_⟩
            show (List.set _ _ _).length = band + 1
            rw [List.length_set]
            exact hl)
        exact ⟨e, he⟩
      have hlt : (1 + (i : Int)).toNat < st.length := by omega
      obtain ⟨e, he⟩ := hinner st[(1 + (i : Int)).toNat]
      refine ⟨_, vecModify_ok st (1 + (i : Int)) _ st[(1 + (i : Int)).toNat] e (by omega)
        (List.getElem?_eq_getElem hlt) he, ?_⟩
      show (List.set _ _ _).length = band + 1
      rw [List.length_set]
      exact hlen)
  exact ⟨st, hst⟩

theorem PH_deref_begin {T : Type} (cache : List (List (List T))) (h0 : cache[0]? = some []) :
    PH_Itterator.deref cache ⟨0, 0, 0⟩ = .error .undefinedBehaviour := by
  unfold PH_Itterator.deref
  rw [vecGet_ok cache 0 [] (le_refl 0) h0, ok_bind]
  rfl

theorem PH_next_begin {T : Type} (cache : List (List (List T))) (h0 : cache[0]? = some []) :
    PH_Itterator.next cache ⟨0, 0, 0⟩ = .error .undefinedBehaviour := by
  unfold PH_Itterator.next
  rw [vecGet_ok cache 0 [] (le_refl 0) h0, ok_bind]
  rfl

/-- C21 (what the code does). For every band `B` in `[1,9]` the cache
`computePHbaseF` builds in `Array2PH` has the empty entry `PHbaseF[0]`: the
begin cursor `(0,0,0)` refers to no kernel, dereferencing it and advancing it
read `PHbaseF[0][0]` outside the vector; no number of advances takes the begin
cursor to the end cursor `(3, PHbaseF.size(), 0)`; and `Array2PH` itself, whose
convolution dereferences the begin cursor, does not return. -/
theorem Array2PH_range (E : Externals α)
    (conv : MultiArray3 (FFTWComplex α) → MultiArray3 (FFTWComplex α) →
      MultiArray3 (FFTWComplex α))
    (PH_A : List (List (List (MultiArray3 (FFTWComplex α))))) (band : Nat) (radius : α)
    (realData : Bool) (A : MultiArray3 (FFTWComplex α)) (fuel : Nat)
    (hB1 : 1 ≤ band) (hB9 : band ≤ 9) :
    ∃ cache, computePHbaseF E radius band [] realData = .ok cache ∧
      cache.length = band + 1 ∧
      PH_Itterator.deref cache ⟨0, 0, 0⟩ = .error .undefinedBehaviour ∧
      PH_Itterator.next cache ⟨0, 0, 0⟩ = .error .undefinedBehaviour ∧
      (∀ n, PH_Itterator.advance cache n ⟨0, 0, 0⟩ ≠ .ok ⟨3, cache.length, 0⟩) ∧
      Array2PH E conv PH_A band radius realData A (fuel + 1) = .error .undefinedBehaviour := by
  obtain ⟨cache, hc, hlen, hzero, _⟩ := computePHbaseF_ok E radius band [] realData hB9
  have h0 : cache[0]? = some [] := by
    rw [hzero]
    exact vecResize_head_nil [] band (by simp)
  have hd := PH_deref_begin cache h0
  have hn := PH_next_begin cache h0
  refine ⟨cache, hc, hlen, hd, hn, ?_, ?_⟩
  · intro n
    cases n with
    | zero =>
      intro h
      have h' : (Except.ok (⟨0, 0, 0⟩ : PH_Itterator) : Except Fault PH_Itterator)
          = .ok ⟨3, cache.length, 0⟩ := h
      injection h' with h'
      injection h' with hk
      exact absurd hk (by decide)
    | succ n =>
      intro h
      have h' : (PH_Itterator.next cache ⟨0, 0, 0⟩ >>= fun it =>
          PH_Itterator.advance cache n it) = .ok ⟨3, cache.length, 0⟩ := h
      rw [hn] at h'
      cases h'
  · obtain ⟨out, hout⟩ := Array2PHAlloc_ok band PH_A
    unfold Array2PH
    simp only [hc, hout, ok_bind]
    unfold convolveFFTComplexManyPH
    have hne : PH_Itterator.ne ⟨0, 0, 0⟩ ⟨3, cache.length, 0⟩ = true := by
      unfold PH_Itterator.ne
      simp
    simp only [hne, if_true, hd, error_bind]

/-- C21 (what the code does), at band 1. -/
theorem Array2PH_range_witness :
    ∃ cache, computePHbaseF ratExternals 1 1 [] false = .ok cache ∧
      PH_Itterator.deref cache ⟨0, 0, 0⟩ = .error .undefinedBehaviour ∧
      Array2PH ratExternals (fun A _ => A) [] 1 1 false (MultiArray3.reshape ⟨1, 1, 1⟩ 0) 1
        = .error .undefinedBehaviour := by
  obtain ⟨cache, hc, _, hd, _, _, hA⟩ := Array2PH_range ratExternals (fun A _ => A) [] 1 1 false
    (MultiArray3.reshape ⟨1, 1, 1⟩ 0) 0 (by decide) (by decide)
  exact ⟨cache, hc, hd, hA⟩

end RadialIteratorTheorems

/-! ## Sizes of the coefficient sets -/

section SizeTheorems

variable {α : Type} [LinearOrderedField α] [FloorRing α]

/-- C23. For every scalar cache with `band+1` degree entries, each non-empty
(sizes within `std::size_t`), an input field in which the kernel windows at the
probe position lie, and a step budget of at least the number of kernels: `SHpos`
and `Array2SH` both return; the coefficient set of `SHpos` has the nested sizes
of the cache, one complex number per kernel; the coefficient structure of
`Array2SH` has the nested sizes of the cache, and every array in it has the
shape of the input field. -/
theorem coefficient_sizes (border : MultiArray3 α → Int → Int → Int → α)
    (SH_A : List (List (MultiArray3 (FFTWComplex α)))) (coeffs : List (List (FFTWComplex α)))
    (band : Nat) (radius : α) (SHbaseF : List (List (MultiArray3 (FFTWComplex α))))
    (A : MultiArray3 α) (pos : TinyVector3 α) (fuel : Nat)
    (hlen : SHbaseF.length = band + 1)
    (hL : SHbaseF.length < 18446744073709551616)
    (hrows : ∀ l, l < SHbaseF.length →
      0 < (SHbaseF.getD l []).length ∧ (SHbaseF.getD l []).length < 18446744073709551616)
    (hfuel : (SHbaseF.map List.length).sum ≤ fuel)
    (hwin : ∀ l : Nat, l ≤ band → ∀ row, SHbaseF[l]? = some row →
      ∀ K ∈ row, windowInside A pos K) :
    ∃ r out, SHpos coeffs radius band A pos SHbaseF = .ok r ∧
      Array2SH border SH_A band radius SHbaseF A fuel = .ok out ∧
      r.map List.length = SHbaseF.map List.length ∧
      out.map List.length = SHbaseF.map List.length ∧
      ∀ row ∈ out, ∀ F ∈ row, F.shape = A.shape := by
  obtain ⟨r, hr, hrl, hP⟩ := SHpos_eq coeffs radius band A pos SHbaseF (by omega) hwin
  refine ⟨r, _, hr, Array2SH_eq border SH_A band radius SHbaseF A fuel hL hrows hfuel, ?_, ?_, ?_⟩
  · apply List.ext_getElem?
    intro l
    rw [List.getElem?_map, List.getElem?_map]
    by_cases hl : l < SHbaseF.length
    · rw [hP l (by omega), List.getElem?_eq_getElem hl]
      simp
    · rw [List.getElem?_eq_none (by omega), List.getElem?_eq_none (by omega)]
      rfl
  · unfold convolvedUpTo
    apply List.ext_getElem?
    intro l
    rw [List.getElem?_map, List.getElem?_map, List.getElem?_map]
    by_cases hl : l < SHbaseF.length
    · rw [List.getElem?_range hl, List.getElem?_eq_getElem hl]
      simp [List.getD_eq_getElem?_getD, List.getElem?_eq_getElem hl]
    · rw [List.getElem?_eq_none (by simpa using hl), List.getElem?_eq_none (by omega)]
      rfl
  · intro row hrow F hF
    unfold convolvedUpTo at hrow
    rw [List.mem_map] at hrow
    obtain ⟨l, _, rfl⟩ := hrow
    rw [List.mem_map] at hF
    obtain ⟨m, _, rfl⟩ := hF
    split_ifs <;> rfl

/-- C23, on the cache of the single kernel `(1, 0, 0)` and the field
`(1, 2, 3)`: one coefficient, one coefficient field of shape `(1,1,3)`. -/
theorem coefficient_sizes_witness :
    ∃ r out, SHpos [] 1 0 flipField ⟨0, 0, 1⟩ [[flipKernel]] = .ok r ∧
      Array2SH (fun _ _ _ _ => 0) [] 0 1 [[flipKernel]] flipField 1 = .ok out ∧
      r.map List.length = [1] ∧ out.map List.length = [1] ∧
      ∀ row ∈ out, ∀ F ∈ row, F.shape = ⟨1, 1, 3⟩ :=
  coefficient_sizes (fun _ _ _ _ => 0) [] [] 0 1 [[flipKernel]] flipField ⟨0, 0, 1⟩ 1 rfl
    (by decide)
    (by
      intro l hl
      have h0 : l = 0 := by
        simp only [List.length_singleton] at hl
        omega
      subst h0
      decide)
    (by decide)
    (by
      intro l hl row hrow K hK
      have hl0 : l = 0 := by omega
      subst hl0
      simp only [List.getElem?_cons_zero, Option.some.injEq] at hrow
      subst hrow
      simp only [List.mem_singleton] at hK
      subst hK
      exact windowInside_flip)

end SizeTheorems

/-! ## Local radial projection -/

section RadialProjectionTheorems

variable {α : Type} [LinearOrderedField α] [FloorRing α]

theorem forFromTo_map_set {S T : Type} [Inhabited T] [Inhabited S] (base : List S) (v : List T)
    (g : S → Except Fault T) (f : S → T) (hg : ∀ K ∈ base, g K = .ok (f K)) :
    forFromTo 0 ((base.length : Int) - 1) (vecResize v base.length)
        (fun m row => do
          let K ← vecGet base m
          let c ← g K
          vecSet row m c)
      = .ok (base.map f) := by
  have h := forFromTo_fill 0 ((base.length : Int) - 1) 0 (vecResize v base.length)
    (fun m row => do
      let K ← vecGet base m
      let c ← g K
      vecSet row m c)
    (fun m => f ((base[m.toNat]?).getD default))
    (by
      intro i st h1 h2 hlen
      rw [length_vecResize] at hlen
      have hlt : i.toNat < base.length := by omega
      have hget : base[i.toNat]? = some base[i.toNat] := List.getElem?_eq_getElem hlt
      show (vecGet base i >>= fun K => g K >>= fun c => vecSet st i c) = _
      rw [vecGet_ok base i _ h1 hget, ok_bind, hg _ (List.getElem?_mem hget), ok_bind]
      simp only [hget, add_zero, Option.getD_some]
      exact vecSet_ok st i _ h1 (by omega))
    (by omega)
    (by rw [length_vecResize]; omega)
  rw [length_vecResize] at h
  rw [h]
  congr 1
  apply List.ext_getElem?
  intro j
  rw [List.getElem?_map, List.getElem?_map]
  by_cases hj : j < base.length
  · rw [List.getElem?_range hj, List.getElem?_eq_getElem hj]
    simp [List.getElem?_eq_getElem hj]
  · rw [List.getElem?_eq_none (by simpa using hj), List.getElem?_eq_none (by omega)]
    rfl

theorem forFromTo_map_modify {S T : Type} [Inhabited T] [Inhabited S] (base : List S)
    (v : List T) (g : S → T → Except Fault T) (f : S → T)
    (hg : ∀ K ∈ base, ∀ old, g K old = .ok (f K)) :
    forFromTo 0 ((base.length : Int) - 1) (vecResize v base.length)
        (fun i v => do
          let K ← vecGet base i
          vecModify v i (g K))
      = .ok (base.map f) := by
  have h := forFromTo_fill 0 ((base.length : Int) - 1) 0 (vecResize v base.length)
    (fun i v => do
      let K ← vecGet base i
      vecModify v i (g K))
    (fun m => f ((base[m.toNat]?).getD default))
    (by
      intro i st h1 h2 hlen
      rw [length_vecResize] at hlen
      have hlt : i.toNat < base.length := by omega
      have hget : base[i.toNat]? = some base[i.toNat] := List.getElem?_eq_getElem hlt
      show (vecGet base i >>= fun K => vecModify st i (g K)) = _
      rw [vecGet_ok base i _ h1 hget, ok_bind]
      simp only [hget, add_zero, Option.getD_some]
      exact vecModify_const st i _ _ h1 (by omega)
        (fun old => hg _ (List.getElem?_mem hget) old))
    (by omega)
    (by rw [length_vecResize]; omega)
  rw [length_vecResize] at h
  rw [h]
  congr 1
  apply List.ext_getElem?
  intro j
  rw [List.getElem?_map, List.getElem?_map]
  by_cases hj : j < base.length
  · rw [List.getElem?_range hj, List.getElem?_eq_getElem hj]
    simp [List.getElem?_eq_getElem hj]
  · rw [List.getElem?_eq_none (by simpa using hj), List.getElem?_eq_none (by omega)]
    rfl

theorem PHposCoeff_eq (A : MultiArray3 (FFTWComplex α)) (pos : TinyVector3 α)
    (K : MultiArray3 (FFTWComplex α)) (hwin : windowFits A.shape pos K.shape) :
    PHposCoeff A pos K = .ok (PHposSum A pos K) := by
  obtain ⟨⟨hz0, hz1⟩, ⟨hy0, hy1⟩, ⟨hx0, hx1⟩⟩ := hwin
  unfold windowEnd at hz1 hy1 hx1
  have hcount : ∀ a b : Int, (a + b - 1 - 1 + 1 - a).toNat = (b - 1).toNat := by
    intro a b
    congr 1
    ring
  unfold PHposCoeff forUpCounting PHposSum
  simp only [hcount]
  rw [← zero_add (∑ sz in Finset.range (K.shape.v0 - 1).toNat, _)]
  apply loopM_add_eq_sum
  intro acc i0 h0
  apply loopM_add_eq_sum
  intro acc i1 h1
  apply loopM_add_eq_sum
  intro acc i2 h2
  have hA : MultiArray3.inShape A.shape
      (windowStart pos.v0 K.shape.v0 + (i0 : Int))
      (windowStart pos.v1 K.shape.v1 + (i1 : Int))
      (windowStart pos.v2 K.shape.v2 + (i2 : Int)) := by
    unfold MultiArray3.inShape
    omega
  have hK : MultiArray3.inShape K.shape (i0 : Int) (i1 : Int) (i2 : Int) := by
    unfold MultiArray3.inShape
    omega
  unfold MultiArray3.get
  rw [if_pos hA, if_pos hK]
  rfl

theorem PHpos_eq (PH_A : List (List (List (FFTWComplex α)))) (radius : α) (band : Nat)
    (A : MultiArray3 (FFTWComplex α))
    (PHbaseF : List (List (List (MultiArray3 (FFTWComplex α))))) (pos : TinyVector3 α)
    (hwin : ∀ n : Nat, 1 ≤ n → ∀ entry, PHbaseF[n]? = some entry → ∀ row ∈ entry,
      ∀ K ∈ row, windowFits A.shape pos K.shape) :
    ∃ r, PHpos PH_A radius band A PHbaseF pos = .ok r ∧ r.length = PHbaseF.length ∧
      ∀ n : Nat, 1 ≤ n →
        r[n]? = (PHbaseF[n]?).map fun entry => entry.map fun row => row.map (PHposSum A pos) := by
  unfold PHpos
  obtain ⟨r, hr, hlen, hP⟩ := forFromTo_set_each 1 ((PHbaseF.length : Int) - 1) 0
    (vecResize PH_A PHbaseF.length)
    (fun n PH_A => do
      let baseEntry ← vecGet PHbaseF n
      vecModify PH_A n fun entry =>
        forFromTo 0 ((baseEntry.length : Int) - 1) (vecResize entry baseEntry.length)
          fun l entry => do
            let baseRow ← vecGet baseEntry l
            vecModify entry l fun row =>
              forFromTo 0 ((baseRow.length : Int) - 1) (vecResize row baseRow.length)
                fun m row => do
                  let K ← vecGet baseRow m
                  let coeff ← PHposCoeff A pos K
                  vecSet row m coeff)
    (fun n => ((PHbaseF[n.toNat]?).getD []).map fun row => row.map (PHposSum A pos))
    (by
      intro i st h1 h2 hlen
      rw [length_vecResize] at hlen
      have hlt : i.toNat < PHbaseF.length := by omega
      have hget : PHbaseF[i.toNat]? = some PHbaseF[i.toNat] := List.getElem?_eq_getElem hlt
      show (vecGet PHbaseF i >>= fun baseEntry => vecModify st i fun entry =>
        forFromTo 0 ((baseEntry.length : Int) - 1) (vecResize entry baseEntry.length)
          fun l entry => do
            let baseRow ← vecGet baseEntry l
            vecModify entry l fun row =>
              forFromTo 0 ((baseRow.length : Int) - 1) (vecResize row baseRow.length)
                fun m row => do
                  let K ← vecGet baseRow m
                  let coeff ← PHposCoeff A pos K
                  vecSet row m coeff) = _
      rw [vecGet_ok PHbaseF i _ (by omega) hget, ok_bind]
      simp only [hget, add_zero, Option.getD_some]
      refine vecModify_const st i _ _ (by omega) (by omega) (fun entry => ?_)
      exact forFromTo_map_modify PHbaseF[i.toNat] entry
        (fun baseRow row =>
          forFromTo 0 ((baseRow.length : Int) - 1) (vecResize row baseRow.length)
            fun m row => do
              let K ← vecGet baseRow m
              let coeff ← PHposCoeff A pos K
              vecSet row m coeff)
        (fun baseRow => baseRow.map (PHposSum A pos))
        (fun baseRow hrow old => forFromTo_map_set baseRow old (PHposCoeff A pos)
          (PHposSum A pos)
          (fun K hK => PHposCoeff_eq A pos K
            (hwin i.toNat (by omega) _ hget baseRow hrow K hK))))
    (by omega)
  rw [length_vecResize] at hlen hP
  refine ⟨r, hr, hlen, fun n hn => ?_⟩
  rw [hP n]
  by_cases hlt : n < PHbaseF.length
  · rw [if_pos (by constructor <;> omega), List.getElem?_eq_getElem hlt]
    simp [List.getElem?_eq_getElem hlt]
  · have hlv : (vecResize PH_A PHbaseF.length).length ≤ n := by
      rw [length_vecResize]
      omega
    rw [if_neg (by omega), List.getElem?_eq_none hlv, List.getElem?_eq_none (by omega)]
    rfl

/-- C24 (what the code does). For every radial cache and probe position whose
windows lie inside the input, `PHpos` returns, and the coefficient it produces
for a stored index `(n,l,j)`, `n ≥ 1`, is the un-flipped sum of
`A(za+sz, ya+sy, xa+sx) * K[n][l][j](sz,sy,sx)` over the offsets `sz < S0-1`,
`sy < S1-1`, `sx < S2-1` only: the loops run while `z < ze`, `y < ye`,
`x < xe`, so the last plane, row and column of the window are left out. -/
theorem PHpos_coefficient (PH_A : List (List (List (FFTWComplex α)))) (radius : α)
    (band : Nat) (A : MultiArray3 (FFTWComplex α))
    (PHbaseF : List (List (List (MultiArray3 (FFTWComplex α))))) (pos : TinyVector3 α)
    (hwin : ∀ n : Nat, 1 ≤ n → ∀ entry, PHbaseF[n]? = some entry → ∀ row ∈ entry,
      ∀ K ∈ row, windowFits A.shape pos K.shape) :
    ∃ r, PHpos PH_A radius band A PHbaseF pos = .ok r ∧
      ∀ (n l j : Nat) (K : MultiArray3 (FFTWComplex α)), 1 ≤ n →
        ((PHbaseF[n]?).bind (fun entry => entry[l]?)).bind (fun row => row[j]?) = some K →
        ((r[n]?).bind (fun entry => entry[l]?)).bind (fun row => row[j]?) =
          some (∑ sz in Finset.range (K.shape.v0 - 1).toNat,
            ∑ sy in Finset.range (K.shape.v1 - 1).toNat,
              ∑ sx in Finset.range (K.shape.v2 - 1).toNat,
                A.data (windowStart pos.v0 K.shape.v0 + sz) (windowStart pos.v1 K.shape.v1 + sy)
                  (windowStart pos.v2 K.shape.v2 + sx) * K.data sz sy sx) := by
  obtain ⟨r, hr, _, hP⟩ := PHpos_eq PH_A radius band A PHbaseF pos hwin
  refine ⟨r, hr, fun n l j K hn hK => ?_⟩
  rw [hP n hn]
  cases hentry : PHbaseF[n]? with
  | none => rw [hentry] at hK; cases hK
  | some entry =>
    rw [hentry] at hK
    simp only [Option.some_bind] at hK
    cases hrow : entry[l]? with
    | none => rw [hrow] at hK; cases hK
    | some row =>
      rw [hrow] at hK
      simp only [Option.some_bind] at hK
      simp only [Option.map_some', Option.some_bind, List.getElem?_map, hrow, hK]
      rfl

theorem windowFits_flipC : windowFits flipFieldC.shape (⟨0, 0, 1⟩ : TinyVector3 ℚ)
    onesKernel.shape := by
  unfold windowFits windowEnd
  show (0 ≤ windowStart (0 : ℚ) 1 ∧ windowStart (0 : ℚ) 1 + 1 - 1 < 1) ∧
    (0 ≤ windowStart (0 : ℚ) 1 ∧ windowStart (0 : ℚ) 1 + 1 - 1 < 1) ∧
    (0 ≤ windowStart (1 : ℚ) 3 ∧ windowStart (1 : ℚ) 3 + 3 - 1 < 3)
  rw [windowStart_flip.1, windowStart_flip.2]
  decide

/-- C24 (what the code does), at the field `(1, 2, 3)`, the kernel `(1, 1, 1)`
of shape `(1,1,3)` and the probe position `(0, 0, 1)`: the window is the whole
field, the correlation sum over the whole window is 6, and `PHpos` returns the
coefficient 0, the empty sum (`S0 - 1 = 0`). -/
theorem PHpos_coefficient_witness :
    ∃ r, PHpos [] 1 1 flipFieldC [[], [[onesKernel]]] ⟨0, 0, 1⟩ = .ok r ∧
      ((r[1]?).bind (fun entry => entry[0]?)).bind (fun row => row[0]?) = some 0 := by
  obtain ⟨r, hr, hP⟩ := PHpos_coefficient [] 1 1 flipFieldC [[], [[onesKernel]]] ⟨0, 0, 1⟩
    (by
      intro n hn entry hentry row hrow K hK
      have hn1 : n = 1 := by
        have hlt := (List.getElem?_eq_some.mp hentry).1
        simp only [List.length_cons, List.length_nil] at hlt
        omega
      subst hn1
      simp only [List.getElem?_cons_succ, List.getElem?_cons_zero, Option.some.injEq] at hentry
      subst hentry
      simp only [List.mem_singleton] at hrow
      subst hrow
      simp only [List.mem_singleton] at hK
      subst hK
      exact windowFits_flipC)
  refine ⟨r, hr, ?_⟩
  rw [hP 1 0 0 onesKernel (le_refl 1) rfl]
  rfl

end RadialProjectionTheorems

/-! ## Local vector projection -/

section VectorProjectionTheorems

variable {α : Type} [LinearOrderedField α] [FloorRing α]

theorem forUntil_past {σ : Type} (lo hi : Int) (init : σ)
    (body : Int → Int → σ → Except Fault σ) (h : hi < lo)
    (hb : ∀ (i : Nat) (st : σ), (∃ st', body (lo + (i : Int)) (i : Int) st = .ok st') ∨
      body (lo + (i : Int)) (i : Int) st = .error .undefinedBehaviour) :
    forUntil lo hi init body = .error .undefinedBehaviour := by
  unfold forUntil
  rw [if_neg (by omega)]
  cases hloop : loopM (min (2147483648 - lo) 2147483648).toNat init
      (fun i st => body (lo + (i : Int)) (i : Int) st) with
  | ok st => rfl
  | error e =>
    have he := (loopM_cases (fun _ _ => True) (fun e => e = .undefinedBehaviour)
      (min (2147483648 - lo) 2147483648).toNat init
      (fun i st => body (lo + (i : Int)) (i : Int) st) trivial
      (by
        intro i st _ _
        refine ⟨fun _ _ => trivial, fun e he => ?_⟩
        have he' : body (lo + (i : Int)) (i : Int) st = .error e := he
        rcases hb i st with ⟨st', hst'⟩ | hu
        · rw [hst'] at he'
          cases he'
        · rw [hu] at he'
          injection he' with he'
          exact he'.symm)).2 e hloop
    rw [he]
    rfl

/-- On a kernel without voxels the shared-counter window loops run their `z`
counter past the largest `int`. -/
theorem vecWindowLoopsShared_empty {σ : Type} (inputZ : MultiArray3 (FFTWComplex α))
    (vh : MultiArray3 (TinyVector3 (FFTWComplex α))) (norm : α) (pos : TinyVector3 α)
    (add : σ → FFTWComplex α → Except Fault σ) (st : σ) (hs : vh.shape = ⟨0, 0, 0⟩) :
    vecWindowLoopsShared inputZ vh norm pos add st = .error .undefinedBehaviour := by
  unfold vecWindowLoopsShared
  rw [hs]
  simp only
  rw [forUntil_past _ _ _ _ (by omega)]
  · rfl
  · intro i s
    left
    unfold forFromTo
    have hcount : (windowStart pos.v1 0 + 0 - 1 + 1 - windowStart pos.v1 0).toNat = 0 := by omega
    rw [hcount]
    exact ⟨s, rfl⟩

/-- On a kernel without voxels the window loops run their `z` counter past the
largest `int`. -/
theorem vecWindowLoops_empty {σ : Type} (inputZ : MultiArray3 (FFTWComplex α))
    (vh : MultiArray3 (TinyVector3 (FFTWComplex α))) (norm : α) (pos : TinyVector3 α)
    (add : σ → FFTWComplex α → Except Fault σ) (st : σ) (hs : vh.shape = ⟨0, 0, 0⟩) :
    vecWindowLoops inputZ vh norm pos add st = .error .undefinedBehaviour := by
  unfold vecWindowLoops
  rw [hs]
  simp only
  rw [forUntil_past _ _ _ _ (by omega)]
  intro i s
  left
  unfold forUpCounting
  have hcount : (windowStart pos.v1 0 + 0 - 1 + 1 - windowStart pos.v1 0).toNat = 0 := by omega
  rw [hcount]
  exact ⟨s, rfl⟩

/-- Every kernel request of `VHpos` and `VPHpos`, made on a default-constructed
array, is followed by window loops that do not return. -/
theorem vecKernel_loops_shared {σ : Type} (E : Externals α)
    (inputZ : MultiArray3 (FFTWComplex α)) (norm radius gauss : α) (pos : TinyVector3 α)
    (l k m : Int) (add : σ → FFTWComplex α → Except Fault σ) (st : σ) :
    (sphereVecHarmonic E MultiArray3.empty radius gauss l k m >>= fun vh =>
      vecWindowLoopsShared inputZ vh norm pos add st) = .error .undefinedBehaviour := by
  cases hK : sphereVecHarmonic E MultiArray3.empty radius gauss l k m with
  | error e =>
    rw [(sphereVecHarmonic_cases E MultiArray3.empty radius gauss l k m).2 e hK]
    rfl
  | ok vh =>
    rw [ok_bind]
    exact vecWindowLoopsShared_empty inputZ vh norm pos add st
      ((sphereVecHarmonic_cases E MultiArray3.empty radius gauss l k m).1 vh hK)

theorem vecKernel_loops {σ : Type} (E : Externals α)
    (inputZ : MultiArray3 (FFTWComplex α)) (norm radius gauss : α) (pos : TinyVector3 α)
    (l k m : Int) (add : σ → FFTWComplex α → Except Fault σ) (st : σ) :
    (sphereVecHarmonic E MultiArray3.empty radius gauss l k m >>= fun vh =>
      vecWindowLoops inputZ vh norm pos add st) = .error .undefinedBehaviour := by
  cases hK : sphereVecHarmonic E MultiArray3.empty radius gauss l k m with
  | error e =>
    rw [(sphereVecHarmonic_cases E MultiArray3.empty radius gauss l k m).2 e hK]
    rfl
  | ok vh =>
    rw [ok_bind]
    exact vecWindowLoops_empty inputZ vh norm pos add st
      ((sphereVecHarmonic_cases E MultiArray3.empty radius gauss l k m).1 vh hK)

theorem vecResize_getElem_zero {T : Type} [Inhabited T] (v : List T) (n : Nat) :
    ∃ x, (vecResize v (n + 1))[0]? = some x := by
  have hlt : 0 < (vecResize v (n + 1)).length := by
    rw [length_vecResize]
    omega
  exact ⟨_, List.getElem?_eq_getElem hlt⟩

/-- C25 (what the code does). `VHpos` computes no coefficient from any kernel:
for every input the call does not return. Each kernel `vh` is requested as
`sphereVecHarmonic(vh, radius, gauss, 0, k, m)`, with degree 0 whatever the
degree `l` of the coefficient, on a default-constructed array that the
generator never reshapes; the window loops that follow run `z` from `za` while
`z != ze` with `ze = za - 1`, past the largest `int`. -/
theorem VHpos_undefined (E : Externals α) (VH_A : List (List (List (FFTWComplex α))))
    (band : Nat) (gauss radius : α) (A : MultiArray3 (TinyVector3 α)) (pos : TinyVector3 α) :
    VHpos E VH_A band gauss radius A pos = .error .undefinedBehaviour := by
  obtain ⟨x0, hx0⟩ := vecResize_getElem_zero VH_A band
  have h1 : vecModify (vecResize VH_A (band + 1)) 0
      (fun entry => (pure (vecResize entry 3) : Except Fault _))
      = .ok ((vecResize VH_A (band + 1)).set 0 (vecResize x0 3)) :=
    vecModify_ok _ 0 _ x0 _ (le_refl 0) hx0 rfl
  have hset : (((vecResize VH_A (band + 1)).set 0 (vecResize x0 3)))[0]?
      = some (vecResize x0 3) := by
    rw [List.getElem?_set]
    have hlt : 0 < (vecResize VH_A (band + 1)).length := by
      rw [length_vecResize]
      omega
    simp [hlt]
  obtain ⟨y0, hy0⟩ := vecResize_getElem_zero x0 2
  have h2 : vecModify ((vecResize VH_A (band + 1)).set 0 (vecResize x0 3)) 0
      (fun entry => vecModify entry (1 + (-1 + ((0 : Nat) : Int)))
        fun row => (pure (vecResize row 3) : Except Fault _))
      = .ok ((((vecResize VH_A (band + 1)).set 0 (vecResize x0 3))).set 0
          ((vecResize x0 3).set 0 (vecResize y0 3))) :=
    vecModify_ok _ 0 _ (vecResize x0 3) _ (le_refl 0) hset
      (vecModify_ok _ _ _ y0 _ (by decide) hy0 rfl)
  unfold VHpos
  simp only [h1, ok_bind]
  have hk : forFromTo (-1) 1 ((vecResize VH_A (band + 1)).set 0 (vecResize x0 3))
      (fun k VH_A => do
        let VH_A ← vecModify VH_A 0 fun entry =>
          vecModify entry (1 + k) fun row => pure (vecResize row 3)
        forFromTo (-1) 1 VH_A fun m VH_A => do
          let vh ← sphereVecHarmonic E MultiArray3.empty radius gauss 0 k m
          vecWindowLoopsShared (vecInputZ E A) vh (E.pi / 2 * radius ^ 2) pos
            (fun VH_A t => vecAddAt VH_A 0 k m t) VH_A)
      = .error .undefinedBehaviour := by
    unfold forFromTo
    apply loopM_first_fail
    · decide
    · simp only [h2, ok_bind]
      apply loopM_first_fail
      · decide
      · exact vecKernel_loops_shared E _ _ radius gauss pos 0 _ _ _ _
  simp only [hk, error_bind]

/-- C26 (what the code does). The term the innermost loops of `VHpos` and
`VPHpos` add to a coefficient is
`inputZ(x)*kernel_0(x)/norm + inputZ(x)*kernel_1(x)/norm + inputZ(x)*kernel_2(x)/norm`:
all three kernel components are multiplied by `inputZ`, `inputY` and `inputX`
do not occur. `inputZ` is built from the components 1 and 2 of the input
vectors only, so for two input fields of one shape that agree in their
components 1 and 2, whatever their components 0, `VHpos` gives the same result
and so does `VPHpos`. -/
theorem vecTerm_inputZ_only (E : Externals α)
    (vh : MultiArray3 (TinyVector3 (FFTWComplex α))) (norm gauss radius : α)
    (A B : MultiArray3 (TinyVector3 α)) (pos : TinyVector3 α) (band : Nat)
    (VH_A : List (List (List (FFTWComplex α))))
    (VPH_A : List (List (List (List (FFTWComplex α)))))
    (hshape : A.shape = B.shape)
    (h1 : ∀ z y x, (A.data z y x).v1 = (B.data z y x).v1)
    (h2 : ∀ z y x, (A.data z y x).v2 = (B.data z y x).v2) :
    (∀ z y x zs ys xs, MultiArray3.inShape A.shape z y x →
      MultiArray3.inShape vh.shape zs ys xs →
      vecTerm (vecInputZ E A) vh norm z y x zs ys xs =
        .ok ((((vecInputZ E A).data z y x * (vh.data zs ys xs).v0).divReal norm +
          ((vecInputZ E A).data z y x * (vh.data zs ys xs).v1).divReal norm +
          ((vecInputZ E A).data z y x * (vh.data zs ys xs).v2).divReal norm))) ∧
    vecInputZ E A = vecInputZ E B ∧
    VHpos E VH_A band gauss radius A pos = VHpos E VH_A band gauss radius B pos ∧
    VPHpos E VPH_A band radius A pos = VPHpos E VPH_A band radius B pos := by
  have hZ : vecInputZ E A = vecInputZ E B := by
    unfold vecInputZ
    rw [hshape]
    simp only [h1, h2]
  refine ⟨fun z y x zs ys xs hA hV => ?_, hZ, ?_, ?_⟩
  · unfold vecTerm MultiArray3.get
    have hA' : MultiArray3.inShape (vecInputZ E A).shape z y x := hA
    rw [if_pos hA', if_pos hV]
    rfl
  · unfold VHpos
    rw [hZ]
  · unfold VPHpos
    rw [hZ]

/-- Two fields of shape `(1,1,1)` that differ in component 0 only. -/
theorem vecTerm_inputZ_only_witness :
    vecInputZ ratExternals (MultiArray3.reshape ⟨1, 1, 1⟩ ⟨1, 2, 3⟩)
      = vecInputZ ratExternals (MultiArray3.reshape ⟨1, 1, 1⟩ ⟨7, 2, 3⟩) ∧
    VHpos ratExternals [] 1 1 5 (MultiArray3.reshape ⟨1, 1, 1⟩ ⟨1, 2, 3⟩) ⟨0, 0, 0⟩
      = VHpos ratExternals [] 1 1 5 (MultiArray3.reshape ⟨1, 1, 1⟩ ⟨7, 2, 3⟩) ⟨0, 0, 0⟩ := by
  have h := vecTerm_inputZ_only ratExternals MultiArray3.empty 1 1 5
    (MultiArray3.reshape ⟨1, 1, 1⟩ ⟨1, 2, 3⟩) (MultiArray3.reshape ⟨1, 1, 1⟩ ⟨7, 2, 3⟩)
    ⟨0, 0, 0⟩ 1 [] [] rfl
    (by
      intro z y x
      simp only [MultiArray3.reshape]
      split_ifs <;> rfl)
    (by
      intro z y x
      simp only [MultiArray3.reshape]
      split_ifs <;> rfl)
  exact ⟨h.2.1, h.2.2.1⟩

end VectorProjectionTheorems

/-! ## Vector reconstruction -/

section VectorReconstructionTheorems

variable {α : Type} [LinearOrderedField α] [FloorRing α]

theorem loopM_pres {σ : Type} (P : σ → Prop) (count : Nat) (init : σ)
    (body : Nat → σ → Except Fault σ) (h0 : P init)
    (hs : ∀ i st st', P st → body i st = .ok st' → P st') :
    ∀ r, loopM count init body = .ok r → P r :=
  (loopM_cases (fun _ st => P st) (fun _ => True) count init body h0
    (fun i st _ hP => ⟨fun st' h => hs i st st' hP h, fun _ _ => trivial⟩)).1

/-- A lock-step walk returns an array of the shape of its destination. -/
theorem lockstep_shape {T S : Type} (count : Nat) (dst : MultiArray3 T) (src : MultiArray3 S)
    (f : T → S → Except Fault T) :
    ∀ r, MultiArray3.lockstep count dst src f = .ok r → r.shape = dst.shape := by
  unfold MultiArray3.lockstep
  refine loopM_pres (fun st => st.shape = dst.shape) count dst _ rfl ?_
  intro i st st' hP h
  cases hq : src.scanGet i with
  | error e =>
    rw [hq] at h
    cases h
  | ok q =>
    rw [hq, ok_bind] at h
    cases hp : st.scanGet i with
    | error e =>
      rw [hp] at h
      cases h
    | ok p =>
      rw [hp, ok_bind] at h
      cases hv : f p q with
      | error e =>
        rw [hv] at h
        cases h
      | ok v =>
        rw [hv, ok_bind] at h
        unfold MultiArray3.scanSet at h
        split_ifs at h
        injection h with h
        rw [← h]
        exact hP

/-- The last loop of `reconstVH` and `reconstVPH` on arrays of one shape. -/
theorem realVecDirections_eq (E : Externals α) (reconstruct : MultiArray3 (TinyVector3 α))
    (tmp : MultiArray3 (TinyVector3 (FFTWComplex α))) (hs : tmp.shape = reconstruct.shape) :
    ∃ out, realVecDirections E reconstruct tmp = .ok out ∧ out.shape = tmp.shape ∧
      ∀ z y x, MultiArray3.inShape tmp.shape z y x →
        out.data z y x = ⟨(tmp.data z y x).v1.re, -(E.sqrt 2) * (tmp.data z y x).v0.re,
          E.sqrt 2 * (tmp.data z y x).v0.im⟩ := by
  have hsz : tmp.size = reconstruct.size := by
    unfold MultiArray3.size
    rw [hs]
  obtain ⟨r, hr, hrs, hP⟩ := lockstep_same_shape reconstruct tmp
    (fun p q => pure (((p.setAt 0 q.v1.re).setAt 1 (-(E.sqrt 2) * q.v0.re)).setAt 2
      (E.sqrt 2 * q.v0.im)))
    (fun p q => ((p.setAt 0 q.v1.re).setAt 1 (-(E.sqrt 2) * q.v0.re)).setAt 2
      (E.sqrt 2 * q.v0.im)) hs (fun p q => rfl)
  refine ⟨r, ?_, by rw [hrs, hs], fun z y x hin => ?_⟩
  · unfold realVecDirections
    rw [hsz]
    exact hr
  · rw [(hP z y x).1 (by rw [← hs]; exact hin)]
    rfl

theorem vecAccumulate_shape (coeff : Except Fault (FFTWComplex α))
    (tmp base_tmp : MultiArray3 (TinyVector3 (FFTWComplex α))) :
    ∀ r, vecAccumulate coeff tmp base_tmp = .ok r → r.shape = tmp.shape :=
  lockstep_shape _ _ _ _

/-- The loops of `reconstVH` leave `tmp` with the shape of `reconstruct`. -/
theorem reconstVHAccumulate_shape (E : Externals α) (radius gauss : α) (band : Nat)
    (VH_A : List (List (List (FFTWComplex α)))) :
    ∀ st, reconstVHAccumulate E radius gauss band VH_A = .ok st → st.2.shape = st.1.shape := by
  intro st h
  unfold reconstVHAccumulate at h
  cases hb : sphereVecHarmonic E MultiArray3.empty radius gauss 0 0 0 with
  | error e =>
    rw [hb] at h
    cases h
  | ok base =>
    rw [hb] at h
    simp only [ok_bind] at h
    cases hl : forFromTo 0 (band : Int)
        (base, (MultiArray3.reshape (MultiArray3.reshape base.shape
          (0 : TinyVector3 α)).shape (0 : TinyVector3 (FFTWComplex α))))
        (fun l st =>
          forFromTo (-1) 1 st fun k st =>
            forFromTo (-(l + k)) (l + k) st fun m st => do
              let base_tmp ← sphereVecHarmonic E st.1 radius gauss l k m
              let tmp ← vecAccumulate
                (do
                  let entry ← vecGet VH_A l
                  let row ← vecGet entry (k + 1)
                  vecGet row ((l + k) + m))
                st.2 base_tmp
              pure (base_tmp, tmp)) with
    | error e =>
      rw [hl] at h
      cases h
    | ok s =>
      rw [hl] at h
      injection h with h
      rw [← h]
      show s.2.shape = base.shape
      refine loopM_pres (fun (s : MultiArray3 (TinyVector3 (FFTWComplex α)) ×
          MultiArray3 (TinyVector3 (FFTWComplex α))) => s.2.shape = base.shape) _ _ _ rfl ?_ s hl
      intro i s1 s1' hP1
      refine loopM_pres (fun (s : MultiArray3 (TinyVector3 (FFTWComplex α)) ×
          MultiArray3 (TinyVector3 (FFTWComplex α))) => s.2.shape = base.shape) _ _ _ hP1 ?_ s1'
      intro j s2 s2' hP2
      refine loopM_pres (fun (s : MultiArray3 (TinyVector3 (FFTWComplex α)) ×
          MultiArray3 (TinyVector3 (FFTWComplex α))) => s.2.shape = base.shape) _ _ _ hP2 ?_ s2'
      intro q s3 s3' hP3 hbody
      cases hv : sphereVecHarmonic E s3.1 radius gauss (0 + (i : Int)) (-1 + (j : Int))
          (-(0 + (i : Int) + (-1 + (j : Int))) + (q : Int)) with
      | error e =>
        simp only [hv, error_bind] at hbody
        cases hbody
      | ok bt =>
        simp only [hv, ok_bind] at hbody
        cases ha : vecAccumulate
            (do
              let entry ← vecGet VH_A (0 + (i : Int))
              let row ← vecGet entry (-1 + (j : Int) + 1)
              vecGet row ((0 + (i : Int) + (-1 + (j : Int))) +
                (-(0 + (i : Int) + (-1 + (j : Int))) + (q : Int))))
            s3.2 bt with
        | error e =>
          simp only [ha, error_bind] at hbody
          cases hbody
        | ok t =>
          simp only [ha, ok_bind] at hbody
          injection hbody with hbody
          rw [← hbody]
          show t.shape = base.shape
          rw [vecAccumulate_shape _ _ _ t ha]
          exact hP3

/-- The loops of `reconstVPH` leave `tmp` with the shape of `reconstruct`. -/
theorem reconstVPHAccumulate_shape (E : Externals α) (radius : α) (band : Nat)
    (VPH_A : List (List (List (List (FFTWComplex α))))) :
    ∀ st, reconstVPHAccumulate E radius band VPH_A = .ok st → st.2.shape = st.1.shape := by
  intro st h
  unfold reconstVPHAccumulate at h
  cases hb : sphereVecHarmonic E MultiArray3.empty radius 1 0 0 0 with
  | error e =>
    rw [hb] at h
    cases h
  | ok base =>
    rw [hb] at h
    simp only [ok_bind] at h
    cases hl : forFromTo 1 (band : Int)
        (base, (MultiArray3.reshape (MultiArray3.reshape base.shape
          (0 : TinyVector3 α)).shape (0 : TinyVector3 (FFTWComplex α))))
        (fun n st =>
          forFromTo 0 band st fun l st =>
            forFromTo (-1) 1 st fun k st =>
              forFromTo (-(l + k)) (l + k) st fun m st => do
                let base_tmp ← sphereVecHarmonic E st.1 radius (n : α) l k m
                let tmp ← vecAccumulate
                  (do
                    let e ← vecGet VPH_A n
                    let entry ← vecGet e l
                    let row ← vecGet entry (k + 1)
                    vecGet row ((l + k) + m))
                  st.2 base_tmp
                pure (base_tmp, tmp)) with
    | error e =>
      rw [hl] at h
      cases h
    | ok s =>
      rw [hl] at h
      injection h with h
      rw [← h]
      show s.2.shape = base.shape
      refine loopM_pres (fun (s : MultiArray3 (TinyVector3 (FFTWComplex α)) ×
          MultiArray3 (TinyVector3 (FFTWComplex α))) => s.2.shape = base.shape) _ _ _ rfl ?_ s hl
      intro i0 s0 s0' hP0
      refine loopM_pres (fun (s : MultiArray3 (TinyVector3 (FFTWComplex α)) ×
          MultiArray3 (TinyVector3 (FFTWComplex α))) => s.2.shape = base.shape) _ _ _ hP0 ?_ s0'
      intro i s1 s1' hP1
      refine loopM_pres (fun (s : MultiArray3 (TinyVector3 (FFTWComplex α)) ×
          MultiArray3 (TinyVector3 (FFTWComplex α))) => s.2.shape = base.shape) _ _ _ hP1 ?_ s1'
      intro j s2 s2' hP2
      refine loopM_pres (fun (s : MultiArray3 (TinyVector3 (FFTWComplex α)) ×
          MultiArray3 (TinyVector3 (FFTWComplex α))) => s.2.shape = base.shape) _ _ _ hP2 ?_ s2'
      intro q s3 s3' hP3 hbody
      cases hv : sphereVecHarmonic E s3.1 radius (((1 + (i0 : Int) : Int)) : α) (0 + (i : Int))
          (-1 + (j : Int)) (-(0 + (i : Int) + (-1 + (j : Int))) + (q : Int)) with
      | error e =>
        simp only [hv, error_bind] at hbody
        cases hbody
      | ok bt =>
        simp only [hv, ok_bind] at hbody
        cases ha : vecAccumulate
            (do
              let e ← vecGet VPH_A (1 + (i0 : Int))
              let entry ← vecGet e (0 + (i : Int))
              let row ← vecGet entry (-1 + (j : Int) + 1)
              vecGet row ((0 + (i : Int) + (-1 + (j : Int))) +
                (-(0 + (i : Int) + (-1 + (j : Int))) + (q : Int))))
            s3.2 bt with
        | error e =>
          simp only [ha, error_bind] at hbody
          cases hbody
        | ok t =>
          simp only [ha, ok_bind] at hbody
          injection hbody with hbody
          rw [← hbody]
          show t.shape = base.shape
          rw [vecAccumulate_shape _ _ _ t ha]
          exact hP3

/-- In `reconstVH` the array `reconstruct` gets the shape of the
default-constructed `base_tmp`, which `sphereVecHarmonic` does not reshape. -/
theorem reconstVHAccumulate_empty (E : Externals α) (radius gauss : α) (band : Nat)
    (VH_A : List (List (List (FFTWComplex α)))) :
    ∀ st, reconstVHAccumulate E radius gauss band VH_A = .ok st → st.1.shape = ⟨0, 0, 0⟩ := by
  intro st h
  unfold reconstVHAccumulate at h
  cases hb : sphereVecHarmonic E MultiArray3.empty radius gauss 0 0 0 with
  | error e =>
    rw [hb] at h
    cases h
  | ok base =>
    have hbs := (sphereVecHarmonic_cases E MultiArray3.empty radius gauss 0 0 0).1 base hb
    rw [hb] at h
    simp only [ok_bind] at h
    cases hl : forFromTo 0 (band : Int)
        (base, (MultiArray3.reshape (MultiArray3.reshape base.shape
          (0 : TinyVector3 α)).shape (0 : TinyVector3 (FFTWComplex α))))
        (fun l st =>
          forFromTo (-1) 1 st fun k st =>
            forFromTo (-(l + k)) (l + k) st fun m st => do
              let base_tmp ← sphereVecHarmonic E st.1 radius gauss l k m
              let tmp ← vecAccumulate
                (do
                  let entry ← vecGet VH_A l
                  let row ← vecGet entry (k + 1)
                  vecGet row ((l + k) + m))
                st.2 base_tmp
              pure (base_tmp, tmp)) with
    | error e =>
      rw [hl] at h
      cases h
    | ok s =>
      rw [hl] at h
      injection h with h
      rw [← h]
      show base.shape = _
      rw [hbs]
      rfl

/-- In `reconstVPH` the array `reconstruct` gets the shape of the
default-constructed `base_tmp`, which `sphereVecHarmonic` does not reshape. -/
theorem reconstVPHAccumulate_empty (E : Externals α) (radius : α) (band : Nat)
    (VPH_A : List (List (List (List (FFTWComplex α))))) :
    ∀ st, reconstVPHAccumulate E radius band VPH_A = .ok st → st.1.shape = ⟨0, 0, 0⟩ := by
  intro st h
  unfold reconstVPHAccumulate at h
  cases hb : sphereVecHarmonic E MultiArray3.empty radius 1 0 0 0 with
  | error e =>
    rw [hb] at h
    cases h
  | ok base =>
    have hbs := (sphereVecHarmonic_cases E MultiArray3.empty radius 1 0 0 0).1 base hb
    rw [hb] at h
    simp only [ok_bind] at h
    cases hl : forFromTo 1 (band : Int)
        (base, (MultiArray3.reshape (MultiArray3.reshape base.shape
          (0 : TinyVector3 α)).shape (0 : TinyVector3 (FFTWComplex α))))
        (fun n st =>
          forFromTo 0 band st fun l st =>
            forFromTo (-1) 1 st fun k st =>
              forFromTo (-(l + k)) (l + k) st fun m st => do
                let base_tmp ← sphereVecHarmonic E st.1 radius (n : α) l k m
                let tmp ← vecAccumulate
                  (do
                    let e ← vecGet VPH_A n
                    let entry ← vecGet e l
                    let row ← vecGet entry (k + 1)
                    vecGet row ((l + k) + m))
                  st.2 base_tmp
                pure (base_tmp, tmp)) with
    | error e =>
      rw [hl] at h
      cases h
    | ok s =>
      rw [hl] at h
      injection h with h
      rw [← h]
      show base.shape = _
      rw [hbs]
      rfl

/-- C27. The last loop of `reconstVH` and of `reconstVPH`
(`realVecDirections`), run on any output array `reconstruct` and complex
intermediate `tmp` of one shape, returns, and the output vector at every voxel
is, for the intermediate `(v0,v1,v2)` at that voxel,
`(Re(v1), -sqrt(2)*Re(v0), sqrt(2)*Im(v0))` in the components 0, 1, 2; a second
intermediate that agrees with `tmp` in `v0` and `Re(v1)` gives the same output
whatever its `v2` and `Im(v1)`. Both functions end in that loop on the arrays
their accumulation loops leave: when the accumulation returns, the function
returns the map of the accumulated intermediate, and when it fails so does the
function. In both functions these arrays have the shape `(0,0,0)`. -/
theorem reconst_real_directions (E : Externals α) (reconstruct : MultiArray3 (TinyVector3 α))
    (tmp : MultiArray3 (TinyVector3 (FFTWComplex α))) (hs : tmp.shape = reconstruct.shape) :
    (∃ out, realVecDirections E reconstruct tmp = .ok out ∧ out.shape = tmp.shape ∧
      ∀ z y x, MultiArray3.inShape tmp.shape z y x →
        out.data z y x = ⟨(tmp.data z y x).v1.re, -(E.sqrt 2) * (tmp.data z y x).v0.re,
          E.sqrt 2 * (tmp.data z y x).v0.im⟩) ∧
    (∀ tmp2 : MultiArray3 (TinyVector3 (FFTWComplex α)), tmp2.shape = tmp.shape →
      (∀ z y x, MultiArray3.inShape tmp.shape z y x →
        (tmp2.data z y x).v0 = (tmp.data z y x).v0 ∧
        (tmp2.data z y x).v1.re = (tmp.data z y x).v1.re) →
      ∃ out out2, realVecDirections E reconstruct tmp = .ok out ∧
        realVecDirections E reconstruct tmp2 = .ok out2 ∧ out2.shape = out.shape ∧
        ∀ z y x, MultiArray3.inShape tmp.shape z y x → out2.data z y x = out.data z y x) ∧
    (∀ (radius gauss : α) (band : Nat) (VH_A : List (List (List (FFTWComplex α)))),
      (∀ e, reconstVHAccumulate E radius gauss band VH_A = .error e →
        reconstVH E radius gauss band VH_A = .error e) ∧
      (∀ st, reconstVHAccumulate E radius gauss band VH_A = .ok st →
        st.1.shape = ⟨0, 0, 0⟩ ∧ st.2.shape = st.1.shape ∧
        ∃ out, reconstVH E radius gauss band VH_A = .ok out ∧ out.shape = st.2.shape ∧
          ∀ z y x, MultiArray3.inShape st.2.shape z y x →
            out.data z y x = ⟨(st.2.data z y x).v1.re, -(E.sqrt 2) * (st.2.data z y x).v0.re,
              E.sqrt 2 * (st.2.data z y x).v0.im⟩)) ∧
    (∀ (radius : α) (band : Nat) (VPH_A : List (List (List (List (FFTWComplex α))))),
      (∀ e, reconstVPHAccumulate E radius band VPH_A = .error e →
        reconstVPH E radius band VPH_A = .error e) ∧
      (∀ st, reconstVPHAccumulate E radius band VPH_A = .ok st →
        st.1.shape = ⟨0, 0, 0⟩ ∧ st.2.shape = st.1.shape ∧
        ∃ out, reconstVPH E radius band VPH_A = .ok out ∧ out.shape = st.2.shape ∧
          ∀ z y x, MultiArray3.inShape st.2.shape z y x →
            out.data z y x = ⟨(st.2.data z y x).v1.re, -(E.sqrt 2) * (st.2.data z y x).v0.re,
              E.sqrt 2 * (st.2.data z y x).v0.im⟩)) := by
  refine ⟨realVecDirections_eq E reconstruct tmp hs, ?_, ?_, ?_⟩
  · intro tmp2 hs2 hagree
    obtain ⟨out, hout, hos, hod⟩ := realVecDirections_eq E reconstruct tmp hs
    obtain ⟨out2, hout2, hos2, hod2⟩ := realVecDirections_eq E reconstruct tmp2 (hs2.trans hs)
    refine ⟨out, out2, hout, hout2, by rw [hos, hos2, hs2], fun z y x hin => ?_⟩
    rw [hod z y x hin, hod2 z y x (by rw [hs2]; exact hin), (hagree z y x hin).1,
      (hagree z y x hin).2]
  · intro radius gauss band VH_A
    constructor
    · intro e hacc
      unfold reconstVH
      rw [hacc]
      rfl
    · intro st hacc
      have hsh := reconstVHAccumulate_shape E radius gauss band VH_A st hacc
      obtain ⟨out, hout, hos, hod⟩ := realVecDirections_eq E st.1 st.2 hsh
      refine ⟨reconstVHAccumulate_empty E radius gauss band VH_A st hacc, hsh, out, ?_, hos, hod⟩
      unfold reconstVH
      rw [hacc]
      exact hout
  · intro radius band VPH_A
    constructor
    · intro e hacc
      unfold reconstVPH
      rw [hacc]
      rfl
    · intro st hacc
      have hsh := reconstVPHAccumulate_shape E radius band VPH_A st hacc
      obtain ⟨out, hout, hos, hod⟩ := realVecDirections_eq E st.1 st.2 hsh
      refine ⟨reconstVPHAccumulate_empty E radius band VPH_A st hacc, hsh, out, ?_, hos, hod⟩
      unfold reconstVPH
      rw [hacc]
      exact hout

/-- C27, on arrays of one voxel with the intermediate
`(v0,v1,v2) = (1+2i, 3+4i, 5+6i)` and `sqrt(2)` replaced by 2: the output vector
is `(3, -2, 4)`. -/
theorem reconst_real_directions_witness :
    ∃ out, realVecDirections ratExternals (MultiArray3.reshape ⟨1, 1, 1⟩ 0)
        (MultiArray3.reshape ⟨1, 1, 1⟩ (⟨⟨1, 2⟩, ⟨3, 4⟩, ⟨5, 6⟩⟩ :
          TinyVector3 (FFTWComplex ℚ))) = .ok out ∧
      out.data 0 0 0 = ⟨3, -2, 4⟩ := by
  obtain ⟨out, hout, _, hod⟩ := (reconst_real_directions ratExternals
    (MultiArray3.reshape ⟨1, 1, 1⟩ 0)
    (MultiArray3.reshape ⟨1, 1, 1⟩ (⟨⟨1, 2⟩, ⟨3, 4⟩, ⟨5, 6⟩⟩ : TinyVector3 (FFTWComplex ℚ)))
    rfl).1
  refine ⟨out, hout, ?_⟩
  rw [hod 0 0 0 (by decide)]
  show (⟨3, -(2 : ℚ) * 1, (2 : ℚ) * 2⟩ : TinyVector3 ℚ) = ⟨3, -2, 4⟩
  norm_num

end VectorReconstructionTheorems

/-! ## Radial reconstruction -/

section RadialReconstructionTheorems

variable {α : Type} [LinearOrderedField α] [FloorRing α]

/-- A loop whose every iteration adds a term to every voxel of a field adds the
sum of the terms. -/
theorem loopM_field_sum (S : Shape3) (n : Nat) (R0 : MultiArray3 α)
    (body : Nat → MultiArray3 α → Except Fault (MultiArray3 α))
    (f : Nat → Int → Int → Int → α) (h0 : R0.shape = S)
    (hb : ∀ i R, i < n → R.shape = S → ∃ R1, body i R = .ok R1 ∧ R1.shape = S ∧
      ∀ z y x, MultiArray3.inShape S z y x → R1.data z y x = R.data z y x + f i z y x) :
    ∃ R, loopM n R0 body = .ok R ∧ R.shape = S ∧
      ∀ z y x, MultiArray3.inShape S z y x →
        R.data z y x = R0.data z y x + ∑ i in Finset.range n, f i z y x := by
  refine loopM_inv
    (fun k (R : MultiArray3 α) => R.shape = S ∧ ∀ z y x, MultiArray3.inShape S z y x →
      R.data z y x = R0.data z y x + ∑ i in Finset.range k, f i z y x)
    n R0 body ⟨h0, fun z y x _ => by simp⟩ ?_
  intro i R hi hP
  obtain ⟨hs, hd⟩ := hP
  obtain ⟨R1, hR1, hs1, hd1⟩ := hb i R hi hs
  refine ⟨R1, hR1, hs1, fun z y x hin => ?_⟩
  rw [hd1 z y x hin, hd z y x hin, Finset.sum_range_succ, add_assoc]

theorem vecGet_elemAt3 {T : Type} [Inhabited T] (data : List (List (List T))) (n l m : Int)
    (hn0 : 0 ≤ n) (hn : n < data.length) (hl0 : 0 ≤ l)
    (hl : l < (data.getD n.toNat []).length) (hm0 : 0 ≤ m)
    (hm : m < ((data.getD n.toNat []).getD l.toNat []).length) :
    (vecGet data n >>= fun entry => vecGet entry l >>= fun row => vecGet row m)
      = .ok (elemAt3 data n.toNat l.toNat m.toNat) := by
  rw [vecGet_getD data n [] hn0 hn, ok_bind, vecGet_getD _ l [] hl0 hl, ok_bind,
    vecGet_getD _ m default hm0 hm]
  rfl

/-- The innermost step of `reconstPH`: one kernel adds its term to every voxel. -/
theorem reconstPH_step (PH_A : List (List (List (FFTWComplex α))))
    (PHbaseF : List (List (List (MultiArray3 (FFTWComplex α))))) (n l m : Nat)
    (R : MultiArray3 α)
    (hn : n < PHbaseF.length) (hl : l < (PHbaseF.getD n []).length)
    (hm : m < ((PHbaseF.getD n []).getD l []).length)
    (hcm : m < ((PH_A.getD n []).getD l []).length)
    (hS : (elemAt3 PHbaseF n l m).shape = R.shape) :
    ∃ R1, (do
        let baseEntry ← vecGet PHbaseF (n : Int)
        let baseRow ← vecGet baseEntry (l : Int)
        let K ← vecGet baseRow (m : Int)
        MultiArray3.lockstep R.size R K fun q p => do
          let c ← vecGet ((PH_A.getD n []).getD l []) (m : Int)
          pure (q + (p * FFTWComplex.conj c).re)) = .ok R1 ∧
      R1.shape = R.shape ∧
      ∀ z y x, MultiArray3.inShape R.shape z y x →
        R1.data z y x = R.data z y x +
          ((elemAt3 PHbaseF n l m).data z y x * FFTWComplex.conj (elemAt3 PH_A n l m)).re := by
  have hK := vecGet_elemAt3 PHbaseF (n : Int) (l : Int) (m : Int) (by omega) (by omega)
    (by omega) (by simpa using hl) (by omega) (by simpa using hm)
  simp only [Int.toNat_ofNat] at hK
  have hc : vecGet ((PH_A.getD n []).getD l []) (m : Int) = .ok (elemAt3 PH_A n l m) := by
    have h := vecGet_getD ((PH_A.getD n []).getD l []) (m : Int) default (by omega) (by omega)
    rw [Int.toNat_ofNat] at h
    exact h
  obtain ⟨R1, hR1, hs1, hd1⟩ := lockstep_same_shape R (elemAt3 PHbaseF n l m)
    (fun q p => do
      let c ← vecGet ((PH_A.getD n []).getD l []) (m : Int)
      pure (q + (p * FFTWComplex.conj c).re))
    (fun q p => q + (p * FFTWComplex.conj (elemAt3 PH_A n l m)).re) hS
    (by
      intro q p
      simp only [hc, ok_bind]
      rfl)
  refine ⟨R1, ?_, hs1, fun z y x hin => (hd1 z y x).1 hin⟩
  have h : (vecGet PHbaseF (n : Int) >>= fun baseEntry => vecGet baseEntry (l : Int) >>=
      fun baseRow => vecGet baseRow (m : Int) >>= fun K =>
        MultiArray3.lockstep R.size R K fun q p => do
          let c ← vecGet ((PH_A.getD n []).getD l []) (m : Int)
          pure (q + (p * FFTWComplex.conj c).re))
      = ((vecGet PHbaseF (n : Int) >>= fun entry => vecGet entry (l : Int) >>= fun row =>
          vecGet row (m : Int)) >>= fun K =>
        MultiArray3.lockstep R.size R K fun q p => do
          let c ← vecGet ((PH_A.getD n []).getD l []) (m : Int)
          pure (q + (p * FFTWComplex.conj c).re)) := by
    simp only [bind_assoc]
  exact h.trans (by rw [hK, ok_bind]; exact hR1)

/-- The `m` loop of `reconstPH` for one `(n, l)`. -/
theorem reconstPH_row (PH_A : List (List (List (FFTWComplex α))))
    (PHbaseF : List (List (List (MultiArray3 (FFTWComplex α))))) (n l : Nat)
    (S : Shape3) (R : MultiArray3 α) (hR : R.shape = S)
    (hS : ∀ m, m < ((PH_A.getD n []).getD l []).length →
      n < PHbaseF.length ∧ l < (PHbaseF.getD n []).length ∧
      m < ((PHbaseF.getD n []).getD l []).length ∧ (elemAt3 PHbaseF n l m).shape = S) :
    ∃ R1, forFromTo 0 ((((PH_A.getD n []).getD l []).length : Int) - 1) R
        (fun m reconstruct => do
          let baseEntry ← vecGet PHbaseF (n : Int)
          let baseRow ← vecGet baseEntry (l : Int)
          let K ← vecGet baseRow m
          MultiArray3.lockstep reconstruct.size reconstruct K fun q p => do
            let c ← vecGet ((PH_A.getD n []).getD l []) m
            pure (q + (p * FFTWComplex.conj c).re)) = .ok R1 ∧
      R1.shape = S ∧
      ∀ z y x, MultiArray3.inShape S z y x →
        R1.data z y x = R.data z y x +
          ∑ m in Finset.range ((PH_A.getD n []).getD l []).length,
            ((elemAt3 PHbaseF n l m).data z y x * FFTWComplex.conj (elemAt3 PH_A n l m)).re := by
  unfold forFromTo
  have hcount : ((((PH_A.getD n []).getD l []).length : Int) - 1 + 1 - 0).toNat
      = ((PH_A.getD n []).getD l []).length := by omega
  rw [hcount]
  refine loopM_field_sum S _ R _
    (fun m z y x =>
      ((elemAt3 PHbaseF n l m).data z y x * FFTWComplex.conj (elemAt3 PH_A n l m)).re) hR ?_
  intro m R' hm hR'
  obtain ⟨h1, h2, h3, h4⟩ := hS m hm
  obtain ⟨R1, hR1, hs1, hd1⟩ := reconstPH_step PH_A PHbaseF n l m R' h1 h2 h3 hm
    (by rw [h4, hR'])
  have e : (0 : Int) + (m : Int) = (m : Int) := by omega
  refine ⟨R1, ?_, by rw [hs1, hR'], fun z y x hin => hd1 z y x (by rw [hR']; exact hin)⟩
  simp only [e]
  exact hR1

/-- The `l` loop of `reconstPH` for one `n`. -/
theorem reconstPH_entry (PH_A : List (List (List (FFTWComplex α))))
    (PHbaseF : List (List (List (MultiArray3 (FFTWComplex α))))) (n : Nat)
    (S : Shape3) (R : MultiArray3 α) (hR : R.shape = S)
    (hS : ∀ l m, l < (PH_A.getD n []).length → m < ((PH_A.getD n []).getD l []).length →
      n < PHbaseF.length ∧ l < (PHbaseF.getD n []).length ∧
      m < ((PHbaseF.getD n []).getD l []).length ∧ (elemAt3 PHbaseF n l m).shape = S) :
    ∃ R1, forFromTo 0 (((PH_A.getD n []).length : Int) - 1) R
        (fun l reconstruct => do
          let coeffRow ← vecGet (PH_A.getD n []) l
          forFromTo 0 ((coeffRow.length : Int) - 1) reconstruct fun m reconstruct => do
            let baseEntry ← vecGet PHbaseF (n : Int)
            let baseRow ← vecGet baseEntry l
            let K ← vecGet baseRow m
            MultiArray3.lockstep reconstruct.size reconstruct K fun q p => do
              let c ← vecGet coeffRow m
              pure (q + (p * FFTWComplex.conj c).re)) = .ok R1 ∧
      R1.shape = S ∧
      ∀ z y x, MultiArray3.inShape S z y x →
        R1.data z y x = R.data z y x +
          ∑ l in Finset.range (PH_A.getD n []).length,
            ∑ m in Finset.range ((PH_A.getD n []).getD l []).length,
              ((elemAt3 PHbaseF n l m).data z y x *
                FFTWComplex.conj (elemAt3 PH_A n l m)).re := by
  unfold forFromTo
  have hcount : ((((PH_A.getD n []).length : Int)) - 1 + 1 - 0).toNat
      = (PH_A.getD n []).length := by omega
  rw [hcount]
  refine loopM_field_sum S _ R _
    (fun l z y x => ∑ m in Finset.range ((PH_A.getD n []).getD l []).length,
      ((elemAt3 PHbaseF n l m).data z y x * FFTWComplex.conj (elemAt3 PH_A n l m)).re) hR ?_
  intro l R' hl hR'
  obtain ⟨R1, hR1, hs1, hd1⟩ := reconstPH_row PH_A PHbaseF n l S R' hR'
    (fun m hm => hS l m hl hm)
  refine ⟨R1, ?_, hs1, hd1⟩
  have e : (0 : Int) + (l : Int) = (l : Int) := by omega
  have hget : vecGet (PH_A.getD n []) (l : Int) = .ok ((PH_A.getD n []).getD l []) := by
    have h := vecGet_getD (PH_A.getD n []) (l : Int) [] (by omega) (by omega)
    rw [Int.toNat_ofNat] at h
    exact h
  simp only [e, hget, ok_bind]
  exact hR1

theorem reconstPH_eq (radius : α) (band : Nat) (PH_A : List (List (List (FFTWComplex α))))
    (PHbaseF : List (List (List (MultiArray3 (FFTWComplex α)))))
    (hK : 1 < PHbaseF.length ∧ 0 < (PHbaseF.getD 1 []).length ∧
      0 < ((PHbaseF.getD 1 []).getD 0 []).length)
    (hS : ∀ n l m, 1 ≤ n → n < PH_A.length → l < (PH_A.getD n []).length →
      m < ((PH_A.getD n []).getD l []).length →
      n < PHbaseF.length ∧ l < (PHbaseF.getD n []).length ∧
      m < ((PHbaseF.getD n []).getD l []).length ∧
      (elemAt3 PHbaseF n l m).shape = (elemAt3 PHbaseF 1 0 0).shape) :
    ∃ R, reconstPH radius band PH_A PHbaseF = .ok R ∧
      R.shape = (elemAt3 PHbaseF 1 0 0).shape ∧
      ∀ z y x, MultiArray3.inShape (elemAt3 PHbaseF 1 0 0).shape z y x →
        R.data z y x = ∑ i in Finset.range (PH_A.length - 1),
          ∑ l in Finset.range (PH_A.getD (i + 1) []).length,
            ∑ m in Finset.range ((PH_A.getD (i + 1) []).getD l []).length,
              ((elemAt3 PHbaseF (i + 1) l m).data z y x *
                FFTWComplex.conj (elemAt3 PH_A (i + 1) l m)).re := by
  have h100 := vecGet_elemAt3 PHbaseF 1 0 0 (by omega) (by omega) (by omega)
    (by
      show (0 : Int) < ((PHbaseF.getD 1 []).length : Int)
      omega)
    (by omega)
    (by
      show (0 : Int) < (((PHbaseF.getD 1 []).getD 0 []).length : Int)
      omega)
  have h100' : (vecGet PHbaseF 1 >>= fun entry => vecGet entry 0 >>= fun row => vecGet row 0)
      = .ok (elemAt3 PHbaseF 1 0 0) := h100
  obtain ⟨R, hR, hRs, hRd⟩ := loopM_field_sum (elemAt3 PHbaseF 1 0 0).shape (PH_A.length - 1)
    (MultiArray3.reshape (elemAt3 PHbaseF 1 0 0).shape (0 : α))
    (fun i reconstruct => do
      let coeffEntry ← vecGet PH_A (1 + (i : Int))
      forFromTo 0 ((coeffEntry.length : Int) - 1) reconstruct fun l reconstruct => do
        let coeffRow ← vecGet coeffEntry l
        forFromTo 0 ((coeffRow.length : Int) - 1) reconstruct fun m reconstruct => do
          let baseEntry ← vecGet PHbaseF (1 + (i : Int))
          let baseRow ← vecGet baseEntry l
          let K ← vecGet baseRow m
          MultiArray3.lockstep reconstruct.size reconstruct K fun q p => do
            let c ← vecGet coeffRow m
            pure (q + (p * FFTWComplex.conj c).re))
    (fun i z y x => ∑ l in Finset.range (PH_A.getD (i + 1) []).length,
      ∑ m in Finset.range ((PH_A.getD (i + 1) []).getD l []).length,
        ((elemAt3 PHbaseF (i + 1) l m).data z y x *
          FFTWComplex.conj (elemAt3 PH_A (i + 1) l m)).re)
    rfl
    (by
      intro i R' hi hR'
      obtain ⟨R1, hR1, hs1, hd1⟩ := reconstPH_entry PH_A PHbaseF (i + 1)
        (elemAt3 PHbaseF 1 0 0).shape R' hR'
        (fun l m hl hm => hS (i + 1) l m (by omega) (by omega) hl hm)
      refine ⟨R1, ?_, hs1, hd1⟩
      have e : (1 : Int) + (i : Int) = ((i + 1 : Nat) : Int) := by omega
      have hget : vecGet PH_A ((i + 1 : Nat) : Int) = .ok (PH_A.getD (i + 1) []) := by
        have h := vecGet_getD PH_A ((i + 1 : Nat) : Int) [] (by omega) (by omega)
        rw [Int.toNat_ofNat] at h
        exact h
      simp only [e, hget, ok_bind]
      exact hR1)
  refine ⟨R, ?_, hRs, fun z y x hin => ?_⟩
  · unfold reconstPH
    have h : (vecGet PHbaseF 1 >>= fun entry1 => vecGet entry1 0 >>= fun row10 =>
        vecGet row10 0 >>= fun K100 =>
          forFromTo 1 ((PH_A.length : Int) - 1) (MultiArray3.reshape K100.shape (0 : α))
            fun n reconstruct => do
              let coeffEntry ← vecGet PH_A n
              forFromTo 0 ((coeffEntry.length : Int) - 1) reconstruct fun l reconstruct => do
                let coeffRow ← vecGet coeffEntry l
                forFromTo 0 ((coeffRow.length : Int) - 1) reconstruct fun m reconstruct => do
                  let baseEntry ← vecGet PHbaseF n
                  let baseRow ← vecGet baseEntry l
                  let K ← vecGet baseRow m
                  MultiArray3.lockstep reconstruct.size reconstruct K fun q p => do
                    let c ← vecGet coeffRow m
                    pure (q + (p * FFTWComplex.conj c).re))
        = ((vecGet PHbaseF 1 >>= fun entry => vecGet entry 0 >>= fun row => vecGet row 0)
          >>= fun K100 =>
          forFromTo 1 ((PH_A.length : Int) - 1) (MultiArray3.reshape K100.shape (0 : α))
            fun n reconstruct => do
              let coeffEntry ← vecGet PH_A n
              forFromTo 0 ((coeffEntry.length : Int) - 1) reconstruct fun l reconstruct => do
                let coeffRow ← vecGet coeffEntry l
                forFromTo 0 ((coeffRow.length : Int) - 1) reconstruct fun m reconstruct => do
                  let baseEntry ← vecGet PHbaseF n
                  let baseRow ← vecGet baseEntry l
                  let K ← vecGet baseRow m
                  MultiArray3.lockstep reconstruct.size reconstruct K fun q p => do
                    let c ← vecGet coeffRow m
                    pure (q + (p * FFTWComplex.conj c).re)) := by
      simp only [bind_assoc]
    refine h.trans ?_
    rw [h100', ok_bind]
    unfold forFromTo
    have hcount : ((PH_A.length : Int) - 1 + 1 - 1).toNat = PH_A.length - 1 := by omega
    rw [hcount]
    exact hR
  · rw [hRd z y x hin]
    simp [MultiArray3.reshape, hin]

/-- C28 (what the code does). For every coefficient set and every cache that
holds a kernel of one common shape at every index of the coefficient set,
`reconstPH` returns the field whose value at every voxel is the sum, over the
stored indices `(n, l, m)` with `n ≥ 1` and nothing else, of
`Re(PHbaseF[n][l][m](x) * conj(PH_A[n][l][m]))`. From a real-data set, which
stores the orders `0..l` only, the orders `-l..-1` contribute no term and the
terms of the orders `1..l` are not doubled: the negative orders are not
recovered from their conjugates. -/
theorem reconstPH_sum (radius : α) (band : Nat) (PH_A : List (List (List (FFTWComplex α))))
    (PHbaseF : List (List (List (MultiArray3 (FFTWComplex α)))))
    (hK : 1 < PHbaseF.length ∧ 0 < (PHbaseF.getD 1 []).length ∧
      0 < ((PHbaseF.getD 1 []).getD 0 []).length)
    (hS : ∀ n l m, 1 ≤ n → n < PH_A.length → l < (PH_A.getD n []).length →
      m < ((PH_A.getD n []).getD l []).length →
      n < PHbaseF.length ∧ l < (PHbaseF.getD n []).length ∧
      m < ((PHbaseF.getD n []).getD l []).length ∧
      (elemAt3 PHbaseF n l m).shape = (elemAt3 PHbaseF 1 0 0).shape) :
    ∃ R, reconstPH radius band PH_A PHbaseF = .ok R ∧
      R.shape = (elemAt3 PHbaseF 1 0 0).shape ∧
      ∀ z y x, MultiArray3.inShape (elemAt3 PHbaseF 1 0 0).shape z y x →
        R.data z y x = ∑ i in Finset.range (PH_A.length - 1),
          ∑ l in Finset.range (PH_A.getD (i + 1) []).length,
            ∑ m in Finset.range ((PH_A.getD (i + 1) []).getD l []).length,
              ((elemAt3 PHbaseF (i + 1) l m).data z y x *
                FFTWComplex.conj (elemAt3 PH_A (i + 1) l m)).re :=
  reconstPH_eq radius band PH_A PHbaseF hK hS

/-- C28 (what the code does), at band 1 with one-voxel kernels. The full set
has the orders `-1, 0, 1` of degree 1 with kernels `1, 0, 1` and coefficients
`1, 0, 1` (order `-1` the conjugate of order `+1`); the real-data set has the
orders `0, 1` with kernels `0, 1` and coefficients `0, 1`. The full
reconstruction is 2 at the voxel, the real-data reconstruction is 1. -/
theorem reconstPH_sum_witness :
    ∃ Rf Rr,
      reconstPH (1 : ℚ) 1 [[], [[0], [⟨1, 0⟩, 0, ⟨1, 0⟩]]]
        [[], [[voxelKernel 0], [voxelKernel ⟨1, 0⟩, voxelKernel 0, voxelKernel ⟨1, 0⟩]]]
        = .ok Rf ∧
      reconstPH (1 : ℚ) 1 [[], [[0], [0, ⟨1, 0⟩]]]
        [[], [[voxelKernel 0], [voxelKernel 0, voxelKernel ⟨1, 0⟩]]] = .ok Rr ∧
      Rf.data 0 0 0 = 2 ∧ Rr.data 0 0 0 = 1 := by
  obtain ⟨Rf, hf, _, hfd⟩ := reconstPH_sum (1 : ℚ) 1 [[], [[0], [⟨1, 0⟩, 0, ⟨1, 0⟩]]]
    [[], [[voxelKernel 0], [voxelKernel ⟨1, 0⟩, voxelKernel 0, voxelKernel ⟨1, 0⟩]]]
    (by decide)
    (by
      intro n l m h1 hn hl hm
      have hn1 : n = 1 := by
        simp only [List.length_cons, List.length_nil] at hn
        omega
      subst hn1
      have hl2 : l < 2 := hl
      interval_cases l
      · have hm1 : m < 1 := hm
        interval_cases m
        exact ⟨by decide, by decide, by decide, rfl⟩
      · have hm3 : m < 3 := hm
        interval_cases m <;> exact ⟨by decide, by decide, by decide, rfl⟩)
  obtain ⟨Rr, hr, _, hrd⟩ := reconstPH_sum (1 : ℚ) 1 [[], [[0], [0, ⟨1, 0⟩]]]
    [[], [[voxelKernel 0], [voxelKernel 0, voxelKernel ⟨1, 0⟩]]]
    (by decide)
    (by
      intro n l m h1 hn hl hm
      have hn1 : n = 1 := by
        simp only [List.length_cons, List.length_nil] at hn
        omega
      subst hn1
      have hl2 : l < 2 := hl
      interval_cases l
      · have hm1 : m < 1 := hm
        interval_cases m
        exact ⟨by decide, by decide, by decide, rfl⟩
      · have hm3 : m < 2 := hm
        interval_cases m <;> exact ⟨by decide, by decide, by decide, rfl⟩)
  have hin : MultiArray3.inShape (⟨1, 1, 1⟩ : Shape3) 0 0 0 := by decide
  refine ⟨Rf, Rr, hf, hr, ?_, ?_⟩
  · rw [hfd 0 0 0 hin]
    simp [Finset.sum_range_succ, elemAt3, voxelKernel, MultiArray3.reshape,
      MultiArray3.inShape, FFTWComplex.conj]
    norm_num
  · rw [hrd 0 0 0 hin]
    simp [Finset.sum_range_succ, elemAt3, voxelKernel, MultiArray3.reshape,
      MultiArray3.inShape, FFTWComplex.conj]

end RadialReconstructionTheorems

/-! ## The shell profile and the polar angles -/

section ShellTheorems

variable {α : Type} [LinearOrderedField α] [FloorRing α]

theorem clampGauss_of_one_le (w : α) (hw : 1 ≤ w) : clampGauss w = w := by
  unfold clampGauss
  split_ifs with h
  · exact le_antisymm hw h
  · rfl

/-- The weight of the shell kernel is `exp(log(1/2) * (gauss_x/w)^2)`: it is 1
on the shell and 1/2 exactly where `|dist_um - radius| = w`. -/
theorem surfWeight_half_iff (E : Externals α) (radius w d : α) (hw : 1 ≤ w)
    (h0 : E.exp 0 = 1) (hhalf : E.exp (E.log (1 / 2)) = 1 / 2)
    (hinj : Function.Injective E.exp) :
    surfWeight E radius w false radius = 1 ∧
    (surfWeight E radius w false d = 1 / 2 ↔ |d - radius| = w) := by
  have hw0 : (0 : α) < w := lt_of_lt_of_le zero_lt_one hw
  have hL : E.log (1 / 2) ≠ 0 := by
    intro h
    rw [h, h0] at hhalf
    norm_num at hhalf
  have harg : ∀ x : α, -(1 / 2) * (x - radius) * (x - radius) *
      (-2 * E.log (1 / 2) / (w * w)) = E.log (1 / 2) * ((x - radius) ^ 2 / w ^ 2) := by
    intro x
    field_simp
    ring
  have hW : ∀ x : α, surfWeight E radius w false x =
      E.exp (E.log (1 / 2) * ((x - radius) ^ 2 / w ^ 2)) := by
    intro x
    unfold surfWeight surfGaussX surfSigmaFactor
    rw [clampGauss_of_one_le w hw]
    simp only [Bool.not_false, Bool.true_or, if_true]
    rw [harg]
  constructor
  · rw [hW]
    simp [h0]
  · rw [hW]
    constructor
    · intro h
      have h1 := hinj (h.trans hhalf.symm)
      have h2 : (d - radius) ^ 2 / w ^ 2 = 1 := by
        have := mul_left_cancel₀ hL (h1.trans (mul_one _).symm)
        exact this
      have h3 : (d - radius) ^ 2 = w ^ 2 := by
        field_simp at h2
        exact h2
      have h4 := abs_eq_abs.mpr (sq_eq_sq_iff_eq_or_eq_neg.mp h3 |>.elim Or.inl Or.inr)
      rw [h4, abs_of_pos hw0]
    · intro h
      have h3 : (d - radius) ^ 2 = w ^ 2 := by
        rw [← sq_abs, h]
      rw [h3, div_self (pow_ne_zero 2 (ne_of_gt hw0)), mul_one, hhalf]

/-- C31 (amended). For `sphereSurfHarmonic` with `full = false` and width
`w ≥ 1`, the value at every voxel is the radial weight times the normalized
harmonic; the weight is a Gaussian in `distance - radius` that equals 1 on the
shell and equals 1/2 exactly where `|distance - radius| = w`: `w` is the half
width at half maximum, and at `|distance - radius| = w/2` the weight is not 1/2.
The exponential is taken injective with `exp 0 = 1` and `exp (log (1/2)) = 1/2`. -/
theorem sphereSurfHarmonic_half_maximum (E : Externals α) (radius w : α) (l m : Int)
    (voxelSize : TinyVector3 α) (hw : 1 ≤ w)
    (h0 : E.exp 0 = 1) (hhalf : E.exp (E.log (1 / 2)) = 1 / 2)
    (hinj : Function.Injective E.exp) :
    (∀ s r c, MultiArray3.inShape (surfShape radius w voxelSize) s r c →
      (sphereSurfHarmonic E radius w l m false voxelSize).get s r c =
        .ok (surfWeight E radius w false (surfDist E radius w voxelSize s r c) •
          surfSHfactor E radius w l m voxelSize s r c)) ∧
    surfWeight E radius w false radius = 1 ∧
    (∀ d, surfWeight E radius w false d = 1 / 2 ↔ |d - radius| = w) ∧
    (∀ d, |d - radius| = w / 2 → surfWeight E radius w false d ≠ 1 / 2) := by
  have hw0 : (0 : α) < w := lt_of_lt_of_le zero_lt_one hw
  refine ⟨fun s r c hin => ?_, (surfWeight_half_iff E radius w radius hw h0 hhalf hinj).1,
    fun d => (surfWeight_half_iff E radius w d hw h0 hhalf hinj).2, fun d hd h => ?_⟩
  · rw [sphereSurfHarmonic_eq_tabulate]
    unfold MultiArray3.get MultiArray3.tabulate
    simp only [if_pos hin]
    rfl
  · have := ((surfWeight_half_iff E radius w d hw h0 hhalf hinj).2).mp h
    rw [hd] at this
    linarith

/-- C31 (amended), at radius 0, width 1 and unit spacing, with `exp x = 1 + x`
and `log x = x - 1`. -/
theorem sphereSurfHarmonic_half_maximum_witness :
    (∀ s r c, MultiArray3.inShape (surfShape (0 : ℚ) 1 ⟨1, 1, 1⟩) s r c →
      (sphereSurfHarmonic ratExternals 0 1 0 0 false ⟨1, 1, 1⟩).get s r c =
        .ok (surfWeight ratExternals 0 1 false (surfDist ratExternals 0 1 ⟨1, 1, 1⟩ s r c) •
          surfSHfactor ratExternals 0 1 0 0 ⟨1, 1, 1⟩ s r c)) ∧
    surfWeight ratExternals 0 1 false 0 = 1 ∧
    (∀ d, surfWeight ratExternals 0 1 false d = 1 / 2 ↔ |d - 0| = 1) ∧
    (∀ d, |d - 0| = (1 : ℚ) / 2 → surfWeight ratExternals 0 1 false d ≠ 1 / 2) :=
  sphereSurfHarmonic_half_maximum ratExternals 0 1 0 0 ⟨1, 1, 1⟩ (le_refl 1)
    (by norm_num [ratExternals]) (by norm_num [ratExternals])
    (fun a b h => by simpa [ratExternals] using h)

/-- C31 as stated fails: with the real exponential and logarithm, radius 0 and
width `w = 2`, the weight at distance 1 from the shell (`w/2`) is not 1/2. -/
theorem sphereSurfHarmonic_width_counterexample :
    |(1 : ℝ) - 0| = 2 / 2 ∧
    surfWeight (⟨Real.sqrt, Real.exp, Real.log, Real.arccos, Real.cos, Real.sin, Real.pi,
      fun _ _ => 1, fun _ _ _ => 1, fun _ _ => 1, fun _ _ _ _ _ _ => none⟩ : Externals ℝ)
      0 2 false 1 ≠ 1 / 2 := by
  refine ⟨by norm_num, fun h => ?_⟩
  have h2 := ((surfWeight_half_iff (⟨Real.sqrt, Real.exp, Real.log, Real.arccos, Real.cos,
    Real.sin, Real.pi, fun _ _ => 1, fun _ _ _ => 1, fun _ _ => 1,
    fun _ _ _ _ _ _ => none⟩ : Externals ℝ) 0 2 1 (by norm_num) Real.exp_zero
    (Real.exp_log (by norm_num)) Real.exp_injective).2).mp h
  norm_num at h2

theorem surfAngles_eq_args (E : Externals α) (z_um y_um x_um : α) :
    surfAngles E z_um y_um x_um =
      (E.acos (surfThetaArg E z_um y_um x_um),
        if surfGuardedY y_um x_um ≥ 0 then E.acos (surfPhiArg E y_um x_um)
        else 2 * E.pi - E.acos (surfPhiArg E y_um x_um)) := rfl

end ShellTheorems

/-! ## The carry of the radial iterator -/

section RadialCarryTheorems

variable {α : Type} [LinearOrderedField α] [FloorRing α]

/-- C33 (what the code does). Advancing a `PH_Itterator` that sits on the last
order `m` of the last degree `l` of radial index `k` (with `k` below the outer
size) moves it to `(k+1, 0, m)`: the carry into the outermost index sets `_l = 0`
and leaves `_m` as it was; the cursor lands on `(k+1, 0, 0)` only when `m = 0`. -/
theorem PH_Itterator_carry {T : Type} (data : List (List (List T))) (k l m : Nat)
    (entry : List (List T)) (row : List T)
    (hk : data[k]? = some entry) (hl : entry[l]? = some row)
    (hlastl : l + 1 = entry.length) (hlastm : m + 1 = row.length)
    (hsize : data.length < 2147483648) :
    PH_Itterator.next data ⟨k, l, m⟩ = .ok ⟨(k : Int) + 1, 0, m⟩ ∧
    (PH_Itterator.next data ⟨k, l, m⟩ = .ok ⟨(k : Int) + 1, 0, 0⟩ ↔ m = 0) := by
  have hklt : k < data.length := (List.getElem?_eq_some.mp hk).1
  have hnext : PH_Itterator.next data ⟨k, l, m⟩ = .ok ⟨(k : Int) + 1, 0, m⟩ := by
    unfold PH_Itterator.next
    rw [vecGet_ok data (k : Int) entry (by omega) (by simpa using hk), ok_bind,
      vecGet_ok entry (l : Int) row (by omega) (by simpa using hl), ok_bind]
    have h1 : ¬ ((m : Int) % 18446744073709551616 <
        ((row.length : Int) - 1) % 18446744073709551616) := by
      have : ((row.length : Int) - 1) = (m : Int) := by omega
      rw [this]
      exact lt_irrefl _
    have h2 : ¬ ((l : Int) % 18446744073709551616 <
        ((entry.length : Int) - 1) % 18446744073709551616) := by
      have : ((entry.length : Int) - 1) = (l : Int) := by omega
      rw [this]
      exact lt_irrefl _
    have h3 : (k : Int) % 18446744073709551616 < (data.length : Int) := by
      rw [Int.emod_eq_of_lt (by omega) (by omega)]
      omega
    show (if (m : Int) % 18446744073709551616 <
        ((row.length : Int) - 1) % 18446744073709551616 then _ else _) = _
    rw [if_neg h1, if_neg h2, if_pos h3]
    rfl
  refine ⟨hnext, ?_⟩
  rw [hnext]
  constructor
  · intro h
    injection h with h
    injection h with _ _ hm
    exact_mod_cast hm
  · intro h
    subst h
    rfl

/-- C33 (what the code does), on a three-level vector with an empty entry 0 and two
entries whose rows hold 1 and 3 elements, as in a cache of `computePHbaseF`: from
`(1,1,2)` the cursor moves to `(2,0,2)`, a position that refers to no kernel. -/
theorem PH_Itterator_carry_witness :
    (PH_Itterator.next [[], [[10], [11, 12, 13]], [[20], [21, 22, 23]]] ⟨((1 : Nat) : Int),
        ((1 : Nat) : Int), ((2 : Nat) : Int)⟩
      = .ok ⟨((1 : Nat) : Int) + 1, 0, ((2 : Nat) : Int)⟩ ∧
     (PH_Itterator.next [[], [[10], [11, 12, 13]], [[20], [21, 22, 23]]] ⟨((1 : Nat) : Int),
        ((1 : Nat) : Int), ((2 : Nat) : Int)⟩
      = .ok ⟨((1 : Nat) : Int) + 1, 0, 0⟩ ↔ 2 = 0)) ∧
    PH_Itterator.deref ([[], [[10], [11, 12, 13]], [[20], [21, 22, 23]]] : List (List (List Nat)))
      ⟨2, 0, 2⟩ = .error .undefinedBehaviour :=
  ⟨PH_Itterator_carry ([[], [[10], [11, 12, 13]], [[20], [21, 22, 23]]] : List (List (List Nat)))
    1 1 2 [[10], [11, 12, 13]] [11, 12, 13] rfl rfl rfl rfl (by decide), rfl⟩

end RadialCarryTheorems

/-! ## The angular kernel of the radial generator -/

section AngularKernelTheorems

variable {α : Type} [LinearOrderedField α] [FloorRing α]

theorem loopM_error_of {σ : Type} (count : Nat) (init : σ) (body : Nat → σ → Except Fault σ)
    (e0 : Fault) (hall : ∀ i st e, i < count → body i st = .error e → e = e0) :
    ∀ e, loopM count init body = .error e → e = e0 :=
  (loopM_cases (fun _ _ => True) (fun e => e = e0) count init body trivial
    (fun i st hi _ => ⟨fun _ _ => trivial, fun e he => hall i st e hi he⟩)).2

theorem loopM_must_fail {σ : Type} (count : Nat) (init : σ) (body : Nat → σ → Except Fault σ)
    (e0 : Fault) (i0 : Nat) (hi0 : i0 < count) (hbad : ∀ st, body i0 st = .error e0)
    (hall : ∀ i st e, i < count → body i st = .error e → e = e0) :
    loopM count init body = .error e0 := by
  obtain ⟨hok, herr⟩ := loopM_cases (fun k _ => k ≤ i0) (fun e => e = e0) count init body
    (Nat.zero_le _) (fun i st hi hP => ⟨fun st' hst' => by
      by_cases h : i = i0
      · subst h
        rw [hbad st] at hst'
        cases hst'
      · show i + 1 ≤ i0
        have hP' : i ≤ i0 := hP
        omega, fun e he => hall i st e hi he⟩)
  cases h : loopM count init body with
  | ok r =>
    have : count ≤ i0 := hok r h
    omega
  | error e => rw [herr e h]

theorem forVoxelsM_must_fail {σ : Type} (s : Shape3) (init : σ)
    (body : Int → Int → Int → σ → Except Fault σ) (e0 : Fault) (i0 i1 i2 : Nat)
    (h0 : i0 < s.v0.toNat) (h1 : i1 < s.v1.toNat) (h2 : i2 < s.v2.toNat)
    (hbad : ∀ st, body i0 i1 i2 st = .error e0)
    (hall : ∀ (j0 j1 j2 : Nat) st e, body j0 j1 j2 st = .error e → e = e0) :
    forVoxelsM s init body = .error e0 := by
  unfold forVoxelsM
  have hinner : ∀ (j0 j1 : Nat) (st : σ) e,
      loopM s.v2.toNat st (fun i2 st => body (j0 : Int) (j1 : Int) (i2 : Int) st) = .error e →
        e = e0 :=
    fun j0 j1 st => loopM_error_of _ _ _ e0 (fun i st e _ he => hall j0 j1 i st e he)
  have hmid : ∀ (j0 : Nat) (st : σ) e,
      loopM s.v1.toNat st (fun i1 st =>
        loopM s.v2.toNat st fun i2 st => body (j0 : Int) (i1 : Int) (i2 : Int) st) = .error e →
        e = e0 :=
    fun j0 st => loopM_error_of _ _ _ e0 (fun i st e _ he => hinner j0 i st e he)
  apply loopM_must_fail _ _ _ e0 i0 h0
  · intro st
    apply loopM_must_fail _ _ _ e0 i1 h1
    · intro st
      exact loopM_must_fail _ _ _ e0 i2 h2 hbad (fun i st e _ he => hall i0 i1 i st e he)
    · exact fun i st e _ he => hinner i0 i st e he
  · exact fun i st e _ he => hmid i st e he

/-- C34 (what the code does). `sphereFullHarmonic` precomputes the angular
kernel with unit spacing whatever spacing it is given: its shape is
`2*ceil(radius + 3) + 1` per axis, while the output has
`2*ceil(radius/spacing_a + 3) + 1`. The two agree for unit spacing. When some
output voxel lies outside the angular kernel the read `SH(z,y,x)` is out of
bounds and the call has no defined result. When every output voxel lies inside,
the call returns, and the angular value used for output voxel `(z,y,x)` is the
one stored at index `(z,y,x)` of the unit-spacing kernel. -/
theorem sphereFullHarmonic_angular_shape (E : Externals α) (radius : α) (n l m : Int)
    (voxelSize : TinyVector3 α) (xnl : α) (hx : fullXnl radius n l = .ok xnl) :
    (sphereSurfHarmonic E radius 1 l m true ⟨1, 1, 1⟩).shape = fullShape radius ⟨1, 1, 1⟩ ∧
    ((∃ z y x : Int, MultiArray3.inShape (fullShape radius voxelSize) z y x ∧
        ¬ MultiArray3.inShape (fullShape radius ⟨1, 1, 1⟩) z y x) →
      sphereFullHarmonic E radius n l m voxelSize = .error .undefinedBehaviour) ∧
    ((∀ z y x : Int, MultiArray3.inShape (fullShape radius voxelSize) z y x →
        MultiArray3.inShape (fullShape radius ⟨1, 1, 1⟩) z y x) →
      sphereFullHarmonic E radius n l m voxelSize =
        .ok (MultiArray3.tabulate (fullShape radius voxelSize) fun z y x =>
          fullVoxel E radius xnl l voxelSize z y x
            (surfVoxel E radius 1 l m true ⟨1, 1, 1⟩ z y x))) := by
  have hshape : (sphereSurfHarmonic E radius 1 l m true ⟨1, 1, 1⟩).shape
      = fullShape radius ⟨1, 1, 1⟩ := by
    rw [sphereSurfHarmonic_eq_tabulate]
    exact surfShape_unit_eq_fullShape radius
  refine ⟨hshape, ?_, ?_⟩
  · rintro ⟨z, y, x, hin, hout⟩
    unfold sphereFullHarmonic
    simp only [hx, ok_bind]
    obtain ⟨⟨hz0, hz1⟩, ⟨hy0, hy1⟩, ⟨hx0, hx1⟩⟩ := hin
    have hget : (sphereSurfHarmonic E radius 1 l m true ⟨1, 1, 1⟩).get
        ((z.toNat : Nat) : Int) ((y.toNat : Nat) : Int) ((x.toNat : Nat) : Int)
        = .error .undefinedBehaviour := by
      unfold MultiArray3.get
      rw [hshape, Int.toNat_of_nonneg hz0, Int.toNat_of_nonneg hy0, Int.toNat_of_nonneg hx0,
        if_neg hout]
    apply forVoxelsM_must_fail _ _ _ _ z.toNat y.toNat x.toNat (by omega) (by omega) (by omega)
    · intro st
      show ((sphereSurfHarmonic E radius 1 l m true ⟨1, 1, 1⟩).get _ _ _ >>= _) = _
      rw [hget, error_bind]
    · intro j0 j1 j2 st e he
      have he' : ((sphereSurfHarmonic E radius 1 l m true ⟨1, 1, 1⟩).get (j0 : Int) (j1 : Int)
          (j2 : Int) >>= fun Phi => (pure (st.set (j0 : Int) (j1 : Int) (j2 : Int)
            (fullVoxel E radius xnl l voxelSize (j0 : Int) (j1 : Int) (j2 : Int) Phi)) :
            Except Fault (MultiArray3 (FFTWComplex α)))) = .error e := he
      unfold MultiArray3.get at he'
      split_ifs at he' with hc
      · cases he'
      · injection he' with he'
        exact he'.symm
  · intro hsub
    unfold sphereFullHarmonic
    simp only [hx, ok_bind]
    rw [← forVoxels_set_reshape]
    apply forVoxelsM_eq_ok
    intro i0 i1 i2 st h0 h1 h2
    have hin : MultiArray3.inShape (fullShape radius voxelSize) (i0 : Int) (i1 : Int)
        (i2 : Int) := by
      unfold MultiArray3.inShape
      omega
    have hin1 := hsub _ _ _ hin
    unfold MultiArray3.get
    rw [hshape, if_pos hin1, ok_bind]
    have hd : (sphereSurfHarmonic E radius 1 l m true ⟨1, 1, 1⟩).data (i0 : Int) (i1 : Int)
        (i2 : Int) = surfVoxel E radius 1 l m true ⟨1, 1, 1⟩ (i0 : Int) (i1 : Int) (i2 : Int) := by
      rw [sphereSurfHarmonic_eq_tabulate]
      unfold MultiArray3.tabulate
      simp only
      rw [surfShape_unit_eq_fullShape, if_pos hin1]
    rw [hd]
    rfl

theorem fullShape_half : fullShape (1 : ℚ) ⟨1 / 2, 1 / 2, 1 / 2⟩ = ⟨11, 11, 11⟩ ∧
    fullShape (1 : ℚ) ⟨1, 1, 1⟩ = ⟨9, 9, 9⟩ := by
  have hc : fullIntRadius (1 : ℚ) (1 / 2) = 5 := by
    unfold fullIntRadius
    norm_num
  have hd : fullIntRadius (1 : ℚ) 1 = 4 := by
    unfold fullIntRadius
    norm_num
  unfold fullShape
  simp only [hc, hd]
  exact ⟨rfl, rfl⟩

/-- C34 (what the code does), at radius 1 with spacing 1/2 on every axis: the
output has shape `(11,11,11)`, the angular kernel `(9,9,9)`, and the read at
output voxel `(0,0,9)` is out of bounds. -/
theorem sphereFullHarmonic_angular_shape_witness :
    fullShape (1 : ℚ) ⟨1 / 2, 1 / 2, 1 / 2⟩ = ⟨11, 11, 11⟩ ∧
    (sphereSurfHarmonic ratExternals 1 1 0 0 true ⟨1, 1, 1⟩).shape = ⟨9, 9, 9⟩ ∧
    sphereFullHarmonic ratExternals 1 0 0 0 ⟨1 / 2, 1 / 2, 1 / 2⟩ = .error .undefinedBehaviour := by
  have h := sphereFullHarmonic_angular_shape ratExternals 1 0 0 0 ⟨1 / 2, 1 / 2, 1 / 2⟩ 1 rfl
  refine ⟨fullShape_half.1, ?_, ?_⟩
  · rw [h.1, fullShape_half.2]
  · apply h.2.1
    refine ⟨0, 0, 9, ?_, ?_⟩
    · rw [fullShape_half.1]
      decide
    · rw [fullShape_half.2]
      decide

end AngularKernelTheorems

/-! ## The table of Bessel zeros -/

section BesselTableTheorems

variable {α : Type} [LinearOrderedField α] [FloorRing α]

theorem bessel_zero_Jnu_getD (l n : Nat) (hl : l ≤ 9) (hn : n ≤ 10) :
    (bessel_zero_Jnu l n : Except Fault α) = .ok ((besselZeroCache : List α).getD (n * 10 + l) 0) := by
  have hlt : n * 10 + l < (besselZeroCache : List α).length := by
    rw [besselZeroCache_length]; omega
  rw [bessel_zero_Jnu_read l n (by omega)]
  unfold besselIndex
  rw [List.getD_eq_getElem?_getD, List.getElem?_eq_getElem hlt]
  rfl

set_option maxHeartbeats 4000000 in
theorem besselZeroCache_pos (l n : Nat) (hl : l ≤ 9) (hn1 : 1 ≤ n) (hn : n ≤ 10) :
    (0 : α) < (besselZeroCache : List α).getD (n * 10 + l) 0 := by
  interval_cases l <;> interval_cases n <;>
    simp only [besselZeroCache, Nat.reduceMul, Nat.reduceAdd] <;>
    simp only [List.getD_cons_succ, List.getD_cons_zero] <;> norm_num

set_option maxHeartbeats 4000000 in
theorem besselZeroCache_next_zero (l n : Nat) (hl : l ≤ 9) (hn1 : 1 ≤ n) (hn : n ≤ 9) :
    (besselZeroCache : List α).getD (n * 10 + l) 0 <
      (besselZeroCache : List α).getD ((n + 1) * 10 + l) 0 := by
  interval_cases l <;> interval_cases n <;>
    simp only [besselZeroCache, Nat.reduceMul, Nat.reduceAdd] <;>
    simp only [List.getD_cons_succ, List.getD_cons_zero] <;> norm_num

set_option maxHeartbeats 4000000 in
theorem besselZeroCache_next_order (l n : Nat) (hl : l ≤ 8) (hn1 : 1 ≤ n) (hn : n ≤ 10) :
    (besselZeroCache : List α).getD (n * 10 + l) 0 <
      (besselZeroCache : List α).getD (n * 10 + (l + 1)) 0 := by
  interval_cases l <;> interval_cases n <;>
    simp only [besselZeroCache, Nat.reduceMul, Nat.reduceAdd] <;>
    simp only [List.getD_cons_succ, List.getD_cons_zero] <;> norm_num

set_option maxHeartbeats 4000000 in
theorem besselZeroCache_interlace (l n : Nat) (hl : l ≤ 8) (hn1 : 1 ≤ n) (hn : n ≤ 9) :
    (besselZeroCache : List α).getD (n * 10 + (l + 1)) 0 <
      (besselZeroCache : List α).getD ((n + 1) * 10 + l) 0 := by
  interval_cases l <;> interval_cases n <;>
    simp only [besselZeroCache, Nat.reduceMul, Nat.reduceAdd] <;>
    simp only [List.getD_cons_succ, List.getD_cons_zero] <;> norm_num

/-- C35. The values `bessel_zero_Jnu` returns for `l` in `[0,9]` and `n` in
`[1,10]` are positive, increase with `n`, and interlace between consecutive
orders: `zero(l,n) < zero(l+1,n) < zero(l,n+1)`. -/
theorem bessel_zero_Jnu_ordered (l n : Nat) (hl : l ≤ 9) (hn1 : 1 ≤ n) (hn : n ≤ 10) :
    ∃ v : α, bessel_zero_Jnu l n = .ok v ∧ 0 < v ∧
      (n ≤ 9 → ∃ w : α, bessel_zero_Jnu l (n + 1) = .ok w ∧ v < w ∧
        (l ≤ 8 → ∃ u : α, bessel_zero_Jnu (l + 1) n = .ok u ∧ v < u ∧ u < w)) :=
  ⟨_, bessel_zero_Jnu_getD l n hl hn, besselZeroCache_pos l n hl hn1 hn, fun hn9 =>
    ⟨_, bessel_zero_Jnu_getD l (n + 1) hl (by omega), besselZeroCache_next_zero l n hl hn1 hn9,
      fun hl8 => ⟨_, bessel_zero_Jnu_getD (l + 1) n (by omega) hn,
        besselZeroCache_next_order l n hl8 hn1 hn, besselZeroCache_interlace l n hl8 hn1 hn9⟩⟩⟩

theorem bessel_zero_Jnu_ordered_witness :
    ∃ v : ℚ, bessel_zero_Jnu 0 1 = .ok v ∧ 0 < v ∧
      (1 ≤ 9 → ∃ w : ℚ, bessel_zero_Jnu 0 (1 + 1) = .ok w ∧ v < w ∧
        (0 ≤ 8 → ∃ u : ℚ, bessel_zero_Jnu (0 + 1) 1 = .ok u ∧ v < u ∧ u < w)) :=
  bessel_zero_Jnu_ordered 0 1 (by decide) (by decide) (by decide)

end BesselTableTheorems

/-! ## The slots of the vector coefficients -/

section VectorSlotTheorems

variable {α : Type} [LinearOrderedField α] [FloorRing α]

/-- C36 (what the code does). In the row `VH_A[l][1+k]` of `2(l+k)+1` entries
that `VHpos` allocates for `(l,k)`, the statement `VH_A[l][1+k][1+m] += t`
addresses a slot of the row exactly when `-1 ≤ m < 2(l+k)`; for the other `m`
the index `1+m` is outside the row. The orders `m` in `[-(l+k), l+k]` all
address a slot only when `l + k = 1`. -/
theorem VHpos_slot_index (VH_A : List (List (List (FFTWComplex α)))) (l k : Int)
    (t : FFTWComplex α) (entry : List (List (FFTWComplex α))) (row : List (FFTWComplex α))
    (hl : 1 ≤ l) (hk : -1 ≤ k ∧ k ≤ 1) (hE : VH_A[l.toNat]? = some entry)
    (hR : entry[(1 + k).toNat]? = some row) (hlen : row.length = (2 * (l + k) + 1).toNat) :
    (∀ m, m < -1 ∨ 2 * (l + k) ≤ m → vecAddAt VH_A l k m t = .error .undefinedBehaviour) ∧
    (∀ m, -1 ≤ m ∧ m < 2 * (l + k) → ∃ r, vecAddAt VH_A l k m t = .ok r) ∧
    ((∀ m, -(l + k) ≤ m → m ≤ l + k → ∃ r, vecAddAt VH_A l k m t = .ok r) ↔ l + k = 1) := by
  have hElt : l.toNat < VH_A.length := (List.getElem?_eq_some.mp hE).1
  have hRlt : (1 + k).toNat < entry.length := (List.getElem?_eq_some.mp hR).1
  have hbad : ∀ m, m < -1 ∨ 2 * (l + k) ≤ m →
      vecAddAt VH_A l k m t = .error .undefinedBehaviour := by
    intro m hm
    unfold vecAddAt
    have hrow : vecModify row (1 + m) (fun c => (pure (c + t) : Except Fault (FFTWComplex α)))
        = .error .undefinedBehaviour := by
      unfold vecModify vecGet
      by_cases h0 : 0 ≤ 1 + m
      · rw [if_pos h0]
        have hnone : row[(1 + m).toNat]? = none := List.getElem?_eq_none (by omega)
        rw [hnone]
        rfl
      · rw [if_neg h0]
        rfl
    unfold vecModify
    rw [vecGet_ok VH_A l entry (by omega) hE, ok_bind]
    show ((vecGet entry (1 + k) >>= fun x => _) >>= _) = _
    rw [vecGet_ok entry (1 + k) row (by omega) hR, ok_bind]
    unfold vecModify at hrow
    simp only [hrow, error_bind]
  have hgood : ∀ m, -1 ≤ m ∧ m < 2 * (l + k) → ∃ r, vecAddAt VH_A l k m t = .ok r := by
    intro m hm
    have hmlt : (1 + m).toNat < row.length := by omega
    unfold vecAddAt
    exact ⟨_, vecModify_ok VH_A l _ entry _ (by omega) hE
      (vecModify_ok entry (1 + k) _ row _ (by omega) hR
        (vecModify_ok row (1 + m) _ row[(1 + m).toNat] _ (by omega)
          (List.getElem?_eq_getElem hmlt) rfl))⟩
  refine ⟨hbad, hgood, ?_⟩
  constructor
  · intro h
    by_contra hne
    by_cases h0 : l + k = 0
    · obtain ⟨r, hr⟩ := h 0 (by omega) (by omega)
      rw [hbad 0 (Or.inr (by omega))] at hr
      cases hr
    · obtain ⟨r, hr⟩ := h (-(l + k)) (le_refl _) (by omega)
      rw [hbad (-(l + k)) (Or.inl (by omega))] at hr
      cases hr
  · intro h m hm0 hm1
    exact hgood m ⟨by omega, by omega⟩

/-- C36 (what the code does), at `(l,k,m) = (1,-1,0)`: the row has one entry and
the slot index `1+m = 1` is outside it. -/
theorem VHpos_slot_index_witness :
    vecAddAt ([[], [[0], [0, 0, 0], [0, 0, 0, 0, 0]]] : List (List (List (FFTWComplex ℚ))))
      1 (-1) 0 ⟨1, 0⟩ = .error .undefinedBehaviour :=
  (VHpos_slot_index ([[], [[0], [0, 0, 0], [0, 0, 0, 0, 0]]] :
      List (List (List (FFTWComplex ℚ)))) 1 (-1) ⟨1, 0⟩ [[0], [0, 0, 0], [0, 0, 0, 0, 0]] [0]
    (le_refl 1) (by decide) (by simp) (by simp) (by simp)).1 0 (Or.inr (by decide))

end VectorSlotTheorems

/-! ## Cartesian and complex components -/

section ComponentTheorems

variable {α : Type} [LinearOrderedField α] [FloorRing α]

/-- The map of the last loop of `reconstVH` applied to the three complex fields
of `VHpos`, and to the same fields with `inputZ` conjugated. -/
theorem realVecDirections_inputs (E : Externals α) (hs : E.sqrt 2 ≠ 0)
    (A : MultiArray3 (TinyVector3 α)) :
    (∃ out, realVecDirections E (MultiArray3.reshape A.shape 0)
        (MultiArray3.tabulate A.shape fun z y x =>
          ⟨(vecInputZ E A).data z y x, (vecInputY A).data z y x, (vecInputX E A).data z y x⟩)
        = .ok out ∧ out.shape = A.shape ∧
      ∀ z y x, MultiArray3.inShape A.shape z y x →
        out.data z y x = ⟨(A.data z y x).v0, (A.data z y x).v1, -(A.data z y x).v2⟩) ∧
    (∃ out, realVecDirections E (MultiArray3.reshape A.shape 0)
        (MultiArray3.tabulate A.shape fun z y x =>
          ⟨FFTWComplex.conj ((vecInputZ E A).data z y x), (vecInputY A).data z y x,
            (vecInputX E A).data z y x⟩)
        = .ok out ∧ out.shape = A.shape ∧
      ∀ z y x, MultiArray3.inShape A.shape z y x →
        out.data z y x = ⟨(A.data z y x).v0, (A.data z y x).v1, (A.data z y x).v2⟩) := by
  constructor
  · obtain ⟨out, hout, hshape, hdata⟩ := realVecDirections_eq E (MultiArray3.reshape A.shape 0)
      (MultiArray3.tabulate A.shape fun z y x =>
        ⟨(vecInputZ E A).data z y x, (vecInputY A).data z y x, (vecInputX E A).data z y x⟩) rfl
    refine ⟨out, hout, hshape, fun z y x hin => ?_⟩
    rw [hdata z y x hin]
    simp only [MultiArray3.tabulate, vecInputZ, vecInputY, if_pos hin]
    congr 1
    · field_simp
    · field_simp
      try ring
  · obtain ⟨out, hout, hshape, hdata⟩ := realVecDirections_eq E (MultiArray3.reshape A.shape 0)
      (MultiArray3.tabulate A.shape fun z y x =>
        ⟨FFTWComplex.conj ((vecInputZ E A).data z y x), (vecInputY A).data z y x,
          (vecInputX E A).data z y x⟩) rfl
    refine ⟨out, hout, hshape, fun z y x hin => ?_⟩
    rw [hdata z y x hin]
    simp only [MultiArray3.tabulate, vecInputZ, vecInputY, FFTWComplex.conj, if_pos hin]
    congr 1
    · field_simp
    · field_simp
      try ring

/-- C37 (amended). The complex-to-Cartesian map of `reconstVH`,
`x = Re(v1), y = -sqrt(2)*Re(v0), z = sqrt(2)*Im(v0)`, applied to
`(v0,v1,v2) = (inputZ, inputY, inputX)` of `VHpos` returns `(A0, A1, -A2)` at
every voxel: the first two components of the input vector and the third with
the opposite sign. Applied to `(conj(inputZ), inputY, inputX)` it returns
`(A0, A1, A2)`. The value `sqrt(2)` is taken non-zero. -/
theorem cartesian_complex_roundtrip (E : Externals α) (hs : E.sqrt 2 ≠ 0)
    (A : MultiArray3 (TinyVector3 α)) :
    (∃ out, realVecDirections E (MultiArray3.reshape A.shape 0)
        (MultiArray3.tabulate A.shape fun z y x =>
          ⟨(vecInputZ E A).data z y x, (vecInputY A).data z y x, (vecInputX E A).data z y x⟩)
        = .ok out ∧ out.shape = A.shape ∧
      ∀ z y x, MultiArray3.inShape A.shape z y x →
        out.data z y x = ⟨(A.data z y x).v0, (A.data z y x).v1, -(A.data z y x).v2⟩) ∧
    (∃ out, realVecDirections E (MultiArray3.reshape A.shape 0)
        (MultiArray3.tabulate A.shape fun z y x =>
          ⟨FFTWComplex.conj ((vecInputZ E A).data z y x), (vecInputY A).data z y x,
            (vecInputX E A).data z y x⟩)
        = .ok out ∧ out.shape = A.shape ∧
      ∀ z y x, MultiArray3.inShape A.shape z y x →
        out.data z y x = ⟨(A.data z y x).v0, (A.data z y x).v1, (A.data z y x).v2⟩) :=
  realVecDirections_inputs E hs A

/-- C37 (amended), on the field of one voxel holding `(1, 2, 3)`, with
`sqrt(2)` replaced by the non-zero value 2. -/
theorem cartesian_complex_roundtrip_witness :
    ∃ out, realVecDirections ratExternals
        (MultiArray3.reshape (MultiArray3.reshape ⟨1, 1, 1⟩ (⟨1, 2, 3⟩ : TinyVector3 ℚ)).shape 0)
        (MultiArray3.tabulate (MultiArray3.reshape ⟨1, 1, 1⟩ (⟨1, 2, 3⟩ : TinyVector3 ℚ)).shape
          fun z y x =>
          ⟨(vecInputZ ratExternals (MultiArray3.reshape ⟨1, 1, 1⟩ ⟨1, 2, 3⟩)).data z y x,
            (vecInputY (MultiArray3.reshape ⟨1, 1, 1⟩ (⟨1, 2, 3⟩ : TinyVector3 ℚ))).data z y x,
            (vecInputX ratExternals (MultiArray3.reshape ⟨1, 1, 1⟩ ⟨1, 2, 3⟩)).data z y x⟩)
        = .ok out ∧ out.data 0 0 0 = ⟨1, 2, -3⟩ := by
  obtain ⟨out, hout, _, hdata⟩ := (cartesian_complex_roundtrip ratExternals
    (by norm_num [ratExternals]) (MultiArray3.reshape ⟨1, 1, 1⟩ (⟨1, 2, 3⟩ : TinyVector3 ℚ))).1
  exact ⟨out, hout, hdata 0 0 0 (by decide)⟩

/-- C37 as stated fails: with the real square root, on the field of one voxel
holding `A = (1, 2, 3)`, the map of `reconstVH` applied to
`(inputZ, inputY, inputX)` returns `(1, 2, -3)`, which is not `A`. -/
theorem cartesian_complex_counterexample :
    ∃ out, realVecDirections (⟨Real.sqrt, Real.exp, Real.log, Real.arccos, Real.cos, Real.sin,
          Real.pi, fun _ _ => 1, fun _ _ _ => 1, fun _ _ => 1, fun _ _ _ _ _ _ => none⟩ :
          Externals ℝ)
        (MultiArray3.reshape (MultiArray3.reshape ⟨1, 1, 1⟩ (⟨1, 2, 3⟩ : TinyVector3 ℝ)).shape 0)
        (MultiArray3.tabulate (MultiArray3.reshape ⟨1, 1, 1⟩ (⟨1, 2, 3⟩ : TinyVector3 ℝ)).shape
          fun z y x =>
          ⟨(vecInputZ (⟨Real.sqrt, Real.exp, Real.log, Real.arccos, Real.cos, Real.sin,
              Real.pi, fun _ _ => 1, fun _ _ _ => 1, fun _ _ => 1, fun _ _ _ _ _ _ => none⟩ :
              Externals ℝ) (MultiArray3.reshape ⟨1, 1, 1⟩ ⟨1, 2, 3⟩)).data z y x,
            (vecInputY (MultiArray3.reshape ⟨1, 1, 1⟩ (⟨1, 2, 3⟩ : TinyVector3 ℝ))).data z y x,
            (vecInputX (⟨Real.sqrt, Real.exp, Real.log, Real.arccos, Real.cos, Real.sin,
              Real.pi, fun _ _ => 1, fun _ _ _ => 1, fun _ _ => 1, fun _ _ _ _ _ _ => none⟩ :
              Externals ℝ) (MultiArray3.reshape ⟨1, 1, 1⟩ ⟨1, 2, 3⟩)).data z y x⟩)
        = .ok out ∧ out.data 0 0 0 = ⟨1, 2, -3⟩ ∧
        out.data 0 0 0 ≠ (MultiArray3.reshape ⟨1, 1, 1⟩ (⟨1, 2, 3⟩ : TinyVector3 ℝ)).data 0 0 0 := by
  obtain ⟨out, hout, _, hdata⟩ := (realVecDirections_inputs (⟨Real.sqrt, Real.exp, Real.log,
    Real.arccos, Real.cos, Real.sin, Real.pi, fun _ _ => 1, fun _ _ _ => 1, fun _ _ => 1,
    fun _ _ _ _ _ _ => none⟩ : Externals ℝ)
    (by
      show Real.sqrt 2 ≠ 0
      exact ne_of_gt (Real.sqrt_pos.mpr (by norm_num)))
    (MultiArray3.reshape ⟨1, 1, 1⟩ (⟨1, 2, 3⟩ : TinyVector3 ℝ))).1
  have hin : MultiArray3.inShape (MultiArray3.reshape ⟨1, 1, 1⟩ (⟨1, 2, 3⟩ : TinyVector3 ℝ)).shape
      0 0 0 := by
    show MultiArray3.inShape ⟨1, 1, 1⟩ 0 0 0
    decide
  have hA : (MultiArray3.reshape ⟨1, 1, 1⟩ (⟨1, 2, 3⟩ : TinyVector3 ℝ)).data 0 0 0 = ⟨1, 2, 3⟩ := by
    show (if MultiArray3.inShape ⟨1, 1, 1⟩ 0 0 0 then (⟨1, 2, 3⟩ : TinyVector3 ℝ) else 0) = _
    rw [if_pos (by decide)]
  have h0 := hdata 0 0 0 hin
  rw [hA] at h0
  refine ⟨out, hout, h0, ?_⟩
  rw [h0, hA]
  intro h
  injection h with _ _ h3
  norm_num at h3

end ComponentTheorems

/-! ## The window at the centre -/

section CentreTheorems

variable {α : Type} [LinearOrderedField α] [FloorRing α]

/-- The window of an odd extent `S ≤ N` around the position `N/2` on one axis. -/
theorem window_centre_inside (N S : Int) (hS0 : 0 < S) (hodd : S % 2 = 1) (hN : S ≤ N) :
    0 ≤ windowStart ((N : α) / 2) S ∧ windowEnd ((N : α) / 2) S ≤ N - 1 ∧
    (N = S → windowStart ((N : α) / 2) S = 0 ∧ windowEnd ((N : α) / 2) S = N - 1) := by
  obtain ⟨h, hh⟩ : ∃ h : Int, S = 2 * h + 1 := ⟨S / 2, by omega⟩
  have hh0 : 0 ≤ h := by omega
  have htdiv : S.tdiv 2 = h := by
    rw [Int.tdiv_eq_ediv (by omega) (by omega)]
    omega
  have hlow : (0 : α) ≤ (N : α) / 2 - ((h : Int) : α) := by
    have h1 : ((2 * h : Int) : α) ≤ (N : α) := by exact_mod_cast (by omega : 2 * h ≤ N)
    push_cast at h1
    linarith
  have hup : (N : α) / 2 - ((h : Int) : α) < ((N - 2 * h : Int) : α) := by
    have h1 : ((2 * h + 1 : Int) : α) ≤ (N : α) := by exact_mod_cast (by omega : 2 * h + 1 ≤ N)
    push_cast at h1 ⊢
    linarith
  have hstart0 : 0 ≤ windowStart ((N : α) / 2) S := by
    unfold windowStart
    rw [htdiv]
    exact Int.floor_nonneg.mpr hlow
  have hstart1 : windowStart ((N : α) / 2) S < N - 2 * h := by
    unfold windowStart
    rw [htdiv]
    exact Int.floor_lt.mpr hup
  refine ⟨hstart0, ?_, fun hNS => ?_⟩
  · unfold windowEnd
    omega
  · unfold windowEnd
    constructor <;> omega

/-- The window `SHcenter` reads for one kernel of odd extents not larger than
the input's. -/
theorem SHcenter_kernel_window (A : MultiArray3 α) (K : MultiArray3 (FFTWComplex α))
    (h0 : 0 < K.shape.v0 ∧ K.shape.v0 % 2 = 1 ∧ K.shape.v0 ≤ A.shape.v0)
    (h1 : 0 < K.shape.v1 ∧ K.shape.v1 % 2 = 1 ∧ K.shape.v1 ≤ A.shape.v1)
    (h2 : 0 < K.shape.v2 ∧ K.shape.v2 % 2 = 1 ∧ K.shape.v2 ≤ A.shape.v2) :
    windowInside A (centerOfBB A) K ∧
    (A.shape = K.shape →
      (windowStart (centerOfBB A : TinyVector3 α).v0 K.shape.v0 = 0 ∧
        windowEnd (centerOfBB A : TinyVector3 α).v0 K.shape.v0 = A.shape.v0 - 1) ∧
      (windowStart (centerOfBB A : TinyVector3 α).v1 K.shape.v1 = 0 ∧
        windowEnd (centerOfBB A : TinyVector3 α).v1 K.shape.v1 = A.shape.v1 - 1) ∧
      (windowStart (centerOfBB A : TinyVector3 α).v2 K.shape.v2 = 0 ∧
        windowEnd (centerOfBB A : TinyVector3 α).v2 K.shape.v2 = A.shape.v2 - 1)) := by
  obtain ⟨a0, a1, a2⟩ := window_centre_inside (α := α) A.shape.v0 K.shape.v0 h0.1 h0.2.1 h0.2.2
  obtain ⟨b0, b1, b2⟩ := window_centre_inside (α := α) A.shape.v1 K.shape.v1 h1.1 h1.2.1 h1.2.2
  obtain ⟨c0, c1, c2⟩ := window_centre_inside (α := α) A.shape.v2 K.shape.v2 h2.1 h2.2.1 h2.2.2
  have hwin : windowInside A (centerOfBB A) K :=
    ⟨⟨a0, by show windowEnd ((A.shape.v0 : α) / 2) K.shape.v0 < A.shape.v0; omega⟩,
     ⟨b0, by show windowEnd ((A.shape.v1 : α) / 2) K.shape.v1 < A.shape.v1; omega⟩,
     ⟨c0, by show windowEnd ((A.shape.v2 : α) / 2) K.shape.v2 < A.shape.v2; omega⟩⟩
  refine ⟨hwin, fun hs => ?_⟩
  exact ⟨a2 (by rw [hs]), b2 (by rw [hs]), c2 (by rw [hs])⟩

/-- C38. For every input field whose extent along each axis is at least the odd
extent of every kernel of the cache along that axis, the window `SHcenter` reads
for each kernel, at the probe position `shape/2` (real division), lies inside
the input: `0 ≤ za` and `za + S - 1 ≤ N - 1` on every axis; for a kernel of
exactly the input's shape the window is the whole input; and `SHcenter`
returns, every read being in bounds. -/
theorem SHcenter_window_inside (SH_A : List (List (FFTWComplex α))) (radius : α) (band : Nat)
    (A : MultiArray3 α) (SHbaseF : List (List (MultiArray3 (FFTWComplex α))))
    (hband : band < SHbaseF.length)
    (hK : ∀ l : Nat, l ≤ band → ∀ row, SHbaseF[l]? = some row → ∀ K ∈ row,
      (0 < K.shape.v0 ∧ K.shape.v0 % 2 = 1 ∧ K.shape.v0 ≤ A.shape.v0) ∧
      (0 < K.shape.v1 ∧ K.shape.v1 % 2 = 1 ∧ K.shape.v1 ≤ A.shape.v1) ∧
      (0 < K.shape.v2 ∧ K.shape.v2 % 2 = 1 ∧ K.shape.v2 ≤ A.shape.v2)) :
    (∀ l : Nat, l ≤ band → ∀ row, SHbaseF[l]? = some row → ∀ K ∈ row,
      windowInside A (centerOfBB A) K ∧
      (A.shape = K.shape →
        (windowStart (centerOfBB A : TinyVector3 α).v0 K.shape.v0 = 0 ∧
          windowEnd (centerOfBB A : TinyVector3 α).v0 K.shape.v0 = A.shape.v0 - 1) ∧
        (windowStart (centerOfBB A : TinyVector3 α).v1 K.shape.v1 = 0 ∧
          windowEnd (centerOfBB A : TinyVector3 α).v1 K.shape.v1 = A.shape.v1 - 1) ∧
        (windowStart (centerOfBB A : TinyVector3 α).v2 K.shape.v2 = 0 ∧
          windowEnd (centerOfBB A : TinyVector3 α).v2 K.shape.v2 = A.shape.v2 - 1))) ∧
    ∃ r, SHcenter SH_A radius band A SHbaseF = .ok r ∧
      ∀ l : Nat, l ≤ band →
        r[l]? = (SHbaseF[l]?).map fun row => row.map (projectionSum A (centerOfBB A)) := by
  have hall : ∀ l : Nat, l ≤ band → ∀ row, SHbaseF[l]? = some row → ∀ K ∈ row,
      windowInside A (centerOfBB A) K ∧
      (A.shape = K.shape →
        (windowStart (centerOfBB A : TinyVector3 α).v0 K.shape.v0 = 0 ∧
          windowEnd (centerOfBB A : TinyVector3 α).v0 K.shape.v0 = A.shape.v0 - 1) ∧
        (windowStart (centerOfBB A : TinyVector3 α).v1 K.shape.v1 = 0 ∧
          windowEnd (centerOfBB A : TinyVector3 α).v1 K.shape.v1 = A.shape.v1 - 1) ∧
        (windowStart (centerOfBB A : TinyVector3 α).v2 K.shape.v2 = 0 ∧
          windowEnd (centerOfBB A : TinyVector3 α).v2 K.shape.v2 = A.shape.v2 - 1)) :=
    fun l hl row hrow K hKrow =>
      SHcenter_kernel_window A K (hK l hl row hrow K hKrow).1 (hK l hl row hrow K hKrow).2.1
        (hK l hl row hrow K hKrow).2.2
  refine ⟨hall, ?_⟩
  obtain ⟨r, hr, _, hP⟩ := SHpos_eq SH_A radius band A (centerOfBB A) SHbaseF hband
    (fun l hl row hrow K hKrow => (hall l hl row hrow K hKrow).1)
  exact ⟨r, hr, hP⟩

/-- C38, on the field `(1, 2, 3)` of shape `(1,1,3)` and a cache of one kernel of
the same shape: the window is the whole field and `SHcenter` returns. -/
theorem SHcenter_window_inside_witness :
    windowInside flipField (centerOfBB flipField) flipKernel ∧
    ∃ r, SHcenter [] (1 : ℚ) 0 flipField [[flipKernel]] = .ok r := by
  obtain ⟨h1, r, hr, _⟩ := SHcenter_window_inside [] (1 : ℚ) 0 flipField [[flipKernel]]
    (by decide) (by
      intro l hl row hrow K hK
      have hl0 : l = 0 := by omega
      subst hl0
      simp only [List.getElem?_cons_zero, Option.some.injEq] at hrow
      subst hrow
      simp only [List.mem_singleton] at hK
      subst hK
      decide)
  exact ⟨(h1 0 (le_refl 0) [flipKernel] rfl flipKernel (List.mem_singleton.mpr rfl)).1, r, hr⟩

end CentreTheorems

/-! ## The radial vector cache at band 0 -/

section RadialVectorCacheTheorems

variable {α : Type} [LinearOrderedField α] [FloorRing α]

theorem vecModify_ok_elem {T : Type} (v : List T) (i : Int) (f : T → Except Fault T) (r : List T)
    (h : vecModify v i f = .ok r) :
    ∃ x y, v[i.toNat]? = some x ∧ f x = .ok y ∧ r = v.set i.toNat y ∧ 0 ≤ i := by
  unfold vecModify vecGet at h
  by_cases h0 : 0 ≤ i
  · rw [if_pos h0] at h
    cases hx : v[i.toNat]? with
    | none =>
      rw [hx] at h
      cases h
    | some x =>
      rw [hx] at h
      simp only [ok_bind] at h
      cases hy : f x with
      | error e =>
        rw [hy] at h
        cases h
      | ok y =>
        rw [hy, ok_bind] at h
        unfold vecSet at h
        split_ifs at h with hc
        injection h with h
        exact ⟨x, y, rfl, hy, h.symm, h0⟩
  · rw [if_neg h0] at h
    cases h

theorem vecModify_error_of {T : Type} (v : List T) (i : Int) (f : T → Except Fault T)
    (hf : ∀ x e, f x = .error e → e = .undefinedBehaviour) :
    ∀ e, vecModify v i f = .error e → e = .undefinedBehaviour := by
  intro e h
  rcases (vecModify_cases v i f).2 e h with h1 | ⟨x, hx⟩
  · exact h1
  · exact hf x e hx

theorem vecSet_error {T : Type} (v : List T) (i : Int) (x : T) :
    ∀ e, vecSet v i x = .error e → e = .undefinedBehaviour := by
  intro e h
  unfold vecSet at h
  split_ifs at h
  injection h with h
  exact h.symm

theorem forVoxelsM_error_of {σ : Type} (s : Shape3) (init : σ)
    (body : Int → Int → Int → σ → Except Fault σ) (e0 : Fault)
    (hall : ∀ (j0 j1 j2 : Nat) st e, body j0 j1 j2 st = .error e → e = e0) :
    ∀ e, forVoxelsM s init body = .error e → e = e0 := by
  unfold forVoxelsM
  exact loopM_error_of _ _ _ e0 (fun i0 st e _ he =>
    loopM_error_of _ _ _ e0 (fun i1 st e _ he =>
      loopM_error_of _ _ _ e0 (fun i2 st e _ he => hall i0 i1 i2 st e he) e he) e he)

theorem sphereFullVecHarmonic_error (E : Externals α) (radius : α) (n l k m : Int)
    (voxelSize : TinyVector3 α) :
    ∀ e, sphereFullVecHarmonic E radius n l k m voxelSize = .error e →
      e = .undefinedBehaviour := by
  intro e h
  unfold sphereFullVecHarmonic at h
  cases hv : sphereVecHarmonic E MultiArray3.empty radius 1 l k m with
  | error e1 =>
    rw [hv, error_bind] at h
    injection h with h
    rw [← h]
    exact (sphereVecHarmonic_cases E MultiArray3.empty radius 1 l k m).2 e1 hv
  | ok VH =>
    rw [hv, ok_bind] at h
    refine forVoxelsM_error_of _ _ _ _ ?_ e h
    intro j0 j1 j2 st e' he
    have he' : (VH.get (j0 : Int) (j1 : Int) (j2 : Int) >>= fun Phi =>
        (pure (st.set (j0 : Int) (j1 : Int) (j2 : Int)
          (fullVecVoxel E radius (vecXnl radius n) l voxelSize (j0 : Int) (j1 : Int) (j2 : Int)
            Phi)) : Except Fault (MultiArray3 (TinyVector3 (FFTWComplex α))))) = .error e' := he
    unfold MultiArray3.get at he'
    split_ifs at he' with hc
    · cases he'
    · injection he' with he'
      exact he'.symm

theorem vecModify_fail_at {T : Type} (v : List T) (i : Int) (f : T → Except Fault T) (x : T)
    (h0 : 0 ≤ i) (h : v[i.toNat]? = some x) {e : Fault} (hf : f x = .error e) :
    vecModify v i f = .error e := by
  unfold vecModify
  rw [vecGet_ok v i x h0 h, ok_bind, hf, error_bind]

theorem bind_cases {σ τ : Type} (P : τ → Prop) (e0 : Fault) (x : Except Fault σ)
    (f : σ → Except Fault τ) (hx : ∀ e, x = .error e → e = e0)
    (hf : ∀ a, x = .ok a → (∀ r, f a = .ok r → P r) ∧ (∀ e, f a = .error e → e = e0)) :
    (∀ r, (x >>= f) = .ok r → P r) ∧ (∀ e, (x >>= f) = .error e → e = e0) := by
  cases h : x with
  | error e1 =>
    rw [error_bind]
    refine ⟨fun r hr => (by cases hr), fun e he => ?_⟩
    injection he with he
    rw [← he]
    exact hx e1 h
  | ok a =>
    rw [ok_bind]
    exact hf a h

theorem forFromTo_cases_inv {σ : Type} (P : σ → Prop) (e0 : Fault) (lo hi : Int) (init : σ)
    (body : Int → σ → Except Fault σ) (h0 : P init)
    (hs : ∀ i st, P st →
      (∀ st', body i st = .ok st' → P st') ∧ (∀ e, body i st = .error e → e = e0)) :
    (∀ r, forFromTo lo hi init body = .ok r → P r) ∧
    (∀ e, forFromTo lo hi init body = .error e → e = e0) := by
  unfold forFromTo
  exact loopM_cases (fun _ st => P st) (fun e => e = e0) _ init _ h0
    (fun i st _ hP => hs _ st hP)

theorem forFromTo_first_fail {σ : Type} (lo hi : Int) (init : σ)
    (body : Int → σ → Except Fault σ) (e : Fault) (hle : lo ≤ hi)
    (hb : ∀ l, l = lo → body l init = .error e) : forFromTo lo hi init body = .error e := by
  unfold forFromTo
  apply loopM_first_fail _ _ _ _ (by omega)
  exact hb _ (by simp)

/-- A loop over `k = -1, 0, 1` whose iteration `k = 0` fails on every state
that the iteration `k = -1` can leave. -/
theorem forFromTo_second_fail {σ : Type} (P : σ → Prop) (init : σ)
    (body : Int → σ → Except Fault σ) (e0 : Fault) (h0 : P init)
    (h1 : ∀ k st, k = -1 → P st →
      (∀ st', body k st = .ok st' → P st') ∧ (∀ e, body k st = .error e → e = e0))
    (h2 : ∀ k st, k = 0 → P st → body k st = .error e0) :
    forFromTo (-1) 1 init body = .error e0 := by
  unfold forFromTo
  have hc : ((1 : Int) + 1 - -1).toNat = 3 := by decide
  rw [hc, loopM_succ, loopM_succ, loopM_succ]
  show (((Except.ok init >>= fun st => body (-1 + ((0 : Nat) : Int)) st) >>= fun st =>
    body (-1 + ((1 : Nat) : Int)) st) >>= fun st => body (-1 + ((2 : Nat) : Int)) st) = _
  rw [ok_bind]
  obtain ⟨hok, herr⟩ := h1 (-1 + ((0 : Nat) : Int)) init (by decide) h0
  cases hb : body (-1 + ((0 : Nat) : Int)) init with
  | error e =>
    rw [error_bind, error_bind, herr e hb]
  | ok st =>
    rw [ok_bind, h2 (-1 + ((1 : Nat) : Int)) st (by decide) (hok st hb), error_bind]

/-- Statements that work in place on `V[0][j]`, on a vector whose entry 0 has
exactly one element: the entry keeps its length, and `j ≥ 1` is outside it. -/
theorem vecModify_head_single {T : Type} (V : List (List T)) (j : Int)
    (g : T → Except Fault T) (hV : ∃ x, V[0]? = some x ∧ x.length = 1) :
    (∀ r, vecModify V 0 (fun e => vecModify e j g) = .ok r →
      ∃ x, r[0]? = some x ∧ x.length = 1) ∧
    (1 ≤ j → vecModify V 0 (fun e => vecModify e j g) = .error .undefinedBehaviour) := by
  obtain ⟨x, hx, hlen⟩ := hV
  have hVlen : 0 < V.length := (List.getElem?_eq_some.mp hx).1
  constructor
  · intro r h
    obtain ⟨x', y, hx', hy, hr, _⟩ := vecModify_ok_elem V 0 _ r h
    obtain ⟨_, z, _, _, hy', _⟩ := vecModify_ok_elem x' j g y hy
    have hxx : x' = x := by
      have : V[(0 : Int).toNat]? = V[0]? := rfl
      rw [this, hx] at hx'
      injection hx' with hx'
      exact hx'.symm
    refine ⟨y, ?_, ?_⟩
    · rw [hr]
      show (V.set 0 y)[0]? = some y
      rw [List.getElem?_set_self hVlen]
    · rw [hy', List.length_set, hxx, hlen]
  · intro hj
    apply vecModify_fail_at V 0 _ x (le_refl 0) hx
    unfold vecModify vecGet
    rw [if_pos (by omega)]
    have : x[j.toNat]? = none := List.getElem?_eq_none (by omega)
    rw [this]
    rfl

theorem computeVPHbaseFBody_zero (E : Externals α) (radius : α)
    (V : List (List (List (List (MultiArray3 (TinyVector3 (FFTWComplex α)))))))
    (hV : 0 < V.length) :
    computeVPHbaseFBody E radius 0 0 V = .error .undefinedBehaviour := by
  unfold computeVPHbaseFBody
  have hx0 : V[(0 : Int).toNat]? = some V[0] := List.getElem?_eq_getElem hV
  rw [vecModify_ok V 0 _ V[0] (vecResize V[0] (0 + 1)) (le_refl 0) hx0 rfl, ok_bind]
  have hInv1 : ∃ x, (V.set (0 : Int).toNat (vecResize V[0] (0 + 1)))[0]? = some x ∧
      x.length = 1 := by
    refine ⟨vecResize V[0] (0 + 1), ?_, length_vecResize _ _⟩
    show (V.set 0 _)[0]? = _
    rw [List.getElem?_set_self hV]
  generalize V.set (0 : Int).toNat (vecResize V[0] (0 + 1)) = V1 at hInv1
  apply forFromTo_first_fail _ _ _ _ _ (le_refl _)
  intro l hl
  subst hl
  have hpure : ∀ (T : Type) [Inhabited T] (c : Nat) (x : List T) (e : Fault),
      (pure (vecResize x c) : Except Fault (List T)) = .error e → e = .undefinedBehaviour :=
    fun T _ c x e he => by cases he
  cases h2 : vecModify V1 0 (fun e => vecModify e ((0 : Nat) : Int) fun e =>
      pure (vecResize e 3)) with
  | error e2 =>
    have : e2 = .undefinedBehaviour := vecModify_error_of _ _ _ (fun x e he =>
      vecModify_error_of _ _ _ (fun x e he => hpure _ _ _ e he) e he) e2 h2
    simp only [h2, error_bind, this]
  | ok V2 =>
    simp only [h2, ok_bind]
    have hInv2 := (vecModify_head_single V1 _ _ hInv1).1 V2 h2
    apply forFromTo_second_fail
      (fun (st : List (List (List (List (MultiArray3 (TinyVector3 (FFTWComplex α))))))) =>
        ∃ x, st[0]? = some x ∧ x.length = 1) V2 _ _ hInv2
    · intro k st hk hInv
      subst hk
      apply bind_cases
      · exact vecModify_error_of _ _ _ (fun x e he =>
          vecModify_error_of _ _ _ (fun x e he => hpure _ _ _ e he) e he)
      · intro st3 h3
        have hInv3 := (vecModify_head_single st _ _ hInv).1 st3 h3
        apply forFromTo_cases_inv
          (fun (st : List (List (List (List (MultiArray3 (TinyVector3 (FFTWComplex α))))))) =>
            ∃ x, st[0]? = some x ∧ x.length = 1) _ _ _ _ _ hInv3
        intro m st4 hInv4
        apply bind_cases
        · exact sphereFullVecHarmonic_error E radius _ _ _ _ _
        · intro Coeff _
          exact ⟨fun st' hst' => (vecModify_head_single st4 _ _ hInv4).1 st' hst',
            vecModify_error_of _ _ _ (fun x e he =>
              vecModify_error_of _ _ _ (fun x e he =>
                vecModify_error_of _ _ _ (fun x e he => vecSet_error _ _ _ e he) e he) e he)⟩
    · intro k st hk hInv
      subst hk
      have hfail := (vecModify_head_single st (0 + 1)
        (fun e => pure (vecResize e (2 * 0 + 1))) hInv).2 (by decide)
      simp only [hfail, error_bind]

/-- C39 (what the code does). At band 0 the loop condition `n >= band` of
`computeVPHbaseF`, an unsigned comparison, holds for every `n`: the loop does
not end by its condition, and within a step budget of 0 nothing is returned.
The first iteration already addresses `VHbaseF[l][k+1]` with `l = 0`, `k = 0`,
index 1 of the one-element vector `VHbaseF[0]`: whatever vector the function
is given, the call has no defined result. -/
theorem computeVPHbaseF_band_zero (E : Externals α) (radius : α)
    (VHbaseF : List (List (List (List (MultiArray3 (TinyVector3 (FFTWComplex α)))))))
    (fuel : Nat) :
    computeVPHbaseF E radius 0 VHbaseF (fuel + 1) = .error .undefinedBehaviour ∧
    computeVPHbaseF E radius 0 VHbaseF 0 = .error .outOfFuel ∧
    (∀ n : Int, toUnsigned n ≥ 0) := by
  refine ⟨?_, ?_, fun n => Nat.zero_le _⟩
  · unfold computeVPHbaseF computeVPHbaseFLoop
    rw [if_pos (Nat.zero_le _)]
    show (computeVPHbaseFBody E radius 0 0 (vecResize VHbaseF (0 + 1)) >>= _) = _
    rw [computeVPHbaseFBody_zero E radius _ (by rw [length_vecResize]; omega), error_bind]
  · unfold computeVPHbaseF computeVPHbaseFLoop
    rw [if_pos (Nat.zero_le _)]

end RadialVectorCacheTheorems

/-! ## Additivity of the reconstruction -/

section AdditivityTheorems

variable {α : Type} [LinearOrderedField α] [FloorRing α]

theorem agree3_bind_same {σ τ : Type} (Rel : τ → τ → τ → Prop) (x : Except Fault σ)
    (f1 f2 f3 : σ → Except Fault τ) (h : ∀ a, x = .ok a → Agree3 Rel (f1 a) (f2 a) (f3 a)) :
    Agree3 Rel (x >>= f1) (x >>= f2) (x >>= f3) := by
  cases hx : x with
  | error e => exact Or.inl ⟨e, rfl, rfl, rfl⟩
  | ok a => exact h a hx

theorem agree3_bind {σ τ : Type} (RelA : σ → σ → σ → Prop) (Rel : τ → τ → τ → Prop)
    (x1 x2 x3 : Except Fault σ) (f1 f2 f3 : σ → Except Fault τ)
    (hx : Agree3 RelA x1 x2 x3)
    (h : ∀ a1 a2 a3, RelA a1 a2 a3 → Agree3 Rel (f1 a1) (f2 a2) (f3 a3)) :
    Agree3 Rel (x1 >>= f1) (x2 >>= f2) (x3 >>= f3) := by
  rcases hx with ⟨e, h1, h2, h3⟩ | ⟨t1, t2, t3, h1, h2, h3, hR⟩
  · rw [h1, h2, h3]
    exact Or.inl ⟨e, rfl, rfl, rfl⟩
  · rw [h1, h2, h3]
    exact h t1 t2 t3 hR

theorem agree3_loopM {σ : Type} (Rel : σ → σ → σ → Prop) (count : Nat) (i1 i2 i3 : σ)
    (b1 b2 b3 : Nat → σ → Except Fault σ) (h0 : Rel i1 i2 i3)
    (hs : ∀ i s1 s2 s3, i < count → Rel s1 s2 s3 → Agree3 Rel (b1 i s1) (b2 i s2) (b3 i s3)) :
    Agree3 Rel (loopM count i1 b1) (loopM count i2 b2) (loopM count i3 b3) := by
  induction count with
  | zero => exact Or.inr ⟨i1, i2, i3, rfl, rfl, rfl, h0⟩
  | succ k ih =>
    rw [loopM_succ, loopM_succ, loopM_succ]
    exact agree3_bind Rel Rel _ _ _ _ _ _
      (ih (fun i s1 s2 s3 hi hR => hs i s1 s2 s3 (Nat.lt_succ_of_lt hi) hR))
      (fun a1 a2 a3 hR => hs k a1 a2 a3 (Nat.lt_succ_self k) hR)

theorem agree3_forFromTo {σ : Type} (Rel : σ → σ → σ → Prop) (lo hi : Int) (i1 i2 i3 : σ)
    (b1 b2 b3 : Int → σ → Except Fault σ) (h0 : Rel i1 i2 i3)
    (hs : ∀ i s1 s2 s3, Rel s1 s2 s3 → Agree3 Rel (b1 i s1) (b2 i s2) (b3 i s3)) :
    Agree3 Rel (forFromTo lo hi i1 b1) (forFromTo lo hi i2 b2) (forFromTo lo hi i3 b3) := by
  unfold forFromTo
  exact agree3_loopM Rel _ i1 i2 i3 _ _ _ h0 (fun i s1 s2 s3 _ hR => hs _ s1 s2 s3 hR)

/-- The reads `SH_A[l][j]` in three coefficient sets of the same nested sizes,
the third the index-wise sum of the first two. -/
theorem agree3_coefficient (c d s : List (List (FFTWComplex α))) (l j : Int)
    (hcd : c.map List.length = d.map List.length)
    (hds : d.map List.length = s.map List.length)
    (hsum : ∀ l j, elemAt s l j = elemAt c l j + elemAt d l j) :
    Agree3 (fun a b r => r = a + b) (vecGet c l >>= fun row => vecGet row j)
      (vecGet d l >>= fun row => vecGet row j) (vecGet s l >>= fun row => vecGet row j) := by
  have hlen1 : c.length = d.length := by
    have := congrArg List.length hcd
    simpa using this
  have hlen2 : d.length = s.length := by
    have := congrArg List.length hds
    simpa using this
  have hrow : ∀ (a b : List (List (FFTWComplex α))), a.map List.length = b.map List.length →
      ∀ n, (a.getD n []).length = (b.getD n []).length := by
    intro a b hab n
    have h1 : (a.map List.length).getD n 0 = (b.map List.length).getD n 0 := by rw [hab]
    have h2 : ∀ v : List (List (FFTWComplex α)),
        (v.map List.length).getD n 0 = (v.getD n []).length := by
      intro v
      rw [List.getD_eq_getElem?_getD, List.getD_eq_getElem?_getD, List.getElem?_map]
      cases v[n]? <;> rfl
    rw [← h2 a, ← h2 b, h1]
  by_cases hl0 : 0 ≤ l
  · by_cases hl1 : l < c.length
    · rw [vecGet_getD c l [] hl0 hl1, vecGet_getD d l [] hl0 (by omega),
        vecGet_getD s l [] hl0 (by omega), ok_bind, ok_bind, ok_bind]
      have r1 := hrow c d hcd l.toNat
      have r2 := hrow d s hds l.toNat
      by_cases hj0 : 0 ≤ j
      · by_cases hj1 : j < (c.getD l.toNat []).length
        · rw [vecGet_getD _ j default hj0 hj1, vecGet_getD _ j default hj0 (by omega),
            vecGet_getD _ j default hj0 (by omega)]
          exact Or.inr ⟨_, _, _, rfl, rfl, rfl, hsum l.toNat j.toNat⟩
        · have hn : ∀ v : List (FFTWComplex α), v.length = (c.getD l.toNat []).length →
              vecGet v j = .error .undefinedBehaviour := by
            intro v hv
            unfold vecGet
            rw [if_pos hj0, List.getElem?_eq_none (by omega)]
          rw [hn _ rfl, hn _ r1.symm, hn _ (r1.trans r2).symm]
          exact Or.inl ⟨_, rfl, rfl, rfl⟩
      · have hn : ∀ v : List (FFTWComplex α), vecGet v j = .error .undefinedBehaviour := by
          intro v
          unfold vecGet
          rw [if_neg hj0]
        rw [hn, hn, hn]
        exact Or.inl ⟨_, rfl, rfl, rfl⟩
    · have hn : ∀ v : List (List (FFTWComplex α)), v.length = c.length →
          vecGet v l = .error .undefinedBehaviour := by
        intro v hv
        unfold vecGet
        rw [if_pos hl0, List.getElem?_eq_none (by omega)]
      rw [hn _ rfl, hn _ hlen1.symm, hn _ (hlen1.trans hlen2).symm]
      exact Or.inl ⟨_, rfl, rfl, rfl⟩
  · have hn : ∀ v : List (List (FFTWComplex α)), vecGet v l = .error .undefinedBehaviour := by
      intro v
      unfold vecGet
      rw [if_neg hl0]
    rw [hn, hn, hn]
    exact Or.inl ⟨_, rfl, rfl, rfl⟩

/-- A lock-step walk over three destinations of one shape whose third holds the
sum of the first two, with updates that keep the sum. -/
theorem agree3_lockstep {S : Type} (R1 R2 R3 : MultiArray3 α) (K : MultiArray3 S)
    (f1 f2 f3 : α → S → Except Fault α) (hR : SumOf R1 R2 R3)
    (hf : ∀ p1 p2 q, Agree3 (fun a b r => r = a + b) (f1 p1 q) (f2 p2 q) (f3 (p1 + p2) q)) :
    Agree3 SumOf (MultiArray3.lockstep R1.size R1 K f1) (MultiArray3.lockstep R2.size R2 K f2)
      (MultiArray3.lockstep R3.size R3 K f3) := by
  have hsz1 : R1.size = R3.size := by unfold MultiArray3.size; rw [hR.1]
  have hsz2 : R2.size = R3.size := by unfold MultiArray3.size; rw [hR.2.1]
  rw [hsz1, hsz2]
  unfold MultiArray3.lockstep
  apply agree3_loopM SumOf _ R1 R2 R3 _ _ _ hR
  intro i s1 s2 s3 _ hs
  obtain ⟨hs1, hs2, hsd⟩ := hs
  apply agree3_bind_same
  intro q _
  have hz1 : s1.size = s3.size := by unfold MultiArray3.size; rw [hs1]
  have hz2 : s2.size = s3.size := by unfold MultiArray3.size; rw [hs2]
  unfold MultiArray3.scanGet MultiArray3.scanSet
  rw [hz1, hz2, hs1, hs2]
  by_cases hi : i < s3.size
  · simp only [if_pos hi, ok_bind]
    rw [hsd]
    apply agree3_bind (fun a b r => r = a + b) SumOf _ _ _ _ _ _ (hf _ _ q)
    intro v1 v2 v3 hv
    refine Or.inr ⟨_, _, _, rfl, rfl, rfl, hs1, hs2, fun z y x => ?_⟩
    show (if _ then v3 else s3.data z y x) = (if _ then v1 else s1.data z y x) +
      (if _ then v2 else s2.data z y x)
    rw [hs1, hs2]
    split_ifs
    · exact hv
    · exact hsd z y x
  · simp only [if_neg hi, error_bind]
    exact Or.inl ⟨_, rfl, rfl, rfl⟩

/-- The three runs of `reconstSH` on coefficient sets `c`, `d` and their
index-wise sum `s`. -/
theorem reconstSH_agree (radius gauss : α) (band : Nat)
    (c d s : List (List (FFTWComplex α)))
    (SHbaseF : List (List (MultiArray3 (FFTWComplex α))))
    (hcd : c.map List.length = d.map List.length)
    (hds : d.map List.length = s.map List.length)
    (hsum : ∀ l j, elemAt s l j = elemAt c l j + elemAt d l j) :
    Agree3 SumOf (reconstSH radius gauss band c SHbaseF) (reconstSH radius gauss band d SHbaseF)
      (reconstSH radius gauss band s SHbaseF) := by
  unfold reconstSH
  apply agree3_bind_same
  intro row0 _
  apply agree3_bind_same
  intro K00 _
  apply agree3_forFromTo SumOf
  · exact ⟨rfl, rfl, fun z y x => by
      show (if _ then (0 : α) else 0) = (if _ then (0 : α) else 0) + (if _ then (0 : α) else 0)
      split_ifs <;> simp⟩
  intro l s1 s2 s3 hs
  apply agree3_forFromTo SumOf _ _ _ _ _ _ _ _ hs
  intro m t1 t2 t3 ht
  apply agree3_bind_same
  intro baseRow _
  apply agree3_bind_same
  intro K _
  apply agree3_lockstep t1 t2 t3 K _ _ _ ht
  intro p1 p2 q
  have hco := agree3_coefficient c d s l (l + m) hcd hds hsum
  have hassoc : ∀ (v : List (List (FFTWComplex α))) (p : α),
      (do
        let coeffRow ← vecGet v l
        let c ← vecGet coeffRow (l + m)
        (pure (p + (q * FFTWComplex.conj c).re) : Except Fault α)) =
      ((vecGet v l >>= fun row => vecGet row (l + m)) >>= fun c =>
        (pure (p + (q * FFTWComplex.conj c).re) : Except Fault α)) := by
    intro v p
    rw [bind_assoc]
  show Agree3 _ (do
      let coeffRow ← vecGet c l
      let c ← vecGet coeffRow (l + m)
      (pure (p1 + (q * FFTWComplex.conj c).re) : Except Fault α)) (do
      let coeffRow ← vecGet d l
      let c ← vecGet coeffRow (l + m)
      (pure (p2 + (q * FFTWComplex.conj c).re) : Except Fault α)) (do
      let coeffRow ← vecGet s l
      let c ← vecGet coeffRow (l + m)
      (pure (p1 + p2 + (q * FFTWComplex.conj c).re) : Except Fault α))
  rw [hassoc, hassoc, hassoc]
  apply agree3_bind (fun a b r => r = a + b) _ _ _ _ _ _ _ hco
  intro a1 a2 a3 ha
  refine Or.inr ⟨_, _, _, rfl, rfl, rfl, ?_⟩
  rw [ha]
  simp only [FFTWComplex.mul_re, FFTWComplex.conj_re, FFTWComplex.conj_im, FFTWComplex.add_re,
    FFTWComplex.add_im]
  ring

theorem getD_length_of_map {A B : Type} (a : List (List A)) (b : List (List B))
    (h : a.map List.length = b.map List.length) (n : Nat) :
    (a.getD n []).length = (b.getD n []).length := by
  have h1 : (a.map List.length).getD n 0 = (b.map List.length).getD n 0 := by rw [h]
  have h2 : ∀ (C : Type) (v : List (List C)),
      (v.map List.length).getD n 0 = (v.getD n []).length := by
    intro C v
    rw [List.getD_eq_getElem?_getD, List.getD_eq_getElem?_getD, List.getElem?_map]
    cases v[n]? <;> rfl
  rw [← h2 A a, ← h2 B b, h1]

/-- C40. For every cache and coefficient sets `c`, `d`, `s` of the cache's
nested sizes, `s` the index-wise sum of `c` and `d`: the three calls of
`reconstSH` fail alike or return alike, and when they return the fields have
one shape and the field of `s` is at every voxel the sum of the fields of `c`
and of `d`; the field reconstructed from a coefficient set whose entries are
all zero is zero at every voxel; and when the cache has `band+1` degree entries
of `2l+1` kernels that share one shape, the three calls do return. -/
theorem reconstSH_additive (radius gauss : α) (band : Nat)
    (c d s : List (List (FFTWComplex α)))
    (SHbaseF : List (List (MultiArray3 (FFTWComplex α))))
    (hc : c.map List.length = SHbaseF.map List.length)
    (hd : d.map List.length = SHbaseF.map List.length)
    (hs : s.map List.length = SHbaseF.map List.length)
    (hsum : ∀ l j, elemAt s l j = elemAt c l j + elemAt d l j) :
    ((∃ e, reconstSH radius gauss band c SHbaseF = .error e ∧
        reconstSH radius gauss band d SHbaseF = .error e ∧
        reconstSH radius gauss band s SHbaseF = .error e) ∨
      (∃ Rc Rd Rs, reconstSH radius gauss band c SHbaseF = .ok Rc ∧
        reconstSH radius gauss band d SHbaseF = .ok Rd ∧
        reconstSH radius gauss band s SHbaseF = .ok Rs ∧
        Rc.shape = Rs.shape ∧ Rd.shape = Rs.shape ∧
        ∀ z y x, Rs.data z y x = Rc.data z y x + Rd.data z y x)) ∧
    ((∀ l j, elemAt c l j = 0) → ∀ R, reconstSH radius gauss band c SHbaseF = .ok R →
      ∀ z y x, R.data z y x = 0) ∧
    ((∀ l, l ≤ band → l < SHbaseF.length ∧ 2 * l < (SHbaseF.getD l []).length) →
      (∀ l, l ≤ band → ∀ j, j ≤ 2 * l →
        (elemAt SHbaseF l j).shape = (elemAt SHbaseF 0 0).shape) →
      ∃ Rc Rd Rs, reconstSH radius gauss band c SHbaseF = .ok Rc ∧
        reconstSH radius gauss band d SHbaseF = .ok Rd ∧
        reconstSH radius gauss band s SHbaseF = .ok Rs ∧
        ∀ z y x, Rs.data z y x = Rc.data z y x + Rd.data z y x) := by
  have hagree := reconstSH_agree radius gauss band c d s SHbaseF (hc.trans hd.symm)
    (hd.trans hs.symm) hsum
  refine ⟨?_, ?_, ?_⟩
  · rcases hagree with h | ⟨Rc, Rd, Rs, h1, h2, h3, hR⟩
    · exact Or.inl h
    · exact Or.inr ⟨Rc, Rd, Rs, h1, h2, h3, hR.1, hR.2.1, hR.2.2⟩
  · intro hzero R hR z y x
    have hself := reconstSH_agree radius gauss band c c c SHbaseF rfl rfl
      (fun l j => by rw [hzero l j, add_zero])
    rcases hself with ⟨e, h1, _, _⟩ | ⟨R1, R2, R3, h1, h2, h3, hS⟩
    · rw [hR] at h1
      cases h1
    · rw [hR] at h1 h2 h3
      injection h1 with h1
      injection h2 with h2
      injection h3 with h3
      subst h1 h2 h3
      have := hS.2.2 z y x
      linarith
  · intro hK hS
    have hlen : c.length = SHbaseF.length := by
      have := congrArg List.length hc
      simpa using this
    have hrow : ∀ n, (c.getD n []).length = (SHbaseF.getD n []).length :=
      getD_length_of_map c SHbaseF hc
    obtain ⟨Rc, hRc, _, _⟩ := reconstSH_eq radius gauss band c SHbaseF hK
      (fun l hl => ⟨by rw [hlen]; exact (hK l hl).1, by rw [hrow]; exact (hK l hl).2⟩) hS
    rcases hagree with ⟨e, h1, _, _⟩ | ⟨R1, R2, R3, h1, h2, h3, hR⟩
    · rw [hRc] at h1
      cases h1
    · exact ⟨R1, R2, R3, h1, h2, h3, hR.2.2⟩

/-- C40, at band 0 with the single kernel `(1, 0, 0)` and the coefficients 2,
3 and their sum 5. -/
theorem reconstSH_additive_witness :
    ∃ Rc Rd Rs, reconstSH (1 : ℚ) 1 0 [[⟨2, 0⟩]] [[flipKernel]] = .ok Rc ∧
      reconstSH (1 : ℚ) 1 0 [[⟨3, 0⟩]] [[flipKernel]] = .ok Rd ∧
      reconstSH (1 : ℚ) 1 0 [[⟨5, 0⟩]] [[flipKernel]] = .ok Rs ∧
      ∀ z y x, Rs.data z y x = Rc.data z y x + Rd.data z y x :=
  (reconstSH_additive (1 : ℚ) 1 0 [[⟨2, 0⟩]] [[⟨3, 0⟩]] [[⟨5, 0⟩]] [[flipKernel]] rfl rfl rfl
    (by
      intro l j
      match l, j with
      | 0, 0 =>
        show (⟨5, 0⟩ : FFTWComplex ℚ) = ⟨2 + 3, 0 + 0⟩
        norm_num
      | 0, j + 1 =>
        show (0 : FFTWComplex ℚ) = ⟨0 + 0, 0 + 0⟩
        rw [FFTWComplex.eq_iff]
        norm_num
      | l + 1, j =>
        show (0 : FFTWComplex ℚ) = ⟨0 + 0, 0 + 0⟩
        rw [FFTWComplex.eq_iff]
        norm_num)).2.2
    (by
      intro l hl
      have h0 : l = 0 := by omega
      subst h0
      decide)
    (by
      intro l hl j hj
      have h0 : l = 0 := by omega
      subst h0
      have hj0 : j = 0 := by omega
      subst hj0
      rfl)

end AdditivityTheorems

end vigra
